import Mathlib

/-!
# POSIX.1e ACL evaluation and UFS directory maintenance

A shallow embedding of `sys/kern/kern_acl.c` (ACL evaluation, validation and the
mode/ACL bridge) and of `sys/ufs/ufs/ufs_lookup.c` (directory search and mutation),
followed by theorems about the embedded functions.

Machine integers are natural numbers; the C arrays scanned by index are lists; every
early `return` of a loop is an explicit constructor of the loop's result type.
-/

set_option autoImplicit false

namespace KernAcl

/-! ## Constants of the absent headers -/

/-- Modelled from the spec: `ACL_MAX_ENTRIES` of the absent `sys/acl.h`, the bound on
the entry count of an ACL. -/
def ACL_MAX_ENTRIES : Nat := 32

/-- Modelled from the spec: tag `UserObj` (`ACL_USER_OBJ` of the absent `sys/acl.h`). -/
def ACL_USER_OBJ : Nat := 0x00000001

/-- Modelled from the spec: tag `User` (`ACL_USER` of the absent `sys/acl.h`). -/
def ACL_USER : Nat := 0x00000002

/-- Modelled from the spec: tag `GroupObj` (`ACL_GROUP_OBJ` of the absent `sys/acl.h`). -/
def ACL_GROUP_OBJ : Nat := 0x00000004

/-- Modelled from the spec: tag `Group` (`ACL_GROUP` of the absent `sys/acl.h`). -/
def ACL_GROUP : Nat := 0x00000008

/-- Modelled from the spec: tag `Mask` (`ACL_MASK` of the absent `sys/acl.h`). -/
def ACL_MASK : Nat := 0x00000010

/-- Modelled from the spec: tag `Other` (`ACL_OTHER` of the absent `sys/acl.h`). -/
def ACL_OTHER : Nat := 0x00000020

/-- Modelled from the spec: permission bit `Execute` (`ACL_EXECUTE` of the absent
`sys/acl.h`). -/
def ACL_EXECUTE : Nat := 0x0001

/-- Modelled from the spec: permission bit `Write` (`ACL_WRITE` of the absent
`sys/acl.h`). -/
def ACL_WRITE : Nat := 0x0002

/-- Modelled from the spec: permission bit `Read` (`ACL_READ` of the absent
`sys/acl.h`). -/
def ACL_READ : Nat := 0x0004

/-- Modelled from the spec: the legal permission set (`ACL_PERM_BITS` of the absent
`sys/acl.h`), the union of the three permission bits. -/
def ACL_PERM_BITS : Nat := ACL_EXECUTE ||| ACL_WRITE ||| ACL_READ

/-- Modelled from the spec: requested-mode bit `Read` (`VREAD` of the absent
`sys/vnode.h`). -/
def VREAD : Nat := 0o400

/-- Modelled from the spec: requested-mode bit `Write` (`VWRITE` of the absent
`sys/vnode.h`). -/
def VWRITE : Nat := 0o200

/-- Modelled from the spec: requested-mode bit `Execute` (`VEXEC` of the absent
`sys/vnode.h`). -/
def VEXEC : Nat := 0o100

/-- Modelled from the spec: requested-mode bit `Admin` (`VADMIN` of the absent
`sys/vnode.h`). -/
def VADMIN : Nat := 0o10000

/-- Modelled from the spec: owner read bit of a legacy mode word (`S_IRUSR` of the
absent `sys/stat.h`). -/
def S_IRUSR : Nat := 0o400

/-- Modelled from the spec: owner write bit of a legacy mode word (`S_IWUSR`). -/
def S_IWUSR : Nat := 0o200

/-- Modelled from the spec: owner execute bit of a legacy mode word (`S_IXUSR`). -/
def S_IXUSR : Nat := 0o100

/-- Modelled from the spec: group read bit of a legacy mode word (`S_IRGRP`). -/
def S_IRGRP : Nat := 0o040

/-- Modelled from the spec: group write bit of a legacy mode word (`S_IWGRP`). -/
def S_IWGRP : Nat := 0o020

/-- Modelled from the spec: group execute bit of a legacy mode word (`S_IXGRP`). -/
def S_IXGRP : Nat := 0o010

/-- Modelled from the spec: other read bit of a legacy mode word (`S_IROTH`). -/
def S_IROTH : Nat := 0o004

/-- Modelled from the spec: other write bit of a legacy mode word (`S_IWOTH`). -/
def S_IWOTH : Nat := 0o002

/-- Modelled from the spec: other execute bit of a legacy mode word (`S_IXOTH`). -/
def S_IXOTH : Nat := 0o001

/-- Modelled from the spec: the admin-class error (`EPERM` of the absent
`sys/errno.h`). -/
def EPERM : Nat := 1

/-- Modelled from the spec: the generic access error (`EACCES` of the absent
`sys/errno.h`). -/
def EACCES : Nat := 13

/-- Modelled from the spec: the structural validation error (`EINVAL` of the absent
`sys/errno.h`). -/
def EINVAL : Nat := 22

/-! ## Data model -/

/-- One ACL entry, `struct acl_entry`: tag, qualifier, permission bits. -/
structure acl_entry where
  ae_tag : Nat
  ae_id : Nat
  ae_perm : Nat
deriving DecidableEq, Repr

/-- An ACL, `struct acl`: the signed entry count and the entry array. -/
structure acl where
  acl_cnt : Int
  acl_entry : List acl_entry
deriving DecidableEq, Repr

/-- The part of `struct ucred` the evaluator reads: the user identity and the group
set. -/
structure ucred where
  cr_uid : Nat
  cr_groups : List Nat
deriving DecidableEq, Repr

/-- The entries a loop `for (i = 0; i < acl->acl_cnt; i++)` visits, in order. -/
def acl.entries (a : acl) : List KernAcl.acl_entry :=
  a.acl_entry.take a.acl_cnt.toNat

/-- Modelled from the spec: `groupmember` of the absent `kern_prot.c`, true when the
group is in the credential's group membership. -/
def groupmember (gid : Nat) (cred : ucred) : Bool :=
  decide (gid ∈ cred.cr_groups)

/-! ## `vaccess_acl_posix1e` -/

/-- What `vaccess_acl_posix1e` hands back: the errno it returns and the value it
leaves in `*privused`. -/
structure vaccess_result where
  error : Nat
  privused : Nat
deriving DecidableEq, Repr

/-- The recurring block `dac_granted = 0; if (ae_perm & ACL_EXECUTE) dac_granted |= VEXEC;
if (ae_perm & ACL_READ) dac_granted |= VREAD; if (ae_perm & ACL_WRITE) dac_granted |= VWRITE;`. -/
def perm_to_vmode (ae_perm : Nat) : Nat :=
  ((if ae_perm &&& ACL_EXECUTE ≠ 0 then VEXEC else 0) |||
    (if ae_perm &&& ACL_READ ≠ 0 then VREAD else 0)) |||
    (if ae_perm &&& ACL_WRITE ≠ 0 then VWRITE else 0)

/-- The exit at label `error:`: `return ((acc_mode & VADMIN) ? EPERM : EACCES)`; `*privused`
still holds the 0 stored on entry. -/
def vaccess_error (acc_mode : Nat) : vaccess_result :=
  ⟨if acc_mode &&& VADMIN ≠ 0 then EPERM else EACCES, 0⟩

/-- The two tests that follow the computation of `dac_granted` in the owner, user and
other branches: success without privilege, success with privilege, or `goto error`. -/
def vaccess_decide (acc_mode dac_granted cap_granted : Nat) : vaccess_result :=
  if acc_mode &&& dac_granted = acc_mode then ⟨0, 0⟩
  else if acc_mode &&& (dac_granted ||| cap_granted) = acc_mode then ⟨0, 1⟩
  else vaccess_error acc_mode

/-- Privilege set of the build without `CAPABILITIES`: everything when `suser_xxx`
returned 0, nothing otherwise. -/
def cap_granted_suser (suser_xxx : Nat) : Nat :=
  if suser_xxx = 0 then VEXEC ||| VREAD ||| VWRITE ||| VADMIN else 0

/-- Outcome of the first loop: it either returned, or fell through having recorded the
positions of `ACL_MASK` and `ACL_OTHER`. -/
inductive owner_scan where
  | returned (r : vaccess_result)
  | fellthrough (acl_mask acl_other : Option acl_entry)
deriving DecidableEq, Repr

/-- The first loop: check the owner, record `ACL_MASK` and `ACL_OTHER`. -/
def owner_loop (acc_mode cap_granted : Nat) (cred : ucred) :
    List acl_entry → Option acl_entry → Option acl_entry → owner_scan
  | [], acl_mask, acl_other => .fellthrough acl_mask acl_other
  | e :: es, acl_mask, acl_other =>
    if e.ae_tag = ACL_USER_OBJ then
      if e.ae_id ≠ cred.cr_uid then owner_loop acc_mode cap_granted cred es acl_mask acl_other
      else .returned (vaccess_decide acc_mode (VADMIN ||| perm_to_vmode e.ae_perm) cap_granted)
    else if e.ae_tag = ACL_MASK then
      owner_loop acc_mode cap_granted cred es (some e) acl_other
    else if e.ae_tag = ACL_OTHER then
      owner_loop acc_mode cap_granted cred es acl_mask (some e)
    else owner_loop acc_mode cap_granted cred es acl_mask acl_other

/-- The loop over `ACL_USER` entries: `some r` when an entry matched (the loop returned
or went to `error`), `none` when it ran to its end. -/
def user_loop (acc_mode cap_granted acl_mask_granted : Nat) (cred : ucred) :
    List acl_entry → Option vaccess_result
  | [] => none
  | e :: es =>
    if e.ae_tag = ACL_USER then
      if e.ae_id ≠ cred.cr_uid then user_loop acc_mode cap_granted acl_mask_granted cred es
      else some (vaccess_decide acc_mode (perm_to_vmode e.ae_perm &&& acl_mask_granted)
        cap_granted)
    else user_loop acc_mode cap_granted acl_mask_granted cred es

/-- The first group loop, without privilege: `some r` when it returned success,
otherwise `none` together with the final value of `group_matched`. -/
def group_loop (acc_mode acl_mask_granted : Nat) (cred : ucred) :
    List acl_entry → Nat → Option vaccess_result × Nat
  | [], group_matched => (none, group_matched)
  | e :: es, group_matched =>
    if e.ae_tag = ACL_GROUP_OBJ ∨ e.ae_tag = ACL_GROUP then
      if groupmember e.ae_id cred then
        if acc_mode &&& (perm_to_vmode e.ae_perm &&& acl_mask_granted) = acc_mode then
          (some ⟨0, 0⟩, group_matched)
        else group_loop acc_mode acl_mask_granted cred es 1
      else group_loop acc_mode acl_mask_granted cred es group_matched
    else group_loop acc_mode acl_mask_granted cred es group_matched

/-- The second group loop, with privilege: `some r` when it returned success. -/
def group_priv_loop (acc_mode cap_granted acl_mask_granted : Nat) (cred : ucred) :
    List acl_entry → Option vaccess_result
  | [] => none
  | e :: es =>
    if e.ae_tag = ACL_GROUP_OBJ ∨ e.ae_tag = ACL_GROUP then
      if groupmember e.ae_id cred then
        if acc_mode &&& ((perm_to_vmode e.ae_perm &&& acl_mask_granted) ||| cap_granted)
            = acc_mode then
          some ⟨0, 1⟩
        else group_priv_loop acc_mode cap_granted acl_mask_granted cred es
      else group_priv_loop acc_mode cap_granted acl_mask_granted cred es
    else group_priv_loop acc_mode cap_granted acl_mask_granted cred es

/-- The function `vaccess_acl_posix1e` from the owner loop on (lines 117-311). The
parameter `cap_granted` is the privilege set the function computes on entry from the
external privilege checks (`suser_xxx`, or `cap_check` under `CAPABILITIES`); `privused`
is taken to be non-NULL. -/
def vaccess_acl_posix1e (a : acl) (acc_mode : Nat) (cred : ucred) (cap_granted : Nat) :
    vaccess_result :=
  match owner_loop acc_mode cap_granted cred a.entries none none with
  | .returned r => r
  | .fellthrough acl_mask acl_other =>
    match acl_other with
    | none => ⟨EPERM, 0⟩
    | some acl_other =>
      let acl_mask_granted :=
        match acl_mask with
        | some m => perm_to_vmode m.ae_perm
        | none => (VEXEC ||| VREAD) ||| VWRITE
      match user_loop acc_mode cap_granted acl_mask_granted cred a.entries with
      | some r => r
      | none =>
        match group_loop acc_mode acl_mask_granted cred a.entries 0 with
        | (some r, _) => r
        | (none, group_matched) =>
          if group_matched = 1 then
            match group_priv_loop acc_mode cap_granted acl_mask_granted cred a.entries with
            | some r => r
            | none => vaccess_error acc_mode
          else
            vaccess_decide acc_mode (perm_to_vmode acl_other.ae_perm) cap_granted

/-! ## The mode/ACL bridge -/

/-- The function `acl_posix1e_mode_to_perm`. -/
def acl_posix1e_mode_to_perm (tag mode : Nat) : Nat :=
  if tag = ACL_USER_OBJ then
    ((if mode &&& S_IXUSR ≠ 0 then ACL_EXECUTE else 0) |||
      (if mode &&& S_IRUSR ≠ 0 then ACL_READ else 0)) |||
      (if mode &&& S_IWUSR ≠ 0 then ACL_WRITE else 0)
  else if tag = ACL_GROUP_OBJ then
    ((if mode &&& S_IXGRP ≠ 0 then ACL_EXECUTE else 0) |||
      (if mode &&& S_IRGRP ≠ 0 then ACL_READ else 0)) |||
      (if mode &&& S_IWGRP ≠ 0 then ACL_WRITE else 0)
  else if tag = ACL_OTHER then
    ((if mode &&& S_IXOTH ≠ 0 then ACL_EXECUTE else 0) |||
      (if mode &&& S_IROTH ≠ 0 then ACL_READ else 0)) |||
      (if mode &&& S_IWOTH ≠ 0 then ACL_WRITE else 0)
  else 0

/-- The function `acl_posix1e_mode_to_entry`. -/
def acl_posix1e_mode_to_entry (tag uid gid mode : Nat) : acl_entry :=
  { ae_tag := tag
    ae_perm := acl_posix1e_mode_to_perm tag mode
    ae_id :=
      if tag = ACL_USER_OBJ then uid
      else if tag = ACL_GROUP_OBJ then gid
      else if tag = ACL_OTHER then 0
      else 0 }

/-- The function `acl_posix1e_perms_to_mode`. -/
def acl_posix1e_perms_to_mode (acl_user_obj_entry acl_group_obj_entry
    acl_other_entry : acl_entry) : Nat :=
  ((((((((0 |||
    (if acl_user_obj_entry.ae_perm &&& ACL_EXECUTE ≠ 0 then S_IXUSR else 0)) |||
    (if acl_user_obj_entry.ae_perm &&& ACL_READ ≠ 0 then S_IRUSR else 0)) |||
    (if acl_user_obj_entry.ae_perm &&& ACL_WRITE ≠ 0 then S_IWUSR else 0)) |||
    (if acl_group_obj_entry.ae_perm &&& ACL_EXECUTE ≠ 0 then S_IXGRP else 0)) |||
    (if acl_group_obj_entry.ae_perm &&& ACL_READ ≠ 0 then S_IRGRP else 0)) |||
    (if acl_group_obj_entry.ae_perm &&& ACL_WRITE ≠ 0 then S_IWGRP else 0)) |||
    (if acl_other_entry.ae_perm &&& ACL_EXECUTE ≠ 0 then S_IXOTH else 0)) |||
    (if acl_other_entry.ae_perm &&& ACL_READ ≠ 0 then S_IROTH else 0)) |||
    (if acl_other_entry.ae_perm &&& ACL_WRITE ≠ 0 then S_IWOTH else 0)

/-! ## `acl_posix1e_check` -/

/-- The six counters of `acl_posix1e_check`. -/
structure tag_counts where
  num_acl_user_obj : Nat
  num_acl_user : Nat
  num_acl_group_obj : Nat
  num_acl_group : Nat
  num_acl_mask : Nat
  num_acl_other : Nat
deriving DecidableEq, Repr

/-- The `switch` on the tag inside the loop of `acl_posix1e_check`; `none` is the
`default: return (EINVAL)`. -/
def check_tag (e : acl_entry) (c : tag_counts) : Option tag_counts :=
  if e.ae_tag = ACL_USER_OBJ then some { c with num_acl_user_obj := c.num_acl_user_obj + 1 }
  else if e.ae_tag = ACL_GROUP_OBJ then
    some { c with num_acl_group_obj := c.num_acl_group_obj + 1 }
  else if e.ae_tag = ACL_USER then some { c with num_acl_user := c.num_acl_user + 1 }
  else if e.ae_tag = ACL_GROUP then some { c with num_acl_group := c.num_acl_group + 1 }
  else if e.ae_tag = ACL_OTHER then some { c with num_acl_other := c.num_acl_other + 1 }
  else if e.ae_tag = ACL_MASK then some { c with num_acl_mask := c.num_acl_mask + 1 }
  else none

/-- The loop of `acl_posix1e_check`; `none` when it returned `EINVAL`. -/
def check_loop : List acl_entry → tag_counts → Option tag_counts
  | [], c => some c
  | e :: es, c =>
    match check_tag e c with
    | none => none
    | some c' =>
      if e.ae_perm ||| ACL_PERM_BITS ≠ ACL_PERM_BITS then none
      else check_loop es c'

/-- The function `acl_posix1e_check`. -/
def acl_posix1e_check (a : acl) : Nat :=
  if a.acl_cnt > (ACL_MAX_ENTRIES : Int) ∨ a.acl_cnt < 0 then EINVAL
  else
    match check_loop a.entries ⟨0, 0, 0, 0, 0, 0⟩ with
    | none => EINVAL
    | some c =>
      if c.num_acl_user_obj ≠ 1 ∨ c.num_acl_group_obj ≠ 1 ∨ c.num_acl_other ≠ 1 ∨
          (c.num_acl_mask ≠ 0 ∧ c.num_acl_mask ≠ 1) then EINVAL
      else if (c.num_acl_group ≠ 0 ∨ c.num_acl_user ≠ 0) ∧ c.num_acl_mask ≠ 1 then EINVAL
      else 0

/-! ## Vocabulary of the ACL statements -/

/-- Number of entries of the list carrying the given tag. -/
def count_tag (tag : Nat) (es : List acl_entry) : Nat :=
  (es.filter (fun e => e.ae_tag = tag)).length

/-- The entry is an owner entry whose qualifier is the credential's user identity. -/
def owner_match (cred : ucred) (e : acl_entry) : Prop :=
  e.ae_tag = ACL_USER_OBJ ∧ e.ae_id = cred.cr_uid

/-- The entry is a named-user entry whose qualifier is the credential's user identity. -/
def user_match (cred : ucred) (e : acl_entry) : Prop :=
  e.ae_tag = ACL_USER ∧ e.ae_id = cred.cr_uid

/-- The entry is a group entry (owning group or named group) of a group the credential
belongs to. -/
def group_match (cred : ucred) (e : acl_entry) : Prop :=
  (e.ae_tag = ACL_GROUP_OBJ ∨ e.ae_tag = ACL_GROUP) ∧ groupmember e.ae_id cred = true

/-- The last entry of the list carrying the given tag, if any. -/
def last_with_tag (tag : Nat) (es : List acl_entry) : Option acl_entry :=
  es.reverse.find? (fun e => e.ae_tag = tag)

/-- The mask of the statements: the read/write/execute bits of the `Mask` entry when
one is present, all three bits when none is. -/
def mask_granted (es : List acl_entry) : Nat :=
  match last_with_tag ACL_MASK es with
  | some m => perm_to_vmode m.ae_perm
  | none => (VEXEC ||| VREAD) ||| VWRITE

/-- The requested mode is a subset of the granted set. -/
def mode_subset (acc_mode granted : Nat) : Prop :=
  acc_mode &&& granted = acc_mode

instance (cred : ucred) (e : acl_entry) : Decidable (owner_match cred e) := by
  unfold owner_match; infer_instance

instance (cred : ucred) (e : acl_entry) : Decidable (user_match cred e) := by
  unfold user_match; infer_instance

instance (cred : ucred) (e : acl_entry) : Decidable (group_match cred e) := by
  unfold group_match; infer_instance

instance (a g : Nat) : Decidable (mode_subset a g) := by
  unfold mode_subset; infer_instance

/-- The tag is one of the six tags the implementation understands. -/
def recognized_tag (tag : Nat) : Prop :=
  tag = ACL_USER_OBJ ∨ tag = ACL_USER ∨ tag = ACL_GROUP_OBJ ∨ tag = ACL_GROUP ∨
    tag = ACL_OTHER ∨ tag = ACL_MASK

/-- The premise of the validation statements: the entry count is within the maximum
and every visited entry carries a recognized tag and only legal permission bits. -/
def acl_wellformed (a : acl) : Prop :=
  0 ≤ a.acl_cnt ∧ a.acl_cnt ≤ (ACL_MAX_ENTRIES : Int) ∧
    ∀ e ∈ a.entries, recognized_tag e.ae_tag ∧ e.ae_perm &&& ACL_PERM_BITS = e.ae_perm

/-- The tag counts as the specification words them: one `UserObj`, one `GroupObj`, one
`Other`, and a `Mask` present if and only if a `User` or `Group` entry is present. -/
def counts_as_specified (es : List acl_entry) : Prop :=
  count_tag ACL_USER_OBJ es = 1 ∧ count_tag ACL_GROUP_OBJ es = 1 ∧
    count_tag ACL_OTHER es = 1 ∧
    (0 < count_tag ACL_MASK es ↔ (0 < count_tag ACL_USER es ∨ 0 < count_tag ACL_GROUP es))

/-- The tag counts `acl_posix1e_check` accepts: one `UserObj`, one `GroupObj`, one
`Other`, at most one `Mask`, and exactly one `Mask` when a `User` or `Group` entry is
present. -/
def counts_accepted (es : List acl_entry) : Prop :=
  count_tag ACL_USER_OBJ es = 1 ∧ count_tag ACL_GROUP_OBJ es = 1 ∧
    count_tag ACL_OTHER es = 1 ∧ count_tag ACL_MASK es ≤ 1 ∧
    ((0 < count_tag ACL_USER es ∨ 0 < count_tag ACL_GROUP es) → count_tag ACL_MASK es = 1)

instance (tag : Nat) : Decidable (recognized_tag tag) := by
  unfold recognized_tag; infer_instance

instance (a : acl) : Decidable (acl_wellformed a) := by
  unfold acl_wellformed; infer_instance

instance (es : List acl_entry) : Decidable (counts_as_specified es) := by
  unfold counts_as_specified; infer_instance

instance (es : List acl_entry) : Decidable (counts_accepted es) := by
  unfold counts_accepted; infer_instance

/-- An ACL with the three base entries and a `Mask`, but no `User` or `Group` entry. -/
def acl_mask_only : acl :=
  ⟨4, [⟨ACL_USER_OBJ, 0, 7⟩, ⟨ACL_GROUP_OBJ, 0, 5⟩, ⟨ACL_OTHER, 0, 4⟩, ⟨ACL_MASK, 0, 7⟩]⟩

/-- An ACL with a named user and a named group under a mask that removes write. -/
def acl_named : acl :=
  ⟨6, [⟨ACL_USER_OBJ, 100, 6⟩, ⟨ACL_USER, 200, 7⟩, ⟨ACL_GROUP_OBJ, 10, 0⟩,
    ⟨ACL_GROUP, 20, 6⟩, ⟨ACL_MASK, 0, 5⟩, ⟨ACL_OTHER, 0, 2⟩]⟩

/-- An ACL made of a single owning-group entry: it has no `Other` entry. -/
def acl_group_only : acl :=
  ⟨1, [⟨ACL_GROUP_OBJ, 5, ACL_READ⟩]⟩

/-! ## Vocabulary of the later ACL statements -/

/-- The permission set the statements assign to a three-bit `rwx` triad (read = 4,
write = 2, execute = 1). -/
def triad_perm (t : Nat) : Nat :=
  ((if t &&& 1 ≠ 0 then ACL_EXECUTE else 0) |||
    (if t &&& 4 ≠ 0 then ACL_READ else 0)) |||
    (if t &&& 2 ≠ 0 then ACL_WRITE else 0)

/-- The entry carries a tag outside the six recognized ones, or a permission bit outside
`ACL_PERM_BITS`. -/
def illegal_entry (e : acl_entry) : Prop :=
  ¬ recognized_tag e.ae_tag ∨ e.ae_perm &&& ACL_PERM_BITS ≠ e.ae_perm

instance (e : acl_entry) : Decidable (illegal_entry e) := by
  unfold illegal_entry; infer_instance

/-- The error the statements expect of a failing evaluation: `EPERM` when the requested
mode contains `VADMIN`, `EACCES` otherwise. -/
def failure_code (acc_mode : Nat) : Nat :=
  if acc_mode &&& VADMIN ≠ 0 then EPERM else EACCES

/-- An ACL made of a single owner entry that grants read: it has neither a `GroupObj`
nor an `Other` entry. -/
def acl_owner_only : acl :=
  ⟨1, [⟨ACL_USER_OBJ, 7, ACL_READ⟩]⟩

/-- An ACL with correct tag counts and one entry more, whose tag is none of the six. -/
def acl_odd_tag : acl :=
  ⟨4, [⟨ACL_USER_OBJ, 0, 7⟩, ⟨ACL_GROUP_OBJ, 0, 5⟩, ⟨0x40, 0, 0⟩, ⟨ACL_OTHER, 0, 4⟩]⟩

/-- An ACL with correct tag counts whose `Other` entry carries a bit outside
`ACL_PERM_BITS`. -/
def acl_odd_perm : acl :=
  ⟨3, [⟨ACL_USER_OBJ, 0, 7⟩, ⟨ACL_GROUP_OBJ, 0, 5⟩, ⟨ACL_OTHER, 0, 8⟩]⟩

end KernAcl

namespace UfsLookup

/-! ## Constants of the absent headers -/

/-- Modelled from the spec: `DIRBLKSIZ` of the absent `ufs/ufs/dir.h`, the fixed size of
a directory sub-block. -/
def DIRBLKSIZ : Nat := 512

/-- Modelled from the spec: `MAXNAMLEN` of the absent `ufs/ufs/dir.h`, the maximum name
length. -/
def MAXNAMLEN : Nat := 255

/-- Modelled from the spec: the whiteout sentinel inode number (`WINO` of the absent
`ufs/ufs/dinode.h`). -/
def WINO : Nat := 1

/-- Modelled from the spec: the whiteout type tag (`DT_WHT` of the absent
`sys/dirent.h`). -/
def DT_WHT : Nat := 14

/-- Modelled from the spec: `IFTODT` of the absent `sys/dirent.h`, the file-type tag of a
mode word, `((mode) & 0170000) >> 12`. -/
def IFTODT (mode : Nat) : Nat := (mode &&& 0o170000) >>> 12

/-- Modelled from the spec: operation `LOOKUP` of the absent `sys/namei.h`. -/
def LOOKUP : Nat := 0

/-- Modelled from the spec: operation `CREATE` of the absent `sys/namei.h`. -/
def CREATE : Nat := 1

/-- Modelled from the spec: operation `DELETE` of the absent `sys/namei.h`. -/
def DELETE : Nat := 2

/-- Modelled from the spec: operation `RENAME` of the absent `sys/namei.h`. -/
def RENAME : Nat := 3

/-- Modelled from the spec: flag `LOCKPARENT` of the absent `sys/namei.h`. -/
def LOCKPARENT : Nat := 0x0008

/-- Modelled from the spec: flag `WANTPARENT` of the absent `sys/namei.h`. -/
def WANTPARENT : Nat := 0x0010

/-- Modelled from the spec: flag `SAVENAME` of the absent `sys/namei.h`. -/
def SAVENAME : Nat := 0x000800

/-- Modelled from the spec: flag `ISDOTDOT` of the absent `sys/namei.h`. -/
def ISDOTDOT : Nat := 0x002000

/-- Modelled from the spec: flag `MAKEENTRY` of the absent `sys/namei.h`. -/
def MAKEENTRY : Nat := 0x004000

/-- Modelled from the spec: flag `ISLASTCN` of the absent `sys/namei.h`, set on the final
path component. -/
def ISLASTCN : Nat := 0x008000

/-- Modelled from the spec: flag `ISWHITEOUT` of the absent `sys/namei.h`. -/
def ISWHITEOUT : Nat := 0x020000

/-- Modelled from the spec: flag `DOWHITEOUT` of the absent `sys/namei.h`. -/
def DOWHITEOUT : Nat := 0x040000

/-- Modelled from the spec: inode flag `IN_CHANGE` of the absent `ufs/ufs/inode.h`. -/
def IN_CHANGE : Nat := 0x0002

/-- Modelled from the spec: inode flag `IN_UPDATE` of the absent `ufs/ufs/inode.h`. -/
def IN_UPDATE : Nat := 0x0004

/-- Modelled from the spec: the sticky bit `ISVTX` of the absent `ufs/ufs/dinode.h`. -/
def ISVTX : Nat := 0o1000

/-- Modelled from the spec: the not-found error (`ENOENT` of the absent `sys/errno.h`). -/
def ENOENT : Int := 2

/-- Modelled from the spec: `EPERM` of the absent `sys/errno.h`. -/
def EPERM : Int := 1

/-- Modelled from the spec: `EISDIR` of the absent `sys/errno.h`. -/
def EISDIR : Int := 21

/-- Modelled from the spec: `EJUSTRETURN` of the absent `sys/errno.h`, the create-slot
outcome of a lookup. -/
def EJUSTRETURN : Int := -2

/-! ## Byte memory -/

/-- A byte-addressed memory: the directory content by file offset, a `struct direct`
buffer, or a name buffer. A cell is read through `byte`. -/
abbrev mem := Nat → Nat

/-- The byte stored at an address. -/
def byte (m : mem) (a : Nat) : Nat := m a % 256

/-- Store of one byte. -/
def wr8 (m : mem) (a v : Nat) : mem :=
  fun x => if x = a then v % 256 else m x

/-- Load of a 16-bit field in machine byte order. -/
def rd16 (le : Bool) (m : mem) (a : Nat) : Nat :=
  if le then byte m a + 256 * byte m (a + 1)
  else 256 * byte m a + byte m (a + 1)

/-- Store of a 16-bit field in machine byte order (the value is truncated to 16 bits). -/
def wr16 (le : Bool) (m : mem) (a v : Nat) : mem :=
  if le then wr8 (wr8 m a (v % 256)) (a + 1) (v / 256 % 256)
  else wr8 (wr8 m a (v / 256 % 256)) (a + 1) (v % 256)

/-- Load of a 32-bit field in machine byte order. -/
def rd32 (le : Bool) (m : mem) (a : Nat) : Nat :=
  if le then
    byte m a + 256 * byte m (a + 1) + 65536 * byte m (a + 2) + 16777216 * byte m (a + 3)
  else
    16777216 * byte m a + 65536 * byte m (a + 1) + 256 * byte m (a + 2) + byte m (a + 3)

/-- Store of a 32-bit field in machine byte order (the value is truncated to 32 bits). -/
def wr32 (le : Bool) (m : mem) (a v : Nat) : mem :=
  if le then
    wr8 (wr8 (wr8 (wr8 m a (v % 256)) (a + 1) (v / 256 % 256)) (a + 2) (v / 65536 % 256))
      (a + 3) (v / 16777216 % 256)
  else
    wr8 (wr8 (wr8 (wr8 m a (v / 16777216 % 256)) (a + 1) (v / 65536 % 256)) (a + 2)
      (v / 256 % 256)) (a + 3) (v % 256)

/-- The call `bcopy(src + s, dst + d, n)`: `n` bytes of `src` from `s` land in `dst` from
`d`; all source bytes are read before any is written (overlap is handled). -/
def bcopy (src : mem) (s : Nat) (dst : mem) (d n : Nat) : mem :=
  fun a => if d ≤ a ∧ a < d + n then src (s + (a - d)) else dst a

/-- The call `bcmp(a + s, b + t, n) == 0`: the two byte ranges are equal. -/
def bcmp_eq (a : mem) (s : Nat) (b : mem) (t n : Nat) : Bool :=
  (List.range n).all (fun i => byte a (s + i) == byte b (t + i))

/-- The C expression `x &~ m` on naturals. -/
def and_not (x m : Nat) : Nat := x - (x &&& m)

/-- Modelled from the spec: `roundup2` of the absent `sys/param.h`,
`((x)+((y)-1))&(~((y)-1))`, rounding up to a multiple of a power of two. -/
def roundup2 (x y : Nat) : Nat := and_not (x + (y - 1)) (y - 1)

/-! ## `struct direct` in memory -/

/-- Field `d_ino` of the `struct direct` at address `ep`. -/
def d_ino (le : Bool) (m : mem) (ep : Nat) : Nat := rd32 le m ep

/-- Field `d_reclen` of the `struct direct` at address `ep`. -/
def d_reclen (le : Bool) (m : mem) (ep : Nat) : Nat := rd16 le m (ep + 4)

/-- Field `d_type` of the `struct direct` at address `ep`. -/
def d_type (m : mem) (ep : Nat) : Nat := byte m (ep + 6)

/-- Field `d_namlen` of the `struct direct` at address `ep`. -/
def d_namlen (m : mem) (ep : Nat) : Nat := byte m (ep + 7)

/-- Byte `d_name[i]` of the `struct direct` at address `ep`. -/
def d_name (m : mem) (ep i : Nat) : Nat := byte m (ep + 8 + i)

/-- Modelled from the spec: `DIRECTSIZ` of the absent `ufs/ufs/dir.h`, the packed size of
an entry with a name of the given length: the 8-byte header plus the name and its
terminator padded to the 4-byte alignment unit. -/
def DIRECTSIZ (namlen : Nat) : Nat :=
  (264 - (MAXNAMLEN + 1)) + and_not (namlen + 1 + 3) 3

/-- The mount, the build and the collaborators `ufs_lookup.c` depends on. -/
structure ufs_env where
  /-- Build condition `BYTE_ORDER == LITTLE_ENDIAN`. -/
  little_endian : Bool
  /-- Field `v_mount->mnt_maxsymlinklen`; the old directory format has it `<= 0`. -/
  mnt_maxsymlinklen : Int
  /-- Field `mnt_stat.f_iosize`, the file-system block size. -/
  f_iosize : Nat
  /-- Flag `MNT_RDONLY` is set in `mnt_stat.f_flags`. -/
  mnt_rdonly : Bool
  /-- The global `dirchk`. -/
  dirchk : Nat
  /-- Macro `DOINGSOFTDEP(vp)`. -/
  softdep : Bool
  /-- Macro `DOINGASYNC(vp)`. -/
  async : Bool
  /-- Error of `UFS_BLKATOFF` for the block holding an offset (0 on success). -/
  blkatoff_err : Nat → Int
  /-- Error of `VOP_ACCESS(vdp, VWRITE, ...)` (0 on success). -/
  access_err : Int
  /-- Error of `VFS_VGET` for an inode number (0 on success). -/
  vget_err : Nat → Int
  /-- Owner `i_uid` of the inode `VFS_VGET` returns. -/
  vget_uid : Nat → Nat
  /-- Error of `vn_lock(pdp, LK_EXCLUSIVE, p)` (0 on success). -/
  vn_lock_err : Int
  /-- Error of `VOP_BALLOC` (0 on success). -/
  balloc_err : Int
  /-- Size `b_bcount` of the buffer `VOP_BALLOC` returns. -/
  b_bcount : Nat
  /-- Error of `BUF_WRITE` and `bowrite` (0 on success). -/
  write_err : Int
  /-- Error of `UFS_UPDATE` (0 on success). -/
  update_err : Int
  /-- Error of `UFS_TRUNCATE` (0 on success). -/
  truncate_err : Int

/-- The macro `OFSFMT(vp)`: true if old FS format. -/
def OFSFMT (env : ufs_env) : Bool := decide (env.mnt_maxsymlinklen ≤ 0)

/-- The name length of the entry at `ep` as `ufs_lookup`, `ufs_dirbadentry` and
`ufs_dirempty` compute it: on a little-endian machine with the old format the length is
in `d_type`, otherwise in `d_namlen`. -/
def namlen_of (env : ufs_env) (m : mem) (ep : Nat) : Nat :=
  if env.little_endian then
    if OFSFMT env then d_type m ep else d_namlen m ep
  else d_namlen m ep

/-- Modelled from the spec: `DIRSIZ(oldfmt, dp)` of the absent `ufs/ufs/dir.h`, the
packed size of the entry at `ep`; the name length is taken from `d_type` on a
little-endian machine with the old format and from `d_namlen` otherwise. -/
def DIRSIZ (env : ufs_env) (oldfmt : Bool) (m : mem) (ep : Nat) : Nat :=
  if env.little_endian then
    if oldfmt then DIRECTSIZ (d_type m ep) else DIRECTSIZ (d_namlen m ep)
  else DIRECTSIZ (d_namlen m ep)

/-- The fields of the directory's `struct inode` that `ufs_lookup.c` reads or writes. -/
structure inode where
  i_number : Nat
  i_size : Nat
  i_diroff : Nat
  i_offset : Nat
  i_count : Nat
  i_endoff : Nat
  i_reclen : Nat
  i_ino : Nat
  i_effnlink : Nat
  i_flag : Nat
  i_mode : Nat
  i_uid : Nat

/-- The fields of `struct componentname` that `ufs_lookup.c` reads or writes; `cr_uid` is
`cn_cred->cr_uid`. -/
structure componentname where
  cn_nameiop : Nat
  cn_flags : Nat
  cn_nameptr : mem
  cn_namelen : Nat
  cr_uid : Nat

/-- How a kernel function ends: it returns an errno (0 on success), it panics, it
dereferences a NULL buffer, or the iteration budget of the embedding ran out. -/
inductive kexit where
  | returned (error : Int)
  | panic_dirbad
  | panic_newblk
  | panic_compact1
  | panic_compact2
  | fault
  | out_of_fuel
deriving DecidableEq, Repr

/-! ## `ufs_dirbadentry` -/

/-- The function `ufs_dirbadentry`: true when the entry at `ep` fails the consistency
check. -/
def ufs_dirbadentry (env : ufs_env) (m : mem) (ep entryoffsetinblock : Nat) : Bool :=
  let namlen := namlen_of env m ep
  if d_reclen env.little_endian m ep &&& 0x3 ≠ 0 ∨
      d_reclen env.little_endian m ep > DIRBLKSIZ - (entryoffsetinblock &&& (DIRBLKSIZ - 1)) ∨
      d_reclen env.little_endian m ep < DIRSIZ env (OFSFMT env) m ep ∨
      namlen > MAXNAMLEN then true
  else if d_ino env.little_endian m ep = 0 then false
  else if (List.range namlen).any (fun i => d_name m ep i == 0) then true
  else if d_name m ep namlen ≠ 0 then true
  else false

/-! ## `ufs_makedirentry` -/

/-- The function `ufs_makedirentry`: fills the `struct direct` buffer `newdirp` (whose
prior content is arbitrary) from the inode number and mode of `ip` and the name in
`cnp`. -/
def ufs_makedirentry (env : ufs_env) (ip_i_number ip_i_mode : Nat) (cnp : componentname)
    (newdirp : mem) : mem :=
  let d1 := wr32 env.little_endian newdirp 0 ip_i_number
  let d2 := wr8 d1 7 cnp.cn_namelen
  let d3 := bcopy cnp.cn_nameptr 0 d2 8 (cnp.cn_namelen + 1)
  if env.mnt_maxsymlinklen > 0 then
    wr8 d3 6 (IFTODT ip_i_mode)
  else
    let d4 := wr8 d3 6 0
    if env.little_endian then
      let tmp := d_namlen d4 0
      let d5 := wr8 d4 7 (d_type d4 0)
      wr8 d5 6 tmp
    else d4

/-! ## `ufs_lookup` -/

/-- The local `enum {NONE, COMPACT, FOUND} slotstatus` of `ufs_lookup`. -/
inductive slot_status where
  | NONE
  | COMPACT
  | FOUND
deriving DecidableEq, Repr

/-- The locals of `ufs_lookup` that live across iterations of the search loop, together
with `dp->i_offset`. The buffer `bp` is recorded by the file offset its data starts at. -/
structure lookup_state where
  i_offset : Nat
  entryoffsetinblock : Nat
  bp : Option Nat
  slotstatus : slot_status
  slotoffset : Int
  slotsize : Nat
  slotfreespace : Int
  prevoff : Nat
  enduseful : Nat
  numdirpasses : Nat
  endsearch : Nat

/-- How the search loop is left. -/
inductive search_exit where
  /-- The statement `return (error)` after a failed `UFS_BLKATOFF`. -/
  | io_error (error : Int) (st : lookup_state)
  /-- The panic of `ufs_dirbad` on a mount that is not read-only. -/
  | panic (st : lookup_state)
  /-- A dereference of `bp` while it is NULL. -/
  | fault (st : lookup_state)
  /-- The statement `goto found`, with the address of the matched entry. -/
  | found (st : lookup_state) (ep : Nat)
  /-- The statement `goto notfound` of the whiteout branch, with the address of the
  matched entry. -/
  | whiteout (st : lookup_state) (ep : Nat)
  /-- The loop condition `dp->i_offset < endsearch` is false. -/
  | exhausted (st : lookup_state)
  /-- The iteration budget of the embedding ran out. -/
  | out_of_fuel (st : lookup_state)

/-- The block `if (slotstatus != FOUND) { ... }` of the search loop, for the entry at
`ep`. -/
def slot_update (env : ufs_env) (data : mem) (slotneeded : Nat) (st : lookup_state)
    (ep : Nat) : lookup_state :=
  if st.slotstatus ≠ slot_status.FOUND then
    let size0 : Int := d_reclen env.little_endian data ep
    let size : Int :=
      if d_ino env.little_endian data ep ≠ 0 then size0 - DIRSIZ env (OFSFMT env) data ep
      else size0
    if size > 0 then
      if size ≥ slotneeded then
        { st with slotstatus := slot_status.FOUND, slotoffset := st.i_offset,
                  slotsize := d_reclen env.little_endian data ep }
      else if st.slotstatus = slot_status.NONE then
        let slotfreespace := st.slotfreespace + size
        let slotoffset : Int := if st.slotoffset = -1 then st.i_offset else st.slotoffset
        if slotfreespace ≥ slotneeded then
          { st with slotfreespace := slotfreespace, slotoffset := slotoffset,
                    slotstatus := slot_status.COMPACT,
                    slotsize :=
                      ((st.i_offset : Int) + d_reclen env.little_endian data ep -
                        slotoffset).toNat }
        else { st with slotfreespace := slotfreespace, slotoffset := slotoffset }
      else st
    else st
  else st

/-- The name test of the search loop: the lengths are equal, the first bytes are equal,
and `bcmp` finds the names equal. -/
def name_match (env : ufs_env) (data : mem) (cnp : componentname) (ep : Nat) : Bool :=
  decide (namlen_of env data ep = cnp.cn_namelen) &&
    (decide (byte cnp.cn_nameptr 0 = d_name data ep 0) &&
      bcmp_eq cnp.cn_nameptr 0 data (ep + 8) (namlen_of env data ep))

/-- The step `if ((dp->i_offset & bmask) == 0) { ... }` of the search loop once
`UFS_BLKATOFF` succeeded: the next directory block is in `bp`. -/
def fetch_block (env : ufs_env) (st : lookup_state) : lookup_state :=
  if st.i_offset &&& (env.f_iosize - 1) = 0 then
    { st with bp := some st.i_offset, entryoffsetinblock := 0 }
  else st

/-- The step of the search loop that starts looking for free space again at a
`DIRBLKSIZ` boundary, while no slot has been found. -/
def reset_slot (st : lookup_state) : lookup_state :=
  if st.slotstatus = slot_status.NONE ∧ st.entryoffsetinblock &&& (DIRBLKSIZ - 1) = 0 then
    { st with slotoffset := -1, slotfreespace := 0 }
  else st

/-- What one iteration of the search loop does with a sound entry: it leaves the loop,
or it goes on with the next entry. -/
inductive step_result where
  | exit (e : search_exit)
  | next (st : lookup_state)

/-- The search loop from the slot bookkeeping on, for the sound entry at `ep`: the slot
update, the name test with its two exits, and the advance to the next entry. -/
def examine (env : ufs_env) (data : mem) (i_size : Nat) (cnp : componentname)
    (slotneeded : Nat) (st2 : lookup_state) (ep : Nat) : step_result :=
  let st3 := slot_update env data slotneeded st2 ep
  if d_ino env.little_endian data ep ≠ 0 ∧ name_match env data cnp ep = true then
    if env.mnt_maxsymlinklen > 0 ∧ d_type data ep = DT_WHT then
      .exit (.whiteout
        { st3 with slotstatus := slot_status.FOUND, slotoffset := st3.i_offset,
                   slotsize := d_reclen env.little_endian data ep,
                   enduseful := i_size,
                   numdirpasses := st3.numdirpasses - 1 } ep)
    else .exit (.found st3 ep)
  else
    .next
      { st3 with prevoff := st3.i_offset,
                 i_offset := st3.i_offset + d_reclen env.little_endian data ep,
                 entryoffsetinblock :=
                   st3.entryoffsetinblock + d_reclen env.little_endian data ep,
                 enduseful :=
                   if d_ino env.little_endian data ep ≠ 0 then
                     st3.i_offset + d_reclen env.little_endian data ep
                   else st3.enduseful }

/-- The search loop `while (dp->i_offset < endsearch)` of `ufs_lookup`, from label
`searchloop` to the first exit; the first argument bounds the number of iterations. -/
def searchloop (env : ufs_env) (data : mem) (i_size : Nat) (cnp : componentname)
    (slotneeded : Nat) : Nat → lookup_state → search_exit
  | 0, st => if st.i_offset < st.endsearch then .out_of_fuel st else .exhausted st
  | fuel + 1, st =>
    if ¬ st.i_offset < st.endsearch then .exhausted st
    else
      -- If necessary, get the next directory block.
      if st.i_offset &&& (env.f_iosize - 1) = 0 ∧ env.blkatoff_err st.i_offset ≠ 0 then
        .io_error (env.blkatoff_err st.i_offset) st
      else
        let st2 := reset_slot (fetch_block env st)
        match st2.bp with
        | none => .fault st2
        | some b_data =>
          let ep := b_data + st2.entryoffsetinblock
          if d_reclen env.little_endian data ep = 0 ∨
              (env.dirchk ≠ 0 ∧ ufs_dirbadentry env data ep st2.entryoffsetinblock = true) then
            -- ufs_dirbad(dp, dp->i_offset, "mangled entry")
            if env.mnt_rdonly = false then .panic st2
            else
              let i := DIRBLKSIZ - (st2.entryoffsetinblock &&& (DIRBLKSIZ - 1))
              searchloop env data i_size cnp slotneeded fuel
                { st2 with i_offset := st2.i_offset + i,
                           entryoffsetinblock := st2.entryoffsetinblock + i }
          else
            match examine env data i_size cnp slotneeded st2 ep with
            | .exit e => e
            | .next st' => searchloop env data i_size cnp slotneeded fuel st'

/-- What `ufs_lookup` leaves behind: how it ended, the directory inode, the flags of the
component name, and the inode number of the vnode stored in `*vpp` (if any). -/
structure lookup_result where
  ret : kexit
  dp : inode
  cn_flags : Nat
  vpp : Option Nat

/-- The code of `ufs_lookup` from label `found` on; `ep` is the address of the matched
entry, `dp` already carries `i_ino` and `i_reclen`, `cn_flags` is the current value of
`cnp->cn_flags` and `cnp.cn_flags` its value on entry (the local `flags`). -/
def lookup_found (env : ufs_env) (data : mem) (cnp : componentname) (cn_flags : Nat)
    (dp : inode) (st : lookup_state) (ep : Nat) : lookup_result :=
  let flags := cnp.cn_flags
  let nameiop := cnp.cn_nameiop
  let lockparent := flags &&& LOCKPARENT
  let wantparent := flags &&& (LOCKPARENT ||| WANTPARENT)
  -- Check that directory length properly reflects presence of this entry.
  if dp.i_offset + DIRSIZ env (OFSFMT env) data ep > dp.i_size ∧ env.mnt_rdonly = false then
    ⟨.panic_dirbad, dp, cn_flags, none⟩
  else
    let dp : inode :=
      if dp.i_offset + DIRSIZ env (OFSFMT env) data ep > dp.i_size then
        { dp with i_size := dp.i_offset + DIRSIZ env (OFSFMT env) data ep,
                  i_flag := dp.i_flag ||| (IN_CHANGE ||| IN_UPDATE) }
      else dp
    -- Save the place of the entry in the cache.
    let dp : inode :=
      if flags &&& ISLASTCN ≠ 0 ∧ nameiop = LOOKUP then
        { dp with i_diroff := and_not dp.i_offset (DIRBLKSIZ - 1) }
      else dp
    if nameiop = DELETE ∧ flags &&& ISLASTCN ≠ 0 then
      if env.access_err ≠ 0 then ⟨.returned env.access_err, dp, cn_flags, none⟩
      else
        let dp : inode :=
          if dp.i_offset &&& (DIRBLKSIZ - 1) = 0 then { dp with i_count := 0 }
          else { dp with i_count := dp.i_offset - st.prevoff }
        if dp.i_number = dp.i_ino then ⟨.returned 0, dp, cn_flags, some dp.i_number⟩
        else if env.vget_err dp.i_ino ≠ 0 then
          ⟨.returned (env.vget_err dp.i_ino), dp, cn_flags, none⟩
        else if dp.i_mode &&& ISVTX ≠ 0 ∧ cnp.cr_uid ≠ 0 ∧ cnp.cr_uid ≠ dp.i_uid ∧
            env.vget_uid dp.i_ino ≠ cnp.cr_uid then
          ⟨.returned EPERM, dp, cn_flags, none⟩
        else ⟨.returned 0, dp, cn_flags, some dp.i_ino⟩
    else if nameiop = RENAME ∧ wantparent ≠ 0 ∧ flags &&& ISLASTCN ≠ 0 then
      if env.access_err ≠ 0 then ⟨.returned env.access_err, dp, cn_flags, none⟩
      else if dp.i_number = dp.i_ino then ⟨.returned EISDIR, dp, cn_flags, none⟩
      else if env.vget_err dp.i_ino ≠ 0 then
        ⟨.returned (env.vget_err dp.i_ino), dp, cn_flags, none⟩
      else ⟨.returned 0, dp, cn_flags ||| SAVENAME, some dp.i_ino⟩
    else if flags &&& ISDOTDOT ≠ 0 then
      if env.vget_err dp.i_ino ≠ 0 then
        ⟨.returned (env.vget_err dp.i_ino), dp, cn_flags, none⟩
      else if lockparent ≠ 0 ∧ flags &&& ISLASTCN ≠ 0 ∧ env.vn_lock_err ≠ 0 then
        ⟨.returned env.vn_lock_err, dp, cn_flags, none⟩
      else ⟨.returned 0, dp, cn_flags, some dp.i_ino⟩
    else if dp.i_number = dp.i_ino then ⟨.returned 0, dp, cn_flags, some dp.i_number⟩
    else if env.vget_err dp.i_ino ≠ 0 then
      ⟨.returned (env.vget_err dp.i_ino), dp, cn_flags, none⟩
    else ⟨.returned 0, dp, cn_flags, some dp.i_ino⟩

/-- The code of `ufs_lookup` from label `notfound` on, once no further pass is due;
`cn_flags` is the current value of `ap->a_cnp->cn_flags`, `cnp.cn_flags` the value on
entry (the local `flags`). -/
def lookup_notfound (env : ufs_env) (cnp : componentname) (cn_flags : Nat) (dp : inode)
    (st : lookup_state) : lookup_result :=
  let flags := cnp.cn_flags
  let nameiop := cnp.cn_nameiop
  if (nameiop = CREATE ∨ nameiop = RENAME ∨
        (nameiop = DELETE ∧ cn_flags &&& DOWHITEOUT ≠ 0 ∧ cn_flags &&& ISWHITEOUT ≠ 0)) ∧
      flags &&& ISLASTCN ≠ 0 ∧ dp.i_effnlink ≠ 0 then
    if env.access_err ≠ 0 then ⟨.returned env.access_err, dp, cn_flags, none⟩
    else
      let r : inode × Nat :=
        if st.slotstatus = slot_status.NONE then
          ({ dp with i_offset := roundup2 dp.i_size DIRBLKSIZ, i_count := 0 },
            roundup2 dp.i_size DIRBLKSIZ)
        else if nameiop = DELETE then
          (if st.slotoffset.toNat &&& (DIRBLKSIZ - 1) = 0 then
              { dp with i_offset := st.slotoffset.toNat, i_count := 0 }
            else
              { dp with i_offset := st.slotoffset.toNat,
                        i_count := st.slotoffset.toNat - st.prevoff },
            st.enduseful)
        else
          ({ dp with i_offset := st.slotoffset.toNat, i_count := st.slotsize },
            if (st.enduseful : Int) < st.slotoffset + st.slotsize then
              (st.slotoffset + st.slotsize).toNat
            else st.enduseful)
      let dp : inode :=
        { r.1 with i_endoff := roundup2 r.2 DIRBLKSIZ,
                   i_flag := r.1.i_flag ||| (IN_CHANGE ||| IN_UPDATE) }
      ⟨.returned EJUSTRETURN, dp, cn_flags ||| SAVENAME, none⟩
  else ⟨.returned ENOENT, dp, cn_flags, none⟩

/-- Maps an exit of the search loop to the rest of `ufs_lookup`: the error and panic
exits, the `found` code, or the `notfound` code. The argument `cn_flags` is the value of
`cnp->cn_flags` when the loop was entered, `again` is what label `notfound` does when
`numdirpasses == 2` (the second pass). -/
def lookup_after (env : ufs_env) (data : mem) (cnp : componentname) (cn_flags : Nat)
    (dp : inode) (again : Nat → inode → lookup_state → lookup_result) :
    search_exit → lookup_result
  | .io_error e st => ⟨.returned e, { dp with i_offset := st.i_offset }, cn_flags, none⟩
  | .panic st => ⟨.panic_dirbad, { dp with i_offset := st.i_offset }, cn_flags, none⟩
  | .fault st => ⟨.fault, { dp with i_offset := st.i_offset }, cn_flags, none⟩
  | .out_of_fuel st => ⟨.out_of_fuel, { dp with i_offset := st.i_offset }, cn_flags, none⟩
  | .found st ep =>
    lookup_found env data cnp cn_flags
      { dp with i_offset := st.i_offset,
                i_ino := d_ino env.little_endian data ep,
                i_reclen := d_reclen env.little_endian data ep } st ep
  | .whiteout st _ =>
    if st.numdirpasses = 2 then
      again (cn_flags ||| ISWHITEOUT) { dp with i_offset := st.i_offset, i_reclen := st.slotsize }
        st
    else
      lookup_notfound env cnp (cn_flags ||| ISWHITEOUT)
        { dp with i_offset := st.i_offset, i_reclen := st.slotsize } st
  | .exhausted st =>
    if st.numdirpasses = 2 then again cn_flags { dp with i_offset := st.i_offset } st
    else lookup_notfound env cnp cn_flags { dp with i_offset := st.i_offset } st

/-- The size of the entry sought by the slot search of `ufs_lookup`: `DIRECTSIZ` of the
name length when creating or renaming on the final component, 0 when the slot search is
suppressed. -/
def lookup_slotneeded (cnp : componentname) : Nat :=
  if (cnp.cn_nameiop = CREATE ∨ cnp.cn_nameiop = RENAME) ∧ cnp.cn_flags &&& ISLASTCN ≠ 0 then
    DIRECTSIZ cnp.cn_namelen
  else 0

/-- The test `nameiop != LOOKUP || dp->i_diroff == 0 || dp->i_diroff >= dp->i_size` of
`ufs_lookup`: no cached offset is used and a single pass is made. -/
def lookup_onepass (dp : inode) (cnp : componentname) : Prop :=
  cnp.cn_nameiop ≠ LOOKUP ∨ dp.i_diroff = 0 ∨ dp.i_diroff ≥ dp.i_size

instance (dp : inode) (cnp : componentname) : Decidable (lookup_onepass dp cnp) := by
  unfold lookup_onepass; infer_instance

/-- The locals of `ufs_lookup` at label `searchloop`, on the first pass. -/
def lookup_init (env : ufs_env) (dp : inode) (cnp : componentname) : lookup_state :=
  let bmask := env.f_iosize - 1
  let i_offset := if lookup_onepass dp cnp then 0 else dp.i_diroff
  { i_offset := i_offset
    entryoffsetinblock := if lookup_onepass dp cnp then 0 else i_offset &&& bmask
    bp := if ¬ lookup_onepass dp cnp ∧ i_offset &&& bmask ≠ 0 then some (and_not i_offset bmask)
          else none
    slotstatus :=
      if (cnp.cn_nameiop = CREATE ∨ cnp.cn_nameiop = RENAME) ∧ cnp.cn_flags &&& ISLASTCN ≠ 0
      then slot_status.NONE else slot_status.FOUND
    slotoffset := -1
    slotsize := 0
    slotfreespace := 0
    prevoff := i_offset
    enduseful := 0
    numdirpasses := if lookup_onepass dp cnp then 1 else 2
    endsearch := roundup2 dp.i_size DIRBLKSIZ }

/-- The second pass of `ufs_lookup`, entered at label `notfound` when
`numdirpasses == 2`: `numdirpasses--; dp->i_offset = 0; endsearch = dp->i_diroff; goto
searchloop`. -/
def second_pass (env : ufs_env) (data : mem) (cnp : componentname) (cn_flags : Nat)
    (dp : inode) (st : lookup_state) : lookup_result :=
  lookup_after env data cnp cn_flags dp
    (fun cn_flags3 dp3 _ => ⟨.out_of_fuel, dp3, cn_flags3, none⟩)
    (searchloop env data dp.i_size cnp (lookup_slotneeded cnp) (dp.i_diroff - 0)
      { st with numdirpasses := st.numdirpasses - 1, i_offset := 0, endsearch := dp.i_diroff })

/-- The function `ufs_lookup` on the directory `dp` with content `data`. -/
def ufs_lookup (env : ufs_env) (data : mem) (dp : inode) (cnp : componentname) :
    lookup_result :=
  let st := lookup_init env dp cnp
  if ¬ lookup_onepass dp cnp ∧ st.i_offset &&& (env.f_iosize - 1) ≠ 0 ∧
      env.blkatoff_err st.i_offset ≠ 0 then
    ⟨.returned (env.blkatoff_err st.i_offset), { dp with i_offset := st.i_offset },
      cnp.cn_flags, none⟩
  else
    lookup_after env data cnp cnp.cn_flags dp (second_pass env data cnp)
      (searchloop env data dp.i_size cnp (lookup_slotneeded cnp) (st.endsearch - st.i_offset) st)

/-! ## `ufs_direnter` -/

/-- The value of a C `int` expression once converted to `unsigned int`. -/
def to_u32 (x : Int) : Nat := (x % 4294967296).toNat

/-- What `ufs_direnter` leaves behind: how it ended, the directory inode, the directory
content and the `struct direct` buffer `dirp` (whose `d_reclen` it sets). -/
structure direnter_result where
  ret : kexit
  dp : inode
  data : mem
  dirp : mem

/-- The locals of the compaction loop of `ufs_direnter`, with the directory content. -/
structure compact_state where
  data : mem
  ep : Nat
  dsize : Nat
  spacefree : Int
  loc : Nat

/-- The compaction loop `for (loc = ep->d_reclen; loc < dp->i_count; )` of `ufs_direnter`;
`dirbuf` is the address of the slot, the first argument bounds the number of iterations
(`none` when the bound is hit). -/
def compact_loop (env : ufs_env) (dirbuf i_count : Nat) :
    Nat → compact_state → Option compact_state
  | 0, s => if s.loc < i_count then none else some s
  | fuel + 1, s =>
    if ¬ s.loc < i_count then some s
    else
      let nep := dirbuf + s.loc
      let s1 : compact_state :=
        if d_ino env.little_endian s.data s.ep ≠ 0 then
          -- trim the existing slot
          { s with data := wr16 env.little_endian s.data (s.ep + 4) s.dsize,
                   ep := s.ep + s.dsize }
        else
          -- overwrite; nothing there; header is ours
          { s with spacefree := s.spacefree + s.dsize }
      let dsize := DIRSIZ env (OFSFMT env) s1.data nep
      compact_loop env dirbuf i_count fuel
        { data := bcopy s1.data nep s1.data s1.ep dsize
          ep := s1.ep
          dsize := dsize
          spacefree := s1.spacefree + ((d_reclen env.little_endian s1.data nep : Int) - dsize)
          loc := s1.loc + d_reclen env.little_endian s1.data nep }

/-- The loop `while (blkoff < bp->b_bcount)` of the soft-updates branch of `ufs_direnter`:
every further `DIRBLKSIZ` chunk of the new buffer gets `d_reclen = DIRBLKSIZ`. -/
def newblk_fill (le : Bool) (b_data b_bcount : Nat) : Nat → mem → Nat → mem
  | 0, m, _ => m
  | fuel + 1, m, blkoff =>
    if blkoff < b_bcount then
      newblk_fill le b_data b_bcount fuel (wr16 le m (b_data + blkoff + 4) DIRBLKSIZ)
        (blkoff + DIRBLKSIZ)
    else m

/-- Modelled from the spec: the effect of a successful `VOP_BALLOC` with `B_CLRBUF` on the
directory content (the block-allocation collaborator is absent): the new
`DIRBLKSIZ`-sized block at `off` is zero-filled. -/
def balloc_clear (data : mem) (off : Nat) : mem :=
  fun a => if off ≤ a ∧ a < off + DIRBLKSIZ then 0 else data a

/-- The error of the block write in the slot case of `ufs_direnter`: 0 under soft updates
and on asynchronous mounts, the result of `bowrite` otherwise. -/
def slot_write_error (env : ufs_env) : Int :=
  if env.softdep then 0 else if env.async then 0 else env.write_err

/-- The end of `ufs_direnter` in the slot case, on the inode: the flags are set and, if
all went well and the directory can be shortened, `UFS_TRUNCATE(dvp, dp->i_endoff, ...)`
is called (its result is discarded; when it succeeds the size becomes `i_endoff`). -/
def slot_truncate (env : ufs_env) (dp : inode) (error : Int) : inode :=
  let dp2 : inode := { dp with i_flag := dp.i_flag ||| (IN_CHANGE ||| IN_UPDATE) }
  if error = 0 ∧ dp2.i_endoff ≠ 0 ∧ dp2.i_endoff < dp2.i_size ∧ env.truncate_err = 0 then
    { dp2 with i_size := dp2.i_endoff }
  else dp2

/-- The end of `ufs_direnter` in the slot case, from the copy of the new entry on: the
entry held in `dirp` (its `d_reclen` already set) is copied to `ep`, the block is
written, and the directory is truncated when it can be shortened. -/
def direnter_finish (env : ufs_env) (dp : inode) (data : mem) (ep : Nat) (dirp : mem)
    (newentrysize : Nat) : direnter_result :=
  ⟨.returned (slot_write_error env), slot_truncate env dp (slot_write_error env),
    bcopy dirp 0 data ep newentrysize, dirp⟩

/-- The code of `ufs_direnter` after the compaction loop: it updates the record length of
the entry left at `ep` (if any is kept), sets the record length of the new entry to the
space gathered, and copies the new entry in; `s` holds the locals at the end of the
loop. -/
def direnter_place (env : ufs_env) (dp : inode) (dirp : mem) (s : compact_state) :
    direnter_result :=
  let le := env.little_endian
  let newentrysize := DIRSIZ env (OFSFMT env) dirp 0
  if d_ino le s.data s.ep = 0 ∨
      (d_ino le s.data s.ep = WINO ∧
        bcmp_eq s.data (s.ep + 8) dirp 8 (d_namlen dirp 0) = true) then
    if to_u32 (s.spacefree + s.dsize) < newentrysize then ⟨.panic_compact1, dp, s.data, dirp⟩
    else
      direnter_finish env dp s.data s.ep
        (wr16 le dirp 4 (to_u32 (s.spacefree + s.dsize))) newentrysize
  else
    if s.spacefree < newentrysize then ⟨.panic_compact2, dp, s.data, dirp⟩
    else
      direnter_finish env dp (wr16 le s.data (s.ep + 4) s.dsize) (s.ep + s.dsize)
        (wr16 le dirp 4 (to_u32 s.spacefree)) newentrysize

/-- The function `ufs_direnter`: writes the entry held in `dirp` into the directory `dp`
with content `data`, in the place `dp->i_offset`, `dp->i_count` left by `ufs_lookup`. -/
def ufs_direnter (env : ufs_env) (data : mem) (dp : inode) (dirp : mem) : direnter_result :=
  let le := env.little_endian
  let newentrysize := DIRSIZ env (OFSFMT env) dirp 0
  if dp.i_count = 0 then
    -- No space in the directory: write the new entry into a fresh block.
    if dp.i_offset &&& (DIRBLKSIZ - 1) ≠ 0 then ⟨.panic_newblk, dp, data, dirp⟩
    else if env.balloc_err ≠ 0 then ⟨.returned env.balloc_err, dp, data, dirp⟩
    else
      let data1 := balloc_clear data dp.i_offset
      let dp1 : inode :=
        { dp with i_size := dp.i_offset + DIRBLKSIZ,
                  i_flag := dp.i_flag ||| (IN_CHANGE ||| IN_UPDATE) }
      let dirp1 := wr16 le dirp 4 DIRBLKSIZ
      let blkoff := dp.i_offset &&& (env.f_iosize - 1)
      let b_data := dp.i_offset - blkoff
      let data2 := bcopy dirp1 0 data1 (b_data + blkoff) newentrysize
      if env.softdep then
        ⟨.returned env.update_err, dp1,
          newblk_fill le b_data env.b_bcount env.b_bcount data2 (blkoff + DIRBLKSIZ), dirp1⟩
      else if env.async then ⟨.returned env.update_err, dp1, data2, dirp1⟩
      else if env.write_err = 0 then ⟨.returned env.update_err, dp1, data2, dirp1⟩
      else ⟨.returned env.write_err, dp1, data2, dirp1⟩
  else
    -- Increase size of directory if entry eats into new space.
    let dp1 : inode :=
      if dp.i_offset + dp.i_count > dp.i_size then { dp with i_size := dp.i_offset + dp.i_count }
      else dp
    -- Get the block containing the space for the new directory entry.
    if env.blkatoff_err dp.i_offset ≠ 0 then
      ⟨.returned (env.blkatoff_err dp.i_offset), dp1, data, dirp⟩
    else
      let dirbuf := dp.i_offset
      match compact_loop env dirbuf dp.i_count dp.i_count
          { data := data
            ep := dirbuf
            dsize := DIRSIZ env (OFSFMT env) data dirbuf
            spacefree := (d_reclen le data dirbuf : Int) - DIRSIZ env (OFSFMT env) data dirbuf
            loc := d_reclen le data dirbuf } with
      | none => ⟨.out_of_fuel, dp1, data, dirp⟩
      | some s => direnter_place env dp1 dirp s

/-! ## Vocabulary of the directory statements -/

/-- The offsets of the records reachable from `off` by following record lengths, as long
as the offset is below `stop` and the record length is not zero; the first argument
bounds the number of records. -/
def walk (le : Bool) (data : mem) (stop : Nat) : Nat → Nat → List Nat
  | 0, _ => []
  | fuel + 1, off =>
    if off < stop ∧ d_reclen le data off ≠ 0 then
      off :: walk le data stop fuel (off + d_reclen le data off)
    else []

/-- The records of the `DIRBLKSIZ` sub-block that starts at `base`, reached by walking it
from its start. -/
def subblock_records (le : Bool) (data : mem) (base : Nat) : List Nat :=
  walk le data (base + DIRBLKSIZ) DIRBLKSIZ base

/-- The sum of the record lengths of the records of the sub-block that starts at `base`. -/
def subblock_sum (le : Bool) (data : mem) (base : Nat) : Nat :=
  ((subblock_records le data base).map (d_reclen le data)).sum

/-- The records at the listed offsets follow one another from `a` and end exactly at `b`,
each with a non-zero record length. -/
def tiles (le : Bool) (data : mem) : Nat → Nat → List Nat → Prop
  | a, b, [] => a = b
  | a, b, o :: os =>
    o = a ∧ 0 < d_reclen le data a ∧ tiles le data (a + d_reclen le data a) b os

/-- The record at `o` passes the consistency check of `ufs_dirbadentry`. -/
def entry_ok (env : ufs_env) (data : mem) (o : Nat) : Prop :=
  ufs_dirbadentry env data o o = false

/-- The record at `o` is whole: its record length covers its packed size. -/
def whole_entry (env : ufs_env) (data : mem) (o : Nat) : Prop :=
  DIRSIZ env (OFSFMT env) data o ≤ d_reclen env.little_endian data o

/-- The free space of the record at `o`: its record length, minus its packed size when
it is in use. -/
def entry_free (env : ufs_env) (data : mem) (o : Nat) : Int :=
  (d_reclen env.little_endian data o : Int) -
    (if d_ino env.little_endian data o ≠ 0 then (DIRSIZ env (OFSFMT env) data o : Int) else 0)

instance (env : ufs_env) (data : mem) (o : Nat) : Decidable (entry_ok env data o) := by
  unfold entry_ok; infer_instance

instance (env : ufs_env) (data : mem) (o : Nat) : Decidable (whole_entry env data o) := by
  unfold whole_entry; infer_instance

/-- The free space of a run of records. -/
def slot_free (env : ufs_env) (data : mem) (recs : List Nat) : Int :=
  (recs.map (entry_free env data)).sum

/-! ## Vocabulary of the proofs -/

/-- The two memories hold the same bytes in `[a, a + n)` and `[a', a' + n)`. -/
def same_bytes (m : mem) (a : Nat) (m' : mem) (a' n : Nat) : Prop :=
  ∀ i, i < n → m (a + i) = m' (a' + i)

/-- The entry at `p` in `d` is the entry at `o` in `d0` up to its record length: all the
bytes of the packed entry are equal, except the two bytes of `d_reclen`. -/
def same_entry (env : ufs_env) (d0 : mem) (o : Nat) (d : mem) (p : Nat) : Prop :=
  ∀ i, i < DIRSIZ env (OFSFMT env) d0 o → i ≠ 4 → i ≠ 5 → d (p + i) = d0 (o + i)

/-- The range `[a, b)` of `d` is filled by trimmed copies of in-use entries of `d0`: the
pair `(p, o)` says that the entry at `p` in `d` is the entry that was at `o` in `d0`,
with its record length cut to its packed size. -/
def packed (env : ufs_env) (d0 d : mem) : Nat → Nat → List (Nat × Nat) → Prop
  | a, b, [] => a = b
  | a, b, po :: rest =>
    po.1 = a ∧ d_ino env.little_endian d0 po.2 ≠ 0 ∧ same_entry env d0 po.2 d po.1 ∧
      d_reclen env.little_endian d po.1 = DIRSIZ env (OFSFMT env) d0 po.2 ∧
      packed env d0 d (a + DIRSIZ env (OFSFMT env) d0 po.2) b rest

/-- The invariant of the compaction loop of `ufs_direnter` at the head of an iteration:
`d0` is the content before the call, `[S, E)` the slot, `done` the records already
absorbed, `cur` the record whose copy sits at `ep`, `rest` the records still to read,
`pairs` the entries kept so far. -/
structure compact_inv (env : ufs_env) (d0 : mem) (S E : Nat) (s : compact_state)
    (done : List Nat) (cur : Nat) (rest : List Nat) (pairs : List (Nat × Nat)) : Prop where
  ep_lo : S ≤ s.ep
  ep_hi : s.ep ≤ cur
  next_eq : S + s.loc = cur + d_reclen env.little_endian d0 cur
  rest_tiles : tiles env.little_endian d0 (S + s.loc) E rest
  whole_cur : whole_entry env d0 cur
  whole_rest : ∀ o ∈ rest, whole_entry env d0 o
  above : ∀ x, S + s.loc ≤ x → s.data x = d0 x
  below : ∀ x, x < S → s.data x = d0 x
  copy : same_bytes s.data s.ep d0 cur (DIRSIZ env (OFSFMT env) d0 cur)
  dsize_eq : s.dsize = DIRSIZ env (OFSFMT env) d0 cur
  space : (s.ep : Int) + s.dsize + s.spacefree = S + s.loc
  layout : packed env d0 s.data S s.ep pairs
  kept : pairs.map Prod.snd = done.filter (fun o => d_ino env.little_endian d0 o ≠ 0)

/-- What the slot case of `ufs_direnter` leaves in the directory: `d0` is the content
before, `[S, E)` the slot and `slot` its records, `r` the result; the kept entries fill
`[S, p)` and the new entry sits at `p` with a record length that reaches `E`. -/
structure slot_outcome (env : ufs_env) (d0 : mem) (S E : Nat) (slot : List Nat) (dirp : mem)
    (r : direnter_result) (pairs : List (Nat × Nat)) (p : Nat) : Prop where
  frame : ∀ x, x < S ∨ E ≤ x → r.data x = d0 x
  layout : packed env d0 r.data S p pairs
  fits : p + DIRSIZ env (OFSFMT env) dirp 0 ≤ E
  entry : same_bytes r.data p (wr16 env.little_endian dirp 4 (E - p)) 0
    (DIRSIZ env (OFSFMT env) dirp 0)
  kept : pairs.map Prod.snd = slot.filter (fun o => d_ino env.little_endian d0 o ≠ 0) ∨
    ∃ front v, slot = front ++ [v] ∧ d_ino env.little_endian d0 v = WINO ∧
      pairs.map Prod.snd = front.filter (fun o => d_ino env.little_endian d0 o ≠ 0)
  new_dirp : r.dirp = wr16 env.little_endian dirp 4 (E - p)

/-! ## Concrete directories -/

/-- A memory holding the listed bytes from address 0 on, and zeros after them. -/
def mem_of (l : List Nat) : mem := fun a => l.getD a 0

/-- A little-endian, new-format, read-write mount with 8192-byte blocks, with `dirchk`
on, on which every collaborator succeeds. -/
def env_le : ufs_env :=
  { little_endian := true, mnt_maxsymlinklen := 60, f_iosize := 8192, mnt_rdonly := false,
    dirchk := 1, softdep := false, async := false, blkatoff_err := fun _ => 0,
    access_err := 0, vget_err := fun _ => 0, vget_uid := fun _ => 0, vn_lock_err := 0,
    balloc_err := 0, b_bcount := 8192, write_err := 0, update_err := 0, truncate_err := 0 }

/-- A one-block directory on `env_le` with the entries `foo -> 33` (record length 12),
`a -> 34` (12) and `bbbbb -> 35` (488). -/
def block_abc : mem :=
  mem_of
    [33, 0, 0, 0, 12, 0, 8, 3, 102, 111, 111, 0,
     34, 0, 0, 0, 12, 0, 8, 1, 97, 0, 0, 0,
     35, 0, 0, 0, 232, 1, 8, 5, 98, 98, 98, 98, 98, 0, 0, 0]

/-- The inode of a directory of one block, number 2, linked, with an empty offset
cache. -/
def dir_inode : inode :=
  { i_number := 2, i_size := 512, i_diroff := 0, i_offset := 0, i_count := 0, i_endoff := 0,
    i_reclen := 0, i_ino := 0, i_effnlink := 2, i_flag := 0, i_mode := 0o40755, i_uid := 0 }

/-- The component name `c` for the given operation, on the final component. -/
def cn_c (nameiop : Nat) : componentname :=
  { cn_nameiop := nameiop, cn_flags := ISLASTCN, cn_nameptr := mem_of [99], cn_namelen := 1,
    cr_uid := 0 }

/-- The entry `c -> 36` that `ufs_makedirentry` builds on `env_le` for a regular file. -/
def dirp_c : mem := ufs_makedirentry env_le 36 0o100644 (cn_c CREATE) (mem_of [])

/-- A one-block directory on `env_le` with the entries `. -> 2` (record length 12),
`.. -> 2` (12) and a whiteout for the name `foobar` (`d_ino = WINO`, `d_type = DT_WHT`,
record length 488). -/
def block_wht : mem :=
  mem_of
    [2, 0, 0, 0, 12, 0, 4, 1, 46, 0, 0, 0,
     2, 0, 0, 0, 12, 0, 4, 2, 46, 46, 0, 0,
     1, 0, 0, 0, 232, 1, 14, 6, 102, 111, 111, 98, 97, 114, 0, 0]

/-- The component name `foo` for the given operation, on the final component. -/
def cn_foo (nameiop : Nat) : componentname :=
  { cn_nameiop := nameiop, cn_flags := ISLASTCN, cn_nameptr := mem_of [102, 111, 111],
    cn_namelen := 3, cr_uid := 0 }

/-- The component name `foobar` for the given operation, on the final component. -/
def cn_foobar (nameiop : Nat) : componentname :=
  { cn_nameiop := nameiop, cn_flags := ISLASTCN,
    cn_nameptr := mem_of [102, 111, 111, 98, 97, 114], cn_namelen := 6, cr_uid := 0 }

/-! ## The search loop driven by the list of records -/

/-- The state with the buffer bookkeeping (`bp`, `entryoffsetinblock`) blanked: the
fields the code after the search loop reads are kept. -/
def norm (st : lookup_state) : lookup_state :=
  { st with bp := none, entryoffsetinblock := 0 }

/-- An exit of the search loop with the buffer bookkeeping of its state blanked. -/
def exit_norm : search_exit → search_exit
  | .io_error e st => .io_error e (norm st)
  | .panic st => .panic (norm st)
  | .fault st => .fault (norm st)
  | .found st ep => .found (norm st) ep
  | .whiteout st ep => .whiteout (norm st) ep
  | .exhausted st => .exhausted (norm st)
  | .out_of_fuel st => .out_of_fuel (norm st)

/-- The reset of the slot search at a `DIRBLKSIZ` boundary, decided on the offset of the
record. -/
def scan_reset (st : lookup_state) (o : Nat) : lookup_state :=
  if st.slotstatus = slot_status.NONE ∧ o % DIRBLKSIZ = 0 then
    { st with slotoffset := -1, slotfreespace := 0 }
  else st

/-- The search loop run over a list of sound records: each record is examined in turn,
with the buffer bookkeeping blanked. -/
def scan (env : ufs_env) (data : mem) (i_size : Nat) (cnp : componentname)
    (slotneeded : Nat) : List Nat → lookup_state → search_exit
  | [], st => .exhausted st
  | o :: os, st =>
    match examine env data i_size cnp slotneeded (scan_reset st o) o with
    | .exit e => exit_norm e
    | .next st' => scan env data i_size cnp slotneeded os (norm st')

/-- The record at `o` is in use and carries the name sought: the test that ends the
search loop. -/
def is_match (env : ufs_env) (data : mem) (cnp : componentname) (o : Nat) : Prop :=
  d_ino env.little_endian data o ≠ 0 ∧ name_match env data cnp o = true

instance (env : ufs_env) (data : mem) (cnp : componentname) (o : Nat) :
    Decidable (is_match env data cnp o) := by
  unfold is_match; infer_instance

/-- The state after an iteration of the search loop on a record that is not the one
sought, with the buffer bookkeeping blanked. -/
def advance (env : ufs_env) (data : mem) (slotneeded : Nat) (st : lookup_state)
    (o : Nat) : lookup_state :=
  let st3 := slot_update env data slotneeded (scan_reset st o) o
  norm
    { st3 with prevoff := st3.i_offset,
               i_offset := st3.i_offset + d_reclen env.little_endian data o,
               entryoffsetinblock := st3.entryoffsetinblock + d_reclen env.little_endian data o,
               enduseful :=
                 if d_ino env.little_endian data o ≠ 0 then
                   st3.i_offset + d_reclen env.little_endian data o
                 else st3.enduseful }

/-- The state after the search loop has passed a list of records none of which is the
one sought. -/
def skip_all (env : ufs_env) (data : mem) (slotneeded : Nat) :
    List Nat → lookup_state → lookup_state
  | [], st => st
  | o :: os, st => skip_all env data slotneeded os (advance env data slotneeded st o)

/-- The mount the statements are about: the block size is a power of two, at least
`DIRBLKSIZ`, and every block read succeeds. -/
def env_ok (env : ufs_env) : Prop :=
  (∃ k, 9 ≤ k ∧ env.f_iosize = 2 ^ k) ∧ ∀ o, env.blkatoff_err o = 0

/-- The buffer bookkeeping of the search loop is in step with the offset: inside a
block, `bp` holds the block of the offset and `entryoffsetinblock` is the offset in
it. -/
def blk_inv (env : ufs_env) (st : lookup_state) : Prop :=
  st.i_offset % env.f_iosize ≠ 0 →
    st.bp = some (st.i_offset - st.i_offset % env.f_iosize) ∧
      st.entryoffsetinblock = st.i_offset % env.f_iosize

/-- The invariant of the slot search of `ufs_lookup` once the records `done` have been
scanned: while no slot is found, the free space gathered is the free space of a run of
records at the end of `done`, all in one sub-block; once a slot is found, it is a run of
records of `done`, all in one sub-block, with free space for the entry sought. -/
def slot_inv (env : ufs_env) (data : mem) (needed : Nat) (done : List Nat)
    (st : lookup_state) : Prop :=
  if st.slotstatus = slot_status.NONE then
    (st.slotoffset = -1 ∧ st.slotfreespace = 0) ∨
      ∃ (pre : List Nat) (S : Nat) (run : List Nat), done = pre ++ S :: run ∧
        st.slotoffset = (S : Int) ∧
        slot_free env data (S :: run) = st.slotfreespace ∧
        st.i_offset ≤ S - S % 512 + 512
  else
    ∃ (pre : List Nat) (S : Nat) (run post : List Nat), done = pre ++ S :: run ++ post ∧
      st.slotoffset = (S : Int) ∧
      tiles env.little_endian data S (S + st.slotsize) (S :: run) ∧
      (needed : Int) ≤ slot_free env data (S :: run) ∧
      S + st.slotsize ≤ S - S % 512 + 512

/-- The directory content `d` of `size` bytes is a chain of sound records in which the
record at `p` is the one a lookup of the name of `cnp` finds: the records `A` before it and
`B` after it do not carry the name, the record at `p` does and is not a whiteout. -/
structure holds_entry (env : ufs_env) (d : mem) (size : Nat) (cnp : componentname)
    (A : List Nat) (p : Nat) (B : List Nat) : Prop where
  chain : tiles env.little_endian d 0 size (A ++ p :: B)
  sound : ∀ o ∈ A ++ p :: B, entry_ok env d o
  before : ∀ o ∈ A, ¬ is_match env d cnp o
  after : ∀ o ∈ B, ¬ is_match env d cnp o
  here : is_match env d cnp p
  live : ¬ (env.mnt_maxsymlinklen > 0 ∧ d_type d p = DT_WHT)

/-- The calls that create a directory entry, as the callers of `ufs_direnter` make them:
`ufs_lookup` for the name of `cnp`, then `ufs_makedirentry` for the inode numbered `ino`
with mode `mode`, then `ufs_direnter` on the directory inode as the lookup left it. -/
def create_entry (env : ufs_env) (data : mem) (dp : inode) (cnp : componentname)
    (ino mode : Nat) (newdirp : mem) : direnter_result :=
  ufs_direnter env data (ufs_lookup env data dp cnp).dp
    (ufs_makedirentry env ino mode cnp newdirp)

/-! ## `ufs_dirremove`, `ufs_dirrewrite` -/

/-- The fields of the `struct inode` of the file whose link goes away (`ip` of
`ufs_dirremove`, `oip` of `ufs_dirrewrite`) that these functions write. -/
structure link_inode where
  i_effnlink : Int
  i_nlink : Int
  i_flag : Nat

/-- What `ufs_dirremove` leaves behind: how it ended, the directory inode, the directory
content and the inode `ip` (if one was passed). -/
structure dirremove_result where
  ret : kexit
  dp : inode
  data : mem
  ip : Option link_inode

/-- The code of `ufs_dirremove` from label `out` on: the link counts of `ip` are
lowered, the block `data1` is written, the directory inode is flagged. -/
def dirremove_out (env : ufs_env) (dp : inode) (data1 : mem) (ip : Option link_inode)
    (flags : Nat) : dirremove_result :=
  let dp1 : inode := { dp with i_flag := dp.i_flag ||| (IN_CHANGE ||| IN_UPDATE) }
  if env.softdep then
    ⟨.returned 0, dp1, data1, ip.map (fun i => { i with i_effnlink := i.i_effnlink - 1 })⟩
  else
    let ip1 := ip.map (fun i =>
      { i with i_effnlink := i.i_effnlink - 1, i_nlink := i.i_nlink - 1,
               i_flag := i.i_flag ||| IN_CHANGE })
    if flags &&& DOWHITEOUT ≠ 0 then ⟨.returned env.write_err, dp1, data1, ip1⟩
    else if env.async ∧ dp.i_count ≠ 0 then ⟨.returned 0, dp1, data1, ip1⟩
    else ⟨.returned env.write_err, dp1, data1, ip1⟩

/-- The function `ufs_dirremove` on the directory `dp` with content `data`; the entry to
remove is at `dp->i_offset`, the one before it at `dp->i_offset - dp->i_count` (the
callers keep `i_count <= i_offset`). -/
def ufs_dirremove (env : ufs_env) (data : mem) (dp : inode) (ip : Option link_inode)
    (flags : Nat) : dirremove_result :=
  let le := env.little_endian
  if flags &&& DOWHITEOUT ≠ 0 then
    -- Whiteout entry: set d_ino to WINO.
    if env.blkatoff_err dp.i_offset ≠ 0 then
      ⟨.returned (env.blkatoff_err dp.i_offset), dp, data, ip⟩
    else
      dirremove_out env dp (wr8 (wr32 le data dp.i_offset WINO) (dp.i_offset + 6) DT_WHT) ip
        flags
  else if env.blkatoff_err (dp.i_offset - dp.i_count) ≠ 0 then
    ⟨.returned (env.blkatoff_err (dp.i_offset - dp.i_count)), dp, data, ip⟩
  else
    let ep := dp.i_offset - dp.i_count
    if dp.i_count = 0 then
      -- First entry in block: set d_ino to zero.
      dirremove_out env dp (wr32 le data ep 0) ip flags
    else
      -- Collapse new free space into previous entry.
      dirremove_out env dp (wr16 le data (ep + 4) (d_reclen le data ep + dp.i_reclen)) ip flags

/-- What `ufs_dirrewrite` leaves behind: how it ended, the directory inode, the directory
content and the inode `oip`. -/
structure dirrewrite_result where
  ret : kexit
  dp : inode
  data : mem
  oip : link_inode

/-- The function `ufs_dirrewrite`: points the entry at `dp->i_offset` of the directory
with content `data` at the inode `newinum` of type `newtype`. -/
def ufs_dirrewrite (env : ufs_env) (data : mem) (dp : inode) (oip : link_inode)
    (newinum newtype : Nat) : dirrewrite_result :=
  let le := env.little_endian
  if env.blkatoff_err dp.i_offset ≠ 0 then
    ⟨.returned (env.blkatoff_err dp.i_offset), dp, data, oip⟩
  else
    let d1 := wr32 le data dp.i_offset newinum
    let d2 := if OFSFMT env = false then wr8 d1 (dp.i_offset + 6) newtype else d1
    let oip1 : link_inode := { oip with i_effnlink := oip.i_effnlink - 1 }
    let dp1 : inode := { dp with i_flag := dp.i_flag ||| (IN_CHANGE ||| IN_UPDATE) }
    if env.softdep then ⟨.returned 0, dp1, d2, oip1⟩
    else
      let oip2 : link_inode :=
        { oip1 with i_nlink := oip1.i_nlink - 1, i_flag := oip1.i_flag ||| IN_CHANGE }
      if env.async then ⟨.returned 0, dp1, d2, oip2⟩
      else ⟨.returned env.write_err, dp1, d2, oip2⟩

/-! ## `ufs_dirempty` -/

/-- The test of `ufs_dirempty` on the entry read at `off`, once it is known not to be a
placeholder: the name is at most 2 bytes long, starts with a dot, and the entry is `.`
for the directory itself or has a dot as second byte and points at the parent. -/
def dirempty_accepts (env : ufs_env) (data : mem) (i_number parentino off : Nat) : Bool :=
  if namlen_of env data off > 2 then false
  else if d_name data off 0 ≠ 46 then false
  -- At this point namlen must be 1 or 2.
  else if namlen_of env data off = 1 ∧ d_ino env.little_endian data off = i_number then true
  else if d_name data off 1 = 46 ∧ d_ino env.little_endian data off = parentino then true
  else false

/-- The loop `for (off = 0; off < ip->i_size; off += dp->d_reclen)` of `ufs_dirempty`;
`rd_err off` and `rd_resid off` are the error and the residual count of the `vn_rdwr` of
`MINDIRSIZ` bytes at `off`, the first argument bounds the number of iterations (`none`
when the bound is hit). -/
def dirempty_loop (env : ufs_env) (data : mem) (i_number i_size parentino : Nat)
    (rd_err rd_resid : Nat → Int) : Nat → Nat → Option Int
  | 0, off => if off < i_size then none else some 1
  | fuel + 1, off =>
    if ¬ off < i_size then some 1
    else if rd_err off ≠ 0 ∨ rd_resid off ≠ 0 then some 0
    -- avoid infinite loops
    else if d_reclen env.little_endian data off = 0 then some 0
    -- skip empty entries
    else if d_ino env.little_endian data off = 0 ∨ d_ino env.little_endian data off = WINO then
      dirempty_loop env data i_number i_size parentino rd_err rd_resid fuel
        (off + d_reclen env.little_endian data off)
    -- accept only "." and ".."
    else if dirempty_accepts env data i_number parentino off = true then
      dirempty_loop env data i_number i_size parentino rd_err rd_resid fuel
        (off + d_reclen env.little_endian data off)
    else some 0

/-- The function `ufs_dirempty` on the directory `i_number` of `i_size` bytes with content
`data`: 1 when the directory is empty, 0 when it is not. -/
def ufs_dirempty (env : ufs_env) (data : mem) (i_number i_size parentino : Nat)
    (rd_err rd_resid : Nat → Int) : Option Int :=
  dirempty_loop env data i_number i_size parentino rd_err rd_resid i_size 0

/-! ## `ufs_checkpath` -/

/-- Modelled from the spec: the invalid-argument error that reports a would-be cycle
(`EINVAL` of the absent `sys/errno.h`). -/
def EINVAL : Int := 22

/-- Modelled from the spec: the not-a-directory error (`ENOTDIR` of the absent
`sys/errno.h`). -/
def ENOTDIR : Int := 20

/-- Modelled from the spec: `EEXIST` of the absent `sys/errno.h`. -/
def EEXIST : Int := 17

/-- Modelled from the spec: the inode number of the root directory (`ROOTINO` of the
absent `ufs/ufs/dinode.h`). -/
def ROOTINO : Nat := 2

/-- What `ufs_checkpath` sees of the file system, by inode number: whether the vnode is a
directory (`v_type == VDIR`), the error of the `vn_rdwr` that reads its first
`sizeof (struct dirtemplate)` bytes, and those bytes. -/
structure dir_tree where
  is_dir : Nat → Bool
  rdwr_err : Nat → Int
  content : Nat → mem

/-- The loop `for (;;)` of `ufs_checkpath` with `vp` the vnode of inode `vp_ino`; the
entry `..` of a `struct dirtemplate` is the `struct direct` at offset 12. The first
argument bounds the number of iterations. -/
def checkpath_loop (env : ufs_env) (fs : dir_tree) (source_ino : Nat) : Nat → Nat → kexit
  | 0, _ => .out_of_fuel
  | fuel + 1, vp_ino =>
    if fs.is_dir vp_ino = false then .returned ENOTDIR
    else if fs.rdwr_err vp_ino ≠ 0 then .returned (fs.rdwr_err vp_ino)
    else
      let dirbuf := fs.content vp_ino
      if namlen_of env dirbuf 12 ≠ 2 ∨ d_name dirbuf 12 0 ≠ 46 ∨ d_name dirbuf 12 1 ≠ 46 then
        .returned ENOTDIR
      else if d_ino env.little_endian dirbuf 12 = source_ino then .returned EINVAL
      else if d_ino env.little_endian dirbuf 12 = ROOTINO then .returned 0
      else if env.vget_err (d_ino env.little_endian dirbuf 12) ≠ 0 then
        .returned (env.vget_err (d_ino env.little_endian dirbuf 12))
      else checkpath_loop env fs source_ino fuel (d_ino env.little_endian dirbuf 12)

/-- The function `ufs_checkpath` for the inodes numbered `source_ino` and `target_ino`;
the first argument of the loop bounds the number of directories visited. -/
def ufs_checkpath (env : ufs_env) (fs : dir_tree) (source_ino target_ino fuel : Nat) :
    kexit :=
  if target_ino = source_ino then .returned EEXIST
  else if target_ino = ROOTINO then .returned 0
  else checkpath_loop env fs source_ino fuel target_ino

/-! ## More concrete inputs -/

/-- The directory inode of `block_abc` as a lookup of `a` for DELETE leaves it: the entry
is at offset 12, 12 bytes long, 12 bytes after the entry before it. -/
def dp_a : inode := { dir_inode with i_offset := 12, i_count := 12, i_reclen := 12, i_ino := 34 }

/-- An inode with two links, as passed for the file whose entry is rewritten. -/
def oip_two : link_inode := { i_effnlink := 2, i_nlink := 2, i_flag := 0 }

/-! ## Vocabulary of the statements on corrupt entries -/

/-- The conditions under which the consistency check is said to report an entry, read
without regard to whether the entry is in use: a record length that is not a multiple of
4, that exceeds the space left in the `DIRBLKSIZ` sub-block, or that is below the packed
size; a name length above `MAXNAMLEN`; a zero byte within the name; a non-zero byte right
after the name. -/
def corrupt_as_stated (env : ufs_env) (m : mem) (ep entryoffsetinblock : Nat) : Prop :=
  d_reclen env.little_endian m ep % 4 ≠ 0 ∨
    d_reclen env.little_endian m ep > DIRBLKSIZ - entryoffsetinblock % DIRBLKSIZ ∨
    d_reclen env.little_endian m ep < DIRSIZ env (OFSFMT env) m ep ∨
    namlen_of env m ep > MAXNAMLEN ∨
    (∃ i, i < namlen_of env m ep ∧ d_name m ep i = 0) ∨
    d_name m ep (namlen_of env m ep) ≠ 0

/-- The conditions under which `ufs_dirbadentry` reports an entry: those on the record
length and the name length for every entry, those on the name bytes for an entry in use
(`d_ino != 0`). -/
def corrupt_entry (env : ufs_env) (m : mem) (ep entryoffsetinblock : Nat) : Prop :=
  d_reclen env.little_endian m ep % 4 ≠ 0 ∨
    d_reclen env.little_endian m ep > DIRBLKSIZ - entryoffsetinblock % DIRBLKSIZ ∨
    d_reclen env.little_endian m ep < DIRSIZ env (OFSFMT env) m ep ∨
    namlen_of env m ep > MAXNAMLEN ∨
    (d_ino env.little_endian m ep ≠ 0 ∧
      ((∃ i, i < namlen_of env m ep ∧ d_name m ep i = 0) ∨
        d_name m ep (namlen_of env m ep) ≠ 0))

/-- A free entry (`d_ino = 0`) on `env_le` of record length 12 whose name length is 1 and
whose name is a zero byte. -/
def entry_free_nul : mem := mem_of [0, 0, 0, 0, 12, 0, 8, 1, 0, 0, 0, 0]

/-- The mount `env_le` mounted read-only. -/
def env_ro : ufs_env := { env_le with mnt_rdonly := true }

/-- The search loop is left by a statement that leads to a `return`, with the number of
passes still to make: the count `passes` it was entered with, or one less at the whiteout
exit. -/
def leaves_loop (passes : Nat) : search_exit → Prop
  | .io_error _ _ => True
  | .found st _ => st.numdirpasses = passes
  | .whiteout st _ => st.numdirpasses = passes - 1
  | .exhausted st => st.numdirpasses = passes
  | .panic _ => False
  | .fault _ => False
  | .out_of_fuel _ => False

/-! ## Vocabulary of the statements on `ufs_dirempty` and `ufs_checkpath` -/

/-- An entry that leaves a directory empty, as the statement on `ufs_dirempty` lists them:
a placeholder (inode number 0 or `WINO`), the entry `.` with the inode number of the
directory itself, or the entry `..` with the inode number `parentino`. -/
def empty_entry (env : ufs_env) (data : mem) (i_number parentino o : Nat) : Prop :=
  d_ino env.little_endian data o = 0 ∨ d_ino env.little_endian data o = WINO ∨
    (namlen_of env data o = 1 ∧ d_name data o 0 = 46 ∧
      d_ino env.little_endian data o = i_number) ∨
    (namlen_of env data o = 2 ∧ d_name data o 0 = 46 ∧ d_name data o 1 = 46 ∧
      d_ino env.little_endian data o = parentino)

instance (env : ufs_env) (data : mem) (i_number parentino o : Nat) :
    Decidable (empty_entry env data i_number parentino o) := by
  unfold empty_entry; infer_instance

/-- The directory is empty, as the statement on `ufs_dirempty` puts it: the records that
follow one another from offset 0 reach the end of the directory, each has a non-zero
record length, each is read in full without error, and each is an `empty_entry`. -/
def dir_is_empty (env : ufs_env) (data : mem) (i_number i_size parentino : Nat)
    (rd_err rd_resid : Nat → Int) : Prop :=
  ∃ (recs : List Nat) (b : Nat), tiles env.little_endian data 0 b recs ∧ i_size ≤ b ∧
    ∀ o ∈ recs, o < i_size ∧ rd_err o = 0 ∧ rd_resid o = 0 ∧
      empty_entry env data i_number parentino o

/-- A one-record directory block on `env_le` whose entry has name length 1, the bytes `..`
in its name field and inode number 5. -/
def block_dotty : mem := mem_of [5, 0, 0, 0, 0, 2, 4, 1, 46, 46, 0, 0]

/-- The directory `block_abc` with the entries `. -> 7` (record length 12) and `.. -> 5`
(500) only. -/
def block_dots : mem :=
  mem_of
    [7, 0, 0, 0, 12, 0, 4, 1, 46, 0, 0, 0,
     5, 0, 0, 0, 244, 1, 4, 2, 46, 46, 0, 0]

/-- The inode number in the entry `..` of the directory `i`, as `ufs_checkpath` reads
it. -/
def dotdot_ino (env : ufs_env) (fs : dir_tree) (i : Nat) : Nat :=
  d_ino env.little_endian (fs.content i) 12

/-- The node `i` can be climbed: it is a directory, its first bytes are read without
error, and its second entry is named `..`. -/
def climbable (env : ufs_env) (fs : dir_tree) (i : Nat) : Prop :=
  fs.is_dir i = true ∧ fs.rdwr_err i = 0 ∧ namlen_of env (fs.content i) 12 = 2 ∧
    d_name (fs.content i) 12 0 = 46 ∧ d_name (fs.content i) 12 1 = 46

/-- The node `i` stops the climb: it is not a directory, or it is read without error and
its second entry is not named `..`. -/
def not_climbable (env : ufs_env) (fs : dir_tree) (i : Nat) : Prop :=
  fs.is_dir i = false ∨
    (fs.rdwr_err i = 0 ∧
      (namlen_of env (fs.content i) 12 ≠ 2 ∨ d_name (fs.content i) 12 0 ≠ 46 ∨
        d_name (fs.content i) 12 1 ≠ 46))

instance (env : ufs_env) (fs : dir_tree) (i : Nat) : Decidable (climbable env fs i) := by
  unfold climbable; infer_instance

instance (env : ufs_env) (fs : dir_tree) (i : Nat) : Decidable (not_climbable env fs i) := by
  unfold not_climbable; infer_instance

/-- The list `chain` holds the directories on the `..` chain above `i`, nearest first, and
ends with the root: every directory on the way can be climbed and every `VFS_VGET`
succeeds. -/
def chain_to_root (env : ufs_env) (fs : dir_tree) : Nat → List Nat → Prop
  | _, [] => False
  | i, p :: rest =>
    climbable env fs i ∧ dotdot_ino env fs i = p ∧
      (if p = ROOTINO then rest = [] else env.vget_err p = 0 ∧ chain_to_root env fs p rest)

/-- The directories above `target` up to the root are those of `chain`; the root has none
above it. -/
def chain_above (env : ufs_env) (fs : dir_tree) (target : Nat) (chain : List Nat) : Prop :=
  if target = ROOTINO then chain = [] else chain_to_root env fs target chain

/-- The climb from `i` passes the directories of `path`, none of them the source or the
root, and arrives at the node `b`. -/
def climbs (env : ufs_env) (fs : dir_tree) (source : Nat) : Nat → List Nat → Nat → Prop
  | i, [], b => i = b
  | i, p :: rest, b =>
    climbable env fs i ∧ dotdot_ino env fs i = p ∧ p ≠ source ∧ p ≠ ROOTINO ∧
      env.vget_err p = 0 ∧ climbs env fs source p rest b

/-- The first bytes of a directory on `env_le`, the `struct dirtemplate` with `.` for the
inode `self` and `..` for the inode `parent`. -/
def dirtemplate_of (self parent : Nat) : mem :=
  mem_of
    [self, 0, 0, 0, 12, 0, 4, 1, 46, 0, 0, 0,
     parent, 0, 0, 0, 244, 1, 4, 2, 46, 46, 0, 0]

/-- A tree on `env_le`: the root 2, the directory 5 in it, the directory 9 in 5, the
directory 11 in 2, and the regular file 20 (whose content reads as a directory under 5). -/
def tree_small : dir_tree :=
  { is_dir := fun i => decide (i ≠ 20)
    rdwr_err := fun _ => 0
    content := fun i =>
      if i = 9 then dirtemplate_of 9 5
      else if i = 5 then dirtemplate_of 5 2
      else if i = 11 then dirtemplate_of 11 2
      else if i = 20 then dirtemplate_of 20 5
      else dirtemplate_of 2 2 }

/-! ## Vocabulary of the statements on lookups -/

/-- The entry at `o` is a whiteout as `ufs_lookup` tests it: the directory has the new
format and the type of the entry is `DT_WHT`. -/
def is_whiteout (env : ufs_env) (data : mem) (o : Nat) : Prop :=
  env.mnt_maxsymlinklen > 0 ∧ d_type data o = DT_WHT

instance (env : ufs_env) (data : mem) (o : Nat) : Decidable (is_whiteout env data o) := by
  unfold is_whiteout; infer_instance

/-- The entry at `o` is in use and has exactly the name of `cnp`: the same name length and
the same name bytes. -/
def entry_named (env : ufs_env) (data : mem) (cnp : componentname) (o : Nat) : Prop :=
  d_ino env.little_endian data o ≠ 0 ∧ namlen_of env data o = cnp.cn_namelen ∧
    ∀ i, i < cnp.cn_namelen → d_name data o i = byte cnp.cn_nameptr i

/-- No two entries in use among `recs` have the same name. -/
def no_duplicate_names (env : ufs_env) (data : mem) (recs : List Nat) : Prop :=
  ∀ o1 ∈ recs, ∀ o2 ∈ recs, d_ino env.little_endian data o1 ≠ 0 →
    d_ino env.little_endian data o2 ≠ 0 → namlen_of env data o1 = namlen_of env data o2 →
    (∀ i, i < namlen_of env data o1 → d_name data o1 i = d_name data o2 i) → o1 = o2

/-- The first record of a list that the name test of the search loop accepts. -/
def first_match (env : ufs_env) (data : mem) (cnp : componentname) (l : List Nat) :
    Option Nat :=
  l.find? (fun o => decide (is_match env data cnp o))

/-- The record at which a plain scan in the order of the passes stops: with a single pass
the first matching record; with a cached offset the first matching record at or after
`i_diroff`, and when there is none the first matching record before `i_diroff`. -/
def lookup_hit (env : ufs_env) (data : mem) (dp : inode) (cnp : componentname)
    (recs : List Nat) : Option Nat :=
  if lookup_onepass dp cnp then first_match env data cnp recs
  else
    match first_match env data cnp (recs.filter (fun o => decide (dp.i_diroff ≤ o))) with
    | some p => some p
    | none => first_match env data cnp (recs.filter (fun o => decide (o < dp.i_diroff)))

/-- The code of `lookup_found` after the size check and the update of the offset cache:
the cases on the operation, for the directory inode `D` at that point. -/
def found_tail (env : ufs_env) (cnp : componentname) (cn_flags : Nat) (D : inode)
    (st : lookup_state) : lookup_result :=
  if cnp.cn_nameiop = DELETE ∧ cnp.cn_flags &&& ISLASTCN ≠ 0 then
    if env.access_err ≠ 0 then ⟨.returned env.access_err, D, cn_flags, none⟩
    else
      let dp : inode :=
        if D.i_offset &&& (DIRBLKSIZ - 1) = 0 then { D with i_count := 0 }
        else { D with i_count := D.i_offset - st.prevoff }
      if dp.i_number = dp.i_ino then ⟨.returned 0, dp, cn_flags, some dp.i_number⟩
      else if env.vget_err dp.i_ino ≠ 0 then
        ⟨.returned (env.vget_err dp.i_ino), dp, cn_flags, none⟩
      else if dp.i_mode &&& ISVTX ≠ 0 ∧ cnp.cr_uid ≠ 0 ∧ cnp.cr_uid ≠ dp.i_uid ∧
          env.vget_uid dp.i_ino ≠ cnp.cr_uid then
        ⟨.returned EPERM, dp, cn_flags, none⟩
      else ⟨.returned 0, dp, cn_flags, some dp.i_ino⟩
  else if cnp.cn_nameiop = RENAME ∧ cnp.cn_flags &&& (LOCKPARENT ||| WANTPARENT) ≠ 0 ∧
      cnp.cn_flags &&& ISLASTCN ≠ 0 then
    if env.access_err ≠ 0 then ⟨.returned env.access_err, D, cn_flags, none⟩
    else if D.i_number = D.i_ino then ⟨.returned EISDIR, D, cn_flags, none⟩
    else if env.vget_err D.i_ino ≠ 0 then
      ⟨.returned (env.vget_err D.i_ino), D, cn_flags, none⟩
    else ⟨.returned 0, D, cn_flags ||| SAVENAME, some D.i_ino⟩
  else if cnp.cn_flags &&& ISDOTDOT ≠ 0 then
    if env.vget_err D.i_ino ≠ 0 then
      ⟨.returned (env.vget_err D.i_ino), D, cn_flags, none⟩
    else if cnp.cn_flags &&& LOCKPARENT ≠ 0 ∧ cnp.cn_flags &&& ISLASTCN ≠ 0 ∧
        env.vn_lock_err ≠ 0 then
      ⟨.returned env.vn_lock_err, D, cn_flags, none⟩
    else ⟨.returned 0, D, cn_flags, some D.i_ino⟩
  else if D.i_number = D.i_ino then ⟨.returned 0, D, cn_flags, some D.i_number⟩
  else if env.vget_err D.i_ino ≠ 0 then
    ⟨.returned (env.vget_err D.i_ino), D, cn_flags, none⟩
  else ⟨.returned 0, D, cn_flags, some D.i_ino⟩

/-- The directory inode of `lookup_found` at the point where the operation is examined,
when the entry fits in the directory: the offset cache is updated on a plain lookup of the
final component. -/
def found_inode (cnp : componentname) (dp : inode) : inode :=
  if cnp.cn_flags &&& ISLASTCN ≠ 0 ∧ cnp.cn_nameiop = LOOKUP then
    { dp with i_diroff := and_not dp.i_offset (DIRBLKSIZ - 1) }
  else dp

instance (env : ufs_env) (data : mem) (cnp : componentname) (o : Nat) :
    Decidable (entry_named env data cnp o) := by
  unfold entry_named; infer_instance

instance (env : ufs_env) (data : mem) (recs : List Nat) :
    Decidable (no_duplicate_names env data recs) := by
  unfold no_duplicate_names; infer_instance

/-- A two-block directory on `env_le`: `block_abc` in the first block, the single entry
`c -> 36` (record length 512) in the second. -/
def block_two : mem :=
  fun a => if a < 512 then block_abc a else mem_of [36, 0, 0, 0, 0, 2, 8, 1, 99, 0, 0, 0] (a - 512)

/-- The inode of the two-block directory, with the offset cache on the second block. -/
def dir_inode_two : inode :=
  { dir_inode with i_size := 1024, i_diroff := 512 }

/-- What `ufs_lookup` may do to the offset cache of the directory inode `dp`: leave it as
it is, or, on a plain lookup of the final component, set it to the offset the lookup
leaves in `i_offset` rounded down to a multiple of `DIRBLKSIZ`, in which case the lookup
returns 0 when `VFS_VGET` and `vn_lock` succeed. -/
def cache_kept_or_set (env : ufs_env) (cnp : componentname) (dp : inode)
    (r : lookup_result) : Prop :=
  r.dp.i_diroff = dp.i_diroff ∨
    (cnp.cn_nameiop = LOOKUP ∧ cnp.cn_flags &&& ISLASTCN ≠ 0 ∧
      r.dp.i_diroff = and_not r.dp.i_offset (DIRBLKSIZ - 1) ∧
      ((∀ i, env.vget_err i = 0) → env.vn_lock_err = 0 → r.ret = .returned 0))

/-- The mount `env_le` on which `VFS_VGET` fails with error 5 for every inode number. -/
def env_noget : ufs_env := { env_le with vget_err := fun _ => 5 }

/-- The free space of the records of `recs` that lie in the `DIRBLKSIZ` sub-block
starting at `base`: the record lengths of the free entries plus the slack of the entries
in use. -/
def subblock_free (env : ufs_env) (data : mem) (recs : List Nat) (base : Nat) : Int :=
  slot_free env data (recs.filter (fun o => decide (base ≤ o ∧ o < base + DIRBLKSIZ)))

/-- The invariant of the free-space count of the slot search once the records `done` have
been scanned: while no slot is found, no sub-block holds the space needed among the
scanned records and the count is the free space scanned in the sub-block of the last
record; once a slot is found, some sub-block holds the space needed. -/
def free_inv (env : ufs_env) (data : mem) (needed : Nat) (done : List Nat)
    (st : lookup_state) : Prop :=
  (st.slotstatus = slot_status.NONE →
    st.slotfreespace = subblock_free env data done ((st.i_offset - 1) / 512 * 512) ∧
      ∀ b, b % 512 = 0 → subblock_free env data done b < (needed : Int)) ∧
  (st.slotstatus ≠ slot_status.NONE →
    ∃ b, b % 512 = 0 ∧ (needed : Int) ≤ subblock_free env data done b)

/-- A one-block directory on `env_le` with the entries `foo -> 33` (record length 16, 4
bytes free), `a -> 34` (record length 20, 8 bytes free) and `bbbbb -> 35` (record length
476, 460 bytes free). -/
def block_gaps : mem :=
  mem_of
    [33, 0, 0, 0, 16, 0, 8, 3, 102, 111, 111, 0, 0, 0, 0, 0,
     34, 0, 0, 0, 20, 0, 8, 1, 97, 0, 0, 0, 0, 0, 0, 0, 0, 0, 0, 0,
     35, 0, 0, 0, 220, 1, 8, 5, 98, 98, 98, 98, 98, 0, 0, 0]

/-- A one-block directory on `env_le` without free space: 32 entries `xxxx -> 33` of
record length 16, each as long as its packed size. -/
def block_full : mem :=
  fun a =>
    if a < 512 then
      (if a % 16 = 0 then 33 else if a % 16 = 4 then 16 else if a % 16 = 6 then 8
       else if a % 16 = 7 then 4 else if 8 ≤ a % 16 ∧ a % 16 < 12 then 120 else 0)
    else 0

/-- The offsets of the 32 records of `block_full`. -/
def recs_full : List Nat :=
  [0, 16, 32, 48, 64, 80, 96, 112, 128, 144, 160, 176, 192, 208, 224, 240, 256, 272, 288,
   304, 320, 336, 352, 368, 384, 400, 416, 432, 448, 464, 480, 496]

/-- The directory inode as `ufs_lookup` leaves it when it reports an append to a
one-block directory. -/
def dp_end : inode := { dir_inode with i_offset := 512, i_count := 0 }

instance tiles_decidable (le : Bool) (data : mem) :
    (l : List Nat) → (a b : Nat) → Decidable (tiles le data a b l)
  | [], a, b => inferInstanceAs (Decidable (a = b))
  | o :: os, a, b =>
    have := tiles_decidable le data os (a + d_reclen le data a) b
    inferInstanceAs
      (Decidable (o = a ∧ 0 < d_reclen le data a ∧
        tiles le data (a + d_reclen le data a) b os))

/-! ## Vocabulary of the statements on removal -/

/-- The content `d2` with the records `recs2` is what is left of the content `d` with
the records `recs` once the entry at `t` is removed: a chain of sound records over the
same size, in which the records other than `t` carry the names and the inode numbers they
carried, the record at `t` carries none, and some record has the record length of `t` as
free space. -/
structure removed_entry (env : ufs_env) (d : mem) (size : Nat) (recs : List Nat) (t : Nat)
    (d2 : mem) (recs2 : List Nat) : Prop where
  chain : tiles env.little_endian d2 0 size recs2
  sound : ∀ o ∈ recs2, entry_ok env d2 o
  names : ∀ cnp : componentname, 0 < cnp.cn_namelen →
    recs2.filter (fun o => decide (is_match env d2 cnp o)) =
      (recs.filter (fun o => decide (o ≠ t))).filter
        (fun o => decide (is_match env d cnp o))
  kept : ∀ o ∈ recs2, o ≠ t → o ∈ recs ∧
    d_ino env.little_endian d2 o = d_ino env.little_endian d o ∧ d_type d2 o = d_type d o
  room : ∃ q ∈ recs2, (d_reclen env.little_endian d t : Int) ≤ entry_free env d2 q

/-- The record `lookup_hit` names, computed from the list of the matching records. -/
def hit_of (dp : inode) (cnp : componentname) (matching : List Nat) : Option Nat :=
  if lookup_onepass dp cnp then matching.head?
  else
    match (matching.filter (fun o => decide (dp.i_diroff ≤ o))).head? with
    | some p => some p
    | none => (matching.filter (fun o => decide (o < dp.i_diroff))).head?

/-- The calls that remove a directory entry, as the callers of `ufs_dirremove` make
them: `ufs_lookup` for the name of `cnp` (a DELETE lookup), then `ufs_dirremove` on the
directory inode as the lookup left it. -/
def remove_entry (env : ufs_env) (data : mem) (dp : inode) (cnp : componentname)
    (ip : Option link_inode) (flags : Nat) : dirremove_result :=
  ufs_dirremove env data (ufs_lookup env data dp cnp).dp ip flags

/-- The component name `a` for the given operation, on the final component. -/
def cn_a (nameiop : Nat) : componentname :=
  { cn_nameiop := nameiop, cn_flags := ISLASTCN, cn_nameptr := mem_of [97], cn_namelen := 1,
    cr_uid := 0 }

/-! ## Vocabulary of the statements on termination -/

/-- The search loop is left by one of its own exits, and not because the iteration budget
of the embedding ran out; the number of passes still to make is the count `passes` the loop
was entered with, or one less at the whiteout exit. -/
def loop_ends (passes : Nat) : search_exit → Prop
  | .io_error _ _ => True
  | .panic _ => True
  | .fault _ => True
  | .found _ _ => True
  | .whiteout st _ => st.numdirpasses = passes - 1
  | .exhausted st => st.numdirpasses = passes
  | .out_of_fuel _ => False

/-- An empty little-endian directory content: every record length reads as zero. -/
def block_zero : mem := mem_of []

/-! ## Vocabulary of the statements on the slot and the truncation point -/

/-- The invariant of `enduseful` once the records `done` have been scanned: no record in
use among them ends beyond it. -/
def useful_inv (env : ufs_env) (data : mem) (done : List Nat) (st : lookup_state) : Prop :=
  ∀ o ∈ done, d_ino env.little_endian data o ≠ 0 →
    o + d_reclen env.little_endian data o ≤ st.enduseful

/-- Every record reachable by walking the directory of `size` bytes with content `data`
from its start passes `ufs_dirbadentry`: the records reached cover the directory, each has a
record length that is a multiple of 4, none crosses its `DIRBLKSIZ` sub-block, and each is
at least as long as its packed size. -/
def walk_sound (env : ufs_env) (data : mem) (size : Nat) : Prop :=
  tiles env.little_endian data 0 size (walk env.little_endian data size size 0) ∧
    ∀ o ∈ walk env.little_endian data size size 0,
      ufs_dirbadentry env data o o = false ∧
        d_reclen env.little_endian data o % 4 = 0 ∧
        o % DIRBLKSIZ + d_reclen env.little_endian data o ≤ DIRBLKSIZ ∧
        DIRSIZ env (OFSFMT env) data o ≤ d_reclen env.little_endian data o

instance (env : ufs_env) (data : mem) (size : Nat) : Decidable (walk_sound env data size) := by
  unfold walk_sound; infer_instance

/-- A one-block directory on `env_le` with the entries `. -> 2` (record length 12),
`.. -> 2` (12), an entry `foobar -> 37` whose type is `DT_WHT` (16, as long as its packed
size) and a free record (472). Every record passes `ufs_dirbadentry`. -/
def block_typed : mem :=
  mem_of
    [2, 0, 0, 0, 12, 0, 4, 1, 46, 0, 0, 0,
     2, 0, 0, 0, 12, 0, 4, 2, 46, 46, 0, 0,
     37, 0, 0, 0, 16, 0, 14, 6, 102, 111, 111, 98, 97, 114, 0, 0,
     0, 0, 0, 0, 216, 1, 0, 0]

/-- A little-endian, old-format mount (`mnt_maxsymlinklen` is 0): the name length of an
entry is kept in the byte of `d_type`. Otherwise as `env_le`. -/
def env_old : ufs_env := { env_le with mnt_maxsymlinklen := 0 }

/-- A one-block old-format directory on `env_old` with the entries `ab -> 33` (record
length 12) and `c -> 34` (500); the 16-bit name length of the old format has its low byte
where `d_type` is. -/
def block_old : mem :=
  mem_of
    [33, 0, 0, 0, 12, 0, 2, 0, 97, 98, 0, 0,
     34, 0, 0, 0, 244, 1, 1, 0, 99, 0, 0, 0]

/-- The component name `ab` for the given operation, on the final component. -/
def cn_ab (nameiop : Nat) : componentname :=
  { cn_nameiop := nameiop, cn_flags := ISLASTCN, cn_nameptr := mem_of [97, 98],
    cn_namelen := 2, cr_uid := 0 }

/-- The inode of a directory whose size, 500, is not a multiple of `DIRBLKSIZ`; otherwise
as `dir_inode`. -/
def dir_inode_short : inode := { dir_inode with i_size := 500 }

end UfsLookup

/-! ## Theorems: ACL validation and evaluation -/

namespace KernAcl

/-! ### Bit-level facts -/

theorem and_or_of_and {a d : Nat} (c : Nat) (h : a &&& d = a) : a &&& (d ||| c) = a := by
  apply Nat.eq_of_testBit_eq
  intro i
  have hi := congrArg (fun x => x.testBit i) h
  simp only [Nat.testBit_and, Nat.testBit_or] at hi ⊢
  cases ha : a.testBit i <;> cases hd : d.testBit i <;> simp_all

theorem or_eq_iff_and_eq (p b : Nat) : p ||| b = b ↔ p &&& b = p := by
  constructor
  · intro h
    apply Nat.eq_of_testBit_eq
    intro i
    have hi := congrArg (fun x => x.testBit i) h
    simp only [Nat.testBit_and, Nat.testBit_or] at hi ⊢
    cases hp : p.testBit i <;> cases hb : b.testBit i <;> simp_all
  · intro h
    apply Nat.eq_of_testBit_eq
    intro i
    have hi := congrArg (fun x => x.testBit i) h
    simp only [Nat.testBit_and, Nat.testBit_or] at hi ⊢
    cases hp : p.testBit i <;> cases hb : b.testBit i <;> simp_all

theorem vaccess_error_ne_zero (acc_mode : Nat) : (vaccess_error acc_mode).error ≠ 0 := by
  unfold vaccess_error
  by_cases h : acc_mode &&& VADMIN ≠ 0 <;> simp [h, EPERM, EACCES]

theorem last_with_tag_cons (tag : Nat) (e : acl_entry) (es : List acl_entry) :
    last_with_tag tag (e :: es) =
      (last_with_tag tag es).or (if e.ae_tag = tag then some e else none) := by
  unfold last_with_tag
  rw [List.reverse_cons, List.find?_append]
  by_cases h : e.ae_tag = tag <;> simp [h, List.find?]

theorem owner_loop_miss (acc_mode cap_granted : Nat) (cred : ucred) :
    ∀ (es : List acl_entry) (m o : Option acl_entry),
      (∀ x ∈ es, ¬ owner_match cred x) →
      owner_loop acc_mode cap_granted cred es m o =
        .fellthrough ((last_with_tag ACL_MASK es).or m) ((last_with_tag ACL_OTHER es).or o) := by
  intro es
  induction es with
  | nil => intro m o _; simp [owner_loop, last_with_tag]
  | cons x xs ih =>
    intro m o hes
    have hx : ¬ owner_match cred x := hes x (List.mem_cons_self _ _)
    have hxs : ∀ y ∈ xs, ¬ owner_match cred y := fun y hy => hes y (List.mem_cons_of_mem _ hy)
    simp only [owner_loop, last_with_tag_cons]
    by_cases t1 : x.ae_tag = ACL_USER_OBJ
    · have hid : x.ae_id ≠ cred.cr_uid := fun h => hx ⟨t1, h⟩
      have n2 : x.ae_tag ≠ ACL_MASK := by rw [t1]; decide
      have n3 : x.ae_tag ≠ ACL_OTHER := by rw [t1]; decide
      rw [if_pos t1, if_pos hid, ih _ _ hxs, if_neg n2, if_neg n3]
      simp
    · by_cases t2 : x.ae_tag = ACL_MASK
      · have n3 : x.ae_tag ≠ ACL_OTHER := by rw [t2]; decide
        rw [if_neg t1, if_pos t2, ih _ _ hxs, if_pos t2, if_neg n3]
        cases last_with_tag ACL_MASK xs <;> cases last_with_tag ACL_OTHER xs <;> simp
      · by_cases t3 : x.ae_tag = ACL_OTHER
        · rw [if_neg t1, if_neg t2, if_pos t3, ih _ _ hxs, if_neg t2, if_pos t3]
          cases last_with_tag ACL_MASK xs <;> cases last_with_tag ACL_OTHER xs <;> simp
        · rw [if_neg t1, if_neg t2, if_neg t3, ih _ _ hxs, if_neg t2, if_neg t3]
          simp

theorem user_loop_miss (acc_mode cap_granted mg : Nat) (cred : ucred) :
    ∀ (es : List acl_entry), (∀ x ∈ es, ¬ user_match cred x) →
      user_loop acc_mode cap_granted mg cred es = none := by
  intro es
  induction es with
  | nil => intro _; simp [user_loop]
  | cons x xs ih =>
    intro hes
    have hx : ¬ user_match cred x := hes x (List.mem_cons_self _ _)
    have hxs : ∀ y ∈ xs, ¬ user_match cred y := fun y hy => hes y (List.mem_cons_of_mem _ hy)
    simp only [user_loop]
    by_cases t1 : x.ae_tag = ACL_USER
    · have hid : x.ae_id ≠ cred.cr_uid := fun h => hx ⟨t1, h⟩
      rw [if_pos t1, if_pos hid, ih hxs]
    · rw [if_neg t1, ih hxs]

theorem group_loop_hit (acc_mode mg : Nat) (cred : ucred) :
    ∀ (es : List acl_entry) (gm : Nat),
      (∃ g ∈ es, group_match cred g ∧ mode_subset acc_mode (perm_to_vmode g.ae_perm &&& mg)) →
      (group_loop acc_mode mg cred es gm).1 = some ⟨0, 0⟩ := by
  intro es
  induction es with
  | nil => intro gm h; obtain ⟨g, hg, _⟩ := h; simp at hg
  | cons x xs ih =>
    intro gm h
    obtain ⟨g, hg, hm, hs⟩ := h
    simp only [group_loop]
    by_cases hx : group_match cred x ∧ mode_subset acc_mode (perm_to_vmode x.ae_perm &&& mg)
    · obtain ⟨⟨ht, hmem⟩, hsub⟩ := hx
      unfold mode_subset at hsub
      simp [ht, hmem, hsub]
    · have hg' : g ∈ xs := by
        rcases List.mem_cons.mp hg with h1 | h1
        · subst h1; exact absurd ⟨hm, hs⟩ hx
        · exact h1
      have hrec : ∀ gm', (group_loop acc_mode mg cred xs gm').1 = some ⟨0, 0⟩ :=
        fun gm' => ih gm' ⟨g, hg', hm, hs⟩
      by_cases ht : x.ae_tag = ACL_GROUP_OBJ ∨ x.ae_tag = ACL_GROUP
      · by_cases hmem : groupmember x.ae_id cred = true
        · have hsub : ¬ (acc_mode &&& (perm_to_vmode x.ae_perm &&& mg) = acc_mode) :=
            fun hc => hx ⟨⟨ht, hmem⟩, hc⟩
          simp [ht, hmem, hsub, hrec]
        · simp [ht, hmem, hrec]
      · simp [ht, hrec]

theorem group_loop_denied (acc_mode mg : Nat) (cred : ucred) :
    ∀ (es : List acl_entry) (gm : Nat),
      (∀ g ∈ es, group_match cred g →
        ¬ mode_subset acc_mode (perm_to_vmode g.ae_perm &&& mg)) →
      group_loop acc_mode mg cred es gm =
        (none, if ∃ g ∈ es, group_match cred g then 1 else gm) := by
  intro es
  induction es with
  | nil => intro gm _; simp [group_loop]
  | cons x xs ih =>
    intro gm hes
    have hxs : ∀ y ∈ xs, group_match cred y →
        ¬ mode_subset acc_mode (perm_to_vmode y.ae_perm &&& mg) :=
      fun y hy => hes y (List.mem_cons_of_mem _ hy)
    simp only [group_loop]
    by_cases hx : group_match cred x
    · have hsub : ¬ (acc_mode &&& (perm_to_vmode x.ae_perm &&& mg) = acc_mode) :=
        hes x (List.mem_cons_self _ _) hx
      have hex : ∃ g ∈ x :: xs, group_match cred g := ⟨x, List.mem_cons_self _ _, hx⟩
      rw [if_pos hx.1, if_pos hx.2, if_neg hsub, ih 1 hxs, if_pos hex]
      by_cases h' : ∃ g ∈ xs, group_match cred g <;> simp [h']
    · have hiff : (∃ g ∈ x :: xs, group_match cred g) ↔ ∃ g ∈ xs, group_match cred g := by
        constructor
        · rintro ⟨g, hg, hm⟩
          rcases List.mem_cons.mp hg with h1 | h1
          · subst h1; exact absurd hm hx
          · exact ⟨g, h1, hm⟩
        · rintro ⟨g, hg, hm⟩
          exact ⟨g, List.mem_cons_of_mem _ hg, hm⟩
      by_cases ht : x.ae_tag = ACL_GROUP_OBJ ∨ x.ae_tag = ACL_GROUP
      · have hmem : ¬ groupmember x.ae_id cred = true := fun hc => hx ⟨ht, hc⟩
        rw [if_pos ht, if_neg hmem, ih gm hxs]
        simp only [hiff]
      · rw [if_neg ht, ih gm hxs]
        simp only [hiff]

theorem group_priv_loop_denied (acc_mode cap_granted mg : Nat) (cred : ucred) :
    ∀ (es : List acl_entry),
      (∀ g ∈ es, group_match cred g →
        ¬ mode_subset acc_mode ((perm_to_vmode g.ae_perm &&& mg) ||| cap_granted)) →
      group_priv_loop acc_mode cap_granted mg cred es = none := by
  intro es
  induction es with
  | nil => intro _; simp [group_priv_loop]
  | cons x xs ih =>
    intro hes
    have hxs := fun y hy => hes y (List.mem_cons_of_mem x hy)
    simp only [group_priv_loop]
    by_cases hx : group_match cred x
    · have hsub : ¬ (acc_mode &&& ((perm_to_vmode x.ae_perm &&& mg) ||| cap_granted) = acc_mode) :=
        hes x (List.mem_cons_self _ _) hx
      rw [if_pos hx.1, if_pos hx.2, if_neg hsub, ih hxs]
    · by_cases ht : x.ae_tag = ACL_GROUP_OBJ ∨ x.ae_tag = ACL_GROUP
      · have hmem : ¬ groupmember x.ae_id cred = true := fun hc => hx ⟨ht, hc⟩
        rw [if_pos ht, if_neg hmem, ih hxs]
      · rw [if_neg ht, ih hxs]

theorem last_with_tag_isSome (tag : Nat) (es : List acl_entry) :
    (∃ o ∈ es, o.ae_tag = tag) → ∃ o, last_with_tag tag es = some o := by
  intro h
  obtain ⟨o, ho, ht⟩ := h
  unfold last_with_tag
  cases hf : es.reverse.find? (fun e => decide (e.ae_tag = tag)) with
  | some v => exact ⟨v, rfl⟩
  | none =>
    rw [List.find?_eq_none] at hf
    have := hf o (List.mem_reverse.mpr ho)
    simp [ht] at this

/-- After a first loop that matched no owner, the body of `vaccess_acl_posix1e` with the
recorded `ACL_OTHER` entry `o` and the mask of the statements. -/
theorem vaccess_no_owner (a : acl) (acc_mode : Nat) (cred : ucred) (cap_granted : Nat)
    (o : acl_entry)
    (hown : ∀ x ∈ a.entries, ¬ owner_match cred x)
    (hoth : last_with_tag ACL_OTHER a.entries = some o) :
    vaccess_acl_posix1e a acc_mode cred cap_granted =
      match user_loop acc_mode cap_granted (mask_granted a.entries) cred a.entries with
      | some r => r
      | none =>
        match group_loop acc_mode (mask_granted a.entries) cred a.entries 0 with
        | (some r, _) => r
        | (none, group_matched) =>
          if group_matched = 1 then
            match group_priv_loop acc_mode cap_granted (mask_granted a.entries) cred
              a.entries with
            | some r => r
            | none => vaccess_error acc_mode
          else
            vaccess_decide acc_mode (perm_to_vmode o.ae_perm) cap_granted := by
  unfold vaccess_acl_posix1e
  rw [owner_loop_miss acc_mode cap_granted cred a.entries none none hown, hoth]
  unfold mask_granted
  cases last_with_tag ACL_MASK a.entries <;> simp

end KernAcl

namespace KernAcl

/-! ### `acl_posix1e_check` -/

theorem check_loop_counts :
    ∀ (es : List acl_entry) (c : tag_counts),
      (∀ e ∈ es, recognized_tag e.ae_tag ∧ e.ae_perm &&& ACL_PERM_BITS = e.ae_perm) →
      check_loop es c = some
        ⟨c.num_acl_user_obj + count_tag ACL_USER_OBJ es,
          c.num_acl_user + count_tag ACL_USER es,
          c.num_acl_group_obj + count_tag ACL_GROUP_OBJ es,
          c.num_acl_group + count_tag ACL_GROUP es,
          c.num_acl_mask + count_tag ACL_MASK es,
          c.num_acl_other + count_tag ACL_OTHER es⟩ := by
  intro es
  induction es with
  | nil => intro c _; simp [check_loop, count_tag]
  | cons x xs ih =>
    intro c hes
    obtain ⟨hrec, hperm⟩ := hes x (List.mem_cons_self _ _)
    have hxs := fun y hy => hes y (List.mem_cons_of_mem x hy)
    have hp : ¬ (x.ae_perm ||| ACL_PERM_BITS ≠ ACL_PERM_BITS) := by
      rw [not_not]; exact (or_eq_iff_and_eq _ _).mpr hperm
    unfold check_loop
    rcases hrec with t | t | t | t | t | t <;>
      simp [check_tag, t, hp, ih _ hxs, count_tag, List.filter_cons, ACL_USER_OBJ, ACL_USER,
        ACL_GROUP_OBJ, ACL_GROUP, ACL_OTHER, ACL_MASK, Nat.add_assoc, Nat.add_comm 1]

/-- C1, as stated, fails: the ACL `[UserObj, GroupObj, Other, Mask]` is within the
maximum, carries only recognized tags and legal bits, and `acl_posix1e_check` accepts it,
although it has a `Mask` entry without any `User` or `Group` entry. -/
theorem acl_posix1e_check_accepts_lone_mask :
    acl_wellformed acl_mask_only ∧ acl_posix1e_check acl_mask_only = 0 ∧
      ¬ counts_as_specified acl_mask_only.entries := by
  decide

/-- C1 (amended): for every ACL whose entry count is within the maximum and whose entries
all carry recognized tags and legal permission bits, `acl_posix1e_check` succeeds if and
only if the ACL has exactly one `UserObj`, exactly one `GroupObj`, exactly one `Other`, at
most one `Mask`, and exactly one `Mask` whenever a `User` or `Group` entry is present. -/
theorem acl_posix1e_check_iff_counts (a : acl) (hwf : acl_wellformed a) :
    acl_posix1e_check a = 0 ↔ counts_accepted a.entries := by
  obtain ⟨h0, hmax, hes⟩ := hwf
  have hguard : ¬ (a.acl_cnt > (ACL_MAX_ENTRIES : Int) ∨ a.acl_cnt < 0) := by
    intro h; rcases h with h | h <;> omega
  unfold acl_posix1e_check counts_accepted
  rw [if_neg hguard, check_loop_counts a.entries ⟨0, 0, 0, 0, 0, 0⟩ hes]
  simp only [Nat.zero_add]
  generalize count_tag ACL_USER_OBJ a.entries = uo
  generalize count_tag ACL_GROUP_OBJ a.entries = go
  generalize count_tag ACL_OTHER a.entries = ot
  generalize count_tag ACL_MASK a.entries = mk
  generalize count_tag ACL_USER a.entries = us
  generalize count_tag ACL_GROUP a.entries = gr
  by_cases c1 : uo ≠ 1 ∨ go ≠ 1 ∨ ot ≠ 1 ∨ (mk ≠ 0 ∧ mk ≠ 1)
  · rw [if_pos c1]
    simp only [EINVAL]
    constructor
    · intro h; omega
    · intro h; omega
  · rw [if_neg c1]
    by_cases c2 : (gr ≠ 0 ∨ us ≠ 0) ∧ mk ≠ 1
    · rw [if_pos c2]
      simp only [EINVAL]
      constructor
      · intro h; omega
      · intro h; omega
    · rw [if_neg c2]
      constructor
      · intro _
        refine ⟨by omega, by omega, by omega, by omega, ?_⟩
        intro h; omega
      · intro _; rfl

/-- Witness of C1 (amended) on an ACL with a named user and a named group. -/
theorem acl_posix1e_check_iff_counts_witness :
    acl_wellformed acl_named ∧
      (acl_posix1e_check acl_named = 0 ↔ counts_accepted acl_named.entries) :=
  ⟨by decide, acl_posix1e_check_iff_counts acl_named (by decide)⟩

/-! ### `vaccess_acl_posix1e` -/

/-- C3, as stated, fails: on the ACL made of one owning-group entry that grants read, a
credential of that group matches no `UserObj` and no `User` entry and the group entry
covers a read request, yet `vaccess_acl_posix1e` fails with `EPERM`, because the ACL has no
`Other` entry. -/
theorem vaccess_group_needs_other :
    (∀ x ∈ acl_group_only.entries, ¬ owner_match ⟨1, [5]⟩ x) ∧
      (∀ x ∈ acl_group_only.entries, ¬ user_match ⟨1, [5]⟩ x) ∧
      (∃ g ∈ acl_group_only.entries, group_match ⟨1, [5]⟩ g ∧
        mode_subset VREAD (perm_to_vmode g.ae_perm &&& mask_granted acl_group_only.entries)) ∧
      vaccess_acl_posix1e acl_group_only VREAD ⟨1, [5]⟩ 0 = ⟨EPERM, 0⟩ := by
  decide

/-- C3 (amended): group matching is best-match. For every ACL that contains an `Other`
entry and every credential that matches no `UserObj` and no `User` entry, if at least one
`GroupObj`/`Group` entry of a group the credential belongs to has (entry bits & mask)
covering the requested mode, `vaccess_acl_posix1e` succeeds without using privilege,
wherever that entry stands and whatever the other matching group entries deny. -/
theorem vaccess_group_best_match (a : acl) (acc_mode : Nat) (cred : ucred)
    (cap_granted : Nat)
    (hother : ∃ o ∈ a.entries, o.ae_tag = ACL_OTHER)
    (hown : ∀ x ∈ a.entries, ¬ owner_match cred x)
    (husr : ∀ x ∈ a.entries, ¬ user_match cred x)
    (hgrp : ∃ g ∈ a.entries, group_match cred g ∧
      mode_subset acc_mode (perm_to_vmode g.ae_perm &&& mask_granted a.entries)) :
    vaccess_acl_posix1e a acc_mode cred cap_granted = ⟨0, 0⟩ := by
  obtain ⟨o, ho⟩ := last_with_tag_isSome ACL_OTHER a.entries hother
  rw [vaccess_no_owner a acc_mode cred cap_granted o hown ho,
    user_loop_miss acc_mode cap_granted _ cred a.entries husr]
  have h := group_loop_hit acc_mode (mask_granted a.entries) cred a.entries 0 hgrp
  revert h
  cases group_loop acc_mode (mask_granted a.entries) cred a.entries 0 with
  | mk r gm =>
    intro h
    simp only at h
    subst h
    rfl

/-- Witness of C3 (amended): the first matching group entry denies, a later one grants. -/
theorem vaccess_group_best_match_witness :
    vaccess_acl_posix1e
      ⟨5, [⟨ACL_USER_OBJ, 1, 7⟩, ⟨ACL_GROUP, 5, 0⟩, ⟨ACL_GROUP, 6, ACL_READ⟩,
        ⟨ACL_MASK, 0, 7⟩, ⟨ACL_OTHER, 0, 0⟩]⟩ VREAD ⟨2, [5, 6]⟩ 0 = ⟨0, 0⟩ :=
  vaccess_group_best_match
    ⟨5, [⟨ACL_USER_OBJ, 1, 7⟩, ⟨ACL_GROUP, 5, 0⟩, ⟨ACL_GROUP, 6, ACL_READ⟩,
      ⟨ACL_MASK, 0, 7⟩, ⟨ACL_OTHER, 0, 0⟩]⟩ VREAD ⟨2, [5, 6]⟩ 0
    (by decide) (by decide) (by decide) (by decide)

set_option maxRecDepth 100000 in
/-- The round trip, checked on each of the 512 mode values with arbitrary qualifiers left
out (the composition reads only the permission bits of the three entries). -/
theorem mode_round_trip_table : ∀ m, m < 512 →
    acl_posix1e_perms_to_mode
      ⟨ACL_USER_OBJ, 0, acl_posix1e_mode_to_perm ACL_USER_OBJ m⟩
      ⟨ACL_GROUP_OBJ, 0, acl_posix1e_mode_to_perm ACL_GROUP_OBJ m⟩
      ⟨ACL_OTHER, 0, acl_posix1e_mode_to_perm ACL_OTHER m⟩ = m := by
  decide

/-- C4: mode round trip. For every mode value in 0..0777 and every uid and gid,
`acl_posix1e_perms_to_mode` applied to the three entries `acl_posix1e_mode_to_entry` builds
for `UserObj`, `GroupObj` and `Other` gives back the mode exactly. -/
theorem mode_round_trip (mode uid gid : Nat) (hmode : mode ≤ 0o777) :
    acl_posix1e_perms_to_mode
      (acl_posix1e_mode_to_entry ACL_USER_OBJ uid gid mode)
      (acl_posix1e_mode_to_entry ACL_GROUP_OBJ uid gid mode)
      (acl_posix1e_mode_to_entry ACL_OTHER uid gid mode) = mode := by
  have hm : mode < 512 := by
    have : (0o777 : Nat) = 511 := by decide
    omega
  have h := mode_round_trip_table mode hm
  unfold acl_posix1e_perms_to_mode at h ⊢
  exact h

/-- Witness of C4 at mode 0754. -/
theorem mode_round_trip_witness :
    acl_posix1e_perms_to_mode
      (acl_posix1e_mode_to_entry ACL_USER_OBJ 100 20 0o754)
      (acl_posix1e_mode_to_entry ACL_GROUP_OBJ 100 20 0o754)
      (acl_posix1e_mode_to_entry ACL_OTHER 100 20 0o754) = 0o754 :=
  mode_round_trip 0o754 100 20 (by decide)

/-- C6: no fallback from group to `Other`. For every ACL and every credential that
matches no `UserObj` and no `User` entry but belongs to the group of at least one
`GroupObj`/`Group` entry, if no matching group entry has the requested mode within
`(entry bits & mask) | privilege set`, then `vaccess_acl_posix1e` fails, whatever the
`Other` entry grants. -/
theorem vaccess_group_no_fallback (a : acl) (acc_mode : Nat) (cred : ucred)
    (cap_granted : Nat)
    (hown : ∀ x ∈ a.entries, ¬ owner_match cred x)
    (husr : ∀ x ∈ a.entries, ¬ user_match cred x)
    (hgrp : ∃ g ∈ a.entries, group_match cred g)
    (hden : ∀ g ∈ a.entries, group_match cred g →
      ¬ mode_subset acc_mode
        ((perm_to_vmode g.ae_perm &&& mask_granted a.entries) ||| cap_granted)) :
    (vaccess_acl_posix1e a acc_mode cred cap_granted).error ≠ 0 := by
  cases ho : last_with_tag ACL_OTHER a.entries with
  | none =>
    unfold vaccess_acl_posix1e
    rw [owner_loop_miss acc_mode cap_granted cred a.entries none none hown, ho]
    simp [EPERM]
  | some o =>
    rw [vaccess_no_owner a acc_mode cred cap_granted o hown ho,
      user_loop_miss acc_mode cap_granted _ cred a.entries husr]
    have hden0 : ∀ g ∈ a.entries, group_match cred g →
        ¬ mode_subset acc_mode (perm_to_vmode g.ae_perm &&& mask_granted a.entries) := by
      intro g hg hm hc
      exact hden g hg hm (and_or_of_and cap_granted hc)
    rw [group_loop_denied acc_mode _ cred a.entries 0 hden0, if_pos hgrp]
    simp only [if_true]
    rw [group_priv_loop_denied acc_mode cap_granted _ cred a.entries hden]
    exact vaccess_error_ne_zero acc_mode

/-- Witness of C6: the only matching group entry grants nothing, `Other` grants write,
and a write request fails. -/
theorem vaccess_group_no_fallback_witness :
    (vaccess_acl_posix1e acl_named VWRITE ⟨300, [10]⟩ 0).error ≠ 0 :=
  vaccess_group_no_fallback acl_named VWRITE ⟨300, [10]⟩ 0
    (by decide) (by decide) (by decide) (by decide)

/-- C21: `acl_posix1e_check` fails with `EINVAL` for every ACL whose entry count exceeds
`ACL_MAX_ENTRIES` or is negative, whatever the entry array holds: the outcome is the same
for every entry list, so it is decided without reading an entry. -/
theorem acl_posix1e_check_count_range (cnt : Int) (es : List acl_entry)
    (h : cnt > (ACL_MAX_ENTRIES : Int) ∨ cnt < 0) :
    acl_posix1e_check ⟨cnt, es⟩ = EINVAL ∧ acl_posix1e_check ⟨cnt, es⟩ ≠ 0 := by
  have h1 : acl_posix1e_check ⟨cnt, es⟩ = EINVAL := by
    unfold acl_posix1e_check
    rw [if_pos h]
  rw [h1]
  exact ⟨rfl, by decide⟩

/-- Witness of C21: a count of 33 over an otherwise valid entry list, and a count of -1. -/
theorem acl_posix1e_check_count_range_witness :
    (acl_posix1e_check ⟨33, acl_mask_only.acl_entry⟩ = EINVAL ∧
      acl_posix1e_check ⟨33, acl_mask_only.acl_entry⟩ ≠ 0) ∧
    (acl_posix1e_check ⟨-1, []⟩ = EINVAL ∧ acl_posix1e_check ⟨-1, []⟩ ≠ 0) :=
  ⟨acl_posix1e_check_count_range 33 acl_mask_only.acl_entry (Or.inl (by decide)),
    acl_posix1e_check_count_range (-1) [] (Or.inr (by decide))⟩

theorem check_tag_unrecognized (e : acl_entry) (c : tag_counts)
    (h : ¬ recognized_tag e.ae_tag) : check_tag e c = none := by
  unfold recognized_tag at h
  simp only [not_or] at h
  obtain ⟨h1, h2, h3, h4, h5, h6⟩ := h
  unfold check_tag
  rw [if_neg h1, if_neg h3, if_neg h2, if_neg h4, if_neg h5, if_neg h6]

theorem check_loop_illegal :
    ∀ (es : List acl_entry) (c : tag_counts),
      (∃ e ∈ es, illegal_entry e) → check_loop es c = none := by
  intro es
  induction es with
  | nil => intro c h; obtain ⟨e, he, _⟩ := h; simp at he
  | cons x xs ih =>
    intro c h
    obtain ⟨e, he, hbad⟩ := h
    unfold check_loop
    cases hct : check_tag x c with
    | none => rfl
    | some c' =>
      simp only
      by_cases hp : x.ae_perm ||| ACL_PERM_BITS ≠ ACL_PERM_BITS
      · rw [if_pos hp]
      · rw [if_neg hp]
        apply ih
        rcases List.mem_cons.mp he with h1 | h1
        · subst h1
          rcases hbad with hb | hb
          · rw [check_tag_unrecognized e c hb] at hct
            exact Option.noConfusion hct
          · exact absurd ((or_eq_iff_and_eq _ _).mp (not_not.mp hp)) hb
        · exact ⟨e, h1, hbad⟩

/-- C22: `acl_posix1e_check` fails with `EINVAL` for every ACL in which some entry among
the first `acl_cnt` carries a tag outside the six recognized ones or a permission bit
outside `ACL_PERM_BITS`, whatever the tag counts are. -/
theorem acl_posix1e_check_illegal_entry (a : acl) (e : acl_entry) (he : e ∈ a.entries)
    (hbad : illegal_entry e) :
    acl_posix1e_check a = EINVAL ∧ acl_posix1e_check a ≠ 0 := by
  have h1 : acl_posix1e_check a = EINVAL := by
    unfold acl_posix1e_check
    by_cases hg : a.acl_cnt > (ACL_MAX_ENTRIES : Int) ∨ a.acl_cnt < 0
    · rw [if_pos hg]
    · rw [if_neg hg, check_loop_illegal a.entries _ ⟨e, he, hbad⟩]
  rw [h1]
  exact ⟨rfl, by decide⟩

/-- Witness of C22: an unknown tag among otherwise correct counts, and an illegal
permission bit on the `Other` entry of otherwise correct counts. -/
theorem acl_posix1e_check_illegal_entry_witness :
    (counts_accepted (acl_odd_tag.entries.filter (fun e => decide (recognized_tag e.ae_tag))) ∧
      acl_posix1e_check acl_odd_tag = EINVAL ∧ acl_posix1e_check acl_odd_tag ≠ 0) ∧
    (counts_accepted acl_odd_perm.entries ∧
      acl_posix1e_check acl_odd_perm = EINVAL ∧ acl_posix1e_check acl_odd_perm ≠ 0) :=
  ⟨⟨by decide,
      acl_posix1e_check_illegal_entry acl_odd_tag ⟨0x40, 0, 0⟩ (by decide) (by decide)⟩,
    ⟨by decide,
      acl_posix1e_check_illegal_entry acl_odd_perm ⟨ACL_OTHER, 0, 8⟩ (by decide) (by decide)⟩⟩

/-! ### The error code of `vaccess_acl_posix1e` -/

theorem vaccess_decide_failure (acc_mode dac_granted cap_granted : Nat)
    (h : (vaccess_decide acc_mode dac_granted cap_granted).error ≠ 0) :
    (vaccess_decide acc_mode dac_granted cap_granted).error = failure_code acc_mode := by
  unfold vaccess_decide at h ⊢
  by_cases h1 : acc_mode &&& dac_granted = acc_mode
  · rw [if_pos h1] at h; exact absurd rfl h
  · by_cases h2 : acc_mode &&& (dac_granted ||| cap_granted) = acc_mode
    · rw [if_neg h1, if_pos h2] at h; exact absurd rfl h
    · rw [if_neg h1, if_neg h2]; rfl

theorem owner_loop_returned (acc_mode cap_granted : Nat) (cred : ucred) :
    ∀ (es : List acl_entry) (m o : Option acl_entry) (r : vaccess_result),
      owner_loop acc_mode cap_granted cred es m o = .returned r →
      (∃ d, r = vaccess_decide acc_mode d cap_granted) ∧ ∃ x ∈ es, owner_match cred x := by
  intro es
  induction es with
  | nil => intro m o r h; simp [owner_loop] at h
  | cons x xs ih =>
    intro m o r h
    have lift : ∀ m' o', owner_loop acc_mode cap_granted cred xs m' o' = .returned r →
        (∃ d, r = vaccess_decide acc_mode d cap_granted) ∧
          ∃ y ∈ x :: xs, owner_match cred y := by
      intro m' o' h'
      obtain ⟨hd, y, hy, hm⟩ := ih m' o' r h'
      exact ⟨hd, y, List.mem_cons_of_mem _ hy, hm⟩
    rw [owner_loop] at h
    by_cases t1 : x.ae_tag = ACL_USER_OBJ
    · rw [if_pos t1] at h
      by_cases hid : x.ae_id ≠ cred.cr_uid
      · rw [if_pos hid] at h; exact lift _ _ h
      · rw [if_neg hid] at h
        injection h with h
        exact ⟨⟨_, h.symm⟩, x, List.mem_cons_self _ _, t1, not_not.mp hid⟩
    · rw [if_neg t1] at h
      by_cases t2 : x.ae_tag = ACL_MASK
      · rw [if_pos t2] at h; exact lift _ _ h
      · rw [if_neg t2] at h
        by_cases t3 : x.ae_tag = ACL_OTHER
        · rw [if_pos t3] at h; exact lift _ _ h
        · rw [if_neg t3] at h; exact lift _ _ h

theorem owner_loop_fellthrough (acc_mode cap_granted : Nat) (cred : ucred) :
    ∀ (es : List acl_entry) (m o m' o' : Option acl_entry),
      owner_loop acc_mode cap_granted cred es m o = .fellthrough m' o' →
      (∀ x ∈ es, ¬ owner_match cred x) ∧ o' = (last_with_tag ACL_OTHER es).or o := by
  intro es m o m' o' h
  have hno : ∀ x ∈ es, ¬ owner_match cred x := by
    intro x hx hm
    revert h
    have key : ∀ (l : List acl_entry) (m o : Option acl_entry), x ∈ l →
        ∃ r, owner_loop acc_mode cap_granted cred l m o = .returned r := by
      intro l
      induction l with
      | nil => intro m o hl; simp at hl
      | cons y ys ih =>
        intro m o hl
        rw [owner_loop]
        by_cases t1 : y.ae_tag = ACL_USER_OBJ
        · rw [if_pos t1]
          by_cases hid : y.ae_id ≠ cred.cr_uid
          · rw [if_pos hid]
            rcases List.mem_cons.mp hl with h1 | h1
            · subst h1; exact absurd hm.2 hid
            · exact ih _ _ h1
          · rw [if_neg hid]; exact ⟨_, rfl⟩
        · have hne : x ≠ y := fun hxy => t1 (hxy ▸ hm.1)
          have hys : x ∈ ys := by
            rcases List.mem_cons.mp hl with h1 | h1
            · exact absurd h1 hne
            · exact h1
          rw [if_neg t1]
          by_cases t2 : y.ae_tag = ACL_MASK
          · rw [if_pos t2]; exact ih _ _ hys
          · rw [if_neg t2]
            by_cases t3 : y.ae_tag = ACL_OTHER
            · rw [if_pos t3]; exact ih _ _ hys
            · rw [if_neg t3]; exact ih _ _ hys
    obtain ⟨r, hr⟩ := key es m o hx
    rw [hr]
    intro h
    exact owner_scan.noConfusion h
  refine ⟨hno, ?_⟩
  rw [owner_loop_miss acc_mode cap_granted cred es m o hno] at h
  injection h with _ h2
  exact h2.symm

theorem user_loop_returned (acc_mode cap_granted mg : Nat) (cred : ucred) :
    ∀ (es : List acl_entry) (r : vaccess_result),
      user_loop acc_mode cap_granted mg cred es = some r →
      ∃ d, r = vaccess_decide acc_mode d cap_granted := by
  intro es
  induction es with
  | nil => intro r h; simp [user_loop] at h
  | cons x xs ih =>
    intro r h
    rw [user_loop] at h
    by_cases t1 : x.ae_tag = ACL_USER
    · rw [if_pos t1] at h
      by_cases hid : x.ae_id ≠ cred.cr_uid
      · rw [if_pos hid] at h; exact ih r h
      · rw [if_neg hid] at h
        injection h with h
        exact ⟨_, h.symm⟩
    · rw [if_neg t1] at h; exact ih r h

theorem group_loop_returned (acc_mode mg : Nat) (cred : ucred) :
    ∀ (es : List acl_entry) (gm : Nat) (r : vaccess_result),
      (group_loop acc_mode mg cred es gm).1 = some r → r.error = 0 := by
  intro es
  induction es with
  | nil => intro gm r h; simp [group_loop] at h
  | cons x xs ih =>
    intro gm r h
    rw [group_loop] at h
    by_cases ht : x.ae_tag = ACL_GROUP_OBJ ∨ x.ae_tag = ACL_GROUP
    · rw [if_pos ht] at h
      by_cases hmem : groupmember x.ae_id cred = true
      · rw [if_pos hmem] at h
        by_cases hs : acc_mode &&& (perm_to_vmode x.ae_perm &&& mg) = acc_mode
        · rw [if_pos hs] at h
          injection h with h
          rw [← h]
        · rw [if_neg hs] at h; exact ih _ r h
      · rw [if_neg hmem] at h; exact ih _ r h
    · rw [if_neg ht] at h; exact ih _ r h

theorem group_priv_loop_returned (acc_mode cap_granted mg : Nat) (cred : ucred) :
    ∀ (es : List acl_entry) (r : vaccess_result),
      group_priv_loop acc_mode cap_granted mg cred es = some r → r.error = 0 := by
  intro es
  induction es with
  | nil => intro r h; simp [group_priv_loop] at h
  | cons x xs ih =>
    intro r h
    rw [group_priv_loop] at h
    by_cases ht : x.ae_tag = ACL_GROUP_OBJ ∨ x.ae_tag = ACL_GROUP
    · rw [if_pos ht] at h
      by_cases hmem : groupmember x.ae_id cred = true
      · rw [if_pos hmem] at h
        by_cases hs : acc_mode &&& ((perm_to_vmode x.ae_perm &&& mg) ||| cap_granted) = acc_mode
        · rw [if_pos hs] at h
          injection h with h
          rw [← h]
        · rw [if_neg hs] at h; exact ih r h
      · rw [if_neg hmem] at h; exact ih r h
    · rw [if_neg ht] at h; exact ih r h

/-- Every failing exit of `vaccess_acl_posix1e` is either the label `error:` (or one of
the tests in front of it), or the guard on a missing `ACL_OTHER` entry after a first loop
that matched no owner. -/
theorem vaccess_failure_exits (a : acl) (acc_mode : Nat) (cred : ucred) (cap_granted : Nat)
    (hfail : (vaccess_acl_posix1e a acc_mode cred cap_granted).error ≠ 0) :
    (vaccess_acl_posix1e a acc_mode cred cap_granted).error = failure_code acc_mode ∨
      ((∀ x ∈ a.entries, ¬ owner_match cred x) ∧ (∀ e ∈ a.entries, e.ae_tag ≠ ACL_OTHER) ∧
        vaccess_acl_posix1e a acc_mode cred cap_granted = ⟨EPERM, 0⟩) := by
  cases hol : owner_loop acc_mode cap_granted cred a.entries none none with
  | returned r =>
    obtain ⟨⟨d, hd⟩, _⟩ := owner_loop_returned acc_mode cap_granted cred _ _ _ _ hol
    have he : vaccess_acl_posix1e a acc_mode cred cap_granted = r := by
      unfold vaccess_acl_posix1e
      rw [hol]
    rw [he] at hfail ⊢
    subst hd
    exact Or.inl (vaccess_decide_failure _ _ _ hfail)
  | fellthrough m o =>
    obtain ⟨hno, _⟩ := owner_loop_fellthrough acc_mode cap_granted cred _ _ _ _ _ hol
    cases hl : last_with_tag ACL_OTHER a.entries with
    | none =>
      refine Or.inr ⟨hno, ?_, ?_⟩
      · intro e he ht
        obtain ⟨v, hv⟩ := last_with_tag_isSome ACL_OTHER a.entries ⟨e, he, ht⟩
        rw [hv] at hl
        exact Option.noConfusion hl
      · unfold vaccess_acl_posix1e
        rw [owner_loop_miss acc_mode cap_granted cred a.entries none none hno, hl]
        rfl
    | some oe =>
      left
      rw [vaccess_no_owner a acc_mode cred cap_granted oe hno hl] at hfail ⊢
      generalize mask_granted a.entries = mg at hfail ⊢
      cases hul : user_loop acc_mode cap_granted mg cred a.entries with
      | some r =>
        rw [hul] at hfail
        obtain ⟨d, hd⟩ := user_loop_returned acc_mode cap_granted mg cred _ _ hul
        simp only at hfail ⊢
        subst hd
        exact vaccess_decide_failure _ _ _ hfail
      | none =>
        rw [hul] at hfail
        simp only at hfail ⊢
        cases hgl : group_loop acc_mode mg cred a.entries 0 with
        | mk gr gm =>
          rw [hgl] at hfail
          cases gr with
          | some r =>
            have := group_loop_returned acc_mode mg cred a.entries 0 r (by rw [hgl])
            simp only at hfail
            exact absurd this hfail
          | none =>
            simp only at hfail ⊢
            by_cases hgm : gm = 1
            · rw [if_pos hgm] at hfail ⊢
              cases hgp : group_priv_loop acc_mode cap_granted mg cred a.entries with
              | some r =>
                rw [hgp] at hfail
                have := group_priv_loop_returned acc_mode cap_granted mg cred a.entries r hgp
                simp only at hfail
                exact absurd this hfail
              | none => rfl
            · rw [if_neg hgm] at hfail ⊢
              exact vaccess_decide_failure _ _ _ hfail

/-- C23, as stated, fails: on the ACL made of one owning-group entry, which has no `Other`
entry, a read request without `VADMIN` by a credential that matches no owner entry fails
with `EPERM`, not with `EACCES`. -/
theorem vaccess_eperm_without_admin :
    VREAD &&& VADMIN = 0 ∧
      (vaccess_acl_posix1e acl_group_only VREAD ⟨1, [5]⟩ 0).error = EPERM ∧
      (vaccess_acl_posix1e acl_group_only VREAD ⟨1, [5]⟩ 0).error ≠ EACCES ∧
      (vaccess_acl_posix1e acl_group_only VREAD ⟨1, [5]⟩ 0).error ≠ failure_code VREAD := by
  decide

/-- C23 (amended): whenever `vaccess_acl_posix1e` fails on an ACL that contains an `Other`
entry or a `UserObj` entry of the credential's uid, the error is `EPERM` if the requested
mode contains `VADMIN` and `EACCES` if it does not; on an ACL with neither, it fails with
`EPERM` whatever the requested mode is. -/
theorem vaccess_failure_code (a : acl) (acc_mode : Nat) (cred : ucred) (cap_granted : Nat)
    (hfail : (vaccess_acl_posix1e a acc_mode cred cap_granted).error ≠ 0) :
    (((∃ o ∈ a.entries, o.ae_tag = ACL_OTHER) ∨ (∃ x ∈ a.entries, owner_match cred x)) →
      (vaccess_acl_posix1e a acc_mode cred cap_granted).error =
        (if acc_mode &&& VADMIN ≠ 0 then EPERM else EACCES)) ∧
    (¬ ((∃ o ∈ a.entries, o.ae_tag = ACL_OTHER) ∨ (∃ x ∈ a.entries, owner_match cred x)) →
      (vaccess_acl_posix1e a acc_mode cred cap_granted).error = EPERM) := by
  rcases vaccess_failure_exits a acc_mode cred cap_granted hfail with h | ⟨hno, hoth, hr⟩
  · constructor
    · intro _; exact h
    · intro hn
      simp only [not_or, not_exists, not_and] at hn
      have hno : ∀ x ∈ a.entries, ¬ owner_match cred x := fun x hx => hn.2 x hx
      have hl : last_with_tag ACL_OTHER a.entries = none := by
        cases hc : last_with_tag ACL_OTHER a.entries with
        | none => rfl
        | some v =>
          unfold last_with_tag at hc
          have hv := List.find?_some hc
          have hm := List.mem_of_find?_eq_some hc
          exact absurd (of_decide_eq_true hv) (hn.1 v (List.mem_reverse.mp hm))
      unfold vaccess_acl_posix1e
      rw [owner_loop_miss acc_mode cap_granted cred a.entries none none hno, hl]
      rfl
  · constructor
    · intro hy
      rcases hy with ⟨o, ho, ht⟩ | ⟨x, hx, hm⟩
      · exact absurd ht (hoth o ho)
      · exact absurd hm (hno x hx)
    · intro _; rw [hr]

/-- Witness of C23 (amended): a write request with `VADMIN` refused by the `Other` entry
of `acl_named`. -/
theorem vaccess_failure_code_witness :
    ((((∃ o ∈ acl_named.entries, o.ae_tag = ACL_OTHER) ∨
        (∃ x ∈ acl_named.entries, owner_match ⟨300, []⟩ x)) →
      (vaccess_acl_posix1e acl_named (VADMIN ||| VREAD) ⟨300, []⟩ 0).error =
        (if (VADMIN ||| VREAD) &&& VADMIN ≠ 0 then EPERM else EACCES)) ∧
    (¬ ((∃ o ∈ acl_named.entries, o.ae_tag = ACL_OTHER) ∨
        (∃ x ∈ acl_named.entries, owner_match ⟨300, []⟩ x)) →
      (vaccess_acl_posix1e acl_named (VADMIN ||| VREAD) ⟨300, []⟩ 0).error = EPERM)) ∧
    (vaccess_acl_posix1e acl_named (VADMIN ||| VREAD) ⟨300, []⟩ 0).error = EPERM :=
  ⟨vaccess_failure_code acl_named (VADMIN ||| VREAD) ⟨300, []⟩ 0 (by decide), by decide⟩

/-! ### `acl_posix1e_mode_to_perm` -/

theorem and_low9 (m k : Nat) (hk : 511 &&& k = k) : m &&& k = (m % 512) &&& k := by
  have h : m % 512 = m &&& 511 := (Nat.and_pow_two_sub_one_eq_mod m 9).symm
  rw [h, Nat.and_assoc, hk]

set_option maxRecDepth 100000 in
/-- The three triads, checked on each of the 512 values of the low nine bits. -/
theorem mode_to_perm_table : ∀ m, m < 512 →
    acl_posix1e_mode_to_perm ACL_USER_OBJ m = triad_perm (m / 64 % 8) ∧
      acl_posix1e_mode_to_perm ACL_GROUP_OBJ m = triad_perm (m / 8 % 8) ∧
      acl_posix1e_mode_to_perm ACL_OTHER m = triad_perm (m % 8) := by
  decide

theorem mode_to_perm_low9 (tag mode : Nat) :
    acl_posix1e_mode_to_perm tag mode = acl_posix1e_mode_to_perm tag (mode % 512) := by
  unfold acl_posix1e_mode_to_perm
  rw [and_low9 mode S_IXUSR (by decide), and_low9 mode S_IRUSR (by decide),
    and_low9 mode S_IWUSR (by decide), and_low9 mode S_IXGRP (by decide),
    and_low9 mode S_IRGRP (by decide), and_low9 mode S_IWGRP (by decide),
    and_low9 mode S_IXOTH (by decide), and_low9 mode S_IROTH (by decide),
    and_low9 mode S_IWOTH (by decide)]

/-- C24: the triad selected by the tag. For every mode word, `acl_posix1e_mode_to_perm`
gives for `UserObj` the owner triad (bits 0700), for `GroupObj` the group triad (bits
0070) and for `Other` the other triad (bits 0007), each mapped to read/write/execute, so
that two mode words that agree on the selected triad give the same result; for every other
tag the result is the empty permission set. -/
theorem mode_to_perm_triads (mode : Nat) :
    (acl_posix1e_mode_to_perm ACL_USER_OBJ mode = triad_perm (mode / 64 % 8) ∧
      acl_posix1e_mode_to_perm ACL_GROUP_OBJ mode = triad_perm (mode / 8 % 8) ∧
      acl_posix1e_mode_to_perm ACL_OTHER mode = triad_perm (mode % 8)) ∧
    (∀ mode2, mode2 / 64 % 8 = mode / 64 % 8 →
      acl_posix1e_mode_to_perm ACL_USER_OBJ mode2 =
        acl_posix1e_mode_to_perm ACL_USER_OBJ mode) ∧
    (∀ mode2, mode2 / 8 % 8 = mode / 8 % 8 →
      acl_posix1e_mode_to_perm ACL_GROUP_OBJ mode2 =
        acl_posix1e_mode_to_perm ACL_GROUP_OBJ mode) ∧
    (∀ mode2, mode2 % 8 = mode % 8 →
      acl_posix1e_mode_to_perm ACL_OTHER mode2 = acl_posix1e_mode_to_perm ACL_OTHER mode) ∧
    (∀ tag, tag ≠ ACL_USER_OBJ → tag ≠ ACL_GROUP_OBJ → tag ≠ ACL_OTHER →
      acl_posix1e_mode_to_perm tag mode = 0) := by
  have key : ∀ m, acl_posix1e_mode_to_perm ACL_USER_OBJ m = triad_perm (m / 64 % 8) ∧
      acl_posix1e_mode_to_perm ACL_GROUP_OBJ m = triad_perm (m / 8 % 8) ∧
      acl_posix1e_mode_to_perm ACL_OTHER m = triad_perm (m % 8) := by
    intro m
    have h := mode_to_perm_table (m % 512) (Nat.mod_lt _ (by decide))
    have e1 : m % 512 / 64 % 8 = m / 64 % 8 := by omega
    have e2 : m % 512 / 8 % 8 = m / 8 % 8 := by omega
    have e3 : m % 512 % 8 = m % 8 := by omega
    rw [e1, e2, e3] at h
    rw [mode_to_perm_low9 ACL_USER_OBJ m, mode_to_perm_low9 ACL_GROUP_OBJ m,
      mode_to_perm_low9 ACL_OTHER m]
    exact h
  refine ⟨key mode, ?_, ?_, ?_, ?_⟩
  · intro m2 h; rw [(key m2).1, (key mode).1, h]
  · intro m2 h; rw [(key m2).2.1, (key mode).2.1, h]
  · intro m2 h; rw [(key m2).2.2, (key mode).2.2, h]
  · intro tag h1 h2 h3
    unfold acl_posix1e_mode_to_perm
    rw [if_neg h1, if_neg h2, if_neg h3]

/-- Witness of C24 at mode 04754 (the set-uid bit lies outside every triad) and at the
tag `Mask`. -/
theorem mode_to_perm_triads_witness :
    acl_posix1e_mode_to_perm ACL_USER_OBJ 0o4754 = ACL_PERM_BITS ∧
      acl_posix1e_mode_to_perm ACL_GROUP_OBJ 0o4754 = (ACL_READ ||| ACL_EXECUTE) ∧
      acl_posix1e_mode_to_perm ACL_OTHER 0o4754 = ACL_READ ∧
      acl_posix1e_mode_to_perm ACL_USER_OBJ 0o4054 =
        acl_posix1e_mode_to_perm ACL_USER_OBJ 0o777000 ∧
      acl_posix1e_mode_to_perm ACL_MASK 0o4754 = 0 :=
  ⟨by decide, by decide, by decide,
    (mode_to_perm_triads 0o777000).2.1 0o4054 (by decide),
    (mode_to_perm_triads 0o4754).2.2.2.2 ACL_MASK (by decide) (by decide) (by decide)⟩

/-! ### Evaluation of an ACL the validation rejects -/

theorem check_needs_other (a : acl) (hno : ∀ e ∈ a.entries, e.ae_tag ≠ ACL_OTHER) :
    acl_posix1e_check a = EINVAL := by
  by_cases hg : a.acl_cnt > (ACL_MAX_ENTRIES : Int) ∨ a.acl_cnt < 0
  · unfold acl_posix1e_check
    rw [if_pos hg]
  · by_cases hbad : ∃ e ∈ a.entries, illegal_entry e
    · unfold acl_posix1e_check
      rw [if_neg hg, check_loop_illegal a.entries _ hbad]
    · have hes : ∀ e ∈ a.entries,
          recognized_tag e.ae_tag ∧ e.ae_perm &&& ACL_PERM_BITS = e.ae_perm := by
        intro e he
        by_contra hc
        apply hbad
        refine ⟨e, he, ?_⟩
        unfold illegal_entry
        by_cases hr : recognized_tag e.ae_tag
        · right; intro hp; exact hc ⟨hr, hp⟩
        · left; exact hr
      have h0 : count_tag ACL_OTHER a.entries = 0 := by
        unfold count_tag
        rw [List.length_eq_zero, List.filter_eq_nil_iff]
        intro e he
        simpa using hno e he
      unfold acl_posix1e_check
      rw [if_neg hg, check_loop_counts a.entries ⟨0, 0, 0, 0, 0, 0⟩ hes]
      simp only [h0]
      rw [if_pos (Or.inr (Or.inr (Or.inl (by decide))))]

/-- C25, as stated, fails: `acl_posix1e_check` rejects the ACL made of a single owner
entry (it has no `GroupObj` and no `Other` entry), yet `vaccess_acl_posix1e` grants the
owner a read request on it, without privilege. -/
theorem vaccess_grants_on_rejected_acl :
    acl_posix1e_check acl_owner_only = EINVAL ∧ acl_posix1e_check acl_owner_only ≠ 0 ∧
      vaccess_acl_posix1e acl_owner_only VREAD ⟨7, []⟩ 0 = ⟨0, 0⟩ := by
  decide

/-- C25 (amended): `vaccess_acl_posix1e` does not validate its ACL; the one structural
defect it detects is a missing `Other` entry. For every ACL without an `Other` entry, which
`acl_posix1e_check` rejects, and every credential that matches no `UserObj` entry, it
fails with `EPERM` for every requested mode and every privilege set. -/
theorem vaccess_missing_other (a : acl) (acc_mode : Nat) (cred : ucred) (cap_granted : Nat)
    (hno : ∀ e ∈ a.entries, e.ae_tag ≠ ACL_OTHER)
    (hown : ∀ x ∈ a.entries, ¬ owner_match cred x) :
    acl_posix1e_check a ≠ 0 ∧
      vaccess_acl_posix1e a acc_mode cred cap_granted = ⟨EPERM, 0⟩ ∧
      (vaccess_acl_posix1e a acc_mode cred cap_granted).error ≠ 0 := by
  have hl : last_with_tag ACL_OTHER a.entries = none := by
    cases hc : last_with_tag ACL_OTHER a.entries with
    | none => rfl
    | some v =>
      unfold last_with_tag at hc
      have hv := List.find?_some hc
      have hm := List.mem_of_find?_eq_some hc
      exact absurd (of_decide_eq_true hv) (hno v (List.mem_reverse.mp hm))
  have hr : vaccess_acl_posix1e a acc_mode cred cap_granted = ⟨EPERM, 0⟩ := by
    unfold vaccess_acl_posix1e
    rw [owner_loop_miss acc_mode cap_granted cred a.entries none none hown, hl]
    rfl
  refine ⟨?_, hr, ?_⟩
  · rw [check_needs_other a hno]; decide
  · rw [hr]; decide

/-- Witness of C25 (amended): the ACL made of one owning-group entry, a member of that
group asking for everything with every privilege. -/
theorem vaccess_missing_other_witness :
    acl_posix1e_check acl_group_only ≠ 0 ∧
      vaccess_acl_posix1e acl_group_only (VREAD ||| VWRITE) ⟨1, [5]⟩
        (VEXEC ||| VREAD ||| VWRITE ||| VADMIN) = ⟨EPERM, 0⟩ ∧
      (vaccess_acl_posix1e acl_group_only (VREAD ||| VWRITE) ⟨1, [5]⟩
        (VEXEC ||| VREAD ||| VWRITE ||| VADMIN)).error ≠ 0 :=
  vaccess_missing_other acl_group_only (VREAD ||| VWRITE) ⟨1, [5]⟩
    (VEXEC ||| VREAD ||| VWRITE ||| VADMIN) (by decide) (by decide)

/-! ### The privilege set in the evaluation -/

theorem perm_to_vmode_no_admin (p : Nat) : perm_to_vmode p &&& VADMIN = 0 := by
  unfold perm_to_vmode
  split_ifs <;> decide

theorem and_no_admin (d m : Nat) (h : d &&& VADMIN = 0) : (d &&& m) &&& VADMIN = 0 := by
  apply Nat.eq_of_testBit_eq
  intro i
  have hi := congrArg (fun x => x.testBit i) h
  simp only [Nat.testBit_and, Nat.zero_testBit] at hi ⊢
  cases hd : d.testBit i <;> cases hm : m.testBit i <;> simp_all

theorem admin_needs_cap (acc d cap : Nat) (hd : d &&& VADMIN = 0) (hacc : acc &&& VADMIN ≠ 0)
    (h : acc &&& (d ||| cap) = acc) : cap &&& VADMIN ≠ 0 := by
  intro hc
  apply hacc
  apply Nat.eq_of_testBit_eq
  intro i
  have h1 := congrArg (fun x => x.testBit i) h
  have h2 := congrArg (fun x => x.testBit i) hd
  have h3 := congrArg (fun x => x.testBit i) hc
  simp only [Nat.testBit_and, Nat.testBit_or, Nat.zero_testBit] at h1 h2 h3 ⊢
  cases ha : acc.testBit i <;> cases hdd : d.testBit i <;> cases hcc : cap.testBit i <;>
    cases hv : VADMIN.testBit i <;> simp_all

theorem admin_not_subset (acc d : Nat) (hd : d &&& VADMIN = 0) (hacc : acc &&& VADMIN ≠ 0) :
    acc &&& d ≠ acc := by
  intro h
  apply hacc
  apply Nat.eq_of_testBit_eq
  intro i
  have h1 := congrArg (fun x => x.testBit i) h
  have h2 := congrArg (fun x => x.testBit i) hd
  simp only [Nat.testBit_and, Nat.zero_testBit] at h1 h2 ⊢
  cases ha : acc.testBit i <;> cases hdd : d.testBit i <;>
    cases hv : VADMIN.testBit i <;> simp_all

theorem vaccess_decide_exact (acc_mode d cap : Nat) :
    (vaccess_decide acc_mode d cap = ⟨0, 0⟩ ∧ vaccess_decide acc_mode d 0 = ⟨0, 0⟩ ∧
        acc_mode &&& d = acc_mode) ∨
      (vaccess_decide acc_mode d cap = ⟨0, 1⟩ ∧
        vaccess_decide acc_mode d 0 = vaccess_error acc_mode ∧
        acc_mode &&& d ≠ acc_mode ∧ acc_mode &&& (d ||| cap) = acc_mode) ∨
      (vaccess_decide acc_mode d cap = vaccess_error acc_mode ∧
        vaccess_decide acc_mode d 0 = vaccess_error acc_mode) := by
  unfold vaccess_decide
  by_cases h1 : acc_mode &&& d = acc_mode
  · left
    rw [if_pos h1, if_pos h1]
    exact ⟨rfl, rfl, h1⟩
  · have h0 : ¬ acc_mode &&& (d ||| 0) = acc_mode := by
      rw [Nat.or_zero]; exact h1
    by_cases h2 : acc_mode &&& (d ||| cap) = acc_mode
    · right; left
      rw [if_neg h1, if_pos h2, if_neg h1, if_neg h0]
      exact ⟨rfl, rfl, h1, h2⟩
    · right; right
      rw [if_neg h1, if_neg h2, if_neg h1, if_neg h0]
      exact ⟨rfl, rfl⟩

theorem owner_loop_uniform (acc_mode : Nat) (cred : ucred) :
    ∀ (es : List acl_entry) (m o : Option acl_entry),
      (∃ p, ∀ cap, owner_loop acc_mode cap cred es m o =
          .returned (vaccess_decide acc_mode (VADMIN ||| perm_to_vmode p) cap)) ∨
      (∃ m' o', ∀ cap, owner_loop acc_mode cap cred es m o = .fellthrough m' o') := by
  intro es
  induction es with
  | nil => intro m o; exact Or.inr ⟨m, o, fun cap => by rw [owner_loop]⟩
  | cons x xs ih =>
    intro m o
    by_cases t1 : x.ae_tag = ACL_USER_OBJ
    · by_cases hid : x.ae_id ≠ cred.cr_uid
      · rcases ih m o with ⟨p, h⟩ | ⟨m', o', h⟩
        · exact Or.inl ⟨p, fun cap => by rw [owner_loop, if_pos t1, if_pos hid]; exact h cap⟩
        · exact Or.inr ⟨m', o', fun cap => by
            rw [owner_loop, if_pos t1, if_pos hid]; exact h cap⟩
      · exact Or.inl ⟨x.ae_perm, fun cap => by rw [owner_loop, if_pos t1, if_neg hid]⟩
    · by_cases t2 : x.ae_tag = ACL_MASK
      · rcases ih (some x) o with ⟨p, h⟩ | ⟨m', o', h⟩
        · exact Or.inl ⟨p, fun cap => by rw [owner_loop, if_neg t1, if_pos t2]; exact h cap⟩
        · exact Or.inr ⟨m', o', fun cap => by
            rw [owner_loop, if_neg t1, if_pos t2]; exact h cap⟩
      · by_cases t3 : x.ae_tag = ACL_OTHER
        · rcases ih m (some x) with ⟨p, h⟩ | ⟨m', o', h⟩
          · exact Or.inl ⟨p, fun cap => by
              rw [owner_loop, if_neg t1, if_neg t2, if_pos t3]; exact h cap⟩
          · exact Or.inr ⟨m', o', fun cap => by
              rw [owner_loop, if_neg t1, if_neg t2, if_pos t3]; exact h cap⟩
        · rcases ih m o with ⟨p, h⟩ | ⟨m', o', h⟩
          · exact Or.inl ⟨p, fun cap => by
              rw [owner_loop, if_neg t1, if_neg t2, if_neg t3]; exact h cap⟩
          · exact Or.inr ⟨m', o', fun cap => by
              rw [owner_loop, if_neg t1, if_neg t2, if_neg t3]; exact h cap⟩

theorem user_loop_uniform (acc_mode mg : Nat) (cred : ucred) :
    ∀ (es : List acl_entry),
      (∃ p, ∀ cap, user_loop acc_mode cap mg cred es =
          some (vaccess_decide acc_mode (perm_to_vmode p &&& mg) cap)) ∨
      (∀ cap, user_loop acc_mode cap mg cred es = none) := by
  intro es
  induction es with
  | nil => exact Or.inr (fun cap => by rw [user_loop])
  | cons x xs ih =>
    by_cases t1 : x.ae_tag = ACL_USER
    · by_cases hid : x.ae_id ≠ cred.cr_uid
      · rcases ih with ⟨p, h⟩ | h
        · exact Or.inl ⟨p, fun cap => by rw [user_loop, if_pos t1, if_pos hid]; exact h cap⟩
        · exact Or.inr (fun cap => by rw [user_loop, if_pos t1, if_pos hid]; exact h cap)
      · exact Or.inl ⟨x.ae_perm, fun cap => by rw [user_loop, if_pos t1, if_neg hid]⟩
    · rcases ih with ⟨p, h⟩ | h
      · exact Or.inl ⟨p, fun cap => by rw [user_loop, if_neg t1]; exact h cap⟩
      · exact Or.inr (fun cap => by rw [user_loop, if_neg t1]; exact h cap)

theorem group_loop_some (acc_mode mg : Nat) (cred : ucred) :
    ∀ (es : List acl_entry) (gm : Nat) (r : vaccess_result),
      (group_loop acc_mode mg cred es gm).1 = some r →
      r = ⟨0, 0⟩ ∧ ∃ p, acc_mode &&& (perm_to_vmode p &&& mg) = acc_mode := by
  intro es
  induction es with
  | nil => intro gm r h; simp [group_loop] at h
  | cons x xs ih =>
    intro gm r h
    rw [group_loop] at h
    by_cases ht : x.ae_tag = ACL_GROUP_OBJ ∨ x.ae_tag = ACL_GROUP
    · rw [if_pos ht] at h
      by_cases hmem : groupmember x.ae_id cred = true
      · rw [if_pos hmem] at h
        by_cases hs : acc_mode &&& (perm_to_vmode x.ae_perm &&& mg) = acc_mode
        · rw [if_pos hs] at h
          injection h with h
          exact ⟨h.symm, x.ae_perm, hs⟩
        · rw [if_neg hs] at h; exact ih _ r h
      · rw [if_neg hmem] at h; exact ih _ r h
    · rw [if_neg ht] at h; exact ih _ r h

theorem group_priv_loop_some (acc_mode cap mg : Nat) (cred : ucred) :
    ∀ (es : List acl_entry) (r : vaccess_result),
      group_priv_loop acc_mode cap mg cred es = some r →
      r = ⟨0, 1⟩ ∧ ∃ p, acc_mode &&& ((perm_to_vmode p &&& mg) ||| cap) = acc_mode := by
  intro es
  induction es with
  | nil => intro r h; simp [group_priv_loop] at h
  | cons x xs ih =>
    intro r h
    rw [group_priv_loop] at h
    by_cases ht : x.ae_tag = ACL_GROUP_OBJ ∨ x.ae_tag = ACL_GROUP
    · rw [if_pos ht] at h
      by_cases hmem : groupmember x.ae_id cred = true
      · rw [if_pos hmem] at h
        by_cases hs : acc_mode &&& ((perm_to_vmode x.ae_perm &&& mg) ||| cap) = acc_mode
        · rw [if_pos hs] at h
          injection h with h
          exact ⟨h.symm, x.ae_perm, hs⟩
        · rw [if_neg hs] at h; exact ih r h
      · rw [if_neg hmem] at h; exact ih r h
    · rw [if_neg ht] at h; exact ih r h

theorem group_priv_loop_unprivileged (acc_mode mg : Nat) (cred : ucred) :
    ∀ (es : List acl_entry) (gm gm' : Nat),
      group_loop acc_mode mg cred es gm = (none, gm') →
      group_priv_loop acc_mode 0 mg cred es = none := by
  intro es
  induction es with
  | nil => intro gm gm' _; rw [group_priv_loop]
  | cons x xs ih =>
    intro gm gm' h
    rw [group_loop] at h
    rw [group_priv_loop]
    by_cases ht : x.ae_tag = ACL_GROUP_OBJ ∨ x.ae_tag = ACL_GROUP
    · rw [if_pos ht] at h ⊢
      by_cases hmem : groupmember x.ae_id cred = true
      · rw [if_pos hmem] at h ⊢
        by_cases hs : acc_mode &&& (perm_to_vmode x.ae_perm &&& mg) = acc_mode
        · rw [if_pos hs] at h
          exact absurd (congrArg Prod.fst h) (by simp)
        · rw [if_neg hs] at h
          rw [Nat.or_zero, if_neg hs]
          exact ih _ _ h
      · rw [if_neg hmem] at h ⊢; exact ih _ _ h
    · rw [if_neg ht] at h ⊢; exact ih _ _ h

/-- The exits of `vaccess_acl_posix1e` as functions of the privilege set: the ACL, the
credential and the requested mode select one exit shape, the same for every privilege
set. -/
theorem vaccess_shape (a : acl) (acc_mode : Nat) (cred : ucred) :
    (∃ p, (∃ x ∈ a.entries, owner_match cred x) ∧
      ∀ cap, vaccess_acl_posix1e a acc_mode cred cap =
        vaccess_decide acc_mode (VADMIN ||| perm_to_vmode p) cap) ∨
    ((∀ x ∈ a.entries, ¬ owner_match cred x) ∧
      ((∀ cap, vaccess_acl_posix1e a acc_mode cred cap = ⟨EPERM, 0⟩) ∨
        (∃ d, d &&& VADMIN = 0 ∧
          ∀ cap, vaccess_acl_posix1e a acc_mode cred cap = vaccess_decide acc_mode d cap) ∨
        ((∃ d, d &&& VADMIN = 0 ∧ acc_mode &&& d = acc_mode) ∧
          ∀ cap, vaccess_acl_posix1e a acc_mode cred cap = ⟨0, 0⟩) ∨
        (vaccess_acl_posix1e a acc_mode cred 0 = vaccess_error acc_mode ∧
          ∀ cap, (vaccess_acl_posix1e a acc_mode cred cap = ⟨0, 1⟩ ∧
              ∃ d, d &&& VADMIN = 0 ∧ acc_mode &&& (d ||| cap) = acc_mode) ∨
            vaccess_acl_posix1e a acc_mode cred cap = vaccess_error acc_mode))) := by
  rcases owner_loop_uniform acc_mode cred a.entries none none with ⟨p, h⟩ | ⟨m', o', h⟩
  · left
    refine ⟨p, (owner_loop_returned acc_mode 0 cred _ _ _ _ (h 0)).2, ?_⟩
    intro cap
    unfold vaccess_acl_posix1e
    rw [h cap]
  · right
    obtain ⟨hno, _⟩ := owner_loop_fellthrough acc_mode 0 cred _ _ _ _ _ (h 0)
    refine ⟨hno, ?_⟩
    cases hl : last_with_tag ACL_OTHER a.entries with
    | none =>
      left
      intro cap
      unfold vaccess_acl_posix1e
      rw [owner_loop_miss acc_mode cap cred a.entries none none hno, hl]
      rfl
    | some oe =>
      right
      have hv := fun cap => vaccess_no_owner a acc_mode cred cap oe hno hl
      generalize mask_granted a.entries = mg at hv
      rcases user_loop_uniform acc_mode mg cred a.entries with ⟨p, hu⟩ | hu
      · left
        refine ⟨perm_to_vmode p &&& mg, and_no_admin _ _ (perm_to_vmode_no_admin p), ?_⟩
        intro cap
        rw [hv cap, hu cap]
      · cases hgl : group_loop acc_mode mg cred a.entries 0 with
        | mk gr gm =>
          cases gr with
          | some r =>
            right; left
            obtain ⟨hr, p, hp⟩ := group_loop_some acc_mode mg cred a.entries 0 r (by rw [hgl])
            refine ⟨⟨perm_to_vmode p &&& mg, and_no_admin _ _ (perm_to_vmode_no_admin p), hp⟩,
              ?_⟩
            intro cap
            rw [hv cap, hu cap, hgl, hr]
          | none =>
            by_cases hgm : gm = 1
            · right; right
              have h0 := group_priv_loop_unprivileged acc_mode mg cred a.entries 0 gm hgl
              constructor
              · rw [hv 0, hu 0, hgl]
                simp only
                rw [if_pos hgm, h0]
              · intro cap
                rw [hv cap, hu cap, hgl]
                simp only
                rw [if_pos hgm]
                cases hgp : group_priv_loop acc_mode cap mg cred a.entries with
                | some r =>
                  left
                  obtain ⟨hr, p, hp⟩ := group_priv_loop_some acc_mode cap mg cred a.entries r hgp
                  exact ⟨hr, perm_to_vmode p &&& mg,
                    and_no_admin _ _ (perm_to_vmode_no_admin p), hp⟩
                | none => right; rfl
            · left
              refine ⟨perm_to_vmode oe.ae_perm, perm_to_vmode_no_admin _, ?_⟩
              intro cap
              rw [hv cap, hu cap, hgl]
              simp only
              rw [if_neg hgm]

/-- C34: the flag `privused` is exact. For every ACL, credential, requested mode and
privilege set: when `vaccess_acl_posix1e` succeeds with `privused = 0`, the same call with
an empty privilege set succeeds; when it succeeds with `privused = 1`, the same call with
an empty privilege set fails; when it fails, `privused` is 0; and `privused` is never
anything but 0 or 1. -/
theorem vaccess_privused_exact (a : acl) (acc_mode : Nat) (cred : ucred) (cap_granted : Nat) :
    ((vaccess_acl_posix1e a acc_mode cred cap_granted).error = 0 →
      (vaccess_acl_posix1e a acc_mode cred cap_granted).privused = 0 →
      (vaccess_acl_posix1e a acc_mode cred 0).error = 0) ∧
    ((vaccess_acl_posix1e a acc_mode cred cap_granted).error = 0 →
      (vaccess_acl_posix1e a acc_mode cred cap_granted).privused = 1 →
      (vaccess_acl_posix1e a acc_mode cred 0).error ≠ 0) ∧
    ((vaccess_acl_posix1e a acc_mode cred cap_granted).error ≠ 0 →
      (vaccess_acl_posix1e a acc_mode cred cap_granted).privused = 0) ∧
    ((vaccess_acl_posix1e a acc_mode cred cap_granted).privused = 0 ∨
      (vaccess_acl_posix1e a acc_mode cred cap_granted).privused = 1) := by
  have hdec : ∀ d, (∀ cap, vaccess_acl_posix1e a acc_mode cred cap =
      vaccess_decide acc_mode d cap) →
      ((vaccess_acl_posix1e a acc_mode cred cap_granted).error = 0 →
        (vaccess_acl_posix1e a acc_mode cred cap_granted).privused = 0 →
        (vaccess_acl_posix1e a acc_mode cred 0).error = 0) ∧
      ((vaccess_acl_posix1e a acc_mode cred cap_granted).error = 0 →
        (vaccess_acl_posix1e a acc_mode cred cap_granted).privused = 1 →
        (vaccess_acl_posix1e a acc_mode cred 0).error ≠ 0) ∧
      ((vaccess_acl_posix1e a acc_mode cred cap_granted).error ≠ 0 →
        (vaccess_acl_posix1e a acc_mode cred cap_granted).privused = 0) ∧
      ((vaccess_acl_posix1e a acc_mode cred cap_granted).privused = 0 ∨
        (vaccess_acl_posix1e a acc_mode cred cap_granted).privused = 1) := by
    intro d h
    rw [h cap_granted, h 0]
    rcases vaccess_decide_exact acc_mode d cap_granted with ⟨h1, h2, _⟩ | ⟨h1, h2, _⟩ | ⟨h1, h2⟩
    · rw [h1, h2]; simp
    · rw [h1, h2]
      exact ⟨fun _ h => absurd h (by decide), fun _ _ => vaccess_error_ne_zero _,
        fun h => absurd rfl h, Or.inr rfl⟩
    · rw [h1, h2]
      exact ⟨fun h => absurd h (vaccess_error_ne_zero _), fun h => absurd h (vaccess_error_ne_zero _),
        fun _ => rfl, Or.inl rfl⟩
  rcases vaccess_shape a acc_mode cred with ⟨p, _, h⟩ | ⟨_, h | ⟨d, _, h⟩ | ⟨_, h⟩ | ⟨h0, h⟩⟩
  · exact hdec _ h
  · rw [h cap_granted, h 0]
    exact ⟨fun h => absurd h (by decide), fun h => absurd h (by decide), fun _ => rfl,
      Or.inl rfl⟩
  · exact hdec _ h
  · rw [h cap_granted, h 0]
    exact ⟨fun _ _ => rfl, fun _ h => absurd h (by decide), fun h => absurd rfl h, Or.inl rfl⟩
  · rw [h0]
    rcases h cap_granted with ⟨h1, _⟩ | h1
    · rw [h1]
      exact ⟨fun _ h => absurd h (by decide), fun _ _ => vaccess_error_ne_zero _,
        fun h => absurd rfl h, Or.inr rfl⟩
    · rw [h1]
      exact ⟨fun h => absurd h (vaccess_error_ne_zero _), fun h => absurd h (vaccess_error_ne_zero _),
        fun _ => rfl, Or.inl rfl⟩

/-- Witness of C34 on `acl_named`: the named user 200 asks for write, which the mask
removes; with the full privilege set the call succeeds with `privused = 1`, and the same
call with the empty privilege set fails. -/
theorem vaccess_privused_exact_witness :
    (vaccess_acl_posix1e acl_named VWRITE ⟨200, [20]⟩
        (VEXEC ||| VREAD ||| VWRITE ||| VADMIN)).error = 0 ∧
      (vaccess_acl_posix1e acl_named VWRITE ⟨200, [20]⟩
        (VEXEC ||| VREAD ||| VWRITE ||| VADMIN)).privused = 1 ∧
      (vaccess_acl_posix1e acl_named VWRITE ⟨200, [20]⟩ 0).error ≠ 0 :=
  ⟨by decide, by decide,
    (vaccess_privused_exact acl_named VWRITE ⟨200, [20]⟩
      (VEXEC ||| VREAD ||| VWRITE ||| VADMIN)).2.1 (by decide) (by decide)⟩

/-- C35: only the owner gets `VADMIN` from the ACL. For every ACL and every credential
whose uid matches no `UserObj` entry, a request whose mode contains `VADMIN` succeeds only
if the privilege set contains `VADMIN`, and then only with `privused = 1`: no `User`,
`Group`, `Mask` or `Other` entry grants `VADMIN`. -/
theorem vaccess_admin_owner_only (a : acl) (acc_mode : Nat) (cred : ucred) (cap_granted : Nat)
    (hown : ∀ x ∈ a.entries, ¬ owner_match cred x)
    (hadm : acc_mode &&& VADMIN ≠ 0)
    (hok : (vaccess_acl_posix1e a acc_mode cred cap_granted).error = 0) :
    cap_granted &&& VADMIN ≠ 0 ∧
      (vaccess_acl_posix1e a acc_mode cred cap_granted).privused = 1 ∧
      (vaccess_acl_posix1e a acc_mode cred 0).error ≠ 0 := by
  rcases vaccess_shape a acc_mode cred with
    ⟨p, ⟨x, hx, hm⟩, _⟩ | ⟨_, h | ⟨d, hd, h⟩ | ⟨⟨d, hd, hs⟩, _⟩ | ⟨h0, h⟩⟩
  · exact absurd hm (hown x hx)
  · rw [h cap_granted] at hok
    exact absurd hok (by decide)
  · rw [h cap_granted] at hok ⊢
    rw [h 0]
    rcases vaccess_decide_exact acc_mode d cap_granted with
      ⟨_, _, h3⟩ | ⟨h1, h2, _, h4⟩ | ⟨h1, _⟩
    · exact absurd h3 (admin_not_subset acc_mode d hd hadm)
    · rw [h1, h2]
      exact ⟨admin_needs_cap acc_mode d cap_granted hd hadm h4, rfl, vaccess_error_ne_zero _⟩
    · rw [h1] at hok
      exact absurd hok (vaccess_error_ne_zero _)
  · exact absurd hs (admin_not_subset acc_mode d hd hadm)
  · rw [h0]
    rcases h cap_granted with ⟨h1, d, hd, h4⟩ | h1
    · rw [h1]
      exact ⟨admin_needs_cap acc_mode d cap_granted hd hadm h4, rfl, vaccess_error_ne_zero _⟩
    · rw [h1] at hok
      exact absurd hok (vaccess_error_ne_zero _)

/-- Witness of C35 on `acl_named`: the credential 300 owns nothing and belongs to no
group; its request for `VADMIN` succeeds with the full privilege set, through the
privilege. -/
theorem vaccess_admin_owner_only_witness :
    (VEXEC ||| VREAD ||| VWRITE ||| VADMIN) &&& VADMIN ≠ 0 ∧
      (vaccess_acl_posix1e acl_named VADMIN ⟨300, []⟩
        (VEXEC ||| VREAD ||| VWRITE ||| VADMIN)).privused = 1 ∧
      (vaccess_acl_posix1e acl_named VADMIN ⟨300, []⟩ 0).error ≠ 0 :=
  vaccess_admin_owner_only acl_named VADMIN ⟨300, []⟩ (VEXEC ||| VREAD ||| VWRITE ||| VADMIN)
    (by decide) (by decide) (by decide)

/-! ### Validation guards evaluation -/

/-- C36: `acl_posix1e_check` guards `vaccess_acl_posix1e`. For every ACL the check
accepts, and every credential, requested mode and privilege set, the first loop never
falls through without an `ACL_OTHER` entry recorded, so the guard on a missing `ACL_OTHER`
is not taken; the evaluation returns 0, or `EACCES` when the requested mode has no
`VADMIN`, or `EPERM` when it has. -/
theorem check_guards_vaccess (a : acl) (acc_mode : Nat) (cred : ucred) (cap_granted : Nat)
    (hchk : acl_posix1e_check a = 0) :
    (∀ m, owner_loop acc_mode cap_granted cred a.entries none none ≠ .fellthrough m none) ∧
      ((vaccess_acl_posix1e a acc_mode cred cap_granted).error = 0 ∨
        ((vaccess_acl_posix1e a acc_mode cred cap_granted).error = EACCES ∧
          acc_mode &&& VADMIN = 0) ∨
        ((vaccess_acl_posix1e a acc_mode cred cap_granted).error = EPERM ∧
          acc_mode &&& VADMIN ≠ 0)) := by
  have hoth : ∃ e ∈ a.entries, e.ae_tag = ACL_OTHER := by
    by_contra hc
    have hno : ∀ e ∈ a.entries, e.ae_tag ≠ ACL_OTHER := fun e he ht => hc ⟨e, he, ht⟩
    rw [check_needs_other a hno] at hchk
    exact absurd hchk (by decide)
  constructor
  · intro m hft
    obtain ⟨_, ho⟩ := owner_loop_fellthrough acc_mode cap_granted cred _ _ _ _ _ hft
    obtain ⟨v, hv⟩ := last_with_tag_isSome ACL_OTHER a.entries hoth
    rw [hv] at ho
    exact Option.noConfusion ho
  · by_cases hfail : (vaccess_acl_posix1e a acc_mode cred cap_granted).error = 0
    · exact Or.inl hfail
    · right
      rcases vaccess_failure_exits a acc_mode cred cap_granted hfail with h | ⟨_, hno, _⟩
      · rw [h]
        unfold failure_code
        by_cases hadm : acc_mode &&& VADMIN ≠ 0
        · rw [if_pos hadm]; exact Or.inr ⟨rfl, hadm⟩
        · rw [if_neg hadm]; exact Or.inl ⟨rfl, not_not.mp hadm⟩
      · obtain ⟨e, he, ht⟩ := hoth
        exact absurd ht (hno e he)

/-- Witness of C36 on `acl_named`, which the check accepts: a stranger asking for read. -/
theorem check_guards_vaccess_witness :
    acl_posix1e_check acl_named = 0 ∧
      (∀ m, owner_loop VREAD 0 ⟨300, []⟩ acl_named.entries none none ≠ .fellthrough m none) ∧
      ((vaccess_acl_posix1e acl_named VREAD ⟨300, []⟩ 0).error = 0 ∨
        ((vaccess_acl_posix1e acl_named VREAD ⟨300, []⟩ 0).error = EACCES ∧
          VREAD &&& VADMIN = 0) ∨
        ((vaccess_acl_posix1e acl_named VREAD ⟨300, []⟩ 0).error = EPERM ∧
          VREAD &&& VADMIN ≠ 0)) :=
  ⟨by decide, check_guards_vaccess acl_named VREAD ⟨300, []⟩ 0 (by decide)⟩

/-! ### ACLs derived from a mode word -/

theorem mode_to_perm_legal (tag mode : Nat) :
    acl_posix1e_mode_to_perm tag mode ||| ACL_PERM_BITS = ACL_PERM_BITS ∧
      acl_posix1e_mode_to_perm tag mode &&& ACL_PERM_BITS =
        acl_posix1e_mode_to_perm tag mode := by
  unfold acl_posix1e_mode_to_perm
  split_ifs <;> decide

theorem mode_entries_counts (uid gid mode : Nat) (l : List acl_entry)
    (hl : l.Perm [acl_posix1e_mode_to_entry ACL_USER_OBJ uid gid mode,
      acl_posix1e_mode_to_entry ACL_GROUP_OBJ uid gid mode,
      acl_posix1e_mode_to_entry ACL_OTHER uid gid mode]) :
    count_tag ACL_USER_OBJ l = 1 ∧ count_tag ACL_USER l = 0 ∧
      count_tag ACL_GROUP_OBJ l = 1 ∧ count_tag ACL_GROUP l = 0 ∧
      count_tag ACL_MASK l = 0 ∧ count_tag ACL_OTHER l = 1 := by
  have key : ∀ tag, count_tag tag l =
      count_tag tag [acl_posix1e_mode_to_entry ACL_USER_OBJ uid gid mode,
        acl_posix1e_mode_to_entry ACL_GROUP_OBJ uid gid mode,
        acl_posix1e_mode_to_entry ACL_OTHER uid gid mode] := by
    intro tag
    unfold count_tag
    exact (hl.filter _).length_eq
  simp only [key]
  refine ⟨?_, ?_, ?_, ?_, ?_, ?_⟩ <;>
    simp [count_tag, acl_posix1e_mode_to_entry, List.filter, ACL_USER_OBJ, ACL_USER,
      ACL_GROUP_OBJ, ACL_GROUP, ACL_MASK, ACL_OTHER]

/-- C40: ACLs derived from a mode word are valid. For every uid, gid and mode word,
`acl_posix1e_check` accepts the ACL made of the three entries
`acl_posix1e_mode_to_entry` builds for the tags `UserObj`, `GroupObj` and `Other`, in this
and in any other order; and for every tag and mode word `acl_posix1e_mode_to_perm` returns
no bit outside `ACL_PERM_BITS`. -/
theorem mode_acl_valid (uid gid mode : Nat) :
    acl_posix1e_check
        ⟨3, [acl_posix1e_mode_to_entry ACL_USER_OBJ uid gid mode,
          acl_posix1e_mode_to_entry ACL_GROUP_OBJ uid gid mode,
          acl_posix1e_mode_to_entry ACL_OTHER uid gid mode]⟩ = 0 ∧
      (∀ l : List acl_entry,
        l.Perm [acl_posix1e_mode_to_entry ACL_USER_OBJ uid gid mode,
          acl_posix1e_mode_to_entry ACL_GROUP_OBJ uid gid mode,
          acl_posix1e_mode_to_entry ACL_OTHER uid gid mode] →
        acl_posix1e_check ⟨3, l⟩ = 0) ∧
      (∀ tag m, acl_posix1e_mode_to_perm tag m ||| ACL_PERM_BITS = ACL_PERM_BITS) ∧
      (∀ tag m, acl_posix1e_mode_to_perm tag m &&& ACL_PERM_BITS =
        acl_posix1e_mode_to_perm tag m) := by
  have hperm : ∀ l : List acl_entry,
      l.Perm [acl_posix1e_mode_to_entry ACL_USER_OBJ uid gid mode,
        acl_posix1e_mode_to_entry ACL_GROUP_OBJ uid gid mode,
        acl_posix1e_mode_to_entry ACL_OTHER uid gid mode] →
      acl_posix1e_check ⟨3, l⟩ = 0 := by
    intro l hl
    have hlen : l.length = 3 := hl.length_eq
    have hent : (⟨3, l⟩ : acl).entries = l := by
      unfold acl.entries
      simp only [Int.toNat_ofNat]
      exact List.take_of_length_le (by omega)
    have hes : ∀ e ∈ (⟨3, l⟩ : acl).entries,
        recognized_tag e.ae_tag ∧ e.ae_perm &&& ACL_PERM_BITS = e.ae_perm := by
      intro e he
      rw [hent] at he
      have he2 := hl.mem_iff.mp he
      simp only [List.mem_cons, List.mem_singleton, List.not_mem_nil, or_false] at he2
      rcases he2 with h | h | h <;> subst h
      · exact ⟨Or.inl rfl, (mode_to_perm_legal ACL_USER_OBJ mode).2⟩
      · exact ⟨Or.inr (Or.inr (Or.inl rfl)), (mode_to_perm_legal ACL_GROUP_OBJ mode).2⟩
      · exact ⟨Or.inr (Or.inr (Or.inr (Or.inr (Or.inl rfl)))),
          (mode_to_perm_legal ACL_OTHER mode).2⟩
    obtain ⟨c1, c2, c3, c4, c5, c6⟩ := mode_entries_counts uid gid mode l hl
    unfold acl_posix1e_check
    have hcnt : ¬ ((⟨3, l⟩ : acl).acl_cnt > (ACL_MAX_ENTRIES : Int) ∨
        (⟨3, l⟩ : acl).acl_cnt < 0) := by
      show ¬ ((3 : Int) > (ACL_MAX_ENTRIES : Int) ∨ (3 : Int) < 0)
      decide
    rw [if_neg hcnt, check_loop_counts _ ⟨0, 0, 0, 0, 0, 0⟩ hes, hent]
    simp only [c1, c2, c3, c4, c5, c6]
    decide
  exact ⟨hperm _ (List.Perm.refl _), hperm, fun tag m => (mode_to_perm_legal tag m).1,
    fun tag m => (mode_to_perm_legal tag m).2⟩

/-- Witness of C40 for uid 100, gid 20 and the mode word 0o4754: the three entries, in the
order `Other`, `UserObj`, `GroupObj`, pass the check. -/
theorem mode_acl_valid_witness :
    acl_posix1e_check ⟨3, [acl_posix1e_mode_to_entry ACL_OTHER 100 20 0o4754,
      acl_posix1e_mode_to_entry ACL_USER_OBJ 100 20 0o4754,
      acl_posix1e_mode_to_entry ACL_GROUP_OBJ 100 20 0o4754]⟩ = 0 :=
  (mode_acl_valid 100 20 0o4754).2.1 _
    (@List.perm_append_comm _ [acl_posix1e_mode_to_entry ACL_OTHER 100 20 0o4754]
      [acl_posix1e_mode_to_entry ACL_USER_OBJ 100 20 0o4754,
        acl_posix1e_mode_to_entry ACL_GROUP_OBJ 100 20 0o4754])

end KernAcl

/-! ## Theorems: directory blocks -/

namespace UfsLookup

/-! ### Bit masks as arithmetic -/

theorem and_511 (x : Nat) : x &&& (DIRBLKSIZ - 1) = x % 512 := by
  have h : DIRBLKSIZ - 1 = 2 ^ 9 - 1 := by decide
  rw [h, Nat.and_pow_two_sub_one_eq_mod]

theorem and_3 (x : Nat) : x &&& 3 = x % 4 := by
  have h : (3 : Nat) = 2 ^ 2 - 1 := by decide
  rw [h, Nat.and_pow_two_sub_one_eq_mod]

theorem and_not_511 (x : Nat) : and_not x (DIRBLKSIZ - 1) = x - x % 512 := by
  unfold and_not; rw [and_511]

theorem roundup2_512 (x : Nat) : roundup2 x DIRBLKSIZ = (x + 511) / 512 * 512 := by
  unfold roundup2 and_not
  rw [and_511]
  have h : DIRBLKSIZ - 1 = 511 := by decide
  rw [h]
  omega

theorem roundup2_of_dvd (x : Nat) (h : x % 512 = 0) : roundup2 x DIRBLKSIZ = x := by
  rw [roundup2_512]; omega

theorem DIRECTSIZ_eq (n : Nat) : DIRECTSIZ n = 8 + (n + 4) / 4 * 4 := by
  unfold DIRECTSIZ and_not MAXNAMLEN
  rw [and_3]
  omega

theorem DIRECTSIZ_bounds (n : Nat) : n + 9 ≤ DIRECTSIZ n ∧ DIRECTSIZ n ≤ n + 12 ∧
    DIRECTSIZ n % 4 = 0 := by
  rw [DIRECTSIZ_eq]; omega

/-! ### Byte memory -/

theorem byte_lt (m : mem) (a : Nat) : byte m a < 256 := by
  unfold byte; omega

theorem rd16_lt (le : Bool) (m : mem) (a : Nat) : rd16 le m a < 65536 := by
  unfold rd16
  have h0 := byte_lt m a
  have h1 := byte_lt m (a + 1)
  split <;> omega

theorem rd16_congr (le : Bool) (m m' : mem) (a a' : Nat)
    (h0 : m a = m' a') (h1 : m (a + 1) = m' (a' + 1)) : rd16 le m a = rd16 le m' a' := by
  unfold rd16 byte; rw [h0, h1]

theorem rd32_congr (le : Bool) (m m' : mem) (a a' : Nat)
    (h0 : m a = m' a') (h1 : m (a + 1) = m' (a' + 1)) (h2 : m (a + 2) = m' (a' + 2))
    (h3 : m (a + 3) = m' (a' + 3)) : rd32 le m a = rd32 le m' a' := by
  unfold rd32 byte; rw [h0, h1, h2, h3]

theorem wr8_same (m : mem) (a v : Nat) : wr8 m a v a = v % 256 := by
  unfold wr8; simp

theorem wr8_other (m : mem) (a v x : Nat) (h : x ≠ a) : wr8 m a v x = m x := by
  unfold wr8; simp [h]

theorem wr16_other (le : Bool) (m : mem) (a v x : Nat) (h0 : x ≠ a) (h1 : x ≠ a + 1) :
    wr16 le m a v x = m x := by
  unfold wr16
  split <;> rw [wr8_other _ _ _ _ h1, wr8_other _ _ _ _ h0]

theorem rd16_wr16 (le : Bool) (m : mem) (a v : Nat) (hv : v < 65536) :
    rd16 le (wr16 le m a v) a = v := by
  unfold rd16 wr16 byte
  cases le
  · simp only [Bool.false_eq_true, if_false]
    rw [wr8_same, wr8_other _ _ _ _ (by omega), wr8_same]
    omega
  · simp only [if_true]
    rw [wr8_same, wr8_other _ _ _ _ (by omega), wr8_same]
    omega

theorem wr32_other (le : Bool) (m : mem) (a v x : Nat) (h : x < a ∨ a + 4 ≤ x) :
    wr32 le m a v x = m x := by
  unfold wr32
  split <;>
    rw [wr8_other _ _ _ _ (by omega), wr8_other _ _ _ _ (by omega),
      wr8_other _ _ _ _ (by omega), wr8_other _ _ _ _ (by omega)]

theorem rd32_wr32 (le : Bool) (m : mem) (a v : Nat) (hv : v < 4294967296) :
    rd32 le (wr32 le m a v) a = v := by
  unfold rd32 wr32 byte
  cases le
  · simp only [Bool.false_eq_true, if_false, wr8]
    simp
    omega
  · simp only [if_true, wr8]
    simp
    omega

theorem bcopy_inside (src : mem) (s : Nat) (dst : mem) (d n a : Nat) (h0 : d ≤ a)
    (h1 : a < d + n) : bcopy src s dst d n a = src (s + (a - d)) := by
  unfold bcopy; simp [h0, h1]

theorem bcopy_outside (src : mem) (s : Nat) (dst : mem) (d n a : Nat)
    (h : a < d ∨ d + n ≤ a) : bcopy src s dst d n a = dst a := by
  unfold bcopy
  have : ¬ (d ≤ a ∧ a < d + n) := by omega
  simp [this]

/-! ### Fields of an entry depend on its bytes only -/

theorem d_ino_congr (le : Bool) (m m' : mem) (a a' n : Nat) (h : same_bytes m a m' a' n)
    (hn : 4 ≤ n) : d_ino le m a = d_ino le m' a' := by
  unfold d_ino
  apply rd32_congr
  · simpa using h 0 (by omega)
  · exact h 1 (by omega)
  · exact h 2 (by omega)
  · exact h 3 (by omega)

theorem d_reclen_congr (le : Bool) (m m' : mem) (a a' n : Nat) (h : same_bytes m a m' a' n)
    (hn : 6 ≤ n) : d_reclen le m a = d_reclen le m' a' := by
  unfold d_reclen
  apply rd16_congr
  · exact h 4 (by omega)
  · have := h 5 (by omega)
    simpa [Nat.add_assoc] using this

theorem d_type_congr (m m' : mem) (a a' n : Nat) (h : same_bytes m a m' a' n)
    (hn : 7 ≤ n) : d_type m a = d_type m' a' := by
  unfold d_type byte; rw [h 6 (by omega)]

theorem d_namlen_congr (m m' : mem) (a a' n : Nat) (h : same_bytes m a m' a' n)
    (hn : 8 ≤ n) : d_namlen m a = d_namlen m' a' := by
  unfold d_namlen byte; rw [h 7 (by omega)]

theorem d_name_congr (m m' : mem) (a a' n i : Nat) (h : same_bytes m a m' a' n)
    (hn : 8 + i < n) : d_name m a i = d_name m' a' i := by
  unfold d_name byte
  have := h (8 + i) hn
  rw [← Nat.add_assoc, ← Nat.add_assoc] at this
  rw [this]

theorem namlen_of_congr (env : ufs_env) (m m' : mem) (a a' n : Nat)
    (h : same_bytes m a m' a' n) (hn : 8 ≤ n) : namlen_of env m a = namlen_of env m' a' := by
  unfold namlen_of
  rw [d_type_congr m m' a a' n h (by omega), d_namlen_congr m m' a a' n h hn]

theorem DIRSIZ_congr (env : ufs_env) (b : Bool) (m m' : mem) (a a' n : Nat)
    (h : same_bytes m a m' a' n) (hn : 8 ≤ n) : DIRSIZ env b m a = DIRSIZ env b m' a' := by
  unfold DIRSIZ
  rw [d_type_congr m m' a a' n h (by omega), d_namlen_congr m m' a a' n h hn]

theorem DIRSIZ_bounds (env : ufs_env) (b : Bool) (m : mem) (a : Nat) :
    12 ≤ DIRSIZ env b m a ∧ DIRSIZ env b m a ≤ 264 ∧ DIRSIZ env b m a % 4 = 0 := by
  have ht : d_type m a < 256 := byte_lt _ _
  have hn : d_namlen m a < 256 := byte_lt _ _
  have h1 := DIRECTSIZ_bounds (d_type m a)
  have h2 := DIRECTSIZ_bounds (d_namlen m a)
  have e1 := DIRECTSIZ_eq (d_type m a)
  have e2 := DIRECTSIZ_eq (d_namlen m a)
  unfold DIRSIZ
  split
  · split <;> omega
  · omega

/-! ### Tilings -/

theorem tiles_le (le : Bool) (data : mem) :
    ∀ (l : List Nat) (a b : Nat), tiles le data a b l → a ≤ b := by
  intro l
  induction l with
  | nil => intro a b h; simp only [tiles] at h; omega
  | cons o os ih =>
    intro a b h
    simp only [tiles] at h
    have := ih _ _ h.2.2
    omega

theorem tiles_append (le : Bool) (data : mem) :
    ∀ (l1 l2 : List Nat) (a b c : Nat), tiles le data a b l1 → tiles le data b c l2 →
      tiles le data a c (l1 ++ l2) := by
  intro l1
  induction l1 with
  | nil => intro l2 a b c h1 h2; simp only [tiles] at h1; subst h1; simpa using h2
  | cons o os ih =>
    intro l2 a b c h1 h2
    simp only [tiles] at h1
    simp only [List.cons_append, tiles]
    exact ⟨h1.1, h1.2.1, ih l2 _ _ _ h1.2.2 h2⟩

theorem tiles_split (le : Bool) (data : mem) :
    ∀ (l1 l2 : List Nat) (a c : Nat), tiles le data a c (l1 ++ l2) →
      tiles le data a (a + (l1.map (d_reclen le data)).sum) l1 ∧
        tiles le data (a + (l1.map (d_reclen le data)).sum) c l2 := by
  intro l1
  induction l1 with
  | nil => intro l2 a c h; simpa [tiles] using h
  | cons o os ih =>
    intro l2 a c h
    simp only [List.cons_append, tiles] at h
    obtain ⟨h0, h1, h2⟩ := h
    subst h0
    have := ih l2 _ _ h2
    simp only [List.map_cons, List.sum_cons, tiles]
    rw [← Nat.add_assoc]
    exact ⟨⟨by trivial, h1, this.1⟩, this.2⟩

theorem tiles_congr (le : Bool) (d d' : mem) :
    ∀ (l : List Nat) (a b : Nat), (∀ o ∈ l, d_reclen le d' o = d_reclen le d o) →
      tiles le d a b l → tiles le d' a b l := by
  intro l
  induction l with
  | nil => intro a b _ h; simpa [tiles] using h
  | cons o os ih =>
    intro a b hrl h
    simp only [tiles] at h ⊢
    obtain ⟨h0, h1, h2⟩ := h
    subst h0
    have e := hrl o (List.mem_cons_self _ _)
    rw [e]
    exact ⟨by trivial, h1, ih _ _ (fun x hx => hrl x (List.mem_cons_of_mem _ hx)) h2⟩

theorem tiles_mem_bounds (le : Bool) (data : mem) :
    ∀ (l : List Nat) (a b : Nat), tiles le data a b l →
      ∀ o ∈ l, a ≤ o ∧ o + d_reclen le data o ≤ b := by
  intro l
  induction l with
  | nil => intro a b _ o ho; simp at ho
  | cons x xs ih =>
    intro a b h o ho
    simp only [tiles] at h
    obtain ⟨h0, h1, h2⟩ := h
    subst h0
    rcases List.mem_cons.mp ho with e | e
    · subst e
      have := tiles_le le data _ _ _ h2
      omega
    · have := ih _ _ h2 o e
      omega

/-- A walk whose record lengths add up to the distance walked is a tiling. -/
theorem walk_tiles (le : Bool) (data : mem) (stop : Nat) :
    ∀ (fuel a : Nat), a ≤ stop →
      ((walk le data stop fuel a).map (d_reclen le data)).sum = stop - a →
      tiles le data a stop (walk le data stop fuel a) := by
  intro fuel
  induction fuel with
  | zero =>
    intro a ha h
    simp only [walk, List.map_nil, List.sum_nil] at h
    simp only [walk, tiles]
    omega
  | succ f ih =>
    intro a ha h
    simp only [walk] at h ⊢
    by_cases hc : a < stop ∧ d_reclen le data a ≠ 0
    · rw [if_pos hc] at h ⊢
      simp only [List.map_cons, List.sum_cons] at h
      simp only [tiles]
      have hle : a + d_reclen le data a ≤ stop := by
        by_contra hgt
        have hw : walk le data stop f (a + d_reclen le data a) = [] := by
          cases f with
          | zero => rfl
          | succ g =>
            simp only [walk]
            rw [if_neg]
            intro hh; omega
        rw [hw] at h
        simp at h
        omega
      refine ⟨by trivial, by omega, ih _ hle ?_⟩
      omega
    · rw [if_neg hc] at h ⊢
      simp only [List.map_nil, List.sum_nil] at h
      simp only [tiles]
      omega

/-- A tiling is what the walk finds, given enough budget. -/
theorem tiles_walk (le : Bool) (data : mem) (stop : Nat) :
    ∀ (l : List Nat) (fuel a : Nat), tiles le data a stop l → stop - a ≤ fuel →
      walk le data stop fuel a = l := by
  intro l
  induction l with
  | nil =>
    intro fuel a h _
    simp only [tiles] at h
    subst h
    cases fuel with
    | zero => rfl
    | succ f => simp [walk]
  | cons o os ih =>
    intro fuel a h hf
    simp only [tiles] at h
    obtain ⟨h0, h1, h2⟩ := h
    subst h0
    have hle := tiles_le le data _ _ _ h2
    cases fuel with
    | zero => omega
    | succ f =>
      simp only [walk]
      rw [if_pos ⟨by omega, by omega⟩, ih f _ h2 (by omega)]

theorem tiles_sum (le : Bool) (data : mem) :
    ∀ (l : List Nat) (a b : Nat), tiles le data a b l →
      (l.map (d_reclen le data)).sum = b - a := by
  intro l
  induction l with
  | nil => intro a b h; simp only [tiles] at h; simp; omega
  | cons o os ih =>
    intro a b h
    simp only [tiles] at h
    obtain ⟨h0, h1, h2⟩ := h
    subst h0
    have := ih _ _ h2
    have hle := tiles_le le data _ _ _ h2
    simp only [List.map_cons, List.sum_cons]
    omega

/-! ### Packed ranges -/

theorem packed_le (env : ufs_env) (d0 d : mem) :
    ∀ (ps : List (Nat × Nat)) (a b : Nat), packed env d0 d a b ps → a ≤ b := by
  intro ps
  induction ps with
  | nil => intro a b h; simp only [packed] at h; omega
  | cons p ps ih =>
    intro a b h
    simp only [packed] at h
    have := ih _ _ h.2.2.2.2
    omega

theorem packed_frame (env : ufs_env) (d0 d d' : mem) :
    ∀ (ps : List (Nat × Nat)) (a b : Nat), (∀ x, a ≤ x → x < b → d' x = d x) →
      packed env d0 d a b ps → packed env d0 d' a b ps := by
  intro ps
  induction ps with
  | nil => intro a b _ h; simpa [packed] using h
  | cons p ps ih =>
    intro a b hag h
    simp only [packed] at h ⊢
    obtain ⟨h0, h1, h2, h3, h4⟩ := h
    have hb := DIRSIZ_bounds env (OFSFMT env) d0 p.2
    have hle := packed_le env d0 d _ _ _ h4
    refine ⟨h0, h1, ?_, ?_, ih _ _ (fun x hx hx' => hag x (by omega) hx') h4⟩
    · intro i hi h4' h5'
      rw [hag (p.1 + i) (by omega) (by omega)]
      exact h2 i hi h4' h5'
    · rw [← h3]
      unfold d_reclen
      apply rd16_congr
      · exact hag _ (by omega) (by omega)
      · exact hag _ (by omega) (by omega)

theorem packed_append (env : ufs_env) (d0 d : mem) :
    ∀ (ps qs : List (Nat × Nat)) (a b c : Nat), packed env d0 d a b ps →
      packed env d0 d b c qs → packed env d0 d a c (ps ++ qs) := by
  intro ps
  induction ps with
  | nil => intro qs a b c h1 h2; simp only [packed] at h1; subst h1; simpa using h2
  | cons p ps ih =>
    intro qs a b c h1 h2
    simp only [packed] at h1
    simp only [List.cons_append, packed]
    exact ⟨h1.1, h1.2.1, h1.2.2.1, h1.2.2.2.1, ih qs _ _ _ h1.2.2.2.2 h2⟩

/-! ### The compaction loop of `ufs_direnter` -/

/-- The second half of an iteration: once the record at `ep` is settled (trimmed and
skipped, or given up), the next record is copied to `ep1` and becomes the current one. -/
theorem compact_copy_inv (env : ufs_env) (d0 : mem) (S E : Nat) (data1 : mem)
    (ep1 : Nat) (sf1 : Int) (loc : Nat) (done1 : List Nat) (o1 : Nat) (rest : List Nat)
    (pairs1 : List (Nat × Nat))
    (hlo : S ≤ ep1) (hhi : ep1 ≤ o1) (hnext : S + loc = o1)
    (htiles : tiles env.little_endian d0 o1 E (o1 :: rest))
    (hwhole : ∀ o ∈ o1 :: rest, whole_entry env d0 o)
    (habove : ∀ x, o1 ≤ x → data1 x = d0 x)
    (hbelow : ∀ x, x < S → data1 x = d0 x)
    (hspace : (ep1 : Int) + sf1 = S + loc)
    (hlayout : packed env d0 data1 S ep1 pairs1)
    (hkept : pairs1.map Prod.snd = done1.filter (fun o => d_ino env.little_endian d0 o ≠ 0)) :
    compact_inv env d0 S E
      { data := bcopy data1 o1 data1 ep1 (DIRSIZ env (OFSFMT env) data1 o1)
        ep := ep1
        dsize := DIRSIZ env (OFSFMT env) data1 o1
        spacefree := sf1 + ((d_reclen env.little_endian data1 o1 : Int) -
          DIRSIZ env (OFSFMT env) data1 o1)
        loc := loc + d_reclen env.little_endian data1 o1 }
      done1 o1 rest pairs1 := by
  have hsb : same_bytes data1 o1 d0 o1 8 := fun i _ => habove _ (by omega)
  have hD : DIRSIZ env (OFSFMT env) data1 o1 = DIRSIZ env (OFSFMT env) d0 o1 :=
    DIRSIZ_congr env _ _ _ _ _ 8 hsb (by omega)
  have hL : d_reclen env.little_endian data1 o1 = d_reclen env.little_endian d0 o1 :=
    d_reclen_congr _ _ _ _ _ 8 hsb (by omega)
  have hw1 : whole_entry env d0 o1 := hwhole o1 (List.mem_cons_self _ _)
  unfold whole_entry at hw1
  simp only [tiles] at htiles
  obtain ⟨_, hpos, hrest⟩ := htiles
  rw [hD, hL]
  refine
    { ep_lo := hlo
      ep_hi := hhi
      next_eq := by simp only; omega
      rest_tiles := by
        simp only
        have e : S + (loc + d_reclen env.little_endian d0 o1) =
            o1 + d_reclen env.little_endian d0 o1 := by omega
        rw [e]; exact hrest
      whole_cur := hwhole o1 (List.mem_cons_self _ _)
      whole_rest := fun o ho => hwhole o (List.mem_cons_of_mem _ ho)
      above := by
        intro x hx
        simp only at hx ⊢
        rw [bcopy_outside _ _ _ _ _ _ (by omega)]
        exact habove x (by omega)
      below := by
        intro x hx
        simp only
        rw [bcopy_outside _ _ _ _ _ _ (by omega)]
        exact hbelow x hx
      copy := by
        intro i hi
        simp only at hi ⊢
        rw [bcopy_inside _ _ _ _ _ _ (by omega) (by omega)]
        have e : o1 + (ep1 + i - ep1) = o1 + i := by omega
        rw [e]
        exact habove _ (by omega)
      dsize_eq := rfl
      space := by simp only; push_cast; omega
      layout := by
        simp only
        apply packed_frame env d0 data1 _ pairs1 S ep1 _ hlayout
        intro x _ hx
        exact bcopy_outside _ _ _ _ _ _ (by omega)
      kept := hkept }

/-- One iteration of the compaction loop keeps the invariant. -/
theorem compact_step_inv (env : ufs_env) (d0 : mem) (S E : Nat) (s : compact_state)
    (done : List Nat) (cur o1 : Nat) (rest : List Nat) (pairs : List (Nat × Nat))
    (hinv : compact_inv env d0 S E s done cur (o1 :: rest) pairs) :
    ∃ pairs1,
      compact_inv env d0 S E
        (let s1 : compact_state :=
          if d_ino env.little_endian s.data s.ep ≠ 0 then
            { s with data := wr16 env.little_endian s.data (s.ep + 4) s.dsize,
                     ep := s.ep + s.dsize }
          else { s with spacefree := s.spacefree + s.dsize }
        { data := bcopy s1.data (S + s.loc) s1.data s1.ep
            (DIRSIZ env (OFSFMT env) s1.data (S + s.loc))
          ep := s1.ep
          dsize := DIRSIZ env (OFSFMT env) s1.data (S + s.loc)
          spacefree := s1.spacefree +
            ((d_reclen env.little_endian s1.data (S + s.loc) : Int) -
              DIRSIZ env (OFSFMT env) s1.data (S + s.loc))
          loc := s1.loc + d_reclen env.little_endian s1.data (S + s.loc) })
        (done ++ [cur]) o1 rest pairs1 := by
  have hb := DIRSIZ_bounds env (OFSFMT env) d0 cur
  have hwc := hinv.whole_cur
  unfold whole_entry at hwc
  have ht := hinv.rest_tiles
  have ho1 : S + s.loc = o1 := by
    simp only [tiles] at ht; exact ht.1.symm
  have hino : d_ino env.little_endian s.data s.ep = d_ino env.little_endian d0 cur :=
    d_ino_congr _ _ _ _ _ _ hinv.copy (by omega)
  have hds := hinv.dsize_eq
  have hne := hinv.next_eq
  have hlo := hinv.ep_lo
  have hhi := hinv.ep_hi
  have hwhole : ∀ o ∈ o1 :: rest, whole_entry env d0 o := hinv.whole_rest
  have htl : tiles env.little_endian d0 o1 E (o1 :: rest) := by
    have h := ht
    rw [ho1] at h
    exact h
  by_cases hu : d_ino env.little_endian s.data s.ep ≠ 0
  · -- the record at ep is in use: it is trimmed and kept
    refine ⟨pairs ++ [(s.ep, cur)], ?_⟩
    simp only [if_pos hu]
    rw [ho1]
    apply compact_copy_inv env d0 S E _ _ _ _ _ o1 rest _ (by omega) (by omega) ho1 htl hwhole
    · intro x hx
      rw [wr16_other _ _ _ _ _ (by omega) (by omega)]
      exact hinv.above x (by omega)
    · intro x hx
      rw [wr16_other _ _ _ _ _ (by omega) (by omega)]
      exact hinv.below x hx
    · have := hinv.space
      push_cast
      omega
    · apply packed_append env d0 _ pairs [(s.ep, cur)] S s.ep
      · apply packed_frame env d0 s.data _ pairs S s.ep _ hinv.layout
        intro x _ hx
        exact wr16_other _ _ _ _ _ (by omega) (by omega)
      · simp only [packed]
        refine ⟨by trivial, ?_, ?_, ?_, by omega⟩
        · rw [← hino]; exact hu
        · intro i hi h4 h5
          rw [wr16_other _ _ _ _ _ (by omega) (by omega)]
          exact hinv.copy i hi
        · unfold d_reclen
          rw [rd16_wr16 _ _ _ _ (by omega), hds]
    · rw [List.map_append, hinv.kept, List.filter_append]
      have hcur : d_ino env.little_endian d0 cur ≠ 0 := by rw [← hino]; exact hu
      simp [List.filter_cons, hcur]
  · -- the record at ep is free: its space is given up
    refine ⟨pairs, ?_⟩
    simp only [if_neg hu]
    rw [ho1]
    apply compact_copy_inv env d0 S E _ _ _ _ _ o1 rest _ hlo (by omega) ho1 htl hwhole
    · intro x hx
      exact hinv.above x (by omega)
    · exact hinv.below
    · have := hinv.space
      omega
    · exact hinv.layout
    · rw [hinv.kept, List.filter_append]
      have hcur : d_ino env.little_endian d0 cur = 0 := by
        rw [← hino]; simpa using hu
      simp [List.filter_cons, hcur]

/-- The compaction loop runs to its end and keeps the invariant: at the end no record
is left to read. -/
theorem compact_loop_spec (env : ufs_env) (d0 : mem) (S E i_count : Nat)
    (hE : E = S + i_count) :
    ∀ (rest : List Nat) (fuel : Nat) (s : compact_state) (done : List Nat) (cur : Nat)
      (pairs : List (Nat × Nat)),
      compact_inv env d0 S E s done cur rest pairs → rest.length ≤ fuel →
      ∃ s' done' cur' pairs',
        compact_loop env S i_count fuel s = some s' ∧
          compact_inv env d0 S E s' done' cur' [] pairs' ∧
          done' ++ [cur'] = done ++ cur :: rest := by
  intro rest
  induction rest with
  | nil =>
    intro fuel s done cur pairs hinv _
    have ht := hinv.rest_tiles
    simp only [tiles] at ht
    have hstop : ¬ s.loc < i_count := by omega
    refine ⟨s, done, cur, pairs, ?_, hinv, rfl⟩
    cases fuel with
    | zero => simp only [compact_loop]; rw [if_neg hstop]
    | succ f => simp only [compact_loop]; rw [if_pos hstop]
  | cons o1 rest ih =>
    intro fuel s done cur pairs hinv hfuel
    have ht := hinv.rest_tiles
    have hle := tiles_le _ _ _ _ _ ht
    simp only [tiles] at ht
    obtain ⟨ho1, hpos, ht2⟩ := ht
    have hle2 := tiles_le _ _ _ _ _ ht2
    have hgo : s.loc < i_count := by omega
    cases fuel with
    | zero => simp at hfuel
    | succ f =>
      obtain ⟨pairs1, hinv1⟩ := compact_step_inv env d0 S E s done cur o1 rest pairs hinv
      obtain ⟨s', done', cur', pairs', hrun, hinv', hlist⟩ :=
        ih f _ (done ++ [cur]) o1 pairs1 hinv1 (by simpa using hfuel)
      refine ⟨s', done', cur', pairs', ?_, hinv', ?_⟩
      · simp only [compact_loop]
        rw [if_neg (by omega)]
        exact hrun
      · rw [hlist]; simp

theorem tiles_length (le : Bool) (data : mem) :
    ∀ (l : List Nat) (a b : Nat), tiles le data a b l → l.length ≤ b - a := by
  intro l
  induction l with
  | nil => intro a b _; simp
  | cons o os ih =>
    intro a b h
    simp only [tiles] at h
    have h1 := ih _ _ h.2.2
    have h2 := tiles_le le data _ _ _ h.2.2
    simp only [List.length_cons]
    omega

/-- The sum of the packed sizes of the listed records of `d0`. -/
theorem packed_end (env : ufs_env) (d0 d : mem) :
    ∀ (ps : List (Nat × Nat)) (a b : Nat), packed env d0 d a b ps →
      b = a + ((ps.map Prod.snd).map (DIRSIZ env (OFSFMT env) d0)).sum := by
  intro ps
  induction ps with
  | nil => intro a b h; simp only [packed] at h; simp [h]
  | cons p ps ih =>
    intro a b h
    simp only [packed] at h
    have := ih _ _ h.2.2.2.2
    simp only [List.map_cons, List.sum_cons]
    omega

theorem slot_free_eq (env : ufs_env) (d : mem) :
    ∀ (l : List Nat) (a b : Nat), tiles env.little_endian d a b l →
      slot_free env d l = (b : Int) - a -
        (((l.filter (fun o => d_ino env.little_endian d o ≠ 0)).map
          (DIRSIZ env (OFSFMT env) d)).sum : Nat) := by
  intro l
  induction l with
  | nil => intro a b h; simp only [tiles] at h; simp [slot_free, h]
  | cons o os ih =>
    intro a b h
    simp only [tiles] at h
    obtain ⟨h0, h1, h2⟩ := h
    subst h0
    have e := ih _ _ h2
    unfold slot_free at e ⊢
    simp only [List.map_cons, List.sum_cons, e, entry_free]
    by_cases hu : d_ino env.little_endian d o ≠ 0
    · simp only [List.filter_cons, hu, if_true, decide_True, List.map_cons, List.sum_cons,
        ne_eq, not_false_eq_true]
      push_cast
      omega
    · have hz : d_ino env.little_endian d o = 0 := by simpa using hu
      simp only [List.filter_cons, hz, ne_eq, not_true_eq_false, decide_False, if_false]
      push_cast
      omega

theorem to_u32_of_nat (n : Nat) (h : n < 4294967296) : to_u32 (n : Int) = n := by
  unfold to_u32
  omega

/-- The code after the compaction loop, on a final state that satisfies the invariant
and a slot with enough free space: no panic, and the slot holds the kept entries
followed by the new entry. -/
theorem direnter_place_spec (env : ufs_env) (d0 : mem) (S E : Nat) (dp1 : inode)
    (dirp : mem) (s : compact_state) (done : List Nat) (cur : Nat)
    (pairs : List (Nat × Nat)) (slot : List Nat)
    (hinv : compact_inv env d0 S E s done cur [] pairs)
    (hslot : done ++ [cur] = slot)
    (htiles : tiles env.little_endian d0 S E slot)
    (hsmall : E - S < 65536)
    (hfree : (DIRSIZ env (OFSFMT env) dirp 0 : Int) ≤ slot_free env d0 slot) :
    ∃ pairs' p,
      slot_outcome env d0 S E slot dirp (direnter_place env dp1 dirp s) pairs' p ∧
        (direnter_place env dp1 dirp s).ret = .returned (slot_write_error env) ∧
        (direnter_place env dp1 dirp s).dp = slot_truncate env dp1 (slot_write_error env) := by
  have hb := DIRSIZ_bounds env (OFSFMT env) d0 cur
  have hnb := DIRSIZ_bounds env (OFSFMT env) dirp 0
  have hwc := hinv.whole_cur
  unfold whole_entry at hwc
  have hEq : S + s.loc = E := by
    have := hinv.rest_tiles; simpa [tiles] using this
  have hino : d_ino env.little_endian s.data s.ep = d_ino env.little_endian d0 cur :=
    d_ino_congr _ _ _ _ _ _ hinv.copy (by omega)
  have hds := hinv.dsize_eq
  have hne := hinv.next_eq
  have hlo := hinv.ep_lo
  have hhi := hinv.ep_hi
  have hsp := hinv.space
  have hSE := tiles_le _ _ _ _ _ htiles
  -- accounting of the free space
  have hpe := packed_end env d0 s.data pairs S s.ep hinv.layout
  rw [hinv.kept] at hpe
  have hsf := slot_free_eq env d0 slot S E htiles
  rw [← hslot, List.filter_append] at hsf
  simp only [List.map_append, List.sum_append] at hsf
  rw [← hslot] at hfree
  unfold direnter_place
  simp only
  by_cases hA : d_ino env.little_endian s.data s.ep = 0 ∨
      (d_ino env.little_endian s.data s.ep = WINO ∧
        bcmp_eq s.data (s.ep + 8) dirp 8 (d_namlen dirp 0) = true)
  · -- the entry at ep is given up: the new entry takes its place
    rw [if_pos hA]
    have hval : s.spacefree + (s.dsize : Int) = ((E - s.ep : Nat) : Int) := by omega
    have hlast : (((List.filter (fun o => d_ino env.little_endian d0 o ≠ 0) [cur]).map
        (DIRSIZ env (OFSFMT env) d0)).sum : Nat) ≤ DIRSIZ env (OFSFMT env) d0 cur := by
      by_cases hu : d_ino env.little_endian d0 cur ≠ 0
      · simp [List.filter_cons, hu]
      · have hz : d_ino env.little_endian d0 cur = 0 := by simpa using hu
        simp [List.filter_cons, hz]
    have hroom : DIRSIZ env (OFSFMT env) dirp 0 ≤ E - s.ep := by
      rw [hsf] at hfree
      generalize ((List.filter (fun o => d_ino env.little_endian d0 o ≠ 0) done).map
        (DIRSIZ env (OFSFMT env) d0)).sum = A at hfree hpe
      generalize ((List.filter (fun o => d_ino env.little_endian d0 o ≠ 0) [cur]).map
        (DIRSIZ env (OFSFMT env) d0)).sum = B at hfree hlast
      omega
    rw [hval, to_u32_of_nat _ (by omega), if_neg (by omega)]
    refine ⟨pairs, s.ep, ?_, rfl, rfl⟩
    unfold direnter_finish
    refine
      { frame := ?_, layout := ?_, fits := by omega, entry := ?_, kept := ?_,
        new_dirp := rfl }
    · intro x hx
      simp only
      rw [bcopy_outside _ _ _ _ _ _ (by omega)]
      rcases hx with hx | hx
      · exact hinv.below x hx
      · exact hinv.above x (by omega)
    · simp only
      apply packed_frame env d0 s.data _ pairs S s.ep _ hinv.layout
      intro x _ hx
      exact bcopy_outside _ _ _ _ _ _ (by omega)
    · intro i hi
      simp only
      rw [bcopy_inside _ _ _ _ _ _ (by omega) (by omega)]
      congr 1
      omega
    · by_cases hz : d_ino env.little_endian d0 cur = 0
      · left
        rw [hinv.kept, ← hslot, List.filter_append]
        simp [List.filter_cons, hz]
      · right
        refine ⟨done, cur, hslot.symm, ?_, hinv.kept⟩
        rcases hA with h | h
        · exact absurd (hino ▸ h) hz
        · rw [← hino]; exact h.1
  · -- the entry at ep is kept and trimmed: the new entry follows it
    rw [if_neg hA]
    have hu : d_ino env.little_endian d0 cur ≠ 0 := by
      intro hz
      apply hA
      left
      rw [hino]; exact hz
    have hlast : (((List.filter (fun o => d_ino env.little_endian d0 o ≠ 0) [cur]).map
        (DIRSIZ env (OFSFMT env) d0)).sum : Nat) = DIRSIZ env (OFSFMT env) d0 cur := by
      simp [List.filter_cons, hu]
    have hval : s.spacefree = ((E - (s.ep + s.dsize) : Nat) : Int) := by omega
    have hroom : DIRSIZ env (OFSFMT env) dirp 0 ≤ E - (s.ep + s.dsize) := by
      rw [hsf, hlast] at hfree
      generalize ((List.filter (fun o => d_ino env.little_endian d0 o ≠ 0) done).map
        (DIRSIZ env (OFSFMT env) d0)).sum = A at hfree hpe
      omega
    rw [hval, to_u32_of_nat _ (by omega), if_neg (by omega)]
    refine ⟨pairs ++ [(s.ep, cur)], s.ep + s.dsize, ?_, rfl, rfl⟩
    unfold direnter_finish
    refine
      { frame := ?_, layout := ?_, fits := by omega, entry := ?_, kept := ?_,
        new_dirp := rfl }
    · intro x hx
      simp only
      rw [bcopy_outside _ _ _ _ _ _ (by omega), wr16_other _ _ _ _ _ (by omega) (by omega)]
      rcases hx with hx | hx
      · exact hinv.below x hx
      · exact hinv.above x (by omega)
    · simp only
      apply packed_frame env d0 (wr16 env.little_endian s.data (s.ep + 4) s.dsize)
      · intro x _ hx
        exact bcopy_outside _ _ _ _ _ _ (by omega)
      · apply packed_append env d0 _ pairs [(s.ep, cur)] S s.ep
        · apply packed_frame env d0 s.data _ pairs S s.ep _ hinv.layout
          intro x _ hx
          exact wr16_other _ _ _ _ _ (by omega) (by omega)
        · simp only [packed]
          refine ⟨by trivial, hu, ?_, ?_, by omega⟩
          · intro i hi h4 h5
            rw [wr16_other _ _ _ _ _ (by omega) (by omega)]
            exact hinv.copy i hi
          · unfold d_reclen
            rw [rd16_wr16 _ _ _ _ (by omega), hds]
    · intro i hi
      simp only
      rw [bcopy_inside _ _ _ _ _ _ (by omega) (by omega)]
      congr 1
      omega
    · left
      rw [List.map_append, hinv.kept, ← hslot, List.filter_append]
      simp [List.filter_cons, hu]

/-- The slot case of `ufs_direnter` on a slot tiled by whole records with enough free
space: the call returns, the content outside the slot is untouched, and the slot holds
the kept entries followed by the new entry. -/
theorem direnter_slot_spec (env : ufs_env) (d0 : mem) (dp : inode) (dirp : mem)
    (slot : List Nat)
    (hcount : dp.i_count ≠ 0)
    (hio : env.blkatoff_err dp.i_offset = 0)
    (htiles : tiles env.little_endian d0 dp.i_offset (dp.i_offset + dp.i_count) slot)
    (hwhole : ∀ o ∈ slot, whole_entry env d0 o)
    (hsmall : dp.i_count < 65536)
    (hfree : (DIRSIZ env (OFSFMT env) dirp 0 : Int) ≤ slot_free env d0 slot) :
    ∃ pairs p,
      slot_outcome env d0 dp.i_offset (dp.i_offset + dp.i_count) slot dirp
          (ufs_direnter env d0 dp dirp) pairs p ∧
        (ufs_direnter env d0 dp dirp).ret = .returned (slot_write_error env) ∧
        (ufs_direnter env d0 dp dirp).dp =
          slot_truncate env
            (if dp.i_offset + dp.i_count > dp.i_size then
              { dp with i_size := dp.i_offset + dp.i_count }
            else dp) (slot_write_error env) := by
  cases slot with
  | nil =>
    simp only [tiles] at htiles
    omega
  | cons o0 rest =>
    have ht0 := htiles
    simp only [tiles] at ht0
    obtain ⟨h0, hpos, hrest⟩ := ht0
    subst h0
    have hlen := tiles_length _ _ _ _ _ hrest
    have hinv0 : compact_inv env d0 dp.i_offset (dp.i_offset + dp.i_count)
        { data := d0
          ep := dp.i_offset
          dsize := DIRSIZ env (OFSFMT env) d0 dp.i_offset
          spacefree := (d_reclen env.little_endian d0 dp.i_offset : Int) -
            DIRSIZ env (OFSFMT env) d0 dp.i_offset
          loc := d_reclen env.little_endian d0 dp.i_offset }
        [] dp.i_offset rest [] :=
      { ep_lo := Nat.le_refl _
        ep_hi := Nat.le_refl _
        next_eq := rfl
        rest_tiles := hrest
        whole_cur := hwhole _ (List.mem_cons_self _ _)
        whole_rest := fun o ho => hwhole o (List.mem_cons_of_mem _ ho)
        above := fun _ _ => rfl
        below := fun _ _ => rfl
        copy := fun _ _ => rfl
        dsize_eq := rfl
        space := by simp only; omega
        layout := by simp [packed]
        kept := rfl }
    obtain ⟨s', done', cur', pairs', hrun, hinv', hlist⟩ :=
      compact_loop_spec env d0 dp.i_offset (dp.i_offset + dp.i_count) dp.i_count rfl rest
        dp.i_count _ [] dp.i_offset [] hinv0 (by omega)
    have hplace := direnter_place_spec env d0 dp.i_offset (dp.i_offset + dp.i_count)
      (if dp.i_offset + dp.i_count > dp.i_size then
        { dp with i_size := dp.i_offset + dp.i_count } else dp)
      dirp s' done' cur' pairs' (dp.i_offset :: rest) hinv' (by simpa using hlist) htiles
      (by omega) hfree
    have hrw : ufs_direnter env d0 dp dirp =
        direnter_place env
          (if dp.i_offset + dp.i_count > dp.i_size then
            { dp with i_size := dp.i_offset + dp.i_count } else dp) dirp s' := by
      unfold ufs_direnter
      simp only [if_neg hcount, hio, ne_eq, not_true_eq_false, if_false]
      rw [hrun]
    rw [hrw]
    exact hplace

theorem packed_tiles (env : ufs_env) (d0 d : mem) :
    ∀ (ps : List (Nat × Nat)) (a b : Nat), packed env d0 d a b ps →
      tiles env.little_endian d a b (ps.map Prod.fst) := by
  intro ps
  induction ps with
  | nil => intro a b h; simpa [packed, tiles] using h
  | cons p ps ih =>
    intro a b h
    simp only [packed] at h
    obtain ⟨h0, _, _, h3, h4⟩ := h
    have hb := DIRSIZ_bounds env (OFSFMT env) d0 p.2
    simp only [List.map_cons, tiles]
    rw [← h0, h3]
    refine ⟨rfl, by omega, ?_⟩
    rw [h0]
    exact ih _ _ h4

/-- The record length the new entry carries once copied into the directory. -/
theorem new_entry_reclen (env : ufs_env) (d dirp : mem) (p v n : Nat)
    (h : same_bytes d p (wr16 env.little_endian dirp 4 v) 0 n) (hn : 6 ≤ n) (hv : v < 65536) :
    d_reclen env.little_endian d p = v := by
  rw [d_reclen_congr env.little_endian d (wr16 env.little_endian dirp 4 v) p 0 n h hn]
  unfold d_reclen
  exact rd16_wr16 _ _ _ _ hv

/-! ### The mount -/

theorem env_ok_mask (env : ufs_env) (henv : env_ok env) (x : Nat) :
    x &&& (env.f_iosize - 1) = x % env.f_iosize := by
  obtain ⟨⟨k, _, hk⟩, _⟩ := henv
  rw [hk, Nat.and_pow_two_sub_one_eq_mod]

theorem env_ok_mult (env : ufs_env) (henv : env_ok env) :
    ∃ m, 1 ≤ m ∧ env.f_iosize = 512 * m := by
  obtain ⟨⟨k, hk9, hk⟩, _⟩ := henv
  refine ⟨2 ^ (k - 9), Nat.one_le_two_pow, ?_⟩
  rw [hk]
  have : k = 9 + (k - 9) := by omega
  conv_lhs => rw [this, Nat.pow_add]

theorem block_mod_facts (F m o L : Nat) (hF : F = 512 * m) (hm : 1 ≤ m)
    (hL : L ≤ 512 - o % 512) :
    o % F % 512 = o % 512 ∧ o % F + L ≤ F ∧ ((o + L) % F ≠ 0 → (o + L) % F = o % F + L) := by
  have hdvd : 512 ∣ F := ⟨m, hF⟩
  have h1 : o % F % 512 = o % 512 := Nat.mod_mod_of_dvd o hdvd
  have hFpos : 0 < F := by omega
  have hr : o % F < F := Nat.mod_lt _ hFpos
  have h2 : o % F + L ≤ F := by omega
  refine ⟨h1, h2, ?_⟩
  intro hne
  have hsplit : o + L = o % F + L + F * (o / F) := by
    have := Nat.mod_add_div o F
    omega
  rcases Nat.lt_or_ge (o % F + L) F with hlt | hge
  · rw [hsplit, Nat.add_mul_mod_self_left, Nat.mod_eq_of_lt hlt]
  · exfalso
    apply hne
    have heq : o % F + L = F := by omega
    rw [hsplit, heq, Nat.add_mul_mod_self_left, Nat.mod_self]

/-! ### Sound entries -/

theorem entry_ok_facts (env : ufs_env) (data : mem) (o : Nat) (h : entry_ok env data o) :
    d_reclen env.little_endian data o % 4 = 0 ∧
      d_reclen env.little_endian data o ≤ 512 - o % 512 ∧
      DIRSIZ env (OFSFMT env) data o ≤ d_reclen env.little_endian data o := by
  unfold entry_ok ufs_dirbadentry at h
  simp only at h
  by_cases hc : d_reclen env.little_endian data o &&& 0x3 ≠ 0 ∨
      d_reclen env.little_endian data o > DIRBLKSIZ - (o &&& (DIRBLKSIZ - 1)) ∨
      d_reclen env.little_endian data o < DIRSIZ env (OFSFMT env) data o ∨
      namlen_of env data o > MAXNAMLEN
  · rw [if_pos hc] at h
    exact absurd h (by simp)
  · rw [and_3, and_511] at hc
    have h512 : DIRBLKSIZ = 512 := rfl
    rw [h512] at hc
    omega

theorem entry_ok_whole (env : ufs_env) (data : mem) (o : Nat) (h : entry_ok env data o) :
    whole_entry env data o :=
  (entry_ok_facts env data o h).2.2

theorem dirbadentry_offset (env : ufs_env) (data : mem) (ep e e' : Nat)
    (h : e % 512 = e' % 512) :
    ufs_dirbadentry env data ep e = ufs_dirbadentry env data ep e' := by
  unfold ufs_dirbadentry
  rw [and_511, and_511, h]

/-! ### The search loop and the list-driven scan -/

theorem slot_update_frame (env : ufs_env) (data : mem) (n : Nat) (st : lookup_state)
    (ep : Nat) :
    (slot_update env data n st ep).i_offset = st.i_offset ∧
      (slot_update env data n st ep).endsearch = st.endsearch ∧
      (slot_update env data n st ep).bp = st.bp ∧
      (slot_update env data n st ep).entryoffsetinblock = st.entryoffsetinblock ∧
      (slot_update env data n st ep).prevoff = st.prevoff ∧
      (slot_update env data n st ep).enduseful = st.enduseful ∧
      (slot_update env data n st ep).numdirpasses = st.numdirpasses := by
  unfold slot_update
  simp only
  split_ifs <;> simp

theorem slot_update_norm (env : ufs_env) (data : mem) (n : Nat) (st : lookup_state)
    (ep : Nat) :
    slot_update env data n (norm st) ep = norm (slot_update env data n st ep) := by
  unfold slot_update norm
  simp only
  split_ifs <;> rfl

/-- The outcome of an iteration with the buffer bookkeeping blanked. -/
theorem examine_norm (env : ufs_env) (data : mem) (i_size : Nat) (cnp : componentname)
    (n : Nat) (st : lookup_state) (ep : Nat) :
    (match examine env data i_size cnp n (norm st) ep with
      | .exit e => step_result.exit (exit_norm e)
      | .next st' => step_result.next (norm st')) =
    (match examine env data i_size cnp n st ep with
      | .exit e => step_result.exit (exit_norm e)
      | .next st' => step_result.next (norm st')) := by
  unfold examine
  simp only [slot_update_norm]
  split_ifs <;> simp [exit_norm, norm]

theorem examine_next (env : ufs_env) (data : mem) (i_size : Nat) (cnp : componentname)
    (n : Nat) (st st' : lookup_state) (ep : Nat)
    (h : examine env data i_size cnp n st ep = .next st') :
    st'.i_offset = st.i_offset + d_reclen env.little_endian data ep ∧
      st'.endsearch = st.endsearch ∧ st'.bp = st.bp ∧
      st'.entryoffsetinblock = st.entryoffsetinblock + d_reclen env.little_endian data ep := by
  have hf := slot_update_frame env data n st ep
  unfold examine at h
  simp only at h
  by_cases hc : d_ino env.little_endian data ep ≠ 0 ∧ name_match env data cnp ep = true
  · rw [if_pos hc] at h
    split at h <;> simp at h
  · rw [if_neg hc] at h
    simp only [step_result.next.injEq] at h
    subst h
    simp [hf.1, hf.2.1, hf.2.2.1, hf.2.2.2.1]

/-- The two first steps of an iteration, under the bookkeeping invariant. -/
theorem fetch_reset (env : ufs_env) (henv : env_ok env) (st : lookup_state)
    (hinv : blk_inv env st) :
    (reset_slot (fetch_block env st)).bp =
        some (st.i_offset - st.i_offset % env.f_iosize) ∧
      (reset_slot (fetch_block env st)).entryoffsetinblock = st.i_offset % env.f_iosize ∧
      (reset_slot (fetch_block env st)).i_offset = st.i_offset ∧
      (reset_slot (fetch_block env st)).endsearch = st.endsearch ∧
      norm (reset_slot (fetch_block env st)) = scan_reset (norm st) st.i_offset := by
  obtain ⟨m, hm, hF⟩ := env_ok_mult env henv
  have hmod : st.i_offset % env.f_iosize % 512 = st.i_offset % 512 :=
    Nat.mod_mod_of_dvd _ ⟨m, hF⟩
  have h512 : DIRBLKSIZ = 512 := rfl
  unfold blk_inv at hinv
  unfold reset_slot fetch_block scan_reset norm
  rw [env_ok_mask env henv]
  by_cases hz : st.i_offset % env.f_iosize = 0
  · have hz' : st.i_offset % 512 = 0 := by omega
    simp only [hz, if_true, and_511, Nat.zero_mod, and_true, Nat.sub_zero]
    rw [h512]
    simp only [hz', and_true]
    by_cases hs : st.slotstatus = slot_status.NONE
    · simp [hs]
    · simp [hs]
  · obtain ⟨hbp, heo⟩ := hinv hz
    simp only [hz, if_false, and_511, heo, hmod, hbp]
    rw [h512]
    by_cases hs : st.slotstatus = slot_status.NONE ∧ st.i_offset % 512 = 0
    · simp [hs]
    · simp [hs, hbp, heo]

theorem searchloop_scan (env : ufs_env) (data : mem) (i_size : Nat) (cnp : componentname)
    (n : Nat) (henv : env_ok env) :
    ∀ (recs : List Nat) (fuel : Nat) (st : lookup_state),
      tiles env.little_endian data st.i_offset st.endsearch recs →
      (∀ o ∈ recs, entry_ok env data o) → blk_inv env st → recs.length ≤ fuel →
      exit_norm (searchloop env data i_size cnp n fuel st) =
        scan env data i_size cnp n recs (norm st) := by
  intro recs
  induction recs with
  | nil =>
    intro fuel st ht _ _ _
    simp only [tiles] at ht
    have hstop : ¬ st.i_offset < st.endsearch := by omega
    cases fuel with
    | zero => simp only [searchloop, if_neg hstop, scan, exit_norm]
    | succ f =>
      simp only [searchloop, scan, exit_norm]
      rw [if_pos hstop]
  | cons o os ih =>
    intro fuel st ht hok hinv hfuel
    have hle := tiles_le _ _ _ _ _ ht
    simp only [tiles] at ht
    obtain ⟨ho, hpos, ht2⟩ := ht
    subst ho
    have hle2 := tiles_le _ _ _ _ _ ht2
    have heo := hok st.i_offset (List.mem_cons_self _ _)
    obtain ⟨_, hfit, _⟩ := entry_ok_facts env data _ heo
    obtain ⟨m, hm, hF⟩ := env_ok_mult env henv
    obtain ⟨hmod, hroom, hnext⟩ :=
      block_mod_facts env.f_iosize m st.i_offset _ hF hm hfit
    obtain ⟨hbp, heoib, hoff, hend, hnorm⟩ := fetch_reset env henv st hinv
    cases fuel with
    | zero => simp at hfuel
    | succ f =>
      have hrun : searchloop env data i_size cnp n (f + 1) st =
          match examine env data i_size cnp n (reset_slot (fetch_block env st)) st.i_offset with
          | .exit e => e
          | .next st' => searchloop env data i_size cnp n f st' := by
        have hio : ¬ (st.i_offset &&& (env.f_iosize - 1) = 0 ∧
            env.blkatoff_err st.i_offset ≠ 0) := by
          intro h; exact h.2 (henv.2 _)
        have hep : st.i_offset - st.i_offset % env.f_iosize + st.i_offset % env.f_iosize =
            st.i_offset := Nat.sub_add_cancel (Nat.mod_le _ _)
        have hbad : ¬ (d_reclen env.little_endian data st.i_offset = 0 ∨
            (env.dirchk ≠ 0 ∧
              ufs_dirbadentry env data st.i_offset (st.i_offset % env.f_iosize) = true)) := by
          intro h
          rcases h with h | h
          · omega
          · have := dirbadentry_offset env data st.i_offset (st.i_offset % env.f_iosize)
              st.i_offset hmod
            rw [this] at h
            unfold entry_ok at heo
            rw [heo] at h
            exact absurd h.2 (by simp)
        rw [searchloop]
        rw [if_neg (by omega), if_neg hio]
        simp only [hbp, heoib, hep, if_neg hbad]
      rw [hrun]
      have hex := examine_norm env data i_size cnp n (reset_slot (fetch_block env st))
        st.i_offset
      rw [hnorm] at hex
      simp only [scan]
      cases h1 : examine env data i_size cnp n (reset_slot (fetch_block env st)) st.i_offset with
      | exit e =>
        rw [h1] at hex
        cases h2 : examine env data i_size cnp n (scan_reset (norm st) st.i_offset)
            st.i_offset with
        | exit e' =>
          rw [h2] at hex
          simp only [step_result.exit.injEq] at hex
          have hn : (norm st).i_offset = st.i_offset := rfl
          simp only [hn, h2]
          exact hex.symm
        | next st'' =>
          rw [h2] at hex
          simp at hex
      | next st' =>
        rw [h1] at hex
        obtain ⟨e1, e2, e3, e4⟩ := examine_next env data i_size cnp n _ st' _ h1
        cases h2 : examine env data i_size cnp n (scan_reset (norm st) st.i_offset)
            st.i_offset with
        | exit e' =>
          rw [h2] at hex
          simp at hex
        | next st'' =>
          rw [h2] at hex
          simp only [step_result.next.injEq] at hex
          have hn : (norm st).i_offset = st.i_offset := rfl
          simp only [hn, h2]
          rw [hex]
          apply ih f st'
          · rw [e1, e2, hoff, hend]; exact ht2
          · exact fun x hx => hok x (List.mem_cons_of_mem _ hx)
          · unfold blk_inv
            rw [e1, e3, e4, hoff, hbp, heoib]
            intro hne
            have := hnext hne
            refine ⟨?_, this.symm⟩
            congr 1
            omega
          · simpa using hfuel

/-! ### The scan: skipping records, stopping at a match -/

theorem scan_reset_frame (st : lookup_state) (o : Nat) :
    (scan_reset st o).i_offset = st.i_offset ∧ (scan_reset st o).endsearch = st.endsearch ∧
      (scan_reset st o).numdirpasses = st.numdirpasses ∧
      (scan_reset st o).prevoff = st.prevoff ∧ (scan_reset st o).enduseful = st.enduseful ∧
      (scan_reset st o).slotstatus = st.slotstatus ∧
      (scan_reset st o).slotsize = st.slotsize := by
  unfold scan_reset
  split_ifs <;> simp

theorem advance_frame (env : ufs_env) (data : mem) (n : Nat) (st : lookup_state) (o : Nat) :
    (advance env data n st o).i_offset = st.i_offset + d_reclen env.little_endian data o ∧
      (advance env data n st o).endsearch = st.endsearch ∧
      (advance env data n st o).numdirpasses = st.numdirpasses ∧
      (advance env data n st o).prevoff = st.i_offset := by
  have h1 := slot_update_frame env data n (scan_reset st o) o
  have h2 := scan_reset_frame st o
  unfold advance norm
  simp only
  refine ⟨?_, ?_, ?_, ?_⟩
  · rw [h1.1, h2.1]
  · rw [h1.2.1, h2.2.1]
  · rw [h1.2.2.2.2.2.2, h2.2.2.1]
  · rw [h1.1, h2.1]

theorem examine_nomatch (env : ufs_env) (data : mem) (i_size : Nat) (cnp : componentname)
    (n : Nat) (st : lookup_state) (o : Nat) (h : ¬ is_match env data cnp o) :
    ∃ st', examine env data i_size cnp n (scan_reset st o) o = .next st' ∧
      norm st' = advance env data n st o := by
  unfold is_match at h
  unfold examine
  simp only
  rw [if_neg h]
  exact ⟨_, rfl, rfl⟩

theorem scan_skip (env : ufs_env) (data : mem) (i_size : Nat) (cnp : componentname)
    (n : Nat) :
    ∀ (pre rest : List Nat) (st : lookup_state),
      (∀ o ∈ pre, ¬ is_match env data cnp o) →
      scan env data i_size cnp n (pre ++ rest) st =
        scan env data i_size cnp n rest (skip_all env data n pre st) := by
  intro pre
  induction pre with
  | nil => intro rest st _; rfl
  | cons o os ih =>
    intro rest st h
    obtain ⟨st', h1, h2⟩ := examine_nomatch env data i_size cnp n st o
      (h o (List.mem_cons_self _ _))
    simp only [List.cons_append, scan, skip_all]
    rw [h1]
    simp only
    rw [h2]
    exact ih rest _ (fun x hx => h x (List.mem_cons_of_mem _ hx))

theorem scan_found (env : ufs_env) (data : mem) (i_size : Nat) (cnp : componentname)
    (n : Nat) (t : Nat) (post : List Nat) (st : lookup_state)
    (ht : is_match env data cnp t)
    (hwht : ¬ (env.mnt_maxsymlinklen > 0 ∧ d_type data t = DT_WHT)) :
    scan env data i_size cnp n (t :: post) st =
      .found (norm (slot_update env data n (scan_reset st t) t)) t := by
  unfold is_match at ht
  simp only [scan, examine]
  rw [if_pos ht, if_neg hwht]
  rfl

theorem skip_all_frame (env : ufs_env) (data : mem) (n : Nat) :
    ∀ (l : List Nat) (a b : Nat) (st : lookup_state),
      tiles env.little_endian data a b l → st.i_offset = a →
      (skip_all env data n l st).i_offset = b ∧
        (skip_all env data n l st).endsearch = st.endsearch ∧
        (skip_all env data n l st).numdirpasses = st.numdirpasses := by
  intro l
  induction l with
  | nil =>
    intro a b st ht hst
    simp only [tiles] at ht
    refine ⟨?_, rfl, rfl⟩
    show st.i_offset = b
    omega
  | cons o os ih =>
    intro a b st ht hst
    simp only [tiles] at ht
    obtain ⟨ho, _, ht2⟩ := ht
    subst ho
    have hf := advance_frame env data n st o
    have := ih _ b (advance env data n st o) ht2 (by rw [hf.1, hst])
    simp only [skip_all]
    rw [hf.2.1, hf.2.2.1] at this
    exact this

/-! ### The code after the search loop ignores the buffer bookkeeping -/

theorem lookup_after_found (env : ufs_env) (data : mem) (cnp : componentname)
    (cn_flags : Nat) (dp : inode) (again : Nat → inode → lookup_state → lookup_result)
    (e : search_exit) (st' : lookup_state) (ep : Nat) (h : exit_norm e = .found st' ep) :
    lookup_after env data cnp cn_flags dp again e =
      lookup_found env data cnp cn_flags
        { dp with i_offset := st'.i_offset,
                  i_ino := d_ino env.little_endian data ep,
                  i_reclen := d_reclen env.little_endian data ep } st' ep := by
  cases e with
  | found st ep' =>
    simp only [exit_norm, search_exit.found.injEq] at h
    obtain ⟨h1, h2⟩ := h
    subst h1 h2
    rfl
  | _ => simp [exit_norm] at h

theorem lookup_after_exhausted (env : ufs_env) (data : mem) (cnp : componentname)
    (cn_flags : Nat) (dp : inode) (again : Nat → inode → lookup_state → lookup_result)
    (e : search_exit) (st' : lookup_state) (h : exit_norm e = .exhausted st') :
    ∃ st, norm st = st' ∧
      lookup_after env data cnp cn_flags dp again e =
        if st'.numdirpasses = 2 then again cn_flags { dp with i_offset := st'.i_offset } st
        else lookup_notfound env cnp cn_flags { dp with i_offset := st'.i_offset } st' := by
  cases e with
  | exhausted st =>
    simp only [exit_norm, search_exit.exhausted.injEq] at h
    subst h
    exact ⟨st, rfl, rfl⟩
  | _ => simp [exit_norm] at h

/-! ### Cutting a tiling at a block boundary -/

theorem tiles_cut (le : Bool) (data : mem) (c : Nat) (hc : c % 512 = 0) :
    ∀ (l : List Nat) (a b : Nat), tiles le data a b l →
      (∀ o ∈ l, d_reclen le data o ≤ 512 - o % 512) → a ≤ c → c ≤ b →
      ∃ l1 l2, l = l1 ++ l2 ∧ tiles le data a c l1 ∧ tiles le data c b l2 := by
  intro l
  induction l with
  | nil =>
    intro a b ht _ hac hcb
    simp only [tiles] at ht
    refine ⟨[], [], rfl, ?_, ?_⟩ <;> simp only [tiles] <;> omega
  | cons o os ih =>
    intro a b ht hfit hac hcb
    rcases Nat.eq_or_lt_of_le hac with he | hlt
    · subst he
      exact ⟨[], o :: os, rfl, by simp [tiles], ht⟩
    · simp only [tiles] at ht
      obtain ⟨ho, hpos, ht2⟩ := ht
      subst ho
      have hf := hfit o (List.mem_cons_self _ _)
      obtain ⟨l1, l2, hl, h1, h2⟩ := ih _ b ht2
        (fun x hx => hfit x (List.mem_cons_of_mem _ hx)) (by omega) hcb
      refine ⟨o :: l1, l2, by simp [hl], ?_, h2⟩
      simp only [tiles]
      exact ⟨by trivial, hpos, h1⟩

/-! ### `ufs_lookup` through the scan -/

theorem lookup_init_blk_inv (env : ufs_env) (henv : env_ok env) (dp : inode)
    (cnp : componentname) : blk_inv env (lookup_init env dp cnp) := by
  unfold blk_inv lookup_init
  simp only
  by_cases h1 : lookup_onepass dp cnp
  · simp [h1]
  · simp only [h1, if_false, not_false_eq_true, true_and, env_ok_mask env henv]
    intro hne
    rw [if_pos hne]
    unfold and_not
    rw [env_ok_mask env henv]
    exact ⟨rfl, trivial⟩

/-- The first pass of `ufs_lookup` as a scan of the records from the starting offset to
the end of the directory. -/
theorem first_pass_scan (env : ufs_env) (data : mem) (dp : inode) (cnp : componentname)
    (recs : List Nat) (henv : env_ok env) (hsize : dp.i_size % 512 = 0)
    (htiles : tiles env.little_endian data (lookup_init env dp cnp).i_offset dp.i_size recs)
    (hok : ∀ o ∈ recs, entry_ok env data o) :
    ufs_lookup env data dp cnp =
        lookup_after env data cnp cnp.cn_flags dp (second_pass env data cnp)
          (searchloop env data dp.i_size cnp (lookup_slotneeded cnp)
            ((lookup_init env dp cnp).endsearch - (lookup_init env dp cnp).i_offset)
            (lookup_init env dp cnp)) ∧
      exit_norm (searchloop env data dp.i_size cnp (lookup_slotneeded cnp)
          ((lookup_init env dp cnp).endsearch - (lookup_init env dp cnp).i_offset)
          (lookup_init env dp cnp)) =
        scan env data dp.i_size cnp (lookup_slotneeded cnp) recs
          (norm (lookup_init env dp cnp)) := by
  have hend : (lookup_init env dp cnp).endsearch = dp.i_size := by
    unfold lookup_init
    simp only
    exact roundup2_of_dvd _ hsize
  constructor
  · unfold ufs_lookup
    simp only
    rw [if_neg]
    intro h
    exact h.2.2 (henv.2 _)
  · apply searchloop_scan env data dp.i_size cnp _ henv recs
    · rw [hend]; exact htiles
    · exact hok
    · exact lookup_init_blk_inv env henv dp cnp
    · rw [hend]
      exact tiles_length _ _ _ _ _ htiles

/-- The second pass of `ufs_lookup` as a scan of the records from the start of the
directory to the cached offset. -/
theorem second_pass_scan (env : ufs_env) (data : mem) (cnp : componentname)
    (cn_flags : Nat) (dp : inode) (st : lookup_state) (recs : List Nat) (henv : env_ok env)
    (htiles : tiles env.little_endian data 0 dp.i_diroff recs)
    (hok : ∀ o ∈ recs, entry_ok env data o) :
    ∃ e, second_pass env data cnp cn_flags dp st =
        lookup_after env data cnp cn_flags dp
          (fun cn_flags3 dp3 _ => ⟨.out_of_fuel, dp3, cn_flags3, none⟩) e ∧
      exit_norm e =
        scan env data dp.i_size cnp (lookup_slotneeded cnp) recs
          (norm { st with numdirpasses := st.numdirpasses - 1, i_offset := 0,
                          endsearch := dp.i_diroff }) := by
  refine ⟨_, rfl, ?_⟩
  apply searchloop_scan env data dp.i_size cnp _ henv recs
  · exact htiles
  · exact hok
  · unfold blk_inv
    intro h
    simp at h
  · have := tiles_length _ _ _ _ _ htiles
    simpa using this

/-! ### The slot search -/

theorem slot_update_eq (env : ufs_env) (data : mem) (n : Nat) (st : lookup_state) (o : Nat) :
    slot_update env data n st o =
      if st.slotstatus ≠ slot_status.FOUND then
        if entry_free env data o > 0 then
          if entry_free env data o ≥ n then
            { st with slotstatus := slot_status.FOUND, slotoffset := st.i_offset,
                      slotsize := d_reclen env.little_endian data o }
          else if st.slotstatus = slot_status.NONE then
            if st.slotfreespace + entry_free env data o ≥ n then
              { st with slotfreespace := st.slotfreespace + entry_free env data o,
                        slotoffset := if st.slotoffset = -1 then st.i_offset else st.slotoffset,
                        slotstatus := slot_status.COMPACT,
                        slotsize :=
                          ((st.i_offset : Int) + d_reclen env.little_endian data o -
                            (if st.slotoffset = -1 then (st.i_offset : Int)
                              else st.slotoffset)).toNat }
            else
              { st with slotfreespace := st.slotfreespace + entry_free env data o,
                        slotoffset := if st.slotoffset = -1 then st.i_offset else st.slotoffset }
          else st
        else st
      else st := by
  have he : entry_free env data o =
      (if d_ino env.little_endian data o ≠ 0 then
        (d_reclen env.little_endian data o : Int) - DIRSIZ env (OFSFMT env) data o
      else (d_reclen env.little_endian data o : Int)) := by
    unfold entry_free
    split_ifs <;> simp
  unfold slot_update
  simp only [← he]

theorem entry_free_nonneg (env : ufs_env) (data : mem) (o : Nat) (h : entry_ok env data o) :
    0 ≤ entry_free env data o := by
  have := (entry_ok_facts env data o h).2.2
  unfold entry_free
  split_ifs <;> omega

theorem slot_free_append (env : ufs_env) (data : mem) (l1 l2 : List Nat) :
    slot_free env data (l1 ++ l2) = slot_free env data l1 + slot_free env data l2 := by
  unfold slot_free
  simp

theorem slot_free_single (env : ufs_env) (data : mem) (o : Nat) :
    slot_free env data [o] = entry_free env data o := by
  unfold slot_free
  simp

theorem slot_update_keep (env : ufs_env) (data : mem) (n : Nat) (st : lookup_state) (o : Nat)
    (h : st.slotstatus = slot_status.FOUND ∨ entry_free env data o ≤ 0 ∨
      (st.slotstatus = slot_status.COMPACT ∧ entry_free env data o < n)) :
    slot_update env data n st o = st := by
  rw [slot_update_eq]
  by_cases hf : st.slotstatus ≠ slot_status.FOUND
  · rw [if_pos hf]
    by_cases hpos : entry_free env data o > 0
    · rw [if_pos hpos]
      rcases h with h | h | h
      · exact absurd h hf
      · omega
      · rw [if_neg (by omega), if_neg (by rw [h.1]; simp)]
    · rw [if_neg hpos]
  · rw [if_neg hf]

theorem slot_update_found (env : ufs_env) (data : mem) (n : Nat) (st : lookup_state) (o : Nat)
    (hf : st.slotstatus ≠ slot_status.FOUND) (hpos : entry_free env data o > 0)
    (hbig : entry_free env data o ≥ (n : Int)) :
    (slot_update env data n st o).slotstatus = slot_status.FOUND ∧
      (slot_update env data n st o).slotoffset = st.i_offset ∧
      (slot_update env data n st o).slotsize = d_reclen env.little_endian data o := by
  rw [slot_update_eq, if_pos hf, if_pos hpos, if_pos hbig]
  exact ⟨rfl, rfl, rfl⟩

theorem slot_update_gather (env : ufs_env) (data : mem) (n : Nat) (st : lookup_state) (o : Nat)
    (hs : st.slotstatus = slot_status.NONE) (hpos : entry_free env data o > 0)
    (hsmall : ¬ entry_free env data o ≥ (n : Int)) :
    (slot_update env data n st o).slotfreespace = st.slotfreespace + entry_free env data o ∧
      (slot_update env data n st o).slotoffset =
        (if st.slotoffset = -1 then (st.i_offset : Int) else st.slotoffset) ∧
      (slot_update env data n st o).i_offset = st.i_offset ∧
      ((st.slotfreespace + entry_free env data o ≥ (n : Int) ∧
          (slot_update env data n st o).slotstatus = slot_status.COMPACT ∧
          (slot_update env data n st o).slotsize =
            ((st.i_offset : Int) + d_reclen env.little_endian data o -
              (if st.slotoffset = -1 then (st.i_offset : Int) else st.slotoffset)).toNat) ∨
        (¬ st.slotfreespace + entry_free env data o ≥ (n : Int) ∧
          (slot_update env data n st o).slotstatus = slot_status.NONE)) := by
  have hf : st.slotstatus ≠ slot_status.FOUND := by rw [hs]; simp
  rw [slot_update_eq, if_pos hf, if_pos hpos, if_neg hsmall, if_pos hs]
  by_cases hsum : st.slotfreespace + entry_free env data o ≥ (n : Int)
  · rw [if_pos hsum]
    exact ⟨rfl, rfl, rfl, Or.inl ⟨hsum, rfl, rfl⟩⟩
  · rw [if_neg hsum]
    exact ⟨rfl, rfl, rfl, Or.inr ⟨hsum, hs⟩⟩

/-- One step of the scan keeps the invariant of the slot search. -/
theorem slot_inv_advance (env : ufs_env) (data : mem) (n : Nat) (done : List Nat)
    (st : lookup_state) (o : Nat)
    (htiles : tiles env.little_endian data 0 o done) (hoff : st.i_offset = o)
    (hok : entry_ok env data o) (hinv : slot_inv env data n done st) :
    slot_inv env data n (done ++ [o]) (advance env data n st o) := by
  obtain ⟨_, hfit, hwh⟩ := entry_ok_facts env data o hok
  have hb := DIRSIZ_bounds env (OFSFMT env) data o
  have hfree := entry_free_nonneg env data o hok
  have hLpos : 0 < d_reclen env.little_endian data o := by omega
  have hone : tiles env.little_endian data o (o + d_reclen env.little_endian data o) [o] := by
    simp only [tiles]; exact ⟨by trivial, hLpos, by trivial⟩
  -- the slot fields after the step are those of the slot update
  have a1 : (advance env data n st o).slotstatus =
      (slot_update env data n (scan_reset st o) o).slotstatus := rfl
  have a2 : (advance env data n st o).slotoffset =
      (slot_update env data n (scan_reset st o) o).slotoffset := rfl
  have a3 : (advance env data n st o).slotsize =
      (slot_update env data n (scan_reset st o) o).slotsize := rfl
  have a4 : (advance env data n st o).slotfreespace =
      (slot_update env data n (scan_reset st o) o).slotfreespace := rfl
  have a5 : (advance env data n st o).i_offset = o + d_reclen env.little_endian data o := by
    rw [(advance_frame env data n st o).1, hoff]
  have hr := scan_reset_frame st o
  have hio : (scan_reset st o).i_offset = o := by rw [hr.1, hoff]
  -- a slot made of the record at o alone
  have hfound : (scan_reset st o).slotstatus ≠ slot_status.FOUND →
      entry_free env data o > 0 → (n : Int) ≤ entry_free env data o →
      slot_inv env data n (done ++ [o]) (advance env data n st o) := by
    intro hf hpos hge
    obtain ⟨f1, f2, f3⟩ := slot_update_found env data n (scan_reset st o) o hf hpos hge
    unfold slot_inv
    rw [a1, a2, a3, f1, f2, f3, hio, if_neg (by simp)]
    refine ⟨done, o, [], [], by simp, rfl, hone, ?_, by omega⟩
    rw [slot_free_single]; exact hge
  -- nothing changes in the slot fields
  have hkeep : slot_update env data n (scan_reset st o) o = scan_reset st o →
      scan_reset st o = st → st.slotstatus ≠ slot_status.NONE →
      slot_inv env data n (done ++ [o]) (advance env data n st o) := by
    intro hk hsr hs
    unfold slot_inv at hinv ⊢
    rw [a1, a2, a3, hk, hsr, if_neg hs]
    rw [if_neg hs] at hinv
    obtain ⟨pre, S, run, post, h1, h2, h3, h4, h5⟩ := hinv
    exact ⟨pre, S, run, post ++ [o], by simp [h1], h2, h3, h4, h5⟩
  by_cases hs : st.slotstatus = slot_status.NONE
  · -- still looking for a slot
    have hsr : (scan_reset st o).slotstatus = slot_status.NONE := by rw [hr.2.2.2.2.2.1, hs]
    have hsr' : (scan_reset st o).slotstatus ≠ slot_status.FOUND := by rw [hsr]; simp
    -- the state after the reset: nothing gathered, or a run in the same sub-block
    have hstate : ((scan_reset st o).slotoffset = -1 ∧ (scan_reset st o).slotfreespace = 0) ∨
        (o % 512 ≠ 0 ∧ (scan_reset st o).slotoffset = st.slotoffset ∧
          (scan_reset st o).slotfreespace = st.slotfreespace ∧
          ∃ (pre : List Nat) (S : Nat) (run : List Nat), done = pre ++ S :: run ∧
            st.slotoffset = (S : Int) ∧
            slot_free env data (S :: run) = st.slotfreespace ∧ o ≤ S - S % 512 + 512) := by
      unfold slot_inv at hinv
      rw [if_pos hs] at hinv
      unfold scan_reset
      have h512 : DIRBLKSIZ = 512 := rfl
      rw [h512]
      by_cases hz : o % 512 = 0
      · left
        rw [if_pos ⟨hs, hz⟩]
        exact ⟨rfl, rfl⟩
      · rw [if_neg (fun h => hz h.2)]
        rcases hinv with h | ⟨pre, S, run, h1, h2, h3, h4⟩
        · left; exact h
        · right
          refine ⟨hz, rfl, rfl, pre, S, run, h1, h2, h3, ?_⟩
          omega
    by_cases hpos : entry_free env data o > 0
    · by_cases hbig : entry_free env data o ≥ (n : Int)
      · exact hfound hsr' hpos hbig
      · obtain ⟨g1, g2, _, g4⟩ := slot_update_gather env data n (scan_reset st o) o hsr hpos hbig
        rw [hio] at g2 g4
        unfold slot_inv
        rw [a1, a2, a3, a4, a5, g1, g2]
        rcases hstate with ⟨e1, e2⟩ | ⟨hz, e1, e2, pre, S, run, h1, h2, h3, h4⟩
        · -- the run starts at o
          rw [e1, e2] at g4 ⊢
          simp only [if_true, Int.zero_add] at g4 ⊢
          rcases g4 with ⟨g5, _, _⟩ | ⟨_, g6⟩
          · omega
          · rw [g6, if_pos rfl]
            right
            refine ⟨done, o, [], rfl, rfl, ?_, by omega⟩
            rw [slot_free_single]
        · -- the run goes on with o
          have hSne : ¬ ((S : Int) = -1) := by omega
          rw [e1, e2, h2] at g4 ⊢
          simp only [if_neg hSne] at g4 ⊢
          have hsplit := tiles_split _ _ pre (S :: run) 0 o (by rw [← h1]; exact htiles)
          have hrun : tiles env.little_endian data S o (S :: run) := by
            have h := hsplit.2
            have hS : 0 + (pre.map (d_reclen env.little_endian data)).sum = S := by
              simp only [tiles] at h; exact h.1.symm
            rw [hS] at h; exact h
          have hSo : S < o := by
            simp only [tiles] at hrun
            have := tiles_le _ _ _ _ _ hrun.2.2
            omega
          have hrun' : tiles env.little_endian data S (o + d_reclen env.little_endian data o)
              (S :: (run ++ [o])) := by
            rw [← List.cons_append]
            exact tiles_append _ _ _ _ _ _ _ hrun hone
          have hfs : slot_free env data (S :: (run ++ [o])) =
              st.slotfreespace + entry_free env data o := by
            rw [← List.cons_append, slot_free_append, slot_free_single, h3]
          rcases g4 with ⟨g5, g6, g7⟩ | ⟨g5, g6⟩
          · rw [g6, g7, if_neg (by simp)]
            refine ⟨pre, S, run ++ [o], [], by simp [h1], rfl, ?_, ?_, ?_⟩
            · have e : S + ((o : Int) + (d_reclen env.little_endian data o : Int) - (S : Int)).toNat
                  = o + d_reclen env.little_endian data o := by omega
              rw [e]
              exact hrun'
            · rw [hfs]; exact g5
            · omega
          · rw [g6, if_pos rfl]
            right
            exact ⟨pre, S, run ++ [o], by simp [h1], rfl, hfs, by omega⟩
    · -- no free space in this record
      have hzero : entry_free env data o = 0 := by omega
      have hk := slot_update_keep env data n (scan_reset st o) o (Or.inr (Or.inl (by omega)))
      unfold slot_inv
      rw [a1, a2, a4, a5, hk, hsr, if_pos rfl]
      rcases hstate with ⟨e1, e2⟩ | ⟨hz, e1, e2, pre, S, run, h1, h2, h3, h4⟩
      · left; exact ⟨e1, e2⟩
      · right
        rw [e1, e2]
        refine ⟨pre, S, run ++ [o], by simp [h1], h2, ?_, by omega⟩
        rw [← List.cons_append, slot_free_append, slot_free_single, h3, hzero]
        omega
  · -- a slot has been found already
    have hsr : (scan_reset st o) = st := by
      unfold scan_reset
      rw [if_neg (fun h => hs h.1)]
    by_cases hf : st.slotstatus = slot_status.FOUND
    · exact hkeep (slot_update_keep _ _ _ _ _ (Or.inl (by rw [hsr]; exact hf))) hsr hs
    · have hc : st.slotstatus = slot_status.COMPACT := by
        cases h : st.slotstatus <;> simp_all
      by_cases hbig : entry_free env data o ≥ (n : Int)
      · by_cases hpos : entry_free env data o > 0
        · exact hfound (by rw [hsr]; exact hf) hpos hbig
        · exact hkeep (slot_update_keep _ _ _ _ _ (Or.inr (Or.inl (by omega)))) hsr hs
      · exact hkeep (slot_update_keep _ _ _ _ _
          (Or.inr (Or.inr ⟨by rw [hsr]; exact hc, by omega⟩))) hsr hs

theorem slot_inv_skip_all (env : ufs_env) (data : mem) (n : Nat) :
    ∀ (l done : List Nat) (a b : Nat) (st : lookup_state),
      tiles env.little_endian data 0 a done → tiles env.little_endian data a b l →
      st.i_offset = a → (∀ o ∈ l, entry_ok env data o) → slot_inv env data n done st →
      slot_inv env data n (done ++ l) (skip_all env data n l st) := by
  intro l
  induction l with
  | nil => intro done a b st _ _ _ _ h; simpa [skip_all] using h
  | cons o os ih =>
    intro done a b st hd hl hoff hok hinv
    simp only [tiles] at hl
    obtain ⟨ho, hpos, hl2⟩ := hl
    subst ho
    have hstep := slot_inv_advance env data n done st o hd hoff
      (hok o (List.mem_cons_self _ _)) hinv
    have hone : tiles env.little_endian data o (o + d_reclen env.little_endian data o) [o] := by
      simp only [tiles]; exact ⟨by trivial, hpos, by trivial⟩
    have := ih (done ++ [o]) _ b (advance env data n st o)
      (tiles_append _ _ _ _ _ _ _ hd hone) hl2
      (by rw [(advance_frame env data n st o).1, hoff])
      (fun x hx => hok x (List.mem_cons_of_mem _ hx)) hstep
    simpa [skip_all] using this

/-! ### What the consistency check and the name test read -/

theorem DIRSIZ_namlen (env : ufs_env) (m : mem) (ep : Nat) :
    DIRSIZ env (OFSFMT env) m ep = DIRECTSIZ (namlen_of env m ep) := by
  unfold DIRSIZ namlen_of
  split_ifs <;> rfl

theorem namlen_of_lt (env : ufs_env) (m : mem) (ep : Nat) : namlen_of env m ep < 256 := by
  unfold namlen_of
  have h1 : d_type m ep < 256 := byte_lt _ _
  have h2 : d_namlen m ep < 256 := byte_lt _ _
  split_ifs <;> assumption

theorem dirbadentry_false_iff (env : ufs_env) (m : mem) (ep e : Nat) :
    ufs_dirbadentry env m ep e = false ↔
      (d_reclen env.little_endian m ep % 4 = 0 ∧
        d_reclen env.little_endian m ep ≤ 512 - e % 512 ∧
        DIRSIZ env (OFSFMT env) m ep ≤ d_reclen env.little_endian m ep ∧
        (d_ino env.little_endian m ep ≠ 0 →
          (∀ i, i < namlen_of env m ep → d_name m ep i ≠ 0) ∧
            d_name m ep (namlen_of env m ep) = 0)) := by
  have hnl := namlen_of_lt env m ep
  have h512 : DIRBLKSIZ = 512 := rfl
  have h255 : MAXNAMLEN = 255 := rfl
  unfold ufs_dirbadentry
  simp only [and_3, and_511]
  simp only [h512, h255]
  by_cases hc : d_reclen env.little_endian m ep % 4 ≠ 0 ∨
      d_reclen env.little_endian m ep > 512 - e % 512 ∨
      d_reclen env.little_endian m ep < DIRSIZ env (OFSFMT env) m ep ∨
      namlen_of env m ep > 255
  · rw [if_pos hc]
    constructor
    · intro h; exact absurd h (by simp)
    · intro h; omega
  · rw [if_neg hc]
    by_cases hz : d_ino env.little_endian m ep = 0
    · rw [if_pos hz]
      constructor
      · intro _
        exact ⟨by omega, by omega, by omega, fun h => absurd hz h⟩
      · intro _; rfl
    · rw [if_neg hz]
      by_cases hany : (List.range (namlen_of env m ep)).any (fun i => d_name m ep i == 0) = true
      · rw [if_pos hany]
        constructor
        · intro h; exact absurd h (by simp)
        · intro h
          exfalso
          rw [List.any_eq_true] at hany
          obtain ⟨i, hi, hi0⟩ := hany
          exact (h.2.2.2 hz).1 i (List.mem_range.mp hi) (by simpa using hi0)
      · rw [if_neg hany]
        by_cases hterm : d_name m ep (namlen_of env m ep) ≠ 0
        · rw [if_pos hterm]
          constructor
          · intro h; exact absurd h (by simp)
          · intro h
            exact absurd (h.2.2.2 hz).2 hterm
        · rw [if_neg hterm]
          constructor
          · intro _
            refine ⟨by omega, by omega, by omega, fun _ => ⟨?_, by simpa using hterm⟩⟩
            intro i hi h0
            apply hany
            rw [List.any_eq_true]
            exact ⟨i, List.mem_range.mpr hi, by simpa using h0⟩
          · intro _; rfl

theorem bcmp_eq_iff (a : mem) (s : Nat) (b : mem) (t n : Nat) :
    bcmp_eq a s b t n = true ↔ ∀ i, i < n → byte a (s + i) = byte b (t + i) := by
  unfold bcmp_eq
  rw [List.all_eq_true]
  constructor
  · intro h i hi
    have := h i (List.mem_range.mpr hi)
    simpa using this
  · intro h i hi
    have := h i (List.mem_range.mp hi)
    simpa using this

/-- The name test in words: the record carries the name length sought and the same name
bytes. -/
theorem name_match_iff (env : ufs_env) (m : mem) (cnp : componentname) (ep : Nat)
    (hlen : 0 < cnp.cn_namelen) :
    name_match env m cnp ep = true ↔
      (namlen_of env m ep = cnp.cn_namelen ∧
        ∀ i, i < cnp.cn_namelen → d_name m ep i = byte cnp.cn_nameptr i) := by
  unfold name_match
  simp only [Bool.and_eq_true, decide_eq_true_eq, bcmp_eq_iff]
  constructor
  · rintro ⟨h1, _, h3⟩
    refine ⟨h1, ?_⟩
    intro i hi
    have := h3 i (by omega)
    unfold d_name
    rw [Nat.zero_add] at this
    exact this.symm
  · rintro ⟨h1, h2⟩
    refine ⟨h1, ?_, ?_⟩
    · exact (h2 0 hlen).symm
    · intro i hi
      rw [h1] at hi
      have := h2 i hi
      unfold d_name at this
      rw [Nat.zero_add]
      exact this.symm

/-- The fields that two entries with the same packed bytes share. -/
theorem same_entry_fields (env : ufs_env) (d0 : mem) (o : Nat) (d : mem) (p : Nat)
    (h : same_entry env d0 o d p) :
    d_ino env.little_endian d p = d_ino env.little_endian d0 o ∧
      d_type d p = d_type d0 o ∧
      namlen_of env d p = namlen_of env d0 o ∧
      DIRSIZ env (OFSFMT env) d p = DIRSIZ env (OFSFMT env) d0 o ∧
      ∀ i, i ≤ namlen_of env d0 o → d_name d p i = d_name d0 o i := by
  have hb := DIRSIZ_bounds env (OFSFMT env) d0 o
  have hd := DIRSIZ_namlen env d0 o
  have hdb := DIRECTSIZ_bounds (namlen_of env d0 o)
  unfold same_entry at h
  have h0 := h 0 (by omega) (by omega) (by omega)
  have h1 := h 1 (by omega) (by omega) (by omega)
  have h2 := h 2 (by omega) (by omega) (by omega)
  have h3 := h 3 (by omega) (by omega) (by omega)
  have h6 := h 6 (by omega) (by omega) (by omega)
  have h7 := h 7 (by omega) (by omega) (by omega)
  have ht : d_type d p = d_type d0 o := by unfold d_type byte; rw [h6]
  have hn : d_namlen d p = d_namlen d0 o := by unfold d_namlen byte; rw [h7]
  have hnl : namlen_of env d p = namlen_of env d0 o := by unfold namlen_of; rw [ht, hn]
  refine ⟨?_, ht, hnl, ?_, ?_⟩
  · unfold d_ino
    exact rd32_congr _ _ _ _ _ (by simpa using h0) h1 h2 h3
  · rw [DIRSIZ_namlen, DIRSIZ_namlen, hnl]
  · intro i hi
    unfold d_name byte
    have := h (8 + i) (by omega) (by omega) (by omega)
    rw [← Nat.add_assoc, ← Nat.add_assoc] at this
    rw [this]

theorem same_entry_match (env : ufs_env) (d0 : mem) (o : Nat) (d : mem) (p : Nat)
    (cnp : componentname) (hlen : 0 < cnp.cn_namelen) (h : same_entry env d0 o d p) :
    is_match env d cnp p ↔ is_match env d0 cnp o := by
  obtain ⟨h1, _, h3, _, h5⟩ := same_entry_fields env d0 o d p h
  unfold is_match
  rw [name_match_iff env d cnp p hlen, name_match_iff env d0 cnp o hlen, h1, h3]
  constructor
  · rintro ⟨ha, hb, hc⟩
    refine ⟨ha, hb, fun i hi => ?_⟩
    rw [← h5 i (by omega)]
    exact hc i hi
  · rintro ⟨ha, hb, hc⟩
    refine ⟨ha, hb, fun i hi => ?_⟩
    rw [h5 i (by omega)]
    exact hc i hi

theorem same_entry_ok (env : ufs_env) (d0 : mem) (o : Nat) (d : mem) (p : Nat)
    (h : same_entry env d0 o d p) (hok : entry_ok env d0 o)
    (h4 : d_reclen env.little_endian d p % 4 = 0)
    (hfit : d_reclen env.little_endian d p ≤ 512 - p % 512)
    (hwh : DIRSIZ env (OFSFMT env) d0 o ≤ d_reclen env.little_endian d p) :
    entry_ok env d p := by
  obtain ⟨h1, _, h3, h4', h5⟩ := same_entry_fields env d0 o d p h
  unfold entry_ok at hok ⊢
  rw [dirbadentry_false_iff] at hok ⊢
  refine ⟨h4, hfit, by rw [h4']; exact hwh, ?_⟩
  intro hne
  rw [h1] at hne
  obtain ⟨g1, g2⟩ := hok.2.2.2 hne
  rw [h3]
  refine ⟨fun i hi => ?_, ?_⟩
  · rw [h5 i (by omega)]; exact g1 i hi
  · rw [h5 _ (Nat.le_refl _)]; exact g2

/-- An entry whose bytes are untouched is the same entry. -/
theorem same_entry_of_frame (env : ufs_env) (d0 d : mem) (o : Nat)
    (h : ∀ x, o ≤ x → x < o + DIRSIZ env (OFSFMT env) d0 o → d x = d0 x) :
    same_entry env d0 o d o := by
  intro i hi _ _
  exact h _ (by omega) (by omega)

/-! ### The entry built by `ufs_makedirentry` -/

theorem makedirentry_fields (env : ufs_env) (ino mode : Nat) (cnp : componentname)
    (newdirp : mem) (hino : ino < 4294967296) (hlen : cnp.cn_namelen ≤ 255) :
    d_ino env.little_endian (ufs_makedirentry env ino mode cnp newdirp) 0 = ino ∧
      namlen_of env (ufs_makedirentry env ino mode cnp newdirp) 0 = cnp.cn_namelen ∧
      (∀ i, i ≤ cnp.cn_namelen →
        d_name (ufs_makedirentry env ino mode cnp newdirp) 0 i = byte cnp.cn_nameptr i) ∧
      (env.mnt_maxsymlinklen > 0 →
        d_type (ufs_makedirentry env ino mode cnp newdirp) 0 = IFTODT mode % 256) := by
  have hname : ∀ (m : mem), (∀ x, 8 ≤ x → x < 8 + (cnp.cn_namelen + 1) →
      m x = cnp.cn_nameptr (x - 8)) →
      ∀ i, i ≤ cnp.cn_namelen → d_name m 0 i = byte cnp.cn_nameptr i := by
    intro m hm i hi
    unfold d_name byte
    rw [hm (0 + 8 + i) (by omega) (by omega)]
    congr 2
    omega
  have hinob : ∀ (m : mem), (∀ x, x < 4 → m x = wr32 env.little_endian newdirp 0 ino x) →
      d_ino env.little_endian m 0 = ino := by
    intro m hm
    unfold d_ino
    rw [rd32_congr env.little_endian m (wr32 env.little_endian newdirp 0 ino) 0 0
      (hm 0 (by omega)) (hm 1 (by omega)) (hm 2 (by omega)) (hm 3 (by omega))]
    exact rd32_wr32 _ _ _ _ hino
  unfold ufs_makedirentry
  simp only
  by_cases hnew : env.mnt_maxsymlinklen > 0
  · -- the new format: the type goes to d_type, the length stays in d_namlen
    have hofs : OFSFMT env = false := by unfold OFSFMT; simp; omega
    rw [if_pos hnew]
    refine ⟨?_, ?_, ?_, ?_⟩
    · apply hinob
      intro x hx
      rw [wr8_other _ _ _ _ (by omega), bcopy_outside _ _ _ _ _ _ (by omega),
        wr8_other _ _ _ _ (by omega)]
    · have h7 : d_namlen (wr8 (bcopy cnp.cn_nameptr 0
          (wr8 (wr32 env.little_endian newdirp 0 ino) 7 cnp.cn_namelen) 8
          (cnp.cn_namelen + 1)) 6 (IFTODT mode)) 0 = cnp.cn_namelen := by
        unfold d_namlen byte
        rw [wr8_other _ _ _ _ (by omega), bcopy_outside _ _ _ _ _ _ (by omega), wr8_same]
        omega
      unfold namlen_of
      rw [hofs, h7]
      simp
    · apply hname
      intro x h1 h2
      rw [wr8_other _ _ _ _ (by omega), bcopy_inside _ _ _ _ _ _ h1 h2]
      congr 1
      omega
    · intro _
      unfold d_type byte
      rw [Nat.zero_add, wr8_same]
      omega
  · -- the old format: on a little-endian machine the two bytes are swapped
    have hofs : OFSFMT env = true := by unfold OFSFMT; simp; omega
    rw [if_neg hnew]
    by_cases hle : env.little_endian = true
    · rw [if_pos hle]
      refine ⟨?_, ?_, ?_, fun h => absurd h hnew⟩
      · apply hinob
        intro x hx
        rw [wr8_other _ _ _ _ (by omega), wr8_other _ _ _ _ (by omega),
          wr8_other _ _ _ _ (by omega), bcopy_outside _ _ _ _ _ _ (by omega),
          wr8_other _ _ _ _ (by omega)]
      · unfold namlen_of
        rw [hofs, hle]
        simp only [if_true]
        unfold d_type d_namlen byte
        rw [Nat.zero_add, Nat.zero_add, wr8_same, wr8_other _ _ _ _ (by omega),
          bcopy_outside _ _ _ _ _ _ (by omega), wr8_same]
        omega
      · apply hname
        intro x h1 h2
        rw [wr8_other _ _ _ _ (by omega), wr8_other _ _ _ _ (by omega),
          wr8_other _ _ _ _ (by omega), bcopy_inside _ _ _ _ _ _ h1 h2]
        congr 1
        omega
    · rw [if_neg hle]
      have hle' : env.little_endian = false := by simpa using hle
      refine ⟨?_, ?_, ?_, fun h => absurd h hnew⟩
      · apply hinob
        intro x hx
        rw [wr8_other _ _ _ _ (by omega), bcopy_outside _ _ _ _ _ _ (by omega),
          wr8_other _ _ _ _ (by omega)]
      · unfold namlen_of
        rw [hle']
        simp only [Bool.false_eq_true, if_false]
        unfold d_namlen byte
        rw [Nat.zero_add, wr8_other _ _ _ _ (by omega), bcopy_outside _ _ _ _ _ _ (by omega),
          wr8_same]
        omega
      · apply hname
        intro x h1 h2
        rw [wr8_other _ _ _ _ (by omega), bcopy_inside _ _ _ _ _ _ h1 h2]
        congr 1
        omega

/-- The entry as it stands in the directory once `ufs_direnter` has set its record length
to `R` and copied it to `p`. -/
theorem new_entry_fields (env : ufs_env) (d dirp : mem) (p R : Nat)
    (h : same_bytes d p (wr16 env.little_endian dirp 4 R) 0 (DIRSIZ env (OFSFMT env) dirp 0))
    (hR : R < 65536) :
    d_reclen env.little_endian d p = R ∧
      d_ino env.little_endian d p = d_ino env.little_endian dirp 0 ∧
      d_type d p = d_type dirp 0 ∧
      namlen_of env d p = namlen_of env dirp 0 ∧
      DIRSIZ env (OFSFMT env) d p = DIRSIZ env (OFSFMT env) dirp 0 ∧
      ∀ i, i ≤ namlen_of env dirp 0 → d_name d p i = d_name dirp 0 i := by
  have hb := DIRSIZ_bounds env (OFSFMT env) dirp 0
  have hse : same_entry env dirp 0 d p := by
    intro i hi h4 h5
    rw [h i hi, wr16_other _ _ _ _ _ (by omega) (by omega)]
  obtain ⟨h1, h2, h3, h4, h5⟩ := same_entry_fields env dirp 0 d p hse
  exact ⟨new_entry_reclen env d dirp p R _ h (by omega) hR, h1, h2, h3, h4, h5⟩

/-! ### A lookup that finds its entry -/

theorem lookup_found_plain (env : ufs_env) (data : mem) (cnp : componentname)
    (cn_flags : Nat) (dp : inode) (st : lookup_state) (ep : Nat)
    (hop : cnp.cn_nameiop = LOOKUP)
    (hfit : dp.i_offset + DIRSIZ env (OFSFMT env) data ep ≤ dp.i_size)
    (hvget : env.vget_err dp.i_ino = 0) (hlock : env.vn_lock_err = 0) :
    (lookup_found env data cnp cn_flags dp st ep).ret = .returned 0 ∧
      (lookup_found env data cnp cn_flags dp st ep).vpp = some dp.i_ino ∧
      (lookup_found env data cnp cn_flags dp st ep).dp.i_ino = dp.i_ino := by
  have h1 : ¬ (dp.i_offset + DIRSIZ env (OFSFMT env) data ep > dp.i_size) := by omega
  have hd : ¬ (cnp.cn_nameiop = DELETE ∧ cnp.cn_flags &&& ISLASTCN ≠ 0) := by
    rw [hop]; intro h; exact absurd h.1 (by decide)
  have hr : ¬ (cnp.cn_nameiop = RENAME ∧
      cnp.cn_flags &&& (LOCKPARENT ||| WANTPARENT) ≠ 0 ∧ cnp.cn_flags &&& ISLASTCN ≠ 0) := by
    rw [hop]; intro h; exact absurd h.1 (by decide)
  unfold lookup_found
  simp only
  rw [if_neg (fun h => h1 h.1), if_neg h1, if_neg hd, if_neg hr]
  by_cases hl : cnp.cn_flags &&& ISLASTCN ≠ 0 ∧ cnp.cn_nameiop = LOOKUP
  · rw [if_pos hl]
    simp only [hvget, hlock]
    split_ifs <;> simp_all
  · rw [if_neg hl]
    simp only [hvget, hlock]
    split_ifs <;> simp_all

theorem is_match_name (env : ufs_env) (data : mem) (cnp cnp3 : componentname) (o : Nat)
    (hptr : cnp3.cn_nameptr = cnp.cn_nameptr) (hlen : cnp3.cn_namelen = cnp.cn_namelen) :
    is_match env data cnp3 o ↔ is_match env data cnp o := by
  unfold is_match name_match
  rw [hptr, hlen]

theorem scan_found_offset (env : ufs_env) (data : mem) (i_size : Nat) (cnp : componentname)
    (n : Nat) (pre : List Nat) (t : Nat) (post : List Nat) (a : Nat) (st : lookup_state)
    (htiles : tiles env.little_endian data a t pre) (hst : st.i_offset = a)
    (hpre : ∀ o ∈ pre, ¬ is_match env data cnp o)
    (ht : is_match env data cnp t)
    (hwht : ¬ (env.mnt_maxsymlinklen > 0 ∧ d_type data t = DT_WHT)) :
    ∃ st', scan env data i_size cnp n (pre ++ t :: post) st = .found st' t ∧
      st'.i_offset = t := by
  rw [scan_skip env data i_size cnp n pre (t :: post) st hpre,
    scan_found env data i_size cnp n t post _ ht hwht]
  refine ⟨_, rfl, ?_⟩
  have h1 := (skip_all_frame env data n pre a t st htiles hst).1
  have h2 := (slot_update_frame env data n
    (scan_reset (skip_all env data n pre st) t) t).1
  have h3 := (scan_reset_frame (skip_all env data n pre st) t).1
  show (slot_update env data n (scan_reset (skip_all env data n pre st) t) t).i_offset = t
  rw [h2, h3, h1]

theorem scan_exhausted (env : ufs_env) (data : mem) (i_size : Nat) (cnp : componentname)
    (n : Nat) (l : List Nat) (a b : Nat) (st : lookup_state)
    (htiles : tiles env.little_endian data a b l) (hst : st.i_offset = a)
    (hl : ∀ o ∈ l, ¬ is_match env data cnp o) :
    scan env data i_size cnp n l st = .exhausted (skip_all env data n l st) ∧
      (skip_all env data n l st).i_offset = b ∧
      (skip_all env data n l st).numdirpasses = st.numdirpasses := by
  have h := scan_skip env data i_size cnp n l [] st hl
  rw [List.append_nil] at h
  have hf := skip_all_frame env data n l a b st htiles hst
  exact ⟨by rw [h]; rfl, hf.1, hf.2.2⟩

theorem lookup_after_hit (env : ufs_env) (data : mem) (cnp : componentname)
    (cn_flags : Nat) (dp : inode) (again : Nat → inode → lookup_state → lookup_result)
    (e : search_exit) (st' : lookup_state) (p : Nat)
    (h : exit_norm e = .found st' p) (hst : st'.i_offset = p)
    (hop : cnp.cn_nameiop = LOOKUP)
    (hfit : p + DIRSIZ env (OFSFMT env) data p ≤ dp.i_size)
    (hvget : env.vget_err (d_ino env.little_endian data p) = 0)
    (hlock : env.vn_lock_err = 0) :
    (lookup_after env data cnp cn_flags dp again e).ret = .returned 0 ∧
      (lookup_after env data cnp cn_flags dp again e).vpp =
        some (d_ino env.little_endian data p) ∧
      (lookup_after env data cnp cn_flags dp again e).dp.i_ino =
        d_ino env.little_endian data p := by
  rw [lookup_after_found env data cnp cn_flags dp again e st' p h]
  exact lookup_found_plain env data cnp cn_flags _ st' p hop (by rw [hst]; exact hfit)
    hvget hlock

theorem tiles_head (le : Bool) (data : mem) (a b p : Nat) (l : List Nat)
    (h : tiles le data a b (p :: l)) :
    p = a ∧ 0 < d_reclen le data p ∧ tiles le data (p + d_reclen le data p) b l := by
  simp only [tiles] at h
  obtain ⟨h1, h2, h3⟩ := h
  subst h1
  exact ⟨rfl, h2, h3⟩

theorem tiles_mid (le : Bool) (data : mem) (a b p : Nat) (l1 l2 : List Nat)
    (h : tiles le data a b (l1 ++ p :: l2)) :
    tiles le data a p l1 ∧ tiles le data p b (p :: l2) := by
  obtain ⟨h1, h2⟩ := tiles_split le data l1 (p :: l2) a b h
  have hp := (tiles_head le data _ b p l2 h2).1
  rw [← hp] at h1 h2
  exact ⟨h1, h2⟩

theorem lookup_finds (env : ufs_env) (data : mem) (dp : inode) (cnp : componentname)
    (A : List Nat) (p : Nat) (B : List Nat) (henv : env_ok env)
    (hsize : dp.i_size % 512 = 0) (hdiroff : dp.i_diroff % 512 = 0)
    (htiles : tiles env.little_endian data 0 dp.i_size (A ++ p :: B))
    (hok : ∀ o ∈ A ++ p :: B, entry_ok env data o)
    (hA : ∀ o ∈ A, ¬ is_match env data cnp o) (hB : ∀ o ∈ B, ¬ is_match env data cnp o)
    (hp : is_match env data cnp p)
    (hwht : ¬ (env.mnt_maxsymlinklen > 0 ∧ d_type data p = DT_WHT))
    (hop : cnp.cn_nameiop = LOOKUP)
    (hvget : env.vget_err (d_ino env.little_endian data p) = 0)
    (hlock : env.vn_lock_err = 0) :
    (ufs_lookup env data dp cnp).ret = .returned 0 ∧
      (ufs_lookup env data dp cnp).vpp = some (d_ino env.little_endian data p) ∧
      (ufs_lookup env data dp cnp).dp.i_ino = d_ino env.little_endian data p := by
  obtain ⟨htA, htpB⟩ := tiles_mid _ _ _ _ _ _ _ htiles
  obtain ⟨_, hrp, htB⟩ := tiles_head _ _ _ _ _ _ htpB
  have hokp : entry_ok env data p := hok p (by simp)
  obtain ⟨_, hpfit, hpwhole⟩ := entry_ok_facts env data p hokp
  have hpb := tiles_le _ _ _ _ _ htB
  have hfit : p + DIRSIZ env (OFSFMT env) data p ≤ dp.i_size := by omega
  have hbound : ∀ o ∈ A ++ p :: B,
      d_reclen env.little_endian data o ≤ 512 - o % 512 :=
    fun o ho => (entry_ok_facts env data o (hok o ho)).2.1
  by_cases h1 : lookup_onepass dp cnp
  · -- a single pass from the start of the directory
    have hi : (lookup_init env dp cnp).i_offset = 0 := by simp [lookup_init, h1]
    obtain ⟨hu, hs⟩ := first_pass_scan env data dp cnp (A ++ p :: B) henv hsize
      (by rw [hi]; exact htiles) hok
    obtain ⟨st', hst', hoff⟩ := scan_found_offset env data dp.i_size cnp
      (lookup_slotneeded cnp) A p B 0 (norm (lookup_init env dp cnp)) htA hi hA hp hwht
    rw [hu]
    exact lookup_after_hit env data cnp _ dp _ _ st' p (hs.trans hst') hoff hop hfit hvget
      hlock
  · -- two passes: from the cached offset to the end, then from the start to the cached
    -- offset
    have hc : dp.i_diroff ≠ 0 ∧ dp.i_diroff < dp.i_size := by
      unfold lookup_onepass at h1
      omega
    have hi : (lookup_init env dp cnp).i_offset = dp.i_diroff := by simp [lookup_init, h1]
    have hn : (lookup_init env dp cnp).numdirpasses = 2 := by simp [lookup_init, h1]
    by_cases hcp : dp.i_diroff ≤ p
    · -- the entry is met on the first pass
      obtain ⟨A1, A2, hAeq, _, htA2⟩ := tiles_cut env.little_endian data dp.i_diroff hdiroff
        A 0 p htA (fun o ho => hbound o (by simp [ho])) (Nat.zero_le _) hcp
      have ht2 : tiles env.little_endian data dp.i_diroff dp.i_size (A2 ++ p :: B) :=
        tiles_append _ _ _ _ _ _ _ htA2 htpB
      have hok2 : ∀ o ∈ A2 ++ p :: B, entry_ok env data o := by
        intro o ho
        apply hok
        rw [hAeq]
        simp only [List.mem_append, List.mem_cons] at ho ⊢
        tauto
      obtain ⟨hu, hs⟩ := first_pass_scan env data dp cnp (A2 ++ p :: B) henv hsize
        (by rw [hi]; exact ht2) hok2
      obtain ⟨st', hst', hoff⟩ := scan_found_offset env data dp.i_size cnp
        (lookup_slotneeded cnp) A2 p B dp.i_diroff (norm (lookup_init env dp cnp)) htA2 hi
        (fun o ho => hA o (by rw [hAeq]; simp [ho])) hp hwht
      rw [hu]
      exact lookup_after_hit env data cnp _ dp _ _ st' p (hs.trans hst') hoff hop hfit
        hvget hlock
    · -- the first pass runs out, the second one meets the entry
      have hpc : p + d_reclen env.little_endian data p ≤ dp.i_diroff := by omega
      obtain ⟨B1, B2, hBeq, htB1, htB2⟩ := tiles_cut env.little_endian data dp.i_diroff
        hdiroff B _ dp.i_size htB (fun o ho => hbound o (by simp [ho])) hpc (by omega)
      have hok2 : ∀ o ∈ B2, entry_ok env data o := by
        intro o ho
        apply hok
        rw [hBeq]
        simp [ho]
      obtain ⟨hu, hs⟩ := first_pass_scan env data dp cnp B2 henv hsize
        (by rw [hi]; exact htB2) hok2
      obtain ⟨hex, hexo, hexn⟩ := scan_exhausted env data dp.i_size cnp
        (lookup_slotneeded cnp) B2 dp.i_diroff dp.i_size (norm (lookup_init env dp cnp))
        htB2 hi (fun o ho => hB o (by rw [hBeq]; simp [ho]))
      obtain ⟨st, _, hla⟩ := lookup_after_exhausted env data cnp cnp.cn_flags dp
        (second_pass env data cnp) _ _ (hs.trans hex)
      have hn2 : (skip_all env data (lookup_slotneeded cnp) B2
          (norm (lookup_init env dp cnp))).numdirpasses = 2 := by
        rw [hexn]; exact hn
      rw [hu, hla, if_pos hn2]
      -- the second pass
      have ht1 : tiles env.little_endian data 0 dp.i_diroff (A ++ p :: B1) :=
        tiles_append _ _ _ _ _ _ _ htA
          (by
            simp only [tiles]
            exact ⟨trivial, hrp, htB1⟩)
      have hok1 : ∀ o ∈ A ++ p :: B1, entry_ok env data o := by
        intro o ho
        apply hok
        rw [hBeq]
        simp only [List.mem_append, List.mem_cons] at ho ⊢
        tauto
      obtain ⟨e, he, hse⟩ := second_pass_scan env data cnp cnp.cn_flags
        { dp with i_offset := (skip_all env data (lookup_slotneeded cnp) B2
            (norm (lookup_init env dp cnp))).i_offset } st (A ++ p :: B1) henv ht1 hok1
      obtain ⟨st', hst', hoff⟩ := scan_found_offset env data dp.i_size cnp
        (lookup_slotneeded cnp) A p B1 0
        (norm { st with numdirpasses := st.numdirpasses - 1, i_offset := 0,
                        endsearch := dp.i_diroff }) htA rfl hA hp hwht
      rw [he]
      exact lookup_after_hit env data cnp _ _ _ _ st' p (hse.trans hst') hoff hop hfit
        hvget hlock

/-! ### The slot left by a lookup for CREATE -/

theorem roundup2_ge (x : Nat) :
    x ≤ roundup2 x DIRBLKSIZ ∧ roundup2 x DIRBLKSIZ % 512 = 0 := by
  rw [roundup2_512]
  omega

theorem lookup_create_spec (env : ufs_env) (data : mem) (dp : inode) (cnp : componentname)
    (recs : List Nat) (henv : env_ok env) (hsize : dp.i_size % 512 = 0)
    (htiles : tiles env.little_endian data 0 dp.i_size recs)
    (hok : ∀ o ∈ recs, entry_ok env data o)
    (habsent : ∀ o ∈ recs, ¬ is_match env data cnp o)
    (hop : cnp.cn_nameiop = CREATE) (hlast : cnp.cn_flags &&& ISLASTCN ≠ 0)
    (hlink : dp.i_effnlink ≠ 0) (hacc : env.access_err = 0)
    (r : lookup_result) (hr : r = ufs_lookup env data dp cnp) :
    r.ret = .returned EJUSTRETURN ∧ r.dp.i_size = dp.i_size ∧
      r.dp.i_diroff = dp.i_diroff ∧
      ((r.dp.i_count = 0 ∧ r.dp.i_offset = dp.i_size) ∨
        ∃ pre slot post, recs = pre ++ slot ++ post ∧ r.dp.i_count ≠ 0 ∧
          tiles env.little_endian data r.dp.i_offset (r.dp.i_offset + r.dp.i_count) slot ∧
          (DIRECTSIZ cnp.cn_namelen : Int) ≤ slot_free env data slot ∧
          r.dp.i_offset + r.dp.i_count ≤ r.dp.i_offset - r.dp.i_offset % 512 + 512 ∧
          r.dp.i_endoff % 512 = 0 ∧ r.dp.i_offset + r.dp.i_count ≤ r.dp.i_endoff) := by
  have h1 : lookup_onepass dp cnp := by
    unfold lookup_onepass
    left
    rw [hop]
    decide
  have hcr : (cnp.cn_nameiop = CREATE ∨ cnp.cn_nameiop = RENAME) ∧
      cnp.cn_flags &&& ISLASTCN ≠ 0 := ⟨Or.inl hop, hlast⟩
  have hi : (lookup_init env dp cnp).i_offset = 0 := by simp [lookup_init, h1]
  have hn : (lookup_init env dp cnp).numdirpasses = 1 := by simp [lookup_init, h1]
  have hss : (lookup_init env dp cnp).slotstatus = slot_status.NONE := by
    simp only [lookup_init]
    rw [if_pos hcr]
  have hso : (lookup_init env dp cnp).slotoffset = -1 := rfl
  have hsf : (lookup_init env dp cnp).slotfreespace = 0 := rfl
  have hneed : lookup_slotneeded cnp = DIRECTSIZ cnp.cn_namelen := by
    unfold lookup_slotneeded
    rw [if_pos hcr]
  obtain ⟨hu, hs⟩ := first_pass_scan env data dp cnp recs henv hsize
    (by rw [hi]; exact htiles) hok
  obtain ⟨hex, hexo, hexn⟩ := scan_exhausted env data dp.i_size cnp
    (lookup_slotneeded cnp) recs 0 dp.i_size (norm (lookup_init env dp cnp)) htiles hi
    habsent
  obtain ⟨st, _, hla⟩ := lookup_after_exhausted env data cnp cnp.cn_flags dp
    (second_pass env data cnp) _ _ (hs.trans hex)
  have hinv0 : slot_inv env data (lookup_slotneeded cnp) []
      (norm (lookup_init env dp cnp)) := by
    unfold slot_inv
    rw [if_pos (by exact hss)]
    exact Or.inl ⟨hso, hsf⟩
  have hinv := slot_inv_skip_all env data (lookup_slotneeded cnp) recs [] 0 dp.i_size
    (norm (lookup_init env dp cnp)) (by simp [tiles]) htiles hi hok hinv0
  rw [List.nil_append] at hinv
  have hn2 : ¬ (skip_all env data (lookup_slotneeded cnp) recs
      (norm (lookup_init env dp cnp))).numdirpasses = 2 := by
    rw [hexn]
    show ¬ (lookup_init env dp cnp).numdirpasses = 2
    rw [hn]
    decide
  rw [hu, hla, if_neg hn2] at hr
  have hcond : (cnp.cn_nameiop = CREATE ∨ cnp.cn_nameiop = RENAME ∨
      (cnp.cn_nameiop = DELETE ∧ cnp.cn_flags &&& DOWHITEOUT ≠ 0 ∧
        cnp.cn_flags &&& ISWHITEOUT ≠ 0)) ∧
      cnp.cn_flags &&& ISLASTCN ≠ 0 ∧ dp.i_effnlink ≠ 0 := ⟨Or.inl hop, hlast, hlink⟩
  have hdel : ¬ cnp.cn_nameiop = DELETE := by rw [hop]; decide
  unfold lookup_notfound at hr
  simp only [] at hr
  rw [if_pos hcond, if_neg (by rw [hacc]; exact fun h => h rfl)] at hr
  generalize hst' : skip_all env data (lookup_slotneeded cnp) recs
    (norm (lookup_init env dp cnp)) = st' at hr hinv hexo
  by_cases hnone : st'.slotstatus = slot_status.NONE
  · rw [if_pos hnone] at hr
    subst hr
    refine ⟨rfl, rfl, rfl, Or.inl ⟨rfl, ?_⟩⟩
    show roundup2 dp.i_size DIRBLKSIZ = dp.i_size
    exact roundup2_of_dvd _ hsize
  · rw [if_neg hnone, if_neg hdel] at hr
    unfold slot_inv at hinv
    rw [if_neg hnone] at hinv
    obtain ⟨pre, S, run, post, hrecs, hS, hts, hfree, hsub⟩ := hinv
    obtain ⟨_, hpos, hrest⟩ := tiles_head _ _ _ _ _ _ hts
    have hle := tiles_le _ _ _ _ _ hrest
    have hoff : r.dp.i_offset = S := by
      subst hr
      show st'.slotoffset.toNat = S
      rw [hS]
      simp
    have hcnt : r.dp.i_count = st'.slotsize := by subst hr; rfl
    have hend : r.dp.i_endoff = roundup2 (if (st'.enduseful : Int) <
        st'.slotoffset + st'.slotsize then (st'.slotoffset + st'.slotsize).toNat
        else st'.enduseful) DIRBLKSIZ := by subst hr; rfl
    have hge := roundup2_ge (if (st'.enduseful : Int) <
        st'.slotoffset + st'.slotsize then (st'.slotoffset + st'.slotsize).toNat
        else st'.enduseful)
    have hend2 : S + st'.slotsize ≤ r.dp.i_endoff := by
      rw [hend]
      refine le_trans ?_ hge.1
      split_ifs with hlt
      · rw [hS]; omega
      · rw [hS] at hlt; omega
    refine ⟨by subst hr; rfl, by subst hr; rfl, by subst hr; rfl, Or.inr ?_⟩
    refine ⟨pre, S :: run, post, hrecs, ?_, ?_, ?_, ?_, ?_, ?_⟩
    · rw [hcnt]; omega
    · rw [hoff, hcnt]; exact hts
    · rw [← hneed]; exact hfree
    · rw [hoff, hcnt]; exact hsub
    · rw [hend]; exact hge.2
    · rw [hoff, hcnt]; exact hend2

/-! ### Entries after an insert -/

theorem IFTODT_lt (mode : Nat) : IFTODT mode < 16 := by
  unfold IFTODT
  have h : mode &&& 0o170000 ≤ 0o170000 := Nat.and_le_right
  rw [Nat.shiftRight_eq_div_pow]
  have h2 : (0o170000 : Nat) = 61440 := by decide
  rw [h2] at h
  have h3 : (2 : Nat) ^ 12 = 4096 := by decide
  rw [h3]
  omega

theorem entry_frame (env : ufs_env) (d0 d : mem) (o : Nat)
    (h : ∀ x, o ≤ x → x < o + d_reclen env.little_endian d0 o → d x = d0 x)
    (hok : entry_ok env d0 o) :
    entry_ok env d o ∧ d_reclen env.little_endian d o = d_reclen env.little_endian d0 o ∧
      ∀ cnp : componentname, 0 < cnp.cn_namelen →
        (is_match env d cnp o ↔ is_match env d0 cnp o) := by
  obtain ⟨h4, hfit, hwh⟩ := entry_ok_facts env d0 o hok
  have hb := DIRSIZ_bounds env (OFSFMT env) d0 o
  have hse : same_entry env d0 o d o :=
    same_entry_of_frame env d0 d o (fun x h1 h2 => h x h1 (by omega))
  have hrl : d_reclen env.little_endian d o = d_reclen env.little_endian d0 o :=
    d_reclen_congr env.little_endian d d0 o o (d_reclen env.little_endian d0 o)
      (fun i hi => h (o + i) (by omega) (by omega)) (by omega)
  refine ⟨same_entry_ok env d0 o d o hse hok ?_ ?_ ?_, hrl, ?_⟩
  · rw [hrl]; exact h4
  · rw [hrl]; exact hfit
  · rw [hrl]; exact hwh
  · intro cnp hlen
    exact same_entry_match env d0 o d o cnp hlen hse

theorem packed_mem (env : ufs_env) (d0 d : mem) :
    ∀ (ps : List (Nat × Nat)) (a b : Nat), packed env d0 d a b ps →
      ∀ po ∈ ps, a ≤ po.1 ∧ po.1 + DIRSIZ env (OFSFMT env) d0 po.2 ≤ b ∧
        d_ino env.little_endian d0 po.2 ≠ 0 ∧ same_entry env d0 po.2 d po.1 ∧
        d_reclen env.little_endian d po.1 = DIRSIZ env (OFSFMT env) d0 po.2 := by
  intro ps
  induction ps with
  | nil => intro a b _ po hpo; simp at hpo
  | cons q qs ih =>
    intro a b h po hpo
    simp only [packed] at h
    obtain ⟨h0, h1, h2, h3, h4⟩ := h
    have hle := packed_le env d0 d qs _ _ h4
    rcases List.mem_cons.mp hpo with heq | hin
    · subst heq
      exact ⟨by omega, by omega, h1, h2, h3⟩
    · obtain ⟨g0, g1, g2⟩ := ih _ _ h4 po hin
      exact ⟨by omega, g1, g2⟩

/-- The entry built by `ufs_makedirentry` for the name of `cnp`, once `ufs_direnter` has
copied it to `p` with record length `R`: it is sound, it is the entry sought by a lookup of
that name, and it holds the inode number. -/
theorem new_entry_spec (env : ufs_env) (d : mem) (cnp : componentname) (ino mode : Nat)
    (newdirp : mem) (p R : Nat)
    (h : same_bytes d p
      (wr16 env.little_endian (ufs_makedirentry env ino mode cnp newdirp) 4 R) 0
      (DIRSIZ env (OFSFMT env) (ufs_makedirentry env ino mode cnp newdirp) 0))
    (hR4 : R % 4 = 0) (hRfit : R ≤ 512 - p % 512)
    (hRwh : DIRSIZ env (OFSFMT env) (ufs_makedirentry env ino mode cnp newdirp) 0 ≤ R)
    (hino : ino ≠ 0 ∧ ino < 4294967296)
    (hlen : 0 < cnp.cn_namelen ∧ cnp.cn_namelen ≤ 255)
    (hname : ∀ i, i < cnp.cn_namelen → byte cnp.cn_nameptr i ≠ 0)
    (hnul : byte cnp.cn_nameptr cnp.cn_namelen = 0)
    (hmode : IFTODT mode ≠ DT_WHT) :
    entry_ok env d p ∧ is_match env d cnp p ∧ d_ino env.little_endian d p = ino ∧
      d_reclen env.little_endian d p = R ∧
      ¬ (env.mnt_maxsymlinklen > 0 ∧ d_type d p = DT_WHT) := by
  obtain ⟨m1, m2, m3, m4⟩ := makedirentry_fields env ino mode cnp newdirp hino.2 hlen.2
  obtain ⟨n1, n2, n3, n4, n5, n6⟩ := new_entry_fields env d _ p R h (by omega)
  rw [m1] at n2
  rw [m2] at n4 n6
  have hnm : ∀ i, i ≤ cnp.cn_namelen → d_name d p i = byte cnp.cn_nameptr i := by
    intro i hi
    rw [n6 i hi, m3 i hi]
  refine ⟨?_, ⟨?_, ?_⟩, n2, n1, ?_⟩
  · unfold entry_ok
    rw [dirbadentry_false_iff, n1, n5, n4]
    refine ⟨hR4, hRfit, hRwh, fun _ => ⟨?_, ?_⟩⟩
    · intro i hi
      rw [hnm i (by omega)]
      exact hname i hi
    · rw [hnm _ (le_refl _)]
      exact hnul
  · rw [n2]; exact hino.1
  · rw [name_match_iff env d cnp p hlen.1]
    exact ⟨n4, fun i hi => hnm i (by omega)⟩
  · intro hw
    have ht := m4 hw.1
    rw [n3, ht] at hw
    have := IFTODT_lt mode
    rw [Nat.mod_eq_of_lt (by omega)] at hw
    exact hmode hw.2

theorem makedirentry_size (env : ufs_env) (cnp : componentname) (ino mode : Nat)
    (newdirp : mem) (hino : ino < 4294967296) (hlen : cnp.cn_namelen ≤ 255) :
    DIRSIZ env (OFSFMT env) (ufs_makedirentry env ino mode cnp newdirp) 0 =
      DIRECTSIZ cnp.cn_namelen := by
  rw [DIRSIZ_namlen, (makedirentry_fields env ino mode cnp newdirp hino hlen).2.1]

/-! ### The insert into a fresh block -/

theorem newblk_fill_frame (le : Bool) (b_data b_bcount : Nat) :
    ∀ (fuel : Nat) (m : mem) (blkoff x : Nat), x < b_data + blkoff + 4 →
      newblk_fill le b_data b_bcount fuel m blkoff x = m x := by
  intro fuel
  induction fuel with
  | zero => intro m blkoff x _; rfl
  | succ n ih =>
    intro m blkoff x hx
    unfold newblk_fill
    split_ifs
    · rw [ih _ _ _ (by unfold DIRBLKSIZ; omega), wr16_other _ _ _ _ _ (by omega) (by omega)]
    · rfl

theorem tiles_frame (env : ufs_env) (d0 d : mem) (l : List Nat) (a b : Nat)
    (htiles : tiles env.little_endian d0 a b l) (hok : ∀ o ∈ l, entry_ok env d0 o)
    (h : ∀ x, a ≤ x → x < b → d x = d0 x) :
    tiles env.little_endian d a b l ∧ (∀ o ∈ l, entry_ok env d o) ∧
      ∀ cnp : componentname, 0 < cnp.cn_namelen →
        ∀ o ∈ l, (is_match env d cnp o ↔ is_match env d0 cnp o) := by
  have hb := tiles_mem_bounds env.little_endian d0 l a b htiles
  have hf : ∀ o ∈ l, ∀ x, o ≤ x → x < o + d_reclen env.little_endian d0 o → d x = d0 x := by
    intro o ho x h1 h2
    have := hb o ho
    exact h x (by omega) (by omega)
  refine ⟨tiles_congr env.little_endian d0 d l a b ?_ htiles, ?_, ?_⟩
  · intro o ho
    exact (entry_frame env d0 d o (hf o ho) (hok o ho)).2.1
  · intro o ho
    exact (entry_frame env d0 d o (hf o ho) (hok o ho)).1
  · intro cnp hlen o ho
    exact (entry_frame env d0 d o (hf o ho) (hok o ho)).2.2 cnp hlen

theorem newblk_layout (env : ufs_env) (d0 d : mem) (cnp : componentname) (ino mode : Nat)
    (newdirp : mem) (recs : List Nat) (N : Nat) (hN : N % 512 = 0)
    (htiles : tiles env.little_endian d0 0 N recs)
    (hok : ∀ o ∈ recs, entry_ok env d0 o)
    (habsent : ∀ o ∈ recs, ¬ is_match env d0 cnp o)
    (hframe : ∀ x, x < N → d x = d0 x)
    (hnew : same_bytes d N
      (wr16 env.little_endian (ufs_makedirentry env ino mode cnp newdirp) 4 DIRBLKSIZ) 0
      (DIRSIZ env (OFSFMT env) (ufs_makedirentry env ino mode cnp newdirp) 0))
    (hino : ino ≠ 0 ∧ ino < 4294967296)
    (hlen : 0 < cnp.cn_namelen ∧ cnp.cn_namelen ≤ 255)
    (hname : ∀ i, i < cnp.cn_namelen → byte cnp.cn_nameptr i ≠ 0)
    (hnul : byte cnp.cn_nameptr cnp.cn_namelen = 0)
    (hmode : IFTODT mode ≠ DT_WHT) :
    holds_entry env d (N + 512) cnp recs N [] ∧ d_ino env.little_endian d N = ino := by
  have hb := DIRSIZ_bounds env (OFSFMT env) (ufs_makedirentry env ino mode cnp newdirp) 0
  have h512 : DIRBLKSIZ = 512 := rfl
  obtain ⟨e1, e2, e3, e4, e5⟩ := new_entry_spec env d cnp ino mode newdirp N DIRBLKSIZ hnew
    (by rw [h512]) (by rw [h512]; omega) (by rw [h512]; omega) hino hlen hname hnul hmode
  obtain ⟨f1, f2, f3⟩ := tiles_frame env d0 d recs 0 N htiles hok (fun x _ hx => hframe x hx)
  refine ⟨⟨?_, ?_, ?_, ?_, e2, e5⟩, e3⟩
  · refine tiles_append _ _ _ _ _ _ _ f1 ?_
    simp only [tiles]
    rw [e4, h512]
    exact ⟨trivial, by omega, rfl⟩
  · intro o ho
    rcases List.mem_append.mp ho with h1 | h1
    · exact f2 o h1
    · have : o = N := by simpa using h1
      rw [this]; exact e1
  · intro o ho
    rw [f3 cnp hlen.1 o ho]
    exact habsent o ho
  · intro o ho
    simp at ho

theorem direnter_newblk_spec (env : ufs_env) (d0 : mem) (dp : inode) (cnp : componentname)
    (ino mode : Nat) (newdirp : mem) (recs : List Nat)
    (hbal : env.balloc_err = 0) (hwr : env.write_err = 0) (hup : env.update_err = 0)
    (hcount : dp.i_count = 0) (hoff : dp.i_offset = dp.i_size) (hsize : dp.i_size % 512 = 0)
    (htiles : tiles env.little_endian d0 0 dp.i_size recs)
    (hok : ∀ o ∈ recs, entry_ok env d0 o)
    (habsent : ∀ o ∈ recs, ¬ is_match env d0 cnp o)
    (hino : ino ≠ 0 ∧ ino < 4294967296)
    (hlen : 0 < cnp.cn_namelen ∧ cnp.cn_namelen ≤ 255)
    (hname : ∀ i, i < cnp.cn_namelen → byte cnp.cn_nameptr i ≠ 0)
    (hnul : byte cnp.cn_nameptr cnp.cn_namelen = 0)
    (hmode : IFTODT mode ≠ DT_WHT)
    (r : direnter_result)
    (hr : r = ufs_direnter env d0 dp (ufs_makedirentry env ino mode cnp newdirp)) :
    r.ret = .returned 0 ∧ r.dp.i_size = dp.i_size + 512 ∧ r.dp.i_diroff = dp.i_diroff ∧
      holds_entry env r.data (dp.i_size + 512) cnp recs dp.i_size [] ∧
      d_ino env.little_endian r.data dp.i_size = ino := by
  have hb := DIRSIZ_bounds env (OFSFMT env) (ufs_makedirentry env ino mode cnp newdirp) 0
  have h512 : DIRBLKSIZ = 512 := rfl
  have hbd : dp.i_offset - (dp.i_offset &&& (env.f_iosize - 1)) +
      (dp.i_offset &&& (env.f_iosize - 1)) = dp.i_size := by
    rw [Nat.sub_add_cancel Nat.and_le_left, hoff]
  have hpanic : ¬ (dp.i_offset &&& (DIRBLKSIZ - 1) ≠ 0) := by
    rw [and_511, hoff, hsize]
    exact fun h => h rfl
  -- the block once the entry is copied in
  have hd2 : ∀ d : mem,
      (∀ x, x < dp.i_size + 512 → d x =
        bcopy (wr16 env.little_endian (ufs_makedirentry env ino mode cnp newdirp) 4 DIRBLKSIZ)
          0 (balloc_clear d0 dp.i_offset) dp.i_size
          (DIRSIZ env (OFSFMT env) (ufs_makedirentry env ino mode cnp newdirp) 0) x) →
      holds_entry env d (dp.i_size + 512) cnp recs dp.i_size [] ∧
        d_ino env.little_endian d dp.i_size = ino := by
    intro d hd
    apply newblk_layout env d0 d cnp ino mode newdirp recs dp.i_size hsize htiles hok habsent
      ?_ ?_ hino hlen hname hnul hmode
    · intro x hx
      rw [hd x (by omega), bcopy_outside _ _ _ _ _ _ (Or.inl hx)]
      unfold balloc_clear
      rw [if_neg (by rw [hoff]; omega)]
    · intro i hi
      rw [hd _ (by omega), bcopy_inside _ _ _ _ _ _ (by omega) (by omega)]
      congr 1
      omega
  unfold ufs_direnter at hr
  simp only [] at hr
  rw [if_pos hcount, if_neg hpanic, if_neg (by rw [hbal]; exact fun h => h rfl), hbd] at hr
  split_ifs at hr with h1 h2
  · subst hr
    refine ⟨by rw [hup], by show dp.i_offset + DIRBLKSIZ = _; rw [hoff, h512], rfl, ?_⟩
    apply hd2
    intro x hx
    show newblk_fill _ _ _ _ _ _ x = _
    rw [newblk_fill_frame _ _ _ _ _ _ _ (by rw [← Nat.add_assoc, hbd, h512]; omega)]
  · subst hr
    exact ⟨by rw [hup], by show dp.i_offset + DIRBLKSIZ = _; rw [hoff, h512], rfl,
      hd2 _ (fun x _ => rfl)⟩
  · subst hr
    exact ⟨by rw [hup], by show dp.i_offset + DIRBLKSIZ = _; rw [hoff, h512], rfl,
      hd2 _ (fun x _ => rfl)⟩

/-! ### The insert into a slot -/

theorem tiles_mod4 (le : Bool) (data : mem) :
    ∀ (l : List Nat) (a b : Nat), tiles le data a b l →
      (∀ o ∈ l, d_reclen le data o % 4 = 0) → b % 4 = a % 4 := by
  intro l
  induction l with
  | nil => intro a b h _; simp only [tiles] at h; rw [h]
  | cons o os ih =>
    intro a b h h4
    obtain ⟨h0, _, h2⟩ := tiles_head le data a b o os h
    have := ih _ _ h2 (fun x hx => h4 x (List.mem_cons_of_mem _ hx))
    have := h4 o (List.mem_cons_self _ _)
    omega

theorem tiles_three (le : Bool) (data : mem) (pre slot post : List Nat) (a c S E : Nat)
    (h : tiles le data a c (pre ++ slot ++ post)) (hs : tiles le data S E slot)
    (hne : S ≠ E) :
    tiles le data a S pre ∧ tiles le data E c post := by
  obtain ⟨h1, h2⟩ := tiles_split le data (pre ++ slot) post a c h
  obtain ⟨h3, h4⟩ := tiles_split le data pre slot a _ h1
  cases slot with
  | nil => simp only [tiles] at hs; exact absurd hs hne
  | cons s rest =>
    have e1 := (tiles_head le data _ _ s rest h4).1
    have e2 := (tiles_head le data _ _ s rest hs).1
    have s1 := tiles_sum le data _ _ _ h4
    have s2 := tiles_sum le data _ _ _ hs
    have l1 := tiles_le le data _ _ _ h4
    have l2 := tiles_le le data _ _ _ hs
    have hS : a + (List.map (d_reclen le data) pre).sum = S := by omega
    have hE : a + (List.map (d_reclen le data) (pre ++ s :: rest)).sum = E := by omega
    rw [hS] at h3
    rw [hE] at h2
    exact ⟨h3, h2⟩

theorem slot_truncate_size (env : ufs_env) (dp : inode) (error : Int) :
    (slot_truncate env dp error).i_diroff = dp.i_diroff ∧
      ((slot_truncate env dp error).i_size = dp.i_size ∨
        ((slot_truncate env dp error).i_size = dp.i_endoff ∧ dp.i_endoff < dp.i_size)) := by
  unfold slot_truncate
  simp only []
  split_ifs with h
  · exact ⟨rfl, Or.inr ⟨rfl, h.2.2.1⟩⟩
  · exact ⟨rfl, Or.inl rfl⟩

theorem kept_mem (env : ufs_env) (d0 : mem) (slot : List Nat) (pairs : List (Nat × Nat))
    (h : pairs.map Prod.snd = slot.filter (fun o => d_ino env.little_endian d0 o ≠ 0) ∨
      ∃ front v, slot = front ++ [v] ∧ d_ino env.little_endian d0 v = WINO ∧
        pairs.map Prod.snd = front.filter (fun o => d_ino env.little_endian d0 o ≠ 0)) :
    ∀ po ∈ pairs, po.2 ∈ slot := by
  intro po hpo
  have hm : po.2 ∈ pairs.map Prod.snd := List.mem_map_of_mem _ hpo
  rcases h with h | ⟨front, v, hs, _, h⟩
  · rw [h] at hm
    exact (List.mem_filter.mp hm).1
  · rw [h] at hm
    rw [hs]
    exact List.mem_append_left _ (List.mem_filter.mp hm).1

theorem direnter_slot_layout (env : ufs_env) (d0 : mem) (dp : inode) (cnp : componentname)
    (ino mode : Nat) (newdirp : mem) (pre slot post : List Nat)
    (hio : env.blkatoff_err dp.i_offset = 0) (hwr : env.write_err = 0)
    (hcount : dp.i_count ≠ 0) (hsize : dp.i_size % 512 = 0)
    (htiles : tiles env.little_endian d0 0 dp.i_size (pre ++ slot ++ post))
    (hslot : tiles env.little_endian d0 dp.i_offset (dp.i_offset + dp.i_count) slot)
    (hok : ∀ o ∈ pre ++ slot ++ post, entry_ok env d0 o)
    (habsent : ∀ o ∈ pre ++ slot ++ post, ¬ is_match env d0 cnp o)
    (hfree : (DIRECTSIZ cnp.cn_namelen : Int) ≤ slot_free env d0 slot)
    (hsub : dp.i_offset + dp.i_count ≤ dp.i_offset - dp.i_offset % 512 + 512)
    (hend : dp.i_endoff % 512 = 0) (hendge : dp.i_offset + dp.i_count ≤ dp.i_endoff)
    (hino : ino ≠ 0 ∧ ino < 4294967296)
    (hlen : 0 < cnp.cn_namelen ∧ cnp.cn_namelen ≤ 255)
    (hname : ∀ i, i < cnp.cn_namelen → byte cnp.cn_nameptr i ≠ 0)
    (hnul : byte cnp.cn_nameptr cnp.cn_namelen = 0)
    (hmode : IFTODT mode ≠ DT_WHT)
    (r : direnter_result)
    (hr : r = ufs_direnter env d0 dp (ufs_makedirentry env ino mode cnp newdirp)) :
    r.ret = .returned 0 ∧ r.dp.i_diroff = dp.i_diroff ∧
      (r.dp.i_size = dp.i_size ∨ r.dp.i_size = dp.i_endoff) ∧
      ∃ A p B, holds_entry env r.data r.dp.i_size cnp A p B ∧
        d_ino env.little_endian r.data p = ino := by
  have hsz := makedirentry_size env cnp ino mode newdirp hino.2 hlen.2
  have hb := DIRECTSIZ_bounds cnp.cn_namelen
  obtain ⟨htpre, htpost⟩ := tiles_three _ _ _ _ _ _ _ _ _ htiles hslot (by omega)
  have hEle := tiles_le _ _ _ _ _ htpost
  have hokpre : ∀ o ∈ pre, entry_ok env d0 o := fun o ho => hok o (by simp [ho])
  have hokslot : ∀ o ∈ slot, entry_ok env d0 o := fun o ho => hok o (by simp [ho])
  have hokpost : ∀ o ∈ post, entry_ok env d0 o := fun o ho => hok o (by simp [ho])
  obtain ⟨pairs, p, hout, hret, hdp⟩ := direnter_slot_spec env d0 dp
    (ufs_makedirentry env ino mode cnp newdirp) slot hcount hio hslot
    (fun o ho => entry_ok_whole env d0 o (hokslot o ho)) (by omega)
    (by rw [hsz]; exact hfree)
  rw [← hr] at hout hret hdp
  have herr : slot_write_error env = 0 := by
    unfold slot_write_error
    rw [hwr]
    split_ifs <;> rfl
  rw [if_neg (by omega)] at hdp
  obtain ⟨hdiroff, hsize'⟩ := slot_truncate_size env dp (slot_write_error env)
  rw [← hdp] at hdiroff hsize'
  have hfits := hout.fits
  rw [hsz] at hfits
  have hpk := packed_mem env d0 r.data pairs _ _ hout.layout
  have hSp := packed_le env d0 r.data pairs _ _ hout.layout
  have hkept := kept_mem env d0 slot pairs hout.kept
  -- the new entry
  have hp4 : p % 4 = dp.i_offset % 4 :=
    tiles_mod4 env.little_endian r.data _ _ _ (packed_tiles env d0 r.data pairs _ _ hout.layout)
      (by
        intro q hq
        obtain ⟨po, hpo, rfl⟩ := List.mem_map.mp hq
        rw [(hpk po hpo).2.2.2.2]
        exact (DIRSIZ_bounds env (OFSFMT env) d0 po.2).2.2)
  have hE4 : (dp.i_offset + dp.i_count) % 4 = dp.i_offset % 4 :=
    tiles_mod4 env.little_endian d0 _ _ _ hslot
      (fun o ho => (entry_ok_facts env d0 o (hokslot o ho)).1)
  obtain ⟨e1, e2, e3, e4, e5⟩ := new_entry_spec env r.data cnp ino mode newdirp p
    (dp.i_offset + dp.i_count - p) hout.entry (by omega) (by omega) (by rw [hsz]; omega)
    hino hlen hname hnul hmode
  -- the size after the call, and the records kept below it
  have hcut : ∃ c, r.dp.i_size = c ∧ c % 512 = 0 ∧ dp.i_offset + dp.i_count ≤ c ∧
      c ≤ dp.i_size ∧ (c = dp.i_size ∨ c = dp.i_endoff) := by
    rcases hsize' with h | ⟨h, hlt⟩
    · exact ⟨_, h, hsize, hEle, le_refl _, Or.inl rfl⟩
    · exact ⟨_, h, hend, hendge, by omega, Or.inr rfl⟩
  obtain ⟨c, hc, hc512, hEc, hcle, hcor⟩ := hcut
  obtain ⟨post1, post2, hpost, htpost1, _⟩ := tiles_cut env.little_endian d0 c hc512 post _ _
    htpost (fun o ho => (entry_ok_facts env d0 o (hokpost o ho)).2.1) hEc hcle
  have hokpost1 : ∀ o ∈ post1, entry_ok env d0 o :=
    fun o ho => hokpost o (by rw [hpost]; simp [ho])
  obtain ⟨f1, f2, f3⟩ := tiles_frame env d0 r.data pre 0 dp.i_offset htpre hokpre
    (fun x _ hx => hout.frame x (Or.inl hx))
  obtain ⟨g1, g2, g3⟩ := tiles_frame env d0 r.data post1 (dp.i_offset + dp.i_count) c
    htpost1 hokpost1 (fun x hx _ => hout.frame x (Or.inr hx))
  have hnew : tiles env.little_endian r.data p c (p :: post1) := by
    simp only [tiles]
    rw [e4]
    refine ⟨trivial, by omega, ?_⟩
    rw [Nat.add_sub_cancel' (by omega)]
    exact g1
  refine ⟨by rw [hret, herr], hdiroff, by rw [hc]; exact hcor, pre ++ pairs.map Prod.fst, p,
    post1, ⟨?_, ?_, ?_, ?_, e2, e5⟩, e3⟩
  · rw [hc]
    exact tiles_append _ _ _ _ _ _ _
      (tiles_append _ _ _ _ _ _ _ f1 (packed_tiles env d0 r.data pairs _ _ hout.layout)) hnew
  · intro o ho
    simp only [List.mem_append, List.mem_cons] at ho
    rcases ho with (h | h) | h | h
    · exact f2 o h
    · obtain ⟨po, hpo, rfl⟩ := List.mem_map.mp h
      obtain ⟨k0, k1, _, k3, k4⟩ := hpk po hpo
      have hbs := DIRSIZ_bounds env (OFSFMT env) d0 po.2
      exact same_entry_ok env d0 po.2 r.data po.1 k3 (hokslot _ (hkept po hpo))
        (by rw [k4]; exact hbs.2.2) (by rw [k4]; omega) (by rw [k4])
    · rw [h]; exact e1
    · exact g2 o h
  · intro o ho
    rcases List.mem_append.mp ho with h | h
    · rw [f3 cnp hlen.1 o h]
      exact habsent o (by simp [h])
    · obtain ⟨po, hpo, rfl⟩ := List.mem_map.mp h
      rw [same_entry_match env d0 po.2 r.data po.1 cnp hlen.1 (hpk po hpo).2.2.2.1]
      exact habsent _ (by simp [hkept po hpo])
  · intro o ho
    rw [g3 cnp hlen.1 o ho]
    exact habsent o (by rw [hpost]; simp [ho])

/-! ### Insert, then look up -/

theorem holds_entry_lookup (env : ufs_env) (d : mem) (dp : inode) (cnp cnp3 : componentname)
    (A : List Nat) (p : Nat) (B : List Nat) (henv : env_ok env)
    (h : holds_entry env d dp.i_size cnp A p B)
    (hsize : dp.i_size % 512 = 0) (hdiroff : dp.i_diroff % 512 = 0)
    (hop : cnp3.cn_nameiop = LOOKUP)
    (hptr : cnp3.cn_nameptr = cnp.cn_nameptr) (hlen : cnp3.cn_namelen = cnp.cn_namelen)
    (hvget : env.vget_err (d_ino env.little_endian d p) = 0)
    (hlock : env.vn_lock_err = 0) :
    (ufs_lookup env d dp cnp3).ret = .returned 0 ∧
      (ufs_lookup env d dp cnp3).vpp = some (d_ino env.little_endian d p) ∧
      (ufs_lookup env d dp cnp3).dp.i_ino = d_ino env.little_endian d p :=
  lookup_finds env d dp cnp3 A p B henv hsize hdiroff h.chain h.sound
    (fun o ho => by rw [is_match_name env d cnp cnp3 o hptr hlen]; exact h.before o ho)
    (fun o ho => by rw [is_match_name env d cnp cnp3 o hptr hlen]; exact h.after o ho)
    (by rw [is_match_name env d cnp cnp3 p hptr hlen]; exact h.here)
    h.live hop hvget hlock

/-! ### Inserts and the lookups that follow them -/

/-- C8: compaction preserves the block packing invariant. For every directory block whose
sub-block starting at `base` has record lengths summing to `DIRBLKSIZ`, and every slot
`[i_offset, i_offset + i_count)` made of a run `slot` of whole records of that sub-block
(record length at least the packed size) with free space for the new entry, the slot
case of `ufs_direnter` returns and the records reachable by walking the sub-block from
its start still have record lengths summing to exactly `DIRBLKSIZ`. -/
theorem direnter_keeps_subblock_sum (env : ufs_env) (data : mem) (dp : inode) (dirp : mem)
    (base : Nat) (pre slot post : List Nat)
    (hrecs : subblock_records env.little_endian data base = pre ++ slot ++ post)
    (hsum : subblock_sum env.little_endian data base = DIRBLKSIZ)
    (hwhole : ∀ o ∈ pre ++ slot ++ post, whole_entry env data o)
    (hslot : slot.head? = some dp.i_offset)
    (hcount : dp.i_count = (slot.map (d_reclen env.little_endian data)).sum)
    (hfree : (DIRSIZ env (OFSFMT env) dirp 0 : Int) ≤ slot_free env data slot)
    (hio : env.blkatoff_err dp.i_offset = 0) :
    (∃ error, (ufs_direnter env data dp dirp).ret = .returned error) ∧
      subblock_sum env.little_endian (ufs_direnter env data dp dirp).data base = DIRBLKSIZ := by
  have h512 : DIRBLKSIZ = 512 := rfl
  -- the sub-block is tiled by its records
  have htl : tiles env.little_endian data base (base + DIRBLKSIZ) (pre ++ slot ++ post) := by
    rw [← hrecs]
    unfold subblock_records
    apply walk_tiles _ _ _ _ _ (by omega)
    unfold subblock_sum subblock_records at hsum
    rw [hsum]; omega
  rw [List.append_assoc] at htl
  obtain ⟨hpre, hmid⟩ := tiles_split _ _ _ _ _ _ htl
  obtain ⟨hslt, hpost⟩ := tiles_split _ _ _ _ _ _ hmid
  rw [← hcount] at hslt hpost
  have hS : base + (pre.map (d_reclen env.little_endian data)).sum = dp.i_offset := by
    cases slot with
    | nil => simp at hslot
    | cons o os =>
      simp only [tiles] at hslt
      simp only [List.head?_cons, Option.some.injEq] at hslot
      rw [← hslot]; exact hslt.1.symm
  rw [hS] at hpre hslt hpost
  have hle3 := tiles_le _ _ _ _ _ hpost
  have hcnt : dp.i_count ≠ 0 := by
    cases slot with
    | nil => simp at hslot
    | cons o os =>
      simp only [tiles] at hslt
      have := tiles_le _ _ _ _ _ hslt.2.2
      omega
  have hle1 := tiles_le _ _ _ _ _ hpre
  have hws : ∀ o ∈ slot, whole_entry env data o := by
    intro o ho; apply hwhole; simp [ho]
  obtain ⟨pairs, p, hout, hret, _⟩ :=
    direnter_slot_spec env data dp dirp slot hcnt hio hslt hws (by omega) hfree
  refine ⟨⟨_, hret⟩, ?_⟩
  have hnb := DIRSIZ_bounds env (OFSFMT env) dirp 0
  have hfits := hout.fits
  have hlay := packed_le _ _ _ _ _ _ hout.layout
  -- the three parts of the sub-block after the call
  have hpre' : tiles env.little_endian (ufs_direnter env data dp dirp).data base dp.i_offset
      pre := by
    apply tiles_congr _ data _ _ _ _ _ hpre
    intro o ho
    have hb := tiles_mem_bounds _ _ _ _ _ hpre o ho
    have hw : whole_entry env data o := by apply hwhole; simp [ho]
    unfold whole_entry at hw
    have hd := DIRSIZ_bounds env (OFSFMT env) data o
    unfold d_reclen
    apply rd16_congr <;> apply hout.frame <;> omega
  have hpost' : tiles env.little_endian (ufs_direnter env data dp dirp).data
      (dp.i_offset + dp.i_count) (base + DIRBLKSIZ) post := by
    apply tiles_congr _ data _ _ _ _ _ hpost
    intro o ho
    have hb := tiles_mem_bounds _ _ _ _ _ hpost o ho
    unfold d_reclen
    apply rd16_congr <;> apply hout.frame <;> omega
  have hnew : d_reclen env.little_endian (ufs_direnter env data dp dirp).data p =
      dp.i_offset + dp.i_count - p :=
    new_entry_reclen env _ dirp p _ _ hout.entry (by omega) (by omega)
  have hmid' : tiles env.little_endian (ufs_direnter env data dp dirp).data dp.i_offset
      (dp.i_offset + dp.i_count) (pairs.map Prod.fst ++ [p]) := by
    apply tiles_append _ _ _ _ _ p _ (packed_tiles _ _ _ _ _ _ hout.layout)
    simp only [tiles]
    rw [hnew]
    refine ⟨by trivial, by omega, by omega⟩
  have hall := tiles_append _ _ _ _ _ _ _ hpre' (tiles_append _ _ _ _ _ _ _ hmid' hpost')
  unfold subblock_sum subblock_records
  rw [tiles_walk _ _ _ _ _ _ hall (by omega), tiles_sum _ _ _ _ _ hall]
  omega

/-- Witness of C8 on `block_abc`: the slot is the last record, which has room for the entry
`c -> 36`. -/
theorem direnter_keeps_subblock_sum_witness :
    (∃ error, (ufs_direnter env_le block_abc { dir_inode with i_offset := 24, i_count := 488 }
        dirp_c).ret = .returned error) ∧
      subblock_sum env_le.little_endian
        (ufs_direnter env_le block_abc { dir_inode with i_offset := 24, i_count := 488 }
          dirp_c).data 0 = DIRBLKSIZ :=
  direnter_keeps_subblock_sum env_le block_abc { dir_inode with i_offset := 24, i_count := 488 }
    dirp_c 0 [0, 12] [24] [] (by decide) (by decide) (by decide) (by decide) (by decide)
    (by decide) (by decide)

/-- C9: insert-then-lookup. On a mount whose collaborators succeed, take a well-formed
directory (a chain of sound records that fills `[0, i_size)`, `i_size` and the cached
offset multiples of `DIRBLKSIZ`, a non-zero link count; the directory of size 0 included)
in which no in-use record carries the name of `cnp`, a NUL-terminated name of 1 to 255
bytes. Then `ufs_lookup` for CREATE on the final component returns `EJUSTRETURN`;
`ufs_direnter`, given the entry `ufs_makedirentry` builds for the inode `ino` (a non-zero
32-bit number, of a file type other than whiteout) and the directory inode as the lookup
left it, returns 0; and a later `ufs_lookup` of the same name for LOOKUP returns 0 with the
vnode of inode `ino` in `*vpp` and `ino` in `i_ino`. -/
theorem insert_then_lookup (env : ufs_env) (data : mem) (dp : inode)
    (cnp cnp3 : componentname) (ino mode : Nat) (newdirp : mem) (recs : List Nat)
    (henv : env_ok env) (hacc : env.access_err = 0) (hbal : env.balloc_err = 0)
    (hwr : env.write_err = 0) (hup : env.update_err = 0)
    (hvget : env.vget_err ino = 0) (hlock : env.vn_lock_err = 0)
    (hsize : dp.i_size % 512 = 0) (hdiroff : dp.i_diroff % 512 = 0)
    (hlink : dp.i_effnlink ≠ 0)
    (htiles : tiles env.little_endian data 0 dp.i_size recs)
    (hok : ∀ o ∈ recs, entry_ok env data o)
    (habsent : ∀ o ∈ recs, ¬ is_match env data cnp o)
    (hop : cnp.cn_nameiop = CREATE) (hlast : cnp.cn_flags &&& ISLASTCN ≠ 0)
    (hlen : 0 < cnp.cn_namelen ∧ cnp.cn_namelen ≤ 255)
    (hname : ∀ i, i < cnp.cn_namelen → byte cnp.cn_nameptr i ≠ 0)
    (hnul : byte cnp.cn_nameptr cnp.cn_namelen = 0)
    (hino : ino ≠ 0 ∧ ino < 4294967296) (hmode : IFTODT mode ≠ DT_WHT)
    (hop3 : cnp3.cn_nameiop = LOOKUP)
    (hptr3 : cnp3.cn_nameptr = cnp.cn_nameptr) (hlen3 : cnp3.cn_namelen = cnp.cn_namelen) :
    (ufs_lookup env data dp cnp).ret = .returned EJUSTRETURN ∧
      (create_entry env data dp cnp ino mode newdirp).ret = .returned 0 ∧
      (ufs_lookup env (create_entry env data dp cnp ino mode newdirp).data
        (create_entry env data dp cnp ino mode newdirp).dp cnp3).ret = .returned 0 ∧
      (ufs_lookup env (create_entry env data dp cnp ino mode newdirp).data
        (create_entry env data dp cnp ino mode newdirp).dp cnp3).vpp = some ino ∧
      (ufs_lookup env (create_entry env data dp cnp ino mode newdirp).data
        (create_entry env data dp cnp ino mode newdirp).dp cnp3).dp.i_ino = ino := by
  obtain ⟨a1, a2, a3, a4⟩ := lookup_create_spec env data dp cnp recs henv hsize htiles hok
    habsent hop hlast hlink hacc _ rfl
  refine ⟨a1, ?_⟩
  rcases a4 with ⟨hcount, hoff⟩ | ⟨pre, slot, post, hrecs, hcount, hslot, hfree, hsub, hend,
    hendge⟩
  · -- no slot: the entry goes into a fresh block
    obtain ⟨b1, b2, b3, b4, b5⟩ := direnter_newblk_spec env data
      (ufs_lookup env data dp cnp).dp cnp ino mode newdirp recs hbal hwr hup hcount
      (by rw [hoff, a2]) (by rw [a2]; exact hsize) (by rw [a2]; exact htiles) hok habsent
      hino hlen hname hnul hmode (create_entry env data dp cnp ino mode newdirp) rfl
    rw [← b2] at b4
    obtain ⟨c1, c2, c3⟩ := holds_entry_lookup env _ _ cnp cnp3 _ _ _ henv b4
      (by rw [b2, a2]; omega) (by rw [b3, a3]; exact hdiroff) hop3 hptr3 hlen3
      (by rw [b5]; exact hvget) hlock
    rw [b5] at c2 c3
    exact ⟨b1, c1, c2, c3⟩
  · -- a slot: the entry goes into the space the lookup found
    subst hrecs
    obtain ⟨b1, b2, b3, A, p, B, b4, b5⟩ := direnter_slot_layout env data
      (ufs_lookup env data dp cnp).dp cnp ino mode newdirp pre slot post (henv.2 _) hwr
      hcount (by rw [a2]; exact hsize) (by rw [a2]; exact htiles) hslot hok habsent hfree
      hsub hend hendge hino hlen hname hnul hmode
      (create_entry env data dp cnp ino mode newdirp) rfl
    obtain ⟨c1, c2, c3⟩ := holds_entry_lookup env _ _ cnp cnp3 _ _ _ henv b4
      (by rcases b3 with h | h
          · rw [h, a2]; exact hsize
          · rw [h]; exact hend)
      (by rw [b2, a3]; exact hdiroff) hop3 hptr3 hlen3 (by rw [b5]; exact hvget) hlock
    rw [b5] at c2 c3
    exact ⟨b1, c1, c2, c3⟩

/-- Witness of C9 on `block_abc`: the name `c` is created for inode 36 and found again. -/
theorem insert_then_lookup_witness :
    (ufs_lookup env_le block_abc dir_inode (cn_c CREATE)).ret = .returned EJUSTRETURN ∧
      (create_entry env_le block_abc dir_inode (cn_c CREATE) 36 0o100644 (mem_of [])).ret =
        .returned 0 ∧
      (ufs_lookup env_le
        (create_entry env_le block_abc dir_inode (cn_c CREATE) 36 0o100644 (mem_of [])).data
        (create_entry env_le block_abc dir_inode (cn_c CREATE) 36 0o100644 (mem_of [])).dp
        (cn_c LOOKUP)).ret = .returned 0 ∧
      (ufs_lookup env_le
        (create_entry env_le block_abc dir_inode (cn_c CREATE) 36 0o100644 (mem_of [])).data
        (create_entry env_le block_abc dir_inode (cn_c CREATE) 36 0o100644 (mem_of [])).dp
        (cn_c LOOKUP)).vpp = some 36 ∧
      (ufs_lookup env_le
        (create_entry env_le block_abc dir_inode (cn_c CREATE) 36 0o100644 (mem_of [])).data
        (create_entry env_le block_abc dir_inode (cn_c CREATE) 36 0o100644 (mem_of [])).dp
        (cn_c LOOKUP)).dp.i_ino = 36 :=
  insert_then_lookup env_le block_abc dir_inode (cn_c CREATE) (cn_c LOOKUP) 36 0o100644
    (mem_of []) [0, 12, 24] ⟨⟨13, by decide, by decide⟩, fun _ => rfl⟩ (by decide) (by decide)
    (by decide) (by decide) (by decide) (by decide) (by decide) (by decide) (by decide)
    (by simp only [tiles]; decide) (by decide) (by decide) (by decide) (by decide) (by decide)
    (by decide) (by decide) (by decide) (by decide) (by decide) rfl (by decide)

/-- C10 fails on the code: an insert can drop a whiteout. The block `block_wht` is a chain
of three sound records, the last a whiteout for `foobar`; no record carries the name `foo`,
and a lookup of `foobar` ends with `ENOENT` and `ISWHITEOUT` set. Creating `foo` (lookup
for CREATE, then `ufs_direnter`) returns 0, and afterwards no record of the block carries
the name `foobar` and a lookup of `foobar` no longer sets `ISWHITEOUT`: `ufs_direnter`
took the whiteout for one of the new name, because it compares only the first
`dirp->d_namlen` bytes of the two names. -/
theorem direnter_drops_whiteout :
    subblock_records env_le.little_endian block_wht 0 = [0, 12, 24] ∧
      (∀ o ∈ [0, 12, 24], entry_ok env_le block_wht o) ∧
      (∀ o ∈ [0, 12, 24], ¬ is_match env_le block_wht (cn_foo CREATE) o) ∧
      (is_match env_le block_wht (cn_foobar LOOKUP) 24 ∧
        d_ino env_le.little_endian block_wht 24 = WINO ∧ d_type block_wht 24 = DT_WHT) ∧
      (ufs_lookup env_le block_wht dir_inode (cn_foobar LOOKUP)).ret = .returned ENOENT ∧
      (ufs_lookup env_le block_wht dir_inode (cn_foobar LOOKUP)).cn_flags &&& ISWHITEOUT ≠ 0 ∧
      (ufs_lookup env_le block_wht dir_inode (cn_foo CREATE)).ret = .returned EJUSTRETURN ∧
      (create_entry env_le block_wht dir_inode (cn_foo CREATE) 36 0o100644 (mem_of [])).ret =
        .returned 0 ∧
      subblock_records env_le.little_endian
        (create_entry env_le block_wht dir_inode (cn_foo CREATE) 36 0o100644 (mem_of [])).data
        0 = [0, 12, 24] ∧
      (∀ o ∈ [0, 12, 24], ¬ is_match env_le
        (create_entry env_le block_wht dir_inode (cn_foo CREATE) 36 0o100644 (mem_of [])).data
        (cn_foobar LOOKUP) o) ∧
      (ufs_lookup env_le
        (create_entry env_le block_wht dir_inode (cn_foo CREATE) 36 0o100644 (mem_of [])).data
        (create_entry env_le block_wht dir_inode (cn_foo CREATE) 36 0o100644 (mem_of [])).dp
        (cn_foobar LOOKUP)).cn_flags &&& ISWHITEOUT = 0 := by
  refine ⟨by decide, by decide, by decide, by decide, by decide, by decide, by decide,
    by decide, by decide, by decide, by decide⟩

/-! ### `ufs_dirremove` and `ufs_dirrewrite`: the bytes they edit -/

theorem dirremove_out_fields (env : ufs_env) (dp : inode) (data1 : mem)
    (ip : Option link_inode) (flags : Nat) :
    (dirremove_out env dp data1 ip flags).data = data1 ∧
      (dirremove_out env dp data1 ip flags).dp =
        { dp with i_flag := dp.i_flag ||| (IN_CHANGE ||| IN_UPDATE) } ∧
      ∃ e, (dirremove_out env dp data1 ip flags).ret = .returned e ∧
        (env.write_err = 0 → e = 0) := by
  unfold dirremove_out
  simp only []
  split_ifs
  · exact ⟨rfl, rfl, 0, rfl, fun _ => rfl⟩
  · exact ⟨rfl, rfl, env.write_err, rfl, fun h => h⟩
  · exact ⟨rfl, rfl, 0, rfl, fun _ => rfl⟩
  · exact ⟨rfl, rfl, env.write_err, rfl, fun h => h⟩

theorem dirremove_data (env : ufs_env) (data : mem) (dp : inode) (ip : Option link_inode)
    (flags : Nat) (hflag : flags &&& DOWHITEOUT = 0)
    (hio : env.blkatoff_err (dp.i_offset - dp.i_count) = 0) :
    (ufs_dirremove env data dp ip flags).data =
      (if dp.i_count = 0 then wr32 env.little_endian data (dp.i_offset - dp.i_count) 0
       else wr16 env.little_endian data (dp.i_offset - dp.i_count + 4)
          (d_reclen env.little_endian data (dp.i_offset - dp.i_count) + dp.i_reclen)) := by
  unfold ufs_dirremove
  simp only []
  rw [if_neg (by rw [hflag]; exact fun h => h rfl), if_neg (by rw [hio]; exact fun h => h rfl)]
  split_ifs
  · exact (dirremove_out_fields _ _ _ _ _).1
  · exact (dirremove_out_fields _ _ _ _ _).1

theorem rd16_wr16_mod (le : Bool) (m : mem) (a v : Nat) :
    rd16 le (wr16 le m a v) a = v % 65536 := by
  unfold rd16 wr16 byte
  cases le
  · simp only [Bool.false_eq_true, if_false]
    rw [wr8_same, wr8_other _ _ _ _ (by omega), wr8_same]
    omega
  · simp only [if_true]
    rw [wr8_same, wr8_other _ _ _ _ (by omega), wr8_same]
    omega

/-- C14: remove without whiteout does exactly one of two edits. When `UFS_BLKATOFF`
succeeds, `ufs_dirremove` without `DOWHITEOUT` either (`i_count == 0`) sets `d_ino` of the
entry at `i_offset` to 0 and changes no byte outside that field, or (`i_count != 0`) adds
`i_reclen` to the 16-bit `d_reclen` of the entry at `i_offset - i_count` and changes no
byte outside that field: the inode number, type and name of that entry and all the bytes
of the removed entry stay as they were. -/
theorem dirremove_edit (env : ufs_env) (data : mem) (dp : inode) (ip : Option link_inode)
    (flags : Nat) (hflag : flags &&& DOWHITEOUT = 0)
    (hio : env.blkatoff_err (dp.i_offset - dp.i_count) = 0) :
    (dp.i_count = 0 →
      d_ino env.little_endian (ufs_dirremove env data dp ip flags).data dp.i_offset = 0 ∧
        ∀ x, x < dp.i_offset ∨ dp.i_offset + 4 ≤ x →
          (ufs_dirremove env data dp ip flags).data x = data x) ∧
    (dp.i_count ≠ 0 →
      d_reclen env.little_endian (ufs_dirremove env data dp ip flags).data
          (dp.i_offset - dp.i_count) =
        (d_reclen env.little_endian data (dp.i_offset - dp.i_count) + dp.i_reclen) % 65536 ∧
      (d_reclen env.little_endian data (dp.i_offset - dp.i_count) + dp.i_reclen < 65536 →
        d_reclen env.little_endian (ufs_dirremove env data dp ip flags).data
            (dp.i_offset - dp.i_count) =
          d_reclen env.little_endian data (dp.i_offset - dp.i_count) + dp.i_reclen) ∧
      ∀ x, x ≠ dp.i_offset - dp.i_count + 4 → x ≠ dp.i_offset - dp.i_count + 5 →
        (ufs_dirremove env data dp ip flags).data x = data x) := by
  rw [dirremove_data env data dp ip flags hflag hio]
  constructor
  · intro h0
    rw [if_pos h0, h0, Nat.sub_zero]
    refine ⟨?_, fun x hx => wr32_other _ _ _ _ _ hx⟩
    unfold d_ino
    exact rd32_wr32 _ _ _ _ (by decide)
  · intro h0
    rw [if_neg h0]
    have hrd : d_reclen env.little_endian
        (wr16 env.little_endian data (dp.i_offset - dp.i_count + 4)
          (d_reclen env.little_endian data (dp.i_offset - dp.i_count) + dp.i_reclen))
        (dp.i_offset - dp.i_count) =
        (d_reclen env.little_endian data (dp.i_offset - dp.i_count) + dp.i_reclen) % 65536 := by
      unfold d_reclen
      exact rd16_wr16_mod _ _ _ _
    refine ⟨hrd, fun hlt => ?_, fun x h4 h5 => wr16_other _ _ _ _ _ h4 h5⟩
    rw [hrd, Nat.mod_eq_of_lt hlt]

/-- Witness of C14 on `block_abc`: the entry `a` at offset 12 is removed into the entry
before it. -/
theorem dirremove_edit_witness :
    (dp_a.i_count = 0 →
      d_ino env_le.little_endian (ufs_dirremove env_le block_abc dp_a none 0).data
          dp_a.i_offset = 0 ∧
        ∀ x, x < dp_a.i_offset ∨ dp_a.i_offset + 4 ≤ x →
          (ufs_dirremove env_le block_abc dp_a none 0).data x = block_abc x) ∧
    (dp_a.i_count ≠ 0 →
      d_reclen env_le.little_endian (ufs_dirremove env_le block_abc dp_a none 0).data
          (dp_a.i_offset - dp_a.i_count) =
        (d_reclen env_le.little_endian block_abc (dp_a.i_offset - dp_a.i_count) +
          dp_a.i_reclen) % 65536 ∧
      (d_reclen env_le.little_endian block_abc (dp_a.i_offset - dp_a.i_count) +
          dp_a.i_reclen < 65536 →
        d_reclen env_le.little_endian (ufs_dirremove env_le block_abc dp_a none 0).data
            (dp_a.i_offset - dp_a.i_count) =
          d_reclen env_le.little_endian block_abc (dp_a.i_offset - dp_a.i_count) +
            dp_a.i_reclen) ∧
      ∀ x, x ≠ dp_a.i_offset - dp_a.i_count + 4 → x ≠ dp_a.i_offset - dp_a.i_count + 5 →
        (ufs_dirremove env_le block_abc dp_a none 0).data x = block_abc x) :=
  dirremove_edit env_le block_abc dp_a none 0 (by decide) (by decide)

/-- C15, as stated, fails: on the little-endian old-format mount `env_old` the two
records of `block_old` pass `ufs_dirbadentry`, the DELETE lookup of `ab` finds its entry at
offset 0, where the name length is 2, and `ufs_dirremove` with `DOWHITEOUT` returns 0
having written `DT_WHT` into the byte the name length is read from: the name length of the
entry is now 14, the entry no longer passes `ufs_dirbadentry`, and a lookup of the name
ends in the panic of `ufs_dirbad`. -/
theorem dirremove_breaks_old_name :
    ufs_dirbadentry env_old block_old 0 0 = false ∧
      ufs_dirbadentry env_old block_old 12 12 = false ∧
      (ufs_lookup env_old block_old dir_inode (cn_ab DELETE)).ret = .returned 0 ∧
      (ufs_lookup env_old block_old dir_inode (cn_ab DELETE)).dp.i_offset = 0 ∧
      namlen_of env_old block_old 0 = 2 ∧
      (remove_entry env_old block_old dir_inode (cn_ab DELETE) none DOWHITEOUT).ret =
        .returned 0 ∧
      namlen_of env_old
        (remove_entry env_old block_old dir_inode (cn_ab DELETE) none DOWHITEOUT).data 0 = 14 ∧
      ufs_dirbadentry env_old
        (remove_entry env_old block_old dir_inode (cn_ab DELETE) none DOWHITEOUT).data 0 0 =
          true ∧
      (ufs_lookup env_old
        (remove_entry env_old block_old dir_inode (cn_ab DELETE) none DOWHITEOUT).data
        dir_inode (cn_ab LOOKUP)).ret = .panic_dirbad := by
  refine ⟨by decide, by decide, by decide, by decide, by decide, by decide, by decide,
    by decide, by decide⟩

/-- C15 (amended): whiteout removal. When `UFS_BLKATOFF` succeeds, `ufs_dirremove` with
`DOWHITEOUT` sets `d_ino` of the entry at `i_offset` to `WINO` and its `d_type` to `DT_WHT`,
whatever `i_count` is; no byte outside these two fields changes, so the entry keeps its
`d_reclen`, `d_namlen` and name bytes and every other entry of the block is unchanged.
Unless the directory is of the old format on a little-endian machine, where the name
length is read from the byte of `d_type`, the entry also keeps the name length and the
packed size the code computes, and an entry in use that passed `ufs_dirbadentry` still
passes it. -/
theorem dirremove_whiteout (env : ufs_env) (data : mem) (dp : inode)
    (ip : Option link_inode) (flags : Nat) (hflag : flags &&& DOWHITEOUT ≠ 0)
    (hio : env.blkatoff_err dp.i_offset = 0) :
    d_ino env.little_endian (ufs_dirremove env data dp ip flags).data dp.i_offset = WINO ∧
      d_type (ufs_dirremove env data dp ip flags).data dp.i_offset = DT_WHT ∧
      d_reclen env.little_endian (ufs_dirremove env data dp ip flags).data dp.i_offset =
        d_reclen env.little_endian data dp.i_offset ∧
      d_namlen (ufs_dirremove env data dp ip flags).data dp.i_offset =
        d_namlen data dp.i_offset ∧
      (∀ i, d_name (ufs_dirremove env data dp ip flags).data dp.i_offset i =
        d_name data dp.i_offset i) ∧
      (∀ x, x < dp.i_offset ∨ dp.i_offset + 4 ≤ x → x ≠ dp.i_offset + 6 →
        (ufs_dirremove env data dp ip flags).data x = data x) ∧
      ((env.little_endian = true → OFSFMT env = false) →
        namlen_of env (ufs_dirremove env data dp ip flags).data dp.i_offset =
          namlen_of env data dp.i_offset ∧
        DIRSIZ env (OFSFMT env) (ufs_dirremove env data dp ip flags).data dp.i_offset =
          DIRSIZ env (OFSFMT env) data dp.i_offset ∧
        (d_ino env.little_endian data dp.i_offset ≠ 0 →
          ufs_dirbadentry env data dp.i_offset dp.i_offset = false →
          ufs_dirbadentry env (ufs_dirremove env data dp ip flags).data dp.i_offset
            dp.i_offset = false)) := by
  have hd : (ufs_dirremove env data dp ip flags).data =
      wr8 (wr32 env.little_endian data dp.i_offset WINO) (dp.i_offset + 6) DT_WHT := by
    unfold ufs_dirremove
    simp only []
    rw [if_pos hflag, if_neg (by rw [hio]; exact fun h => h rfl)]
    exact (dirremove_out_fields _ _ _ _ _).1
  have hframe : ∀ x, x < dp.i_offset ∨ dp.i_offset + 4 ≤ x → x ≠ dp.i_offset + 6 →
      (ufs_dirremove env data dp ip flags).data x = data x := by
    intro x h1 h2
    rw [hd, wr8_other _ _ _ _ h2, wr32_other _ _ _ _ _ h1]
  have hrl : d_reclen env.little_endian (ufs_dirremove env data dp ip flags).data
      dp.i_offset = d_reclen env.little_endian data dp.i_offset := by
    unfold d_reclen
    exact rd16_congr _ _ _ _ _ (hframe _ (by omega) (by omega)) (hframe _ (by omega) (by omega))
  have hnl : d_namlen (ufs_dirremove env data dp ip flags).data dp.i_offset =
      d_namlen data dp.i_offset := by
    unfold d_namlen byte
    rw [hframe _ (by omega) (by omega)]
  have hnm : ∀ i, d_name (ufs_dirremove env data dp ip flags).data dp.i_offset i =
      d_name data dp.i_offset i := by
    intro i
    unfold d_name byte
    rw [hframe _ (by omega) (by omega)]
  refine ⟨?_, ?_, hrl, hnl, hnm, hframe, ?_⟩
  · rw [hd]
    unfold d_ino
    rw [rd32_congr env.little_endian _ (wr32 env.little_endian data dp.i_offset WINO)
      dp.i_offset dp.i_offset (wr8_other _ _ _ _ (by omega)) (wr8_other _ _ _ _ (by omega))
      (wr8_other _ _ _ _ (by omega)) (wr8_other _ _ _ _ (by omega))]
    exact rd32_wr32 _ _ _ _ (by decide)
  · rw [hd]
    unfold d_type byte
    rw [wr8_same]
    decide
  · intro hfmt
    have hlen : namlen_of env (ufs_dirremove env data dp ip flags).data dp.i_offset =
        namlen_of env data dp.i_offset := by
      unfold namlen_of
      by_cases hle : env.little_endian = true
      · rw [if_pos hle, if_pos hle, hfmt hle, hnl]
        rfl
      · rw [if_neg hle, if_neg hle, hnl]
    refine ⟨hlen, by rw [DIRSIZ_namlen, DIRSIZ_namlen, hlen], ?_⟩
    intro hino hgood
    rw [dirbadentry_false_iff] at hgood ⊢
    rw [DIRSIZ_namlen] at hgood ⊢
    rw [hrl, hlen]
    refine ⟨hgood.1, hgood.2.1, hgood.2.2.1, fun _ => ?_⟩
    obtain ⟨n1, n2⟩ := hgood.2.2.2 hino
    exact ⟨fun i hi => by rw [hnm]; exact n1 i hi, by rw [hnm]; exact n2⟩

/-- Witness of C15 on `block_abc`: the entry `a` at offset 12 becomes a whiteout, with a
preceding size of 12. -/
theorem dirremove_whiteout_witness :
    d_ino env_le.little_endian (ufs_dirremove env_le block_abc dp_a none DOWHITEOUT).data
        dp_a.i_offset = WINO ∧
      d_type (ufs_dirremove env_le block_abc dp_a none DOWHITEOUT).data dp_a.i_offset =
        DT_WHT ∧
      d_reclen env_le.little_endian (ufs_dirremove env_le block_abc dp_a none DOWHITEOUT).data
          dp_a.i_offset = d_reclen env_le.little_endian block_abc dp_a.i_offset ∧
      d_namlen (ufs_dirremove env_le block_abc dp_a none DOWHITEOUT).data dp_a.i_offset =
        d_namlen block_abc dp_a.i_offset ∧
      (∀ i, d_name (ufs_dirremove env_le block_abc dp_a none DOWHITEOUT).data dp_a.i_offset i =
        d_name block_abc dp_a.i_offset i) ∧
      (∀ x, x < dp_a.i_offset ∨ dp_a.i_offset + 4 ≤ x → x ≠ dp_a.i_offset + 6 →
        (ufs_dirremove env_le block_abc dp_a none DOWHITEOUT).data x = block_abc x) ∧
      namlen_of env_le (ufs_dirremove env_le block_abc dp_a none DOWHITEOUT).data
        dp_a.i_offset = namlen_of env_le block_abc dp_a.i_offset ∧
      ufs_dirbadentry env_le (ufs_dirremove env_le block_abc dp_a none DOWHITEOUT).data
        dp_a.i_offset dp_a.i_offset = false :=
  ⟨(dirremove_whiteout env_le block_abc dp_a none DOWHITEOUT (by decide) (by decide)).1,
    (dirremove_whiteout env_le block_abc dp_a none DOWHITEOUT (by decide) (by decide)).2.1,
    (dirremove_whiteout env_le block_abc dp_a none DOWHITEOUT (by decide) (by decide)).2.2.1,
    (dirremove_whiteout env_le block_abc dp_a none DOWHITEOUT (by decide)
      (by decide)).2.2.2.1,
    (dirremove_whiteout env_le block_abc dp_a none DOWHITEOUT (by decide)
      (by decide)).2.2.2.2.1,
    (dirremove_whiteout env_le block_abc dp_a none DOWHITEOUT (by decide)
      (by decide)).2.2.2.2.2.1,
    ((dirremove_whiteout env_le block_abc dp_a none DOWHITEOUT (by decide)
      (by decide)).2.2.2.2.2.2 (fun _ => by decide)).1,
    ((dirremove_whiteout env_le block_abc dp_a none DOWHITEOUT (by decide)
      (by decide)).2.2.2.2.2.2 (fun _ => by decide)).2.2 (by decide) (by decide)⟩

/-- C16: rewrite changes only the target of one entry. After a successful
`ufs_dirrewrite` (it returned 0) with a 32-bit `newinum` and a one-byte `newtype`, the
entry at `i_offset` has `d_ino = newinum`; on the new directory format its `d_type` is
`newtype`, on the old format the byte of `d_type` is left as it was; no byte outside
`d_ino` and `d_type` changes, so the entry keeps its `d_reclen`, `d_namlen` and name bytes
and every other entry of the block is unchanged. -/
theorem dirrewrite_edit (env : ufs_env) (data : mem) (dp : inode) (oip : link_inode)
    (newinum newtype : Nat)
    (hret : (ufs_dirrewrite env data dp oip newinum newtype).ret = .returned 0)
    (hino : newinum < 4294967296) (htype : newtype < 256) :
    d_ino env.little_endian (ufs_dirrewrite env data dp oip newinum newtype).data
        dp.i_offset = newinum ∧
      (OFSFMT env = false →
        d_type (ufs_dirrewrite env data dp oip newinum newtype).data dp.i_offset = newtype) ∧
      (OFSFMT env = true →
        (ufs_dirrewrite env data dp oip newinum newtype).data (dp.i_offset + 6) =
          data (dp.i_offset + 6)) ∧
      d_reclen env.little_endian (ufs_dirrewrite env data dp oip newinum newtype).data
          dp.i_offset = d_reclen env.little_endian data dp.i_offset ∧
      d_namlen (ufs_dirrewrite env data dp oip newinum newtype).data dp.i_offset =
        d_namlen data dp.i_offset ∧
      (∀ i, d_name (ufs_dirrewrite env data dp oip newinum newtype).data dp.i_offset i =
        d_name data dp.i_offset i) ∧
      ∀ x, x < dp.i_offset ∨ dp.i_offset + 4 ≤ x → x ≠ dp.i_offset + 6 →
        (ufs_dirrewrite env data dp oip newinum newtype).data x = data x := by
  have hio : env.blkatoff_err dp.i_offset = 0 := by
    by_contra hne
    unfold ufs_dirrewrite at hret
    simp only [] at hret
    rw [if_pos hne] at hret
    injection hret with h
    exact hne h
  have hd : (ufs_dirrewrite env data dp oip newinum newtype).data =
      (if OFSFMT env = false then
        wr8 (wr32 env.little_endian data dp.i_offset newinum) (dp.i_offset + 6) newtype
       else wr32 env.little_endian data dp.i_offset newinum) := by
    unfold ufs_dirrewrite
    simp only []
    rw [if_neg (by rw [hio]; exact fun h => h rfl)]
    split_ifs <;> rfl
  have hframe : ∀ x, x < dp.i_offset ∨ dp.i_offset + 4 ≤ x → x ≠ dp.i_offset + 6 →
      (ufs_dirrewrite env data dp oip newinum newtype).data x = data x := by
    intro x h1 h2
    rw [hd]
    split_ifs
    · rw [wr8_other _ _ _ _ h2, wr32_other _ _ _ _ _ h1]
    · rw [wr32_other _ _ _ _ _ h1]
  have hlow : ∀ x, dp.i_offset ≤ x → x < dp.i_offset + 4 →
      (ufs_dirrewrite env data dp oip newinum newtype).data x =
        wr32 env.little_endian data dp.i_offset newinum x := by
    intro x _ h2
    rw [hd]
    split_ifs
    · rw [wr8_other _ _ _ _ (by omega)]
    · rfl
  refine ⟨?_, ?_, ?_, ?_, ?_, ?_, hframe⟩
  · unfold d_ino
    rw [rd32_congr env.little_endian _ (wr32 env.little_endian data dp.i_offset newinum)
      dp.i_offset dp.i_offset (hlow _ (by omega) (by omega)) (hlow _ (by omega) (by omega))
      (hlow _ (by omega) (by omega)) (hlow _ (by omega) (by omega))]
    exact rd32_wr32 _ _ _ _ hino
  · intro hfmt
    rw [hd, if_pos hfmt]
    unfold d_type byte
    rw [wr8_same]
    omega
  · intro hfmt
    rw [hd, if_neg (by rw [hfmt]; exact fun h => Bool.noConfusion h)]
    exact wr32_other _ _ _ _ _ (by omega)
  · unfold d_reclen
    exact rd16_congr _ _ _ _ _ (hframe _ (by omega) (by omega)) (hframe _ (by omega) (by omega))
  · unfold d_namlen byte
    rw [hframe _ (by omega) (by omega)]
  · intro i
    unfold d_name byte
    rw [hframe _ (by omega) (by omega)]

/-- Witness of C16 on `block_abc`: the entry `a` at offset 12 is pointed at inode 77, a
directory (type 4). -/
theorem dirrewrite_edit_witness :
    d_ino env_le.little_endian (ufs_dirrewrite env_le block_abc dp_a oip_two 77 4).data
        dp_a.i_offset = 77 ∧
      (OFSFMT env_le = false →
        d_type (ufs_dirrewrite env_le block_abc dp_a oip_two 77 4).data dp_a.i_offset = 4) ∧
      (OFSFMT env_le = true →
        (ufs_dirrewrite env_le block_abc dp_a oip_two 77 4).data (dp_a.i_offset + 6) =
          block_abc (dp_a.i_offset + 6)) ∧
      d_reclen env_le.little_endian (ufs_dirrewrite env_le block_abc dp_a oip_two 77 4).data
          dp_a.i_offset = d_reclen env_le.little_endian block_abc dp_a.i_offset ∧
      d_namlen (ufs_dirrewrite env_le block_abc dp_a oip_two 77 4).data dp_a.i_offset =
        d_namlen block_abc dp_a.i_offset ∧
      (∀ i, d_name (ufs_dirrewrite env_le block_abc dp_a oip_two 77 4).data dp_a.i_offset i =
        d_name block_abc dp_a.i_offset i) ∧
      ∀ x, x < dp_a.i_offset ∨ dp_a.i_offset + 4 ≤ x → x ≠ dp_a.i_offset + 6 →
        (ufs_dirrewrite env_le block_abc dp_a oip_two 77 4).data x = block_abc x :=
  dirrewrite_edit env_le block_abc dp_a oip_two 77 4 (by decide) (by decide) (by decide)

/-! ### `ufs_dirbadentry` -/

/-- C19, as stated, fails: the free entry `entry_free_nul` has a zero byte within the
first `namlen` bytes of its name, yet `ufs_dirbadentry` does not report it, because the
name is checked only when `d_ino != 0`. -/
theorem dirbadentry_ignores_free_name :
    corrupt_as_stated env_le entry_free_nul 0 0 ∧
      ufs_dirbadentry env_le entry_free_nul 0 0 = false :=
  ⟨Or.inr (Or.inr (Or.inr (Or.inr (Or.inl ⟨0, by decide, by decide⟩)))), by decide⟩

/-- C19 (amended): `ufs_dirbadentry` reports an entry exactly when its record length is not
a multiple of 4, or exceeds the space left in its `DIRBLKSIZ` sub-block, or is smaller
than the packed size its name length implies, or its name length exceeds `MAXNAMLEN`, or
the entry is in use and its name holds a zero byte within the first `namlen` bytes or the
byte right after the name is not zero. -/
theorem dirbadentry_iff_corrupt (env : ufs_env) (m : mem) (ep entryoffsetinblock : Nat) :
    ufs_dirbadentry env m ep entryoffsetinblock = true ↔
      corrupt_entry env m ep entryoffsetinblock := by
  have hlt := namlen_of_lt env m ep
  have h512 : DIRBLKSIZ = 512 := rfl
  have h255 : MAXNAMLEN = 255 := rfl
  have hf := dirbadentry_false_iff env m ep entryoffsetinblock
  unfold corrupt_entry
  rw [h512, h255]
  constructor
  · intro ht
    by_contra hne
    push_neg at hne
    obtain ⟨a1, a2, a3, _, a5⟩ := hne
    have : ufs_dirbadentry env m ep entryoffsetinblock = false := by
      rw [hf]
      refine ⟨a1, a2, a3, fun hino => ?_⟩
      obtain ⟨b1, b2⟩ := a5 hino
      exact ⟨b1, b2⟩
    rw [this] at ht
    exact Bool.noConfusion ht
  · intro hc
    by_contra hne
    have hfalse : ufs_dirbadentry env m ep entryoffsetinblock = false := by
      cases h : ufs_dirbadentry env m ep entryoffsetinblock
      · rfl
      · exact absurd h hne
    obtain ⟨a1, a2, a3, a4⟩ := hf.mp hfalse
    rcases hc with h | h | h | h | ⟨hino, h⟩
    · exact h a1
    · omega
    · omega
    · omega
    · obtain ⟨b1, b2⟩ := a4 hino
      rcases h with ⟨i, hi, hz⟩ | h
      · exact b1 i hi hz
      · exact h b2

/-! ### Corrupt entries met by the search loop -/

/-- C20, as stated, fails: on the read-write mount `env_le`, a lookup in a one-block
directory whose first record has record length 0 ends in the panic of `ufs_dirbad`. -/
theorem lookup_panics_on_corrupt :
    d_reclen env_le.little_endian (mem_of []) 0 = 0 ∧ env_le.mnt_rdonly = false ∧
      (ufs_lookup env_le (mem_of []) dir_inode (cn_c LOOKUP)).ret = .panic_dirbad := by
  refine ⟨by decide, by decide, by decide⟩

theorem fetch_reset_basic (env : ufs_env) (st : lookup_state) :
    (reset_slot (fetch_block env st)).i_offset = st.i_offset ∧
      (reset_slot (fetch_block env st)).endsearch = st.endsearch ∧
      (reset_slot (fetch_block env st)).numdirpasses = st.numdirpasses ∧
      ((st.bp ≠ none ∨ st.i_offset &&& (env.f_iosize - 1) = 0) →
        (reset_slot (fetch_block env st)).bp ≠ none) := by
  unfold reset_slot fetch_block
  by_cases h1 : st.i_offset &&& (env.f_iosize - 1) = 0
  · simp only [h1, if_true]
    split_ifs <;> simp
  · simp only [h1, if_false]
    split_ifs <;> simp

theorem examine_passes (env : ufs_env) (data : mem) (i_size : Nat) (cnp : componentname)
    (n : Nat) (st : lookup_state) (ep : Nat) :
    match examine env data i_size cnp n st ep with
    | .exit e => leaves_loop st.numdirpasses e
    | .next st' => st'.numdirpasses = st.numdirpasses := by
  have hf := (slot_update_frame env data n st ep).2.2.2.2.2.2
  unfold examine
  simp only []
  by_cases hc : d_ino env.little_endian data ep ≠ 0 ∧ name_match env data cnp ep = true
  · rw [if_pos hc]
    by_cases hw : env.mnt_maxsymlinklen > 0 ∧ d_type data ep = DT_WHT
    · rw [if_pos hw]
      show (slot_update env data n st ep).numdirpasses - 1 = st.numdirpasses - 1
      rw [hf]
    · rw [if_neg hw]
      exact hf
  · rw [if_neg hc]
    exact hf

theorem searchloop_leaves (env : ufs_env) (data : mem) (i_size : Nat) (cnp : componentname)
    (n : Nat) (hro : env.mnt_rdonly = true) :
    ∀ (fuel : Nat) (st : lookup_state) (np : Nat), st.numdirpasses = np →
      st.endsearch - st.i_offset ≤ fuel →
      (st.bp ≠ none ∨ st.i_offset &&& (env.f_iosize - 1) = 0) →
      leaves_loop np (searchloop env data i_size cnp n fuel st) := by
  intro fuel
  induction fuel with
  | zero =>
    intro st np hnp hfuel _
    unfold searchloop
    rw [if_neg (by omega)]
    exact hnp
  | succ k ih =>
    intro st np hnp hfuel hbp
    obtain ⟨f1, f2, f3, f4⟩ := fetch_reset_basic env st
    have hbp2 := f4 hbp
    unfold searchloop
    by_cases hlt : st.i_offset < st.endsearch
    · rw [if_neg (by simpa using hlt)]
      by_cases hio : st.i_offset &&& (env.f_iosize - 1) = 0 ∧ env.blkatoff_err st.i_offset ≠ 0
      · rw [if_pos hio]
        trivial
      · rw [if_neg hio]
        simp only []
        cases hb : (reset_slot (fetch_block env st)).bp with
        | none => exact absurd hb hbp2
        | some b =>
          simp only []
          by_cases hbad : d_reclen env.little_endian data
              (b + (reset_slot (fetch_block env st)).entryoffsetinblock) = 0 ∨
              (env.dirchk ≠ 0 ∧ ufs_dirbadentry env data
                (b + (reset_slot (fetch_block env st)).entryoffsetinblock)
                (reset_slot (fetch_block env st)).entryoffsetinblock = true)
          · -- the corrupt entry is skipped
            rw [if_pos hbad, if_neg (by rw [hro]; exact fun h => Bool.noConfusion h)]
            have hi : 1 ≤ DIRBLKSIZ -
                ((reset_slot (fetch_block env st)).entryoffsetinblock &&& (DIRBLKSIZ - 1)) := by
              rw [and_511]
              show 1 ≤ 512 - _
              omega
            apply ih _ np
            · show (reset_slot (fetch_block env st)).numdirpasses = np
              rw [f3]; exact hnp
            · show (reset_slot (fetch_block env st)).endsearch -
                ((reset_slot (fetch_block env st)).i_offset + (DIRBLKSIZ -
                  ((reset_slot (fetch_block env st)).entryoffsetinblock &&& (DIRBLKSIZ - 1))))
                ≤ k
              rw [f1, f2]
              omega
            · exact Or.inl (by rw [← hb]; exact hbp2)
          · -- a record with a non-zero length
            rw [if_neg hbad]
            have hrl : d_reclen env.little_endian data
                (b + (reset_slot (fetch_block env st)).entryoffsetinblock) ≠ 0 :=
              fun h => hbad (Or.inl h)
            have hp := examine_passes env data i_size cnp n (reset_slot (fetch_block env st))
              (b + (reset_slot (fetch_block env st)).entryoffsetinblock)
            cases hex : examine env data i_size cnp n (reset_slot (fetch_block env st))
                (b + (reset_slot (fetch_block env st)).entryoffsetinblock) with
            | exit e =>
              rw [hex] at hp
              simp only [] at hp ⊢
              rw [f3, hnp] at hp
              exact hp
            | next st' =>
              rw [hex] at hp
              simp only [] at hp ⊢
              obtain ⟨e1, e2, e3, _⟩ := examine_next env data i_size cnp n _ st' _ hex
              exact ih st' np (by rw [hp, f3]; exact hnp) (by rw [e1, e2, f1, f2]; omega)
                (Or.inl (by rw [e3]; exact hbp2))
    · rw [if_pos (by simpa using hlt)]
      exact hnp

theorem lookup_notfound_returns (env : ufs_env) (cnp : componentname) (cn_flags : Nat)
    (dp : inode) (st : lookup_state) :
    (lookup_notfound env cnp cn_flags dp st).vpp = none ∧
      ((lookup_notfound env cnp cn_flags dp st).ret = .returned ENOENT ∨
        (lookup_notfound env cnp cn_flags dp st).ret = .returned EJUSTRETURN ∨
        (env.access_err ≠ 0 ∧
          (lookup_notfound env cnp cn_flags dp st).ret = .returned env.access_err)) := by
  unfold lookup_notfound
  simp only []
  by_cases h1 : (cnp.cn_nameiop = CREATE ∨ cnp.cn_nameiop = RENAME ∨
      (cnp.cn_nameiop = DELETE ∧ cn_flags &&& DOWHITEOUT ≠ 0 ∧ cn_flags &&& ISWHITEOUT ≠ 0)) ∧
      cnp.cn_flags &&& ISLASTCN ≠ 0 ∧ dp.i_effnlink ≠ 0
  · rw [if_pos h1]
    by_cases h2 : env.access_err ≠ 0
    · rw [if_pos h2]
      exact ⟨rfl, Or.inr (Or.inr ⟨h2, rfl⟩)⟩
    · rw [if_neg h2]
      exact ⟨rfl, Or.inr (Or.inl rfl)⟩
  · rw [if_neg h1]
    exact ⟨rfl, Or.inl rfl⟩

theorem ite_returned (c : Prop) [Decidable c] (a b : kexit)
    (ha : ∃ e, a = .returned e) (hb : ∃ e, b = .returned e) :
    ∃ e, (if c then a else b) = .returned e := by
  split_ifs
  · exact ha
  · exact hb

theorem lookup_found_returns (env : ufs_env) (data : mem) (cnp : componentname)
    (cn_flags : Nat) (dp : inode) (st : lookup_state) (ep : Nat)
    (hro : env.mnt_rdonly = true) :
    ∃ e, (lookup_found env data cnp cn_flags dp st ep).ret = .returned e := by
  unfold lookup_found
  simp only []
  rw [if_neg (by rw [hro]; exact fun h => Bool.noConfusion h.2)]
  simp only [apply_ite lookup_result.ret]
  repeat (first | exact ⟨_, rfl⟩ | apply ite_returned)

theorem lookup_after_returns (env : ufs_env) (data : mem) (cnp : componentname)
    (cn_flags : Nat) (dp : inode) (again : Nat → inode → lookup_state → lookup_result)
    (np : Nat) (e : search_exit) (hro : env.mnt_rdonly = true) (he : leaves_loop np e)
    (hnp : np ≤ 2)
    (hagain : np = 2 → ∀ f d s, s.numdirpasses = 2 →
      ∃ err, (again f d s).ret = .returned err) :
    ∃ err, (lookup_after env data cnp cn_flags dp again e).ret = .returned err := by
  cases e with
  | io_error err st => exact ⟨err, rfl⟩
  | panic st => exact absurd he (by simp [leaves_loop])
  | fault st => exact absurd he (by simp [leaves_loop])
  | out_of_fuel st => exact absurd he (by simp [leaves_loop])
  | found st ep => exact lookup_found_returns env data cnp cn_flags _ st ep hro
  | whiteout st ep =>
    simp only [leaves_loop] at he
    simp only [lookup_after]
    rw [if_neg (by omega)]
    obtain ⟨_, h | h | h⟩ := lookup_notfound_returns env cnp (cn_flags ||| ISWHITEOUT)
      { dp with i_offset := st.i_offset, i_reclen := st.slotsize } st
    · exact ⟨_, h⟩
    · exact ⟨_, h⟩
    · exact ⟨_, h.2⟩
  | exhausted st =>
    simp only [leaves_loop] at he
    simp only [lookup_after]
    split_ifs with h2
    · exact hagain (by omega) _ _ _ h2
    · obtain ⟨_, h | h | h⟩ := lookup_notfound_returns env cnp cn_flags
        { dp with i_offset := st.i_offset } st
      · exact ⟨_, h⟩
      · exact ⟨_, h⟩
      · exact ⟨_, h.2⟩

theorem ufs_lookup_returns (env : ufs_env) (data : mem) (dp : inode) (cnp : componentname)
    (hro : env.mnt_rdonly = true) :
    ∃ err, (ufs_lookup env data dp cnp).ret = .returned err := by
  unfold ufs_lookup
  simp only []
  split_ifs with hio
  · exact ⟨_, rfl⟩
  · have hnp : (lookup_init env dp cnp).numdirpasses ≤ 2 := by
      simp only [lookup_init]
      split_ifs <;> omega
    have hbp : (lookup_init env dp cnp).bp ≠ none ∨
        (lookup_init env dp cnp).i_offset &&& (env.f_iosize - 1) = 0 := by
      simp only [lookup_init]
      by_cases h1 : lookup_onepass dp cnp
      · right
        simp [h1]
      · by_cases h2 : dp.i_diroff &&& (env.f_iosize - 1) = 0
        · right
          simp [h1, h2]
        · left
          simp [h1, h2]
    refine lookup_after_returns env data cnp cnp.cn_flags dp (second_pass env data cnp)
      (lookup_init env dp cnp).numdirpasses _ hro
      (searchloop_leaves env data dp.i_size cnp (lookup_slotneeded cnp) hro _ _ _ rfl
        (le_refl _) hbp) hnp ?_
    intro _ f d s hs
    unfold second_pass
    exact lookup_after_returns env data cnp f d _ (s.numdirpasses - 1) _ hro
      (searchloop_leaves env data d.i_size cnp (lookup_slotneeded cnp) hro _ _ _ rfl
        (le_refl _) (Or.inr (by simp))) (by omega) (fun h => by omega)

theorem skip_corrupt (env : ufs_env) (data : mem) (i_size : Nat) (cnp : componentname)
    (n fuel : Nat) (st : lookup_state) (henv : env_ok env) (hinv : blk_inv env st)
    (hro : env.mnt_rdonly = true) (hlt : st.i_offset < st.endsearch)
    (hbad : d_reclen env.little_endian data st.i_offset = 0 ∨
      (env.dirchk ≠ 0 ∧ ufs_dirbadentry env data st.i_offset st.i_offset = true)) :
    ∃ st', searchloop env data i_size cnp n (fuel + 1) st =
        searchloop env data i_size cnp n fuel st' ∧
      st'.i_offset = st.i_offset - st.i_offset % 512 + 512 ∧
      st'.endsearch = st.endsearch ∧ st'.numdirpasses = st.numdirpasses ∧
      st'.prevoff = st.prevoff ∧ st'.enduseful = st.enduseful ∧ blk_inv env st' := by
  obtain ⟨f1, f2, f3, f4, f5⟩ := fetch_reset env henv st hinv
  obtain ⟨m, hm, hF⟩ := env_ok_mult env henv
  have hmod : st.i_offset % env.f_iosize % 512 = st.i_offset % 512 :=
    Nat.mod_mod_of_dvd _ ⟨m, hF⟩
  have hmle := Nat.mod_le st.i_offset env.f_iosize
  have hep : st.i_offset - st.i_offset % env.f_iosize + st.i_offset % env.f_iosize =
      st.i_offset := Nat.sub_add_cancel hmle
  have hbad2 : d_reclen env.little_endian data
      (st.i_offset - st.i_offset % env.f_iosize +
        (reset_slot (fetch_block env st)).entryoffsetinblock) = 0 ∨
      (env.dirchk ≠ 0 ∧ ufs_dirbadentry env data
        (st.i_offset - st.i_offset % env.f_iosize +
          (reset_slot (fetch_block env st)).entryoffsetinblock)
        (reset_slot (fetch_block env st)).entryoffsetinblock = true) := by
    rw [f2, hep]
    rcases hbad with h | h
    · exact Or.inl h
    · refine Or.inr ⟨h.1, ?_⟩
      rw [dirbadentry_offset env data st.i_offset _ st.i_offset (by omega)]
      exact h.2
  have hstep : (reset_slot (fetch_block env st)).entryoffsetinblock &&& (DIRBLKSIZ - 1) =
      st.i_offset % 512 := by
    rw [and_511, f2, hmod]
  refine ⟨{ reset_slot (fetch_block env st) with
      i_offset := (reset_slot (fetch_block env st)).i_offset +
        (DIRBLKSIZ - ((reset_slot (fetch_block env st)).entryoffsetinblock &&& (DIRBLKSIZ - 1))),
      entryoffsetinblock := (reset_slot (fetch_block env st)).entryoffsetinblock +
        (DIRBLKSIZ - ((reset_slot (fetch_block env st)).entryoffsetinblock &&&
          (DIRBLKSIZ - 1))) }, ?_, ?_, f4, ?_, ?_, ?_, ?_⟩
  · conv_lhs => unfold searchloop
    rw [if_neg (by simpa using hlt),
      if_neg (by rw [henv.2]; exact fun h => h.2 rfl)]
    simp only []
    rw [f1]
    simp only []
    rw [if_pos hbad2, if_neg (by rw [hro]; exact fun h => Bool.noConfusion h)]
  · show (reset_slot (fetch_block env st)).i_offset + (DIRBLKSIZ - _) = _
    rw [hstep, f3]
    show st.i_offset + (512 - _) = _
    have := Nat.mod_lt st.i_offset (by decide : 512 > 0)
    have := Nat.mod_le st.i_offset 512
    omega
  · exact (fetch_reset_basic env st).2.2.1
  · show (reset_slot (fetch_block env st)).prevoff = st.prevoff
    unfold reset_slot fetch_block
    split_ifs <;> rfl
  · show (reset_slot (fetch_block env st)).enduseful = st.enduseful
    unfold reset_slot fetch_block
    split_ifs <;> rfl
  · have hL : 512 - st.i_offset % 512 ≤ 512 - st.i_offset % 512 := le_refl _
    obtain ⟨_, _, b3⟩ := block_mod_facts env.f_iosize m st.i_offset _ hF hm hL
    unfold blk_inv
    show ((reset_slot (fetch_block env st)).i_offset + (DIRBLKSIZ - _)) % env.f_iosize ≠ 0 →
      (reset_slot (fetch_block env st)).bp = some
        (((reset_slot (fetch_block env st)).i_offset + (DIRBLKSIZ - _)) -
          ((reset_slot (fetch_block env st)).i_offset + (DIRBLKSIZ - _)) % env.f_iosize) ∧
      (reset_slot (fetch_block env st)).entryoffsetinblock + (DIRBLKSIZ - _) =
        ((reset_slot (fetch_block env st)).i_offset + (DIRBLKSIZ - _)) % env.f_iosize
    rw [hstep, f3, f1, f2]
    show (st.i_offset + (512 - st.i_offset % 512)) % env.f_iosize ≠ 0 → _
    intro hne
    have h3 := b3 hne
    have h512 : DIRBLKSIZ = 512 := rfl
    rw [h512, h3]
    refine ⟨?_, rfl⟩
    congr 1
    omega

/-- C20 (amended): on a read-only mount corruption never stops the scan. For every
directory content, `ufs_lookup` on a read-only mount returns (it neither panics nor
faults); and when the search loop meets a corrupt entry (record length 0, or an entry
rejected by `ufs_dirbadentry` while `dirchk` is set), the iteration ends with the scan
offset at the next `DIRBLKSIZ` boundary, the end of the search and the pass count unchanged
and the buffer bookkeeping in step, and the loop goes on from there. -/
theorem lookup_skips_corrupt (env : ufs_env) (hro : env.mnt_rdonly = true) :
    (∀ (data : mem) (dp : inode) (cnp : componentname),
      ∃ err, (ufs_lookup env data dp cnp).ret = .returned err) ∧
    (env_ok env → ∀ (data : mem) (i_size : Nat) (cnp : componentname) (n fuel : Nat)
      (st : lookup_state), blk_inv env st → st.i_offset < st.endsearch →
      (d_reclen env.little_endian data st.i_offset = 0 ∨
        (env.dirchk ≠ 0 ∧ ufs_dirbadentry env data st.i_offset st.i_offset = true)) →
      ∃ st', searchloop env data i_size cnp n (fuel + 1) st =
          searchloop env data i_size cnp n fuel st' ∧
        st'.i_offset = st.i_offset - st.i_offset % 512 + 512 ∧
        st'.endsearch = st.endsearch ∧ st'.numdirpasses = st.numdirpasses ∧
        st'.prevoff = st.prevoff ∧ st'.enduseful = st.enduseful ∧ blk_inv env st') :=
  ⟨fun data dp cnp => ufs_lookup_returns env data dp cnp hro,
    fun henv data i_size cnp n fuel st hinv hlt hbad =>
      skip_corrupt env data i_size cnp n fuel st henv hinv hro hlt hbad⟩

/-- Witness of C20 (amended) on the read-only mount `env_ro`. -/
theorem lookup_skips_corrupt_witness :
    (∀ (data : mem) (dp : inode) (cnp : componentname),
      ∃ err, (ufs_lookup env_ro data dp cnp).ret = .returned err) ∧
    (env_ok env_ro → ∀ (data : mem) (i_size : Nat) (cnp : componentname) (n fuel : Nat)
      (st : lookup_state), blk_inv env_ro st → st.i_offset < st.endsearch →
      (d_reclen env_ro.little_endian data st.i_offset = 0 ∨
        (env_ro.dirchk ≠ 0 ∧ ufs_dirbadentry env_ro data st.i_offset st.i_offset = true)) →
      ∃ st', searchloop env_ro data i_size cnp n (fuel + 1) st =
          searchloop env_ro data i_size cnp n fuel st' ∧
        st'.i_offset = st.i_offset - st.i_offset % 512 + 512 ∧
        st'.endsearch = st.endsearch ∧ st'.numdirpasses = st.numdirpasses ∧
        st'.prevoff = st.prevoff ∧ st'.enduseful = st.enduseful ∧ blk_inv env_ro st') :=
  lookup_skips_corrupt env_ro (by decide)

/-! ### `ufs_dirempty` -/

/-- C17, as stated, fails: the one-record directory `block_dotty` (inode 7, parent 5) holds
an entry that is in use, is not `.` for inode 7 and is not `..` (its name length is 1),
all reads succeed, and `ufs_dirempty` returns 1: the test for `..` reads the byte after a
one-byte name and never checks that the name length is 2. -/
theorem dirempty_accepts_misnamed :
    ufs_dirempty env_le block_dotty 7 512 5 (fun _ => 0) (fun _ => 0) = some 1 ∧
      ¬ dir_is_empty env_le block_dotty 7 512 5 (fun _ => 0) (fun _ => 0) := by
  refine ⟨by decide, ?_⟩
  rintro ⟨recs, b, ht, hb, hall⟩
  cases recs with
  | nil =>
    simp only [tiles] at ht
    omega
  | cons o os =>
    obtain ⟨ho, _, _⟩ := tiles_head _ _ _ _ _ _ ht
    have h := (hall o (List.mem_cons_self _ _)).2.2.2
    rw [ho] at h
    revert h
    decide

theorem dirempty_accepts_iff (env : ufs_env) (data : mem) (i_number parentino o : Nat)
    (h0 : d_ino env.little_endian data o ≠ 0) (hw : d_ino env.little_endian data o ≠ WINO)
    (hterm : d_name data o (namlen_of env data o) = 0) :
    dirempty_accepts env data i_number parentino o = true ↔
      empty_entry env data i_number parentino o := by
  unfold dirempty_accepts empty_entry
  by_cases hn : namlen_of env data o > 2
  · rw [if_pos hn]
    constructor
    · intro h; exact Bool.noConfusion h
    · rintro (h | h | h | h)
      · exact absurd h h0
      · exact absurd h hw
      · omega
      · omega
  · rw [if_neg hn]
    have hcases : namlen_of env data o = 0 ∨ namlen_of env data o = 1 ∨
        namlen_of env data o = 2 := by omega
    rcases hcases with hl | hl | hl
    · rw [hl] at hterm
      rw [if_pos (by rw [hterm]; decide)]
      constructor
      · intro h; exact Bool.noConfusion h
      · rintro (h | h | h | h)
        · exact absurd h h0
        · exact absurd h hw
        · omega
        · omega
    · rw [hl] at hterm
      by_cases hd : d_name data o 0 ≠ 46
      · rw [if_pos hd]
        constructor
        · intro h; exact Bool.noConfusion h
        · rintro (h | h | h | h)
          · exact absurd h h0
          · exact absurd h hw
          · exact absurd h.2.1 hd
          · omega
      · rw [if_neg hd]
        have hd' : d_name data o 0 = 46 := by simpa using hd
        by_cases hi : d_ino env.little_endian data o = i_number
        · rw [if_pos ⟨hl, hi⟩]
          exact ⟨fun _ => Or.inr (Or.inr (Or.inl ⟨hl, hd', hi⟩)), fun _ => rfl⟩
        · rw [if_neg (fun h => hi h.2), if_neg (by rw [hterm]; exact fun h => absurd h.1 (by decide))]
          constructor
          · intro h; exact Bool.noConfusion h
          · rintro (h | h | h | h)
            · exact absurd h h0
            · exact absurd h hw
            · exact absurd h.2.2 hi
            · omega
    · by_cases hd : d_name data o 0 ≠ 46
      · rw [if_pos hd]
        constructor
        · intro h; exact Bool.noConfusion h
        · rintro (h | h | h | h)
          · exact absurd h h0
          · exact absurd h hw
          · omega
          · exact absurd h.2.1 hd
      · rw [if_neg hd, if_neg (fun h => by omega)]
        have hd' : d_name data o 0 = 46 := by simpa using hd
        by_cases hp : d_name data o 1 = 46 ∧ d_ino env.little_endian data o = parentino
        · rw [if_pos hp]
          exact ⟨fun _ => Or.inr (Or.inr (Or.inr ⟨hl, hd', hp.1, hp.2⟩)), fun _ => rfl⟩
        · rw [if_neg hp]
          constructor
          · intro h; exact Bool.noConfusion h
          · rintro (h | h | h | h)
            · exact absurd h h0
            · exact absurd h hw
            · omega
            · exact absurd ⟨h.2.2.1, h.2.2.2⟩ hp

theorem dirempty_loop_spec (env : ufs_env) (data : mem) (i_number i_size parentino : Nat)
    (rd_err rd_resid : Nat → Int) :
    ∀ (fuel off : Nat), i_size - off ≤ fuel →
      (∀ o ∈ walk env.little_endian data i_size fuel off,
        d_ino env.little_endian data o ≠ 0 → d_ino env.little_endian data o ≠ WINO →
        d_name data o (namlen_of env data o) = 0) →
      (dirempty_loop env data i_number i_size parentino rd_err rd_resid fuel off = some 1 ↔
        ∃ (recs : List Nat) (b : Nat), tiles env.little_endian data off b recs ∧ i_size ≤ b ∧
          ∀ o ∈ recs, o < i_size ∧ rd_err o = 0 ∧ rd_resid o = 0 ∧
            empty_entry env data i_number parentino o) ∧
      (dirempty_loop env data i_number i_size parentino rd_err rd_resid fuel off = some 1 ∨
        dirempty_loop env data i_number i_size parentino rd_err rd_resid fuel off =
          some 0) := by
  intro fuel
  induction fuel with
  | zero =>
    intro off hfuel _
    unfold dirempty_loop
    rw [if_neg (by omega)]
    exact ⟨⟨fun _ => ⟨[], off, by simp [tiles], by omega, by simp⟩, fun _ => rfl⟩, Or.inl rfl⟩
  | succ k ih =>
    intro off hfuel hterm
    unfold dirempty_loop
    by_cases hlt : off < i_size
    · rw [if_neg (by simpa using hlt)]
      -- what the statement says of the record at `off`
      have hrhs : (∃ (recs : List Nat) (b : Nat), tiles env.little_endian data off b recs ∧
          i_size ≤ b ∧ ∀ o ∈ recs, o < i_size ∧ rd_err o = 0 ∧ rd_resid o = 0 ∧
            empty_entry env data i_number parentino o) ↔
          (d_reclen env.little_endian data off ≠ 0 ∧ rd_err off = 0 ∧ rd_resid off = 0 ∧
            empty_entry env data i_number parentino off ∧
            ∃ (recs : List Nat) (b : Nat),
              tiles env.little_endian data (off + d_reclen env.little_endian data off) b
                recs ∧ i_size ≤ b ∧
              ∀ o ∈ recs, o < i_size ∧ rd_err o = 0 ∧ rd_resid o = 0 ∧
                empty_entry env data i_number parentino o) := by
        constructor
        · rintro ⟨recs, b, ht, hb, hall⟩
          cases recs with
          | nil =>
            simp only [tiles] at ht
            omega
          | cons o os =>
            obtain ⟨ho, hpos, hrest⟩ := tiles_head _ _ _ _ _ _ ht
            subst ho
            obtain ⟨_, a1, a2, a3⟩ := hall o (List.mem_cons_self _ _)
            exact ⟨by omega, a1, a2, a3, os, b, hrest, hb,
              fun x hx => hall x (List.mem_cons_of_mem _ hx)⟩
        · rintro ⟨hrl, a1, a2, a3, recs, b, ht, hb, hall⟩
          refine ⟨off :: recs, b, ?_, hb, ?_⟩
          · simp only [tiles]
            exact ⟨trivial, by omega, ht⟩
          · intro x hx
            rcases List.mem_cons.mp hx with h | h
            · rw [h]; exact ⟨hlt, a1, a2, a3⟩
            · exact hall x h
      rw [hrhs]
      by_cases hrd : rd_err off ≠ 0 ∨ rd_resid off ≠ 0
      · rw [if_pos hrd]
        refine ⟨⟨fun h => by injection h with h; exact absurd h (by decide), fun h => ?_⟩,
          Or.inr rfl⟩
        rcases hrd with h1 | h1
        · exact absurd h.2.1 h1
        · exact absurd h.2.2.1 h1
      · rw [if_neg hrd]
        have hrd1 : rd_err off = 0 := by
          by_contra hne; exact hrd (Or.inl hne)
        have hrd2 : rd_resid off = 0 := by
          by_contra hne; exact hrd (Or.inr hne)
        by_cases hz : d_reclen env.little_endian data off = 0
        · rw [if_pos hz]
          exact ⟨⟨fun h => by injection h with h; exact absurd h (by decide),
            fun h => absurd hz h.1⟩, Or.inr rfl⟩
        · rw [if_neg hz]
          have hwalk : walk env.little_endian data i_size (k + 1) off =
              off :: walk env.little_endian data i_size k
                (off + d_reclen env.little_endian data off) := by
            simp only [walk]
            rw [if_pos ⟨hlt, hz⟩]
          rw [hwalk] at hterm
          obtain ⟨ih1, ih2⟩ := ih (off + d_reclen env.little_endian data off) (by omega)
            (fun o ho => hterm o (List.mem_cons_of_mem _ ho))
          by_cases hph : d_ino env.little_endian data off = 0 ∨
              d_ino env.little_endian data off = WINO
          · rw [if_pos hph]
            refine ⟨?_, ih2⟩
            rw [ih1]
            have he : empty_entry env data i_number parentino off := by
              unfold empty_entry
              rcases hph with h | h
              · exact Or.inl h
              · exact Or.inr (Or.inl h)
            exact ⟨fun h => ⟨hz, hrd1, hrd2, he, h⟩, fun h => h.2.2.2.2⟩
          · rw [if_neg hph]
            have h0 : d_ino env.little_endian data off ≠ 0 := fun h => hph (Or.inl h)
            have hw : d_ino env.little_endian data off ≠ WINO := fun h => hph (Or.inr h)
            have hacc := dirempty_accepts_iff env data i_number parentino off h0 hw
              (hterm off (List.mem_cons_self _ _) h0 hw)
            by_cases ha : dirempty_accepts env data i_number parentino off = true
            · rw [if_pos ha]
              refine ⟨?_, ih2⟩
              rw [ih1]
              exact ⟨fun h => ⟨hz, hrd1, hrd2, hacc.mp ha, h⟩, fun h => h.2.2.2.2⟩
            · rw [if_neg ha]
              exact ⟨⟨fun h => by injection h with h; exact absurd h (by decide),
                fun h => absurd (hacc.mpr h.2.2.2.1) ha⟩, Or.inr rfl⟩
    · rw [if_pos (by simpa using hlt)]
      exact ⟨⟨fun _ => ⟨[], off, by simp [tiles], by omega, by simp⟩, fun _ => rfl⟩, Or.inl rfl⟩

/-- C17 (amended): on a directory whose scanned entries in use have a zero byte right
after their name, `ufs_dirempty` returns 1 if and only if the records that follow one
another from offset 0 reach `i_size`, each with a non-zero record length, each read in
full without error, and each a placeholder (inode number 0 or `WINO`), or the entry `.`
with the directory's own inode number, or the entry `..` with the inode number
`parentino`; otherwise (a read error, a short read, a record length 0, or a first entry
that is none of these) it returns 0. -/
theorem dirempty_iff_empty (env : ufs_env) (data : mem) (i_number i_size parentino : Nat)
    (rd_err rd_resid : Nat → Int)
    (hterm : ∀ o ∈ walk env.little_endian data i_size i_size 0,
      d_ino env.little_endian data o ≠ 0 → d_ino env.little_endian data o ≠ WINO →
      d_name data o (namlen_of env data o) = 0) :
    (ufs_dirempty env data i_number i_size parentino rd_err rd_resid = some 1 ↔
      dir_is_empty env data i_number i_size parentino rd_err rd_resid) ∧
    (ufs_dirempty env data i_number i_size parentino rd_err rd_resid = some 1 ∨
      ufs_dirempty env data i_number i_size parentino rd_err rd_resid = some 0) :=
  dirempty_loop_spec env data i_number i_size parentino rd_err rd_resid i_size 0 (by omega)
    hterm

/-- Witness of C17 (amended) on `block_dots`, the directory 7 with parent 5 that holds
`.` and `..` only. -/
theorem dirempty_iff_empty_witness :
    (ufs_dirempty env_le block_dots 7 512 5 (fun _ => 0) (fun _ => 0) = some 1 ↔
      dir_is_empty env_le block_dots 7 512 5 (fun _ => 0) (fun _ => 0)) ∧
    (ufs_dirempty env_le block_dots 7 512 5 (fun _ => 0) (fun _ => 0) = some 1 ∨
      ufs_dirempty env_le block_dots 7 512 5 (fun _ => 0) (fun _ => 0) = some 0) :=
  dirempty_iff_empty env_le block_dots 7 512 5 (fun _ => 0) (fun _ => 0) (by decide)

/-! ### `ufs_checkpath` -/

theorem checkpath_loop_chain (env : ufs_env) (fs : dir_tree) (source : Nat) :
    ∀ (chain : List Nat) (fuel vp : Nat), chain_to_root env fs vp chain →
      chain.length ≤ fuel →
      checkpath_loop env fs source fuel vp =
        if source ∈ chain then .returned EINVAL else .returned 0 := by
  intro chain
  induction chain with
  | nil => intro fuel vp h _; simp [chain_to_root] at h
  | cons p rest ih =>
    intro fuel vp h hfuel
    simp only [chain_to_root] at h
    obtain ⟨⟨c1, c2, c3, c4, c5⟩, hp, hrest⟩ := h
    unfold dotdot_ino at hp
    cases fuel with
    | zero => simp at hfuel
    | succ k =>
      unfold checkpath_loop
      simp only []
      rw [if_neg (by rw [c1]; exact fun h => Bool.noConfusion h),
        if_neg (by rw [c2]; exact fun h => h rfl),
        if_neg (by rw [c3, c4, c5]; simp), hp]
      by_cases hs : p = source
      · rw [if_pos hs, if_pos (by rw [hs]; exact List.mem_cons_self _ _)]
      · rw [if_neg hs]
        by_cases hr : p = ROOTINO
        · rw [if_pos hr]
          rw [if_pos hr] at hrest
          rw [hrest, if_neg (by simp; exact fun h => hs h.symm)]
        · rw [if_neg hr]
          rw [if_neg hr] at hrest
          rw [if_neg (by rw [hrest.1]; exact fun h => h rfl),
            ih k p hrest.2 (by simp at hfuel; omega)]
          have hiff : source ∈ p :: rest ↔ source ∈ rest := by
            constructor
            · intro h
              rcases List.mem_cons.mp h with h | h
              · exact absurd h.symm hs
              · exact h
            · exact List.mem_cons_of_mem _
          by_cases hm : source ∈ rest
          · rw [if_pos hm, if_pos (hiff.mpr hm)]
          · rw [if_neg hm, if_neg (fun h => hm (hiff.mp h))]

theorem checkpath_loop_stops (env : ufs_env) (fs : dir_tree) (source : Nat) :
    ∀ (path : List Nat) (fuel vp b : Nat), climbs env fs source vp path b →
      not_climbable env fs b → path.length < fuel →
      checkpath_loop env fs source fuel vp = .returned ENOTDIR := by
  intro path
  induction path with
  | nil =>
    intro fuel vp b h hb hfuel
    simp only [climbs] at h
    subst h
    cases fuel with
    | zero => simp at hfuel
    | succ k =>
      unfold checkpath_loop
      simp only []
      rcases hb with hb | ⟨hb1, hb2⟩
      · rw [if_pos hb]
      · by_cases hd : fs.is_dir vp = false
        · rw [if_pos hd]
        · rw [if_neg hd, if_neg (by rw [hb1]; exact fun h => h rfl), if_pos hb2]
  | cons p rest ih =>
    intro fuel vp b h hb hfuel
    simp only [climbs] at h
    obtain ⟨⟨c1, c2, c3, c4, c5⟩, hp, hs, hr, hv, hrest⟩ := h
    unfold dotdot_ino at hp
    cases fuel with
    | zero => simp at hfuel
    | succ k =>
      unfold checkpath_loop
      simp only []
      rw [if_neg (by rw [c1]; exact fun h => Bool.noConfusion h),
        if_neg (by rw [c2]; exact fun h => h rfl),
        if_neg (by rw [c3, c4, c5]; simp), hp, if_neg hs, if_neg hr,
        if_neg (by rw [hv]; exact fun h => h rfl)]
      exact ih k p b hrest hb (by simp at hfuel; omega)

/-- C18: `ufs_checkpath` walks the `..` chain. When `chain` holds the directories above
`target` up to the root (each directory on the way is a directory whose second entry is
named `..`, every read and every `VFS_VGET` succeeds) and the iteration budget covers the
chain, the call returns 0 if and only if the source is neither the target nor on the
chain; it returns `EEXIST` when the source is the target and `EINVAL` when the source is
met on the chain. When instead the climb from a target that is neither the source nor the
root arrives, without meeting the source or the root, at a node that is not a directory or
whose second entry is not named `..`, the call returns `ENOTDIR`. -/
theorem checkpath_spec (env : ufs_env) (fs : dir_tree) (source target fuel : Nat)
    (chain path : List Nat) (b : Nat) :
    (chain_above env fs target chain → chain.length ≤ fuel →
      (ufs_checkpath env fs source target fuel = .returned 0 ↔
        source ≠ target ∧ source ∉ chain) ∧
      (source = target → ufs_checkpath env fs source target fuel = .returned EEXIST) ∧
      (source ≠ target → source ∈ chain →
        ufs_checkpath env fs source target fuel = .returned EINVAL)) ∧
    (target ≠ source → target ≠ ROOTINO → climbs env fs source target path b →
      not_climbable env fs b → path.length < fuel →
      ufs_checkpath env fs source target fuel = .returned ENOTDIR) := by
  constructor
  · intro hchain hfuel
    unfold chain_above at hchain
    unfold ufs_checkpath
    by_cases hst : target = source
    · rw [if_pos hst]
      refine ⟨⟨fun h => ?_, fun h => absurd hst.symm h.1⟩, fun _ => rfl,
        fun h => absurd hst.symm h⟩
      injection h with h
      exact absurd h (by decide)
    · rw [if_neg hst]
      have hst' : source ≠ target := fun h => hst h.symm
      by_cases hr : target = ROOTINO
      · rw [if_pos hr]
        rw [if_pos hr] at hchain
        rw [hchain]
        exact ⟨⟨fun _ => ⟨hst', by simp⟩, fun _ => rfl⟩, fun h => absurd h hst',
          fun _ h => by simp at h⟩
      · rw [if_neg hr]
        rw [if_neg hr] at hchain
        rw [checkpath_loop_chain env fs source chain fuel target hchain hfuel]
        by_cases hm : source ∈ chain
        · rw [if_pos hm]
          refine ⟨⟨fun h => ?_, fun h => absurd hm h.2⟩, fun h => absurd h hst', fun _ _ => rfl⟩
          injection h with h
          exact absurd h (by decide)
        · rw [if_neg hm]
          exact ⟨⟨fun _ => ⟨hst', hm⟩, fun _ => rfl⟩, fun h => absurd h hst',
            fun _ h => absurd h hm⟩
  · intro hst hr hclimb hbad hfuel
    unfold ufs_checkpath
    rw [if_neg hst, if_neg hr]
    exact checkpath_loop_stops env fs source path fuel target b hclimb hbad hfuel

/-- Witness of C18 on `tree_small`: moving the directory 11 under 9 is allowed, since 11
is not on the chain `[5, 2]` above 9; and the climb from the regular file 20 stops at once
with `ENOTDIR`. -/
theorem checkpath_spec_witness :
    ((ufs_checkpath env_le tree_small 11 9 2 = .returned 0 ↔ 11 ≠ 9 ∧ 11 ∉ [5, 2]) ∧
      (11 = 9 → ufs_checkpath env_le tree_small 11 9 2 = .returned EEXIST) ∧
      (11 ≠ 9 → 11 ∈ [5, 2] → ufs_checkpath env_le tree_small 11 9 2 = .returned EINVAL)) ∧
    ufs_checkpath env_le tree_small 11 20 1 = .returned ENOTDIR :=
  ⟨(checkpath_spec env_le tree_small 11 9 2 [5, 2] [] 9).1
      (by unfold chain_above; simp only [chain_to_root]; decide) (by decide),
    (checkpath_spec env_le tree_small 11 20 1 [] [] 20).2 (by decide) (by decide)
      (by simp only [climbs]) (by decide) (by decide)⟩

/-! ### The search as a scan for the first match -/

theorem scan_whiteout (env : ufs_env) (data : mem) (i_size : Nat) (cnp : componentname)
    (n : Nat) (t : Nat) (post : List Nat) (st : lookup_state)
    (ht : is_match env data cnp t) (hwht : is_whiteout env data t) :
    ∃ st', scan env data i_size cnp n (t :: post) st = .whiteout st' t ∧
      st'.i_offset = st.i_offset ∧ st'.numdirpasses = st.numdirpasses - 1 ∧
      st'.slotsize = d_reclen env.little_endian data t ∧
      st'.slotstatus = slot_status.FOUND ∧ st'.slotoffset = st.i_offset ∧
      st'.enduseful = i_size := by
  unfold is_match at ht
  unfold is_whiteout at hwht
  have hf := slot_update_frame env data n (scan_reset st t) t
  have hr := scan_reset_frame st t
  simp only [scan, examine]
  rw [if_pos ht, if_pos hwht]
  refine ⟨_, rfl, ?_, ?_, rfl, rfl, ?_, rfl⟩
  · show (slot_update env data n (scan_reset st t) t).i_offset = st.i_offset
    rw [hf.1, hr.1]
  · show (slot_update env data n (scan_reset st t) t).numdirpasses - 1 = st.numdirpasses - 1
    rw [hf.2.2.2.2.2.2, hr.2.2.1]
  · show ((slot_update env data n (scan_reset st t) t).i_offset : Int) = st.i_offset
    rw [hf.1, hr.1]

theorem lookup_after_whiteout (env : ufs_env) (data : mem) (cnp : componentname)
    (cn_flags : Nat) (dp : inode) (again : Nat → inode → lookup_state → lookup_result)
    (e : search_exit) (st' : lookup_state) (ep : Nat) (h : exit_norm e = .whiteout st' ep)
    (hnp : st'.numdirpasses ≠ 2) :
    lookup_after env data cnp cn_flags dp again e =
      lookup_notfound env cnp (cn_flags ||| ISWHITEOUT)
        { dp with i_offset := st'.i_offset, i_reclen := st'.slotsize } st' := by
  cases e with
  | whiteout st ep' =>
    simp only [exit_norm, search_exit.whiteout.injEq] at h
    obtain ⟨h1, _⟩ := h
    subst h1
    simp only [lookup_after]
    rw [if_neg (by exact hnp)]
    rfl
  | _ => simp [exit_norm] at h

theorem tiles_mem_pos (le : Bool) (data : mem) :
    ∀ (l : List Nat) (a b : Nat), tiles le data a b l → ∀ o ∈ l, 0 < d_reclen le data o := by
  intro l
  induction l with
  | nil => intro a b _ o ho; simp at ho
  | cons x xs ih =>
    intro a b h o ho
    obtain ⟨hx, hpos, hrest⟩ := tiles_head le data a b x xs h
    rcases List.mem_cons.mp ho with h1 | h1
    · rw [h1]; exact hpos
    · exact ih _ _ hrest o h1

theorem tiles_filter_cut (le : Bool) (data : mem) (c : Nat) (hc : c % 512 = 0)
    (l : List Nat) (a b : Nat) (ht : tiles le data a b l)
    (hbound : ∀ o ∈ l, d_reclen le data o ≤ 512 - o % 512) (hac : a ≤ c) (hcb : c ≤ b) :
    tiles le data a c (l.filter (fun o => decide (o < c))) ∧
      tiles le data c b (l.filter (fun o => decide (c ≤ o))) := by
  obtain ⟨l1, l2, hl, h1, h2⟩ := tiles_cut le data c hc l a b ht hbound hac hcb
  have hb1 := tiles_mem_bounds le data l1 a c h1
  have hp1 := tiles_mem_pos le data l1 a c h1
  have hb2 := tiles_mem_bounds le data l2 c b h2
  have e1 : l.filter (fun o => decide (o < c)) = l1 := by
    rw [hl, List.filter_append, List.filter_eq_self.mpr, List.filter_eq_nil_iff.mpr,
      List.append_nil]
    · intro x hx
      have := hb2 x hx
      simp only [decide_eq_true_eq]
      omega
    · intro x hx
      have := hb1 x hx
      have := hp1 x hx
      simp only [decide_eq_true_eq]
      omega
  have e2 : l.filter (fun o => decide (c ≤ o)) = l2 := by
    rw [hl, List.filter_append, List.filter_eq_nil_iff.mpr, List.filter_eq_self.mpr,
      List.nil_append]
    · intro x hx
      have := hb2 x hx
      simp only [decide_eq_true_eq]
      omega
    · intro x hx
      have := hb1 x hx
      have := hp1 x hx
      simp only [decide_eq_true_eq]
      omega
  rw [e1, e2]
  exact ⟨h1, h2⟩

theorem scan_first (env : ufs_env) (data : mem) (i_size : Nat) (cnp : componentname)
    (n : Nat) (l : List Nat) (a b : Nat) (st : lookup_state)
    (ht : tiles env.little_endian data a b l) (hst : st.i_offset = a) :
    (first_match env data cnp l = none →
      scan env data i_size cnp n l st = .exhausted (skip_all env data n l st) ∧
        (skip_all env data n l st).i_offset = b ∧
        (skip_all env data n l st).numdirpasses = st.numdirpasses) ∧
    (∀ p, first_match env data cnp l = some p →
      p ∈ l ∧ is_match env data cnp p ∧
        ∃ st', st'.i_offset = p ∧
          (is_whiteout env data p →
            scan env data i_size cnp n l st = .whiteout st' p ∧
              st'.numdirpasses = st.numdirpasses - 1 ∧
              st'.slotsize = d_reclen env.little_endian data p) ∧
          (¬ is_whiteout env data p → scan env data i_size cnp n l st = .found st' p)) := by
  unfold first_match
  constructor
  · intro hnone
    rw [List.find?_eq_none] at hnone
    exact scan_exhausted env data i_size cnp n l a b st ht hst
      (fun o ho => by simpa using hnone o ho)
  · intro p hsome
    have hmem := List.mem_of_find?_eq_some hsome
    rw [List.find?_eq_some] at hsome
    obtain ⟨hp, A, B, hl, hA⟩ := hsome
    have hp' : is_match env data cnp p := by simpa using hp
    have hA' : ∀ o ∈ A, ¬ is_match env data cnp o := fun o ho => by simpa using hA o ho
    subst hl
    obtain ⟨htA, _⟩ := tiles_mid _ _ _ _ _ _ _ ht
    refine ⟨hmem, hp', ?_⟩
    by_cases hw : is_whiteout env data p
    · obtain ⟨st', e1, e2, e3, e4, _⟩ := scan_whiteout env data i_size cnp n p B
        (skip_all env data n A st) hp' hw
      obtain ⟨s1, _, s3⟩ := skip_all_frame env data n A a p st htA hst
      refine ⟨st', by rw [e2, s1], fun _ => ⟨?_, by rw [e3, s3], e4⟩, fun h => absurd hw h⟩
      rw [scan_skip env data i_size cnp n A (p :: B) st hA', e1]
    · obtain ⟨st', e1, e2⟩ := scan_found_offset env data i_size cnp n A p B a st htA hst hA'
        hp' hw
      exact ⟨st', e2, fun h => absurd h hw, fun _ => e1⟩

/-! ### `ufs_lookup` on a sound directory, by the record the scan stops at -/

theorem lookup_init_fields (env : ufs_env) (dp : inode) (cnp : componentname) :
    (lookup_onepass dp cnp → (lookup_init env dp cnp).i_offset = 0 ∧
      (lookup_init env dp cnp).numdirpasses = 1) ∧
    (¬ lookup_onepass dp cnp → (lookup_init env dp cnp).i_offset = dp.i_diroff ∧
      (lookup_init env dp cnp).numdirpasses = 2 ∧ dp.i_diroff ≠ 0 ∧
      dp.i_diroff < dp.i_size ∧ cnp.cn_nameiop = LOOKUP) := by
  constructor
  · intro h1
    simp [lookup_init, h1]
  · intro h1
    refine ⟨by simp [lookup_init, h1], by simp [lookup_init, h1], ?_⟩
    unfold lookup_onepass at h1
    simp only [not_or, not_not] at h1
    omega

/-- One pass that finds nothing: the state after the loop is the one `skip_all` gives. -/
theorem lookup_onepass_absent (env : ufs_env) (data : mem) (dp : inode)
    (cnp : componentname) (recs : List Nat) (henv : env_ok env)
    (hsize : dp.i_size % 512 = 0)
    (htiles : tiles env.little_endian data 0 dp.i_size recs)
    (hok : ∀ o ∈ recs, entry_ok env data o)
    (habsent : ∀ o ∈ recs, ¬ is_match env data cnp o)
    (h1 : lookup_onepass dp cnp) :
    ufs_lookup env data dp cnp =
      lookup_notfound env cnp cnp.cn_flags { dp with i_offset := dp.i_size }
        (skip_all env data (lookup_slotneeded cnp) recs (norm (lookup_init env dp cnp))) := by
  obtain ⟨hi, hn⟩ := (lookup_init_fields env dp cnp).1 h1
  obtain ⟨hu, hs⟩ := first_pass_scan env data dp cnp recs henv hsize
    (by rw [hi]; exact htiles) hok
  obtain ⟨hex, hexo, hexn⟩ := scan_exhausted env data dp.i_size cnp
    (lookup_slotneeded cnp) recs 0 dp.i_size (norm (lookup_init env dp cnp)) htiles hi
    habsent
  obtain ⟨st, _, hla⟩ := lookup_after_exhausted env data cnp cnp.cn_flags dp
    (second_pass env data cnp) _ _ (hs.trans hex)
  have hn2 : ¬ (skip_all env data (lookup_slotneeded cnp) recs
      (norm (lookup_init env dp cnp))).numdirpasses = 2 := by
    rw [hexn]
    show ¬ (lookup_init env dp cnp).numdirpasses = 2
    rw [hn]
    decide
  rw [hu, hla, if_neg hn2, hexo]

/-- One pass that stops at a matching record that is not a whiteout. -/
theorem lookup_onepass_found (env : ufs_env) (data : mem) (dp : inode)
    (cnp : componentname) (A : List Nat) (p : Nat) (B : List Nat) (henv : env_ok env)
    (hsize : dp.i_size % 512 = 0)
    (htiles : tiles env.little_endian data 0 dp.i_size (A ++ p :: B))
    (hok : ∀ o ∈ A ++ p :: B, entry_ok env data o)
    (hA : ∀ o ∈ A, ¬ is_match env data cnp o)
    (hp : is_match env data cnp p) (hwht : ¬ is_whiteout env data p)
    (h1 : lookup_onepass dp cnp) :
    ∃ st', ufs_lookup env data dp cnp =
        lookup_found env data cnp cnp.cn_flags
          { dp with i_offset := p, i_ino := d_ino env.little_endian data p,
                    i_reclen := d_reclen env.little_endian data p } st' p ∧
      st'.prevoff =
        (skip_all env data (lookup_slotneeded cnp) A (norm (lookup_init env dp cnp))).prevoff := by
  obtain ⟨hi, hn⟩ := (lookup_init_fields env dp cnp).1 h1
  obtain ⟨htA, _⟩ := tiles_mid _ _ _ _ _ _ _ htiles
  obtain ⟨hu, hs⟩ := first_pass_scan env data dp cnp (A ++ p :: B) henv hsize
    (by rw [hi]; exact htiles) hok
  have hsc : scan env data dp.i_size cnp (lookup_slotneeded cnp) (A ++ p :: B)
      (norm (lookup_init env dp cnp)) =
      .found (norm (slot_update env data (lookup_slotneeded cnp)
        (scan_reset (skip_all env data (lookup_slotneeded cnp) A
          (norm (lookup_init env dp cnp))) p) p)) p := by
    rw [scan_skip env data dp.i_size cnp _ A (p :: B) _ hA]
    exact scan_found env data dp.i_size cnp _ p B _ hp hwht
  obtain ⟨s1, _, _⟩ := skip_all_frame env data (lookup_slotneeded cnp) A 0 p
    (norm (lookup_init env dp cnp)) htA hi
  have hf := slot_update_frame env data (lookup_slotneeded cnp)
    (scan_reset (skip_all env data (lookup_slotneeded cnp) A
      (norm (lookup_init env dp cnp))) p) p
  have hr := scan_reset_frame (skip_all env data (lookup_slotneeded cnp) A
      (norm (lookup_init env dp cnp))) p
  refine ⟨norm (slot_update env data (lookup_slotneeded cnp)
    (scan_reset (skip_all env data (lookup_slotneeded cnp) A
      (norm (lookup_init env dp cnp))) p) p), ?_, ?_⟩
  · rw [hu, lookup_after_found env data cnp cnp.cn_flags dp _ _ _ p (hs.trans hsc)]
    congr 2
    show (slot_update env data (lookup_slotneeded cnp) _ p).i_offset = p
    rw [hf.1, hr.1, s1]
  · show (slot_update env data (lookup_slotneeded cnp) _ p).prevoff = _
    rw [hf.2.2.2.2.1, hr.2.2.2.1]

/-- The outcome of `ufs_lookup` on a sound directory, by the record `lookup_hit` names:
the `notfound` code when there is none or when it is a whiteout, the `found` code
otherwise. -/
theorem lookup_by_hit (env : ufs_env) (data : mem) (dp : inode) (cnp : componentname)
    (recs : List Nat) (henv : env_ok env)
    (hsize : dp.i_size % 512 = 0) (hdiroff : dp.i_diroff % 512 = 0)
    (htiles : tiles env.little_endian data 0 dp.i_size recs)
    (hok : ∀ o ∈ recs, entry_ok env data o) :
    (lookup_hit env data dp cnp recs = none →
      ∃ off st', ufs_lookup env data dp cnp =
        lookup_notfound env cnp cnp.cn_flags { dp with i_offset := off } st') ∧
    (∀ p, lookup_hit env data dp cnp recs = some p →
      p ∈ recs ∧ is_match env data cnp p ∧
      (is_whiteout env data p →
        ∃ st', ufs_lookup env data dp cnp =
          lookup_notfound env cnp (cnp.cn_flags ||| ISWHITEOUT)
            { dp with i_offset := p, i_reclen := d_reclen env.little_endian data p } st') ∧
      (¬ is_whiteout env data p →
        ∃ st', ufs_lookup env data dp cnp =
          lookup_found env data cnp cnp.cn_flags
            { dp with i_offset := p, i_ino := d_ino env.little_endian data p,
                      i_reclen := d_reclen env.little_endian data p } st' p)) := by
  have hbound : ∀ o ∈ recs, d_reclen env.little_endian data o ≤ 512 - o % 512 :=
    fun o ho => (entry_ok_facts env data o (hok o ho)).2.1
  by_cases h1 : lookup_onepass dp cnp
  · -- a single pass from the start of the directory
    obtain ⟨hi, hn⟩ := (lookup_init_fields env dp cnp).1 h1
    obtain ⟨hu, hs⟩ := first_pass_scan env data dp cnp recs henv hsize
      (by rw [hi]; exact htiles) hok
    obtain ⟨hnone, hsome⟩ := scan_first env data dp.i_size cnp (lookup_slotneeded cnp) recs 0
      dp.i_size (norm (lookup_init env dp cnp)) htiles hi
    have hhit : lookup_hit env data dp cnp recs = first_match env data cnp recs := by
      unfold lookup_hit
      rw [if_pos h1]
    rw [hhit]
    constructor
    · intro h
      obtain ⟨hex, hexo, hexn⟩ := hnone h
      obtain ⟨st, _, hla⟩ := lookup_after_exhausted env data cnp cnp.cn_flags dp
        (second_pass env data cnp) _ _ (hs.trans hex)
      have hn2 : ¬ (skip_all env data (lookup_slotneeded cnp) recs
          (norm (lookup_init env dp cnp))).numdirpasses = 2 := by
        rw [hexn]
        show ¬ (lookup_init env dp cnp).numdirpasses = 2
        rw [hn]
        decide
      exact ⟨_, _, by rw [hu, hla, if_neg hn2]⟩
    · intro p h
      obtain ⟨hmem, hm, st', hoff, hw, hf⟩ := hsome p h
      refine ⟨hmem, hm, ?_, ?_⟩
      · intro hwp
        obtain ⟨hsc, hnp, hsz⟩ := hw hwp
        have hnp2 : st'.numdirpasses ≠ 2 := by
          rw [hnp]
          show (lookup_init env dp cnp).numdirpasses - 1 ≠ 2
          rw [hn]
          decide
        refine ⟨st', ?_⟩
        rw [hu, lookup_after_whiteout env data cnp cnp.cn_flags dp _ _ st' p (hs.trans hsc) hnp2,
          hoff, hsz]
      · intro hwp
        refine ⟨st', ?_⟩
        rw [hu, lookup_after_found env data cnp cnp.cn_flags dp _ _ st' p (hs.trans (hf hwp)),
          hoff]
  · -- two passes: from the cached offset to the end, then from the start to the cached
    -- offset
    obtain ⟨hi, hn, hc0, hcs, _⟩ := (lookup_init_fields env dp cnp).2 h1
    obtain ⟨ht0, ht1⟩ := tiles_filter_cut env.little_endian data dp.i_diroff hdiroff recs 0
      dp.i_size htiles hbound (Nat.zero_le _) (Nat.le_of_lt hcs)
    have hok1 : ∀ o ∈ recs.filter (fun o => decide (dp.i_diroff ≤ o)), entry_ok env data o :=
      fun o ho => hok o (List.mem_of_mem_filter ho)
    have hok0 : ∀ o ∈ recs.filter (fun o => decide (o < dp.i_diroff)), entry_ok env data o :=
      fun o ho => hok o (List.mem_of_mem_filter ho)
    obtain ⟨hu, hs⟩ := first_pass_scan env data dp cnp _ henv hsize
      (by rw [hi]; exact ht1) hok1
    obtain ⟨hnone, hsome⟩ := scan_first env data dp.i_size cnp (lookup_slotneeded cnp) _
      dp.i_diroff dp.i_size (norm (lookup_init env dp cnp)) ht1 hi
    cases hfm : first_match env data cnp (recs.filter (fun o => decide (dp.i_diroff ≤ o))) with
    | some q =>
      have hhit : lookup_hit env data dp cnp recs = some q := by
        unfold lookup_hit
        rw [if_neg h1, hfm]
      rw [hhit]
      constructor
      · intro h; exact Option.noConfusion h
      · intro p h
        injection h with h
        subst h
        obtain ⟨hmem, hm, st', hoff, hw, hf⟩ := hsome q hfm
        refine ⟨List.mem_of_mem_filter hmem, hm, ?_, ?_⟩
        · intro hwp
          obtain ⟨hsc, hnp, hsz⟩ := hw hwp
          have hnp2 : st'.numdirpasses ≠ 2 := by
            rw [hnp]
            show (lookup_init env dp cnp).numdirpasses - 1 ≠ 2
            rw [hn]
            decide
          refine ⟨st', ?_⟩
          rw [hu, lookup_after_whiteout env data cnp cnp.cn_flags dp _ _ st' q (hs.trans hsc)
            hnp2, hoff, hsz]
        · intro hwp
          refine ⟨st', ?_⟩
          rw [hu, lookup_after_found env data cnp cnp.cn_flags dp _ _ st' q
            (hs.trans (hf hwp)), hoff]
    | none =>
      have hhit : lookup_hit env data dp cnp recs =
          first_match env data cnp (recs.filter (fun o => decide (o < dp.i_diroff))) := by
        unfold lookup_hit
        rw [if_neg h1, hfm]
      rw [hhit]
      obtain ⟨hex, hexo, hexn⟩ := hnone hfm
      obtain ⟨st, hst, hla⟩ := lookup_after_exhausted env data cnp cnp.cn_flags dp
        (second_pass env data cnp) _ _ (hs.trans hex)
      have hn2 : (skip_all env data (lookup_slotneeded cnp)
          (recs.filter (fun o => decide (dp.i_diroff ≤ o)))
          (norm (lookup_init env dp cnp))).numdirpasses = 2 := by
        rw [hexn]; exact hn
      have hstn : st.numdirpasses = 2 := by
        have : (norm st).numdirpasses = 2 := by rw [hst]; exact hn2
        exact this
      rw [hu, hla, if_pos hn2]
      obtain ⟨e, he, hse⟩ := second_pass_scan env data cnp cnp.cn_flags
        { dp with i_offset := (skip_all env data (lookup_slotneeded cnp)
            (recs.filter (fun o => decide (dp.i_diroff ≤ o)))
            (norm (lookup_init env dp cnp))).i_offset } st _ henv ht0 hok0
      obtain ⟨hnone2, hsome2⟩ := scan_first env data dp.i_size cnp (lookup_slotneeded cnp)
        (recs.filter (fun o => decide (o < dp.i_diroff))) 0 dp.i_diroff
        (norm { st with numdirpasses := st.numdirpasses - 1, i_offset := 0,
                        endsearch := dp.i_diroff }) ht0 rfl
      rw [he]
      constructor
      · intro h
        obtain ⟨hex2, _, hexn2⟩ := hnone2 h
        obtain ⟨st2, _, hla2⟩ := lookup_after_exhausted env data cnp cnp.cn_flags
          { dp with i_offset := (skip_all env data (lookup_slotneeded cnp)
            (recs.filter (fun o => decide (dp.i_diroff ≤ o)))
            (norm (lookup_init env dp cnp))).i_offset }
          (fun cn_flags3 dp3 _ => ⟨.out_of_fuel, dp3, cn_flags3, none⟩) _ _ (hse.trans hex2)
        have hn3 : ¬ (skip_all env data (lookup_slotneeded cnp)
            (recs.filter (fun o => decide (o < dp.i_diroff)))
            (norm { st with numdirpasses := st.numdirpasses - 1, i_offset := 0,
                            endsearch := dp.i_diroff })).numdirpasses = 2 := by
          rw [hexn2]
          show ¬ st.numdirpasses - 1 = 2
          rw [hstn]
          decide
        exact ⟨_, _, by rw [hla2, if_neg hn3]⟩
      · intro p h
        obtain ⟨hmem, hm, st', hoff, hw, hf⟩ := hsome2 p h
        refine ⟨List.mem_of_mem_filter hmem, hm, ?_, ?_⟩
        · intro hwp
          obtain ⟨hsc, hnp, hsz⟩ := hw hwp
          have hnp2 : st'.numdirpasses ≠ 2 := by
            rw [hnp]
            show st.numdirpasses - 1 - 1 ≠ 2
            rw [hstn]
            decide
          refine ⟨st', ?_⟩
          rw [lookup_after_whiteout env data cnp cnp.cn_flags _ _ _ st' p (hse.trans hsc)
            hnp2, hoff, hsz]
        · intro hwp
          refine ⟨st', ?_⟩
          rw [lookup_after_found env data cnp cnp.cn_flags _ _ _ st' p
            (hse.trans (hf hwp)), hoff]

/-! ### What the `found` and `notfound` codes leave in the inode -/

theorem lookup_found_dp (env : ufs_env) (data : mem) (cnp : componentname)
    (cn_flags : Nat) (dp : inode) (st : lookup_state) (ep : Nat) :
    (lookup_found env data cnp cn_flags dp st ep).dp.i_offset = dp.i_offset ∧
      (lookup_found env data cnp cn_flags dp st ep).dp.i_reclen = dp.i_reclen ∧
      (lookup_found env data cnp cn_flags dp st ep).dp.i_ino = dp.i_ino ∧
      (lookup_found env data cnp cn_flags dp st ep).dp.i_number = dp.i_number ∧
      ((lookup_found env data cnp cn_flags dp st ep).dp.i_diroff = dp.i_diroff ∨
        (cnp.cn_flags &&& ISLASTCN ≠ 0 ∧ cnp.cn_nameiop = LOOKUP ∧
          (lookup_found env data cnp cn_flags dp st ep).dp.i_diroff =
            and_not dp.i_offset (DIRBLKSIZ - 1))) ∧
      (cnp.cn_flags &&& ISLASTCN ≠ 0 → cnp.cn_nameiop = LOOKUP →
        (lookup_found env data cnp cn_flags dp st ep).ret ≠ .panic_dirbad →
        (lookup_found env data cnp cn_flags dp st ep).dp.i_diroff =
          and_not dp.i_offset (DIRBLKSIZ - 1)) := by
  unfold lookup_found
  simp only []
  by_cases hp : dp.i_offset + DIRSIZ env (OFSFMT env) data ep > dp.i_size ∧
      env.mnt_rdonly = false
  · rw [if_pos hp]
    exact ⟨rfl, rfl, rfl, rfl, Or.inl rfl, fun _ _ h => absurd rfl h⟩
  · rw [if_neg hp]
    have key : ∀ (D : inode) (r : lookup_result),
          r = (if cnp.cn_nameiop = DELETE ∧ cnp.cn_flags &&& ISLASTCN ≠ 0 then
            if env.access_err ≠ 0 then ⟨.returned env.access_err, D, cn_flags, none⟩
            else
              let dp : inode :=
                if D.i_offset &&& (DIRBLKSIZ - 1) = 0 then { D with i_count := 0 }
                else { D with i_count := D.i_offset - st.prevoff }
              if dp.i_number = dp.i_ino then ⟨.returned 0, dp, cn_flags, some dp.i_number⟩
              else if env.vget_err dp.i_ino ≠ 0 then
                ⟨.returned (env.vget_err dp.i_ino), dp, cn_flags, none⟩
              else if dp.i_mode &&& ISVTX ≠ 0 ∧ cnp.cr_uid ≠ 0 ∧ cnp.cr_uid ≠ dp.i_uid ∧
                  env.vget_uid dp.i_ino ≠ cnp.cr_uid then
                ⟨.returned EPERM, dp, cn_flags, none⟩
              else ⟨.returned 0, dp, cn_flags, some dp.i_ino⟩
          else if cnp.cn_nameiop = RENAME ∧ cnp.cn_flags &&& (LOCKPARENT ||| WANTPARENT) ≠ 0 ∧
              cnp.cn_flags &&& ISLASTCN ≠ 0 then
            if env.access_err ≠ 0 then ⟨.returned env.access_err, D, cn_flags, none⟩
            else if D.i_number = D.i_ino then ⟨.returned EISDIR, D, cn_flags, none⟩
            else if env.vget_err D.i_ino ≠ 0 then
              ⟨.returned (env.vget_err D.i_ino), D, cn_flags, none⟩
            else ⟨.returned 0, D, cn_flags ||| SAVENAME, some D.i_ino⟩
          else if cnp.cn_flags &&& ISDOTDOT ≠ 0 then
            if env.vget_err D.i_ino ≠ 0 then
              ⟨.returned (env.vget_err D.i_ino), D, cn_flags, none⟩
            else if cnp.cn_flags &&& LOCKPARENT ≠ 0 ∧ cnp.cn_flags &&& ISLASTCN ≠ 0 ∧
                env.vn_lock_err ≠ 0 then
              ⟨.returned env.vn_lock_err, D, cn_flags, none⟩
            else ⟨.returned 0, D, cn_flags, some D.i_ino⟩
          else if D.i_number = D.i_ino then ⟨.returned 0, D, cn_flags, some D.i_number⟩
          else if env.vget_err D.i_ino ≠ 0 then
            ⟨.returned (env.vget_err D.i_ino), D, cn_flags, none⟩
          else ⟨.returned 0, D, cn_flags, some D.i_ino⟩) →
        D.i_offset = dp.i_offset → D.i_reclen = dp.i_reclen →
        D.i_ino = dp.i_ino → D.i_number = dp.i_number →
        (D.i_diroff = dp.i_diroff ∨ (cnp.cn_flags &&& ISLASTCN ≠ 0 ∧ cnp.cn_nameiop = LOOKUP ∧
          D.i_diroff = and_not dp.i_offset (DIRBLKSIZ - 1))) →
        (cnp.cn_flags &&& ISLASTCN ≠ 0 → cnp.cn_nameiop = LOOKUP →
          D.i_diroff = and_not dp.i_offset (DIRBLKSIZ - 1)) →
        r.dp.i_offset = dp.i_offset ∧ r.dp.i_reclen = dp.i_reclen ∧ r.dp.i_ino = dp.i_ino ∧
          r.dp.i_number = dp.i_number ∧
          (r.dp.i_diroff = dp.i_diroff ∨ (cnp.cn_flags &&& ISLASTCN ≠ 0 ∧
            cnp.cn_nameiop = LOOKUP ∧ r.dp.i_diroff = and_not dp.i_offset (DIRBLKSIZ - 1))) ∧
          (cnp.cn_flags &&& ISLASTCN ≠ 0 → cnp.cn_nameiop = LOOKUP →
            r.ret ≠ .panic_dirbad → r.dp.i_diroff = and_not dp.i_offset (DIRBLKSIZ - 1)) := by
      intro D r hr e1 e2 e3 e4 e5 e6
      have leaf : ∀ (k : kexit) (D2 : inode) (f : Nat) (v : Option Nat),
          (D2 = D ∨ ∃ c, D2 = { D with i_count := c }) →
          (⟨k, D2, f, v⟩ : lookup_result).dp.i_offset = dp.i_offset ∧
          (⟨k, D2, f, v⟩ : lookup_result).dp.i_reclen = dp.i_reclen ∧
          (⟨k, D2, f, v⟩ : lookup_result).dp.i_ino = dp.i_ino ∧
          (⟨k, D2, f, v⟩ : lookup_result).dp.i_number = dp.i_number ∧
          ((⟨k, D2, f, v⟩ : lookup_result).dp.i_diroff = dp.i_diroff ∨
            (cnp.cn_flags &&& ISLASTCN ≠ 0 ∧ cnp.cn_nameiop = LOOKUP ∧
              (⟨k, D2, f, v⟩ : lookup_result).dp.i_diroff =
                and_not dp.i_offset (DIRBLKSIZ - 1))) ∧
          (cnp.cn_flags &&& ISLASTCN ≠ 0 → cnp.cn_nameiop = LOOKUP →
            (⟨k, D2, f, v⟩ : lookup_result).ret ≠ .panic_dirbad →
            (⟨k, D2, f, v⟩ : lookup_result).dp.i_diroff =
              and_not dp.i_offset (DIRBLKSIZ - 1)) := by
        intro k D2 f v h
        rcases h with h | ⟨c, h⟩
        · subst h
          exact ⟨e1, e2, e3, e4, e5, fun a b _ => e6 a b⟩
        · subst h
          exact ⟨e1, e2, e3, e4, e5, fun a b _ => e6 a b⟩
      subst hr
      by_cases hd : cnp.cn_nameiop = DELETE ∧ cnp.cn_flags &&& ISLASTCN ≠ 0
      · rw [if_pos hd]
        by_cases ha : env.access_err ≠ 0
        · rw [if_pos ha]; exact leaf _ _ _ _ (Or.inl rfl)
        · rw [if_neg ha]
          simp only []
          by_cases hc : D.i_offset &&& (DIRBLKSIZ - 1) = 0
          · rw [if_pos hc]
            split_ifs <;> exact leaf _ _ _ _ (Or.inr ⟨_, rfl⟩)
          · rw [if_neg hc]
            split_ifs <;> exact leaf _ _ _ _ (Or.inr ⟨_, rfl⟩)
      · rw [if_neg hd]
        by_cases hr : cnp.cn_nameiop = RENAME ∧
            cnp.cn_flags &&& (LOCKPARENT ||| WANTPARENT) ≠ 0 ∧ cnp.cn_flags &&& ISLASTCN ≠ 0
        · rw [if_pos hr]
          split_ifs <;> exact leaf _ _ _ _ (Or.inl rfl)
        · rw [if_neg hr]
          by_cases hdd : cnp.cn_flags &&& ISDOTDOT ≠ 0
          · rw [if_pos hdd]
            split_ifs <;> exact leaf _ _ _ _ (Or.inl rfl)
          · rw [if_neg hdd]
            split_ifs <;> exact leaf _ _ _ _ (Or.inl rfl)
    by_cases hs : dp.i_offset + DIRSIZ env (OFSFMT env) data ep > dp.i_size
    · rw [if_pos hs]
      by_cases hl : cnp.cn_flags &&& ISLASTCN ≠ 0 ∧ cnp.cn_nameiop = LOOKUP
      · rw [if_pos hl]
        exact key _ _ rfl rfl rfl rfl rfl (Or.inr ⟨hl.1, hl.2, rfl⟩) (fun _ _ => rfl)
      · rw [if_neg hl]
        exact key _ _ rfl rfl rfl rfl rfl (Or.inl rfl) (fun a b => absurd ⟨a, b⟩ hl)
    · rw [if_neg hs]
      by_cases hl : cnp.cn_flags &&& ISLASTCN ≠ 0 ∧ cnp.cn_nameiop = LOOKUP
      · rw [if_pos hl]
        exact key _ _ rfl rfl rfl rfl rfl (Or.inr ⟨hl.1, hl.2, rfl⟩) (fun _ _ => rfl)
      · rw [if_neg hl]
        exact key _ _ rfl rfl rfl rfl rfl (Or.inl rfl) (fun a b => absurd ⟨a, b⟩ hl)

theorem lookup_found_fits (env : ufs_env) (data : mem) (cnp : componentname)
    (cn_flags : Nat) (dp : inode) (st : lookup_state) (ep : Nat)
    (hfit : dp.i_offset + DIRSIZ env (OFSFMT env) data ep ≤ dp.i_size) :
    lookup_found env data cnp cn_flags dp st ep =
      found_tail env cnp cn_flags (found_inode cnp dp) st := by
  have h1 : ¬ (dp.i_offset + DIRSIZ env (OFSFMT env) data ep > dp.i_size) := by omega
  unfold lookup_found found_tail found_inode
  simp only []
  rw [if_neg (fun h => h1 h.1), if_neg h1]

theorem found_inode_fields (cnp : componentname) (dp : inode) :
    (found_inode cnp dp).i_number = dp.i_number ∧ (found_inode cnp dp).i_ino = dp.i_ino ∧
      (found_inode cnp dp).i_mode = dp.i_mode ∧ (found_inode cnp dp).i_uid = dp.i_uid ∧
      (found_inode cnp dp).i_offset = dp.i_offset ∧
      (found_inode cnp dp).i_reclen = dp.i_reclen ∧
      (found_inode cnp dp).i_size = dp.i_size := by
  unfold found_inode
  split_ifs <;> exact ⟨rfl, rfl, rfl, rfl, rfl, rfl, rfl⟩

/-- The error and the vnode `found_tail` hands back depend on the directory inode only
through its number, the inode number of the entry, its mode and its owner. -/
theorem found_tail_outcome (env : ufs_env) (cnp : componentname) (cn_flags : Nat)
    (D D2 : inode) (st st2 : lookup_state)
    (h1 : D.i_number = D2.i_number) (h2 : D.i_ino = D2.i_ino) (h3 : D.i_mode = D2.i_mode)
    (h4 : D.i_uid = D2.i_uid) :
    (found_tail env cnp cn_flags D st).ret = (found_tail env cnp cn_flags D2 st2).ret ∧
      (found_tail env cnp cn_flags D st).vpp = (found_tail env cnp cn_flags D2 st2).vpp := by
  unfold found_tail
  simp only [apply_ite lookup_result.ret, apply_ite lookup_result.vpp,
    apply_ite inode.i_number, apply_ite inode.i_ino, apply_ite inode.i_mode,
    apply_ite inode.i_uid, ite_self, h1, h2, h3, h4]
  exact ⟨trivial, trivial⟩

theorem lookup_notfound_dp (env : ufs_env) (cnp : componentname) (cn_flags : Nat)
    (dp : inode) (st : lookup_state) :
    (lookup_notfound env cnp cn_flags dp st).dp.i_diroff = dp.i_diroff ∧
      (lookup_notfound env cnp cn_flags dp st).dp.i_size = dp.i_size ∧
      (lookup_notfound env cnp cn_flags dp st).dp.i_number = dp.i_number := by
  unfold lookup_notfound
  simp only []
  by_cases h1 : (cnp.cn_nameiop = CREATE ∨ cnp.cn_nameiop = RENAME ∨
      (cnp.cn_nameiop = DELETE ∧ cn_flags &&& DOWHITEOUT ≠ 0 ∧ cn_flags &&& ISWHITEOUT ≠ 0)) ∧
      cnp.cn_flags &&& ISLASTCN ≠ 0 ∧ dp.i_effnlink ≠ 0
  · rw [if_pos h1]
    by_cases h2 : env.access_err ≠ 0
    · rw [if_pos h2]
      exact ⟨rfl, rfl, rfl⟩
    · rw [if_neg h2]
      split_ifs <;> exact ⟨rfl, rfl, rfl⟩
  · rw [if_neg h1]
    exact ⟨rfl, rfl, rfl⟩

/-- The error and the vnode the `notfound` code hands back depend on the directory inode
only through its link count, and not on the state of the search. -/
theorem lookup_notfound_outcome (env : ufs_env) (cnp : componentname) (cn_flags : Nat)
    (dp dp2 : inode) (st st2 : lookup_state) (h : dp.i_effnlink = dp2.i_effnlink) :
    (lookup_notfound env cnp cn_flags dp st).ret =
        (lookup_notfound env cnp cn_flags dp2 st2).ret ∧
      (lookup_notfound env cnp cn_flags dp st).vpp =
        (lookup_notfound env cnp cn_flags dp2 st2).vpp := by
  unfold lookup_notfound
  simp only [h]
  by_cases h1 : (cnp.cn_nameiop = CREATE ∨ cnp.cn_nameiop = RENAME ∨
      (cnp.cn_nameiop = DELETE ∧ cn_flags &&& DOWHITEOUT ≠ 0 ∧ cn_flags &&& ISWHITEOUT ≠ 0)) ∧
      cnp.cn_flags &&& ISLASTCN ≠ 0 ∧ dp2.i_effnlink ≠ 0
  · rw [if_pos h1, if_pos h1]
    by_cases h2 : env.access_err ≠ 0
    · rw [if_pos h2, if_pos h2]
      exact ⟨rfl, rfl⟩
    · rw [if_neg h2, if_neg h2]
      exact ⟨rfl, rfl⟩
  · rw [if_neg h1, if_neg h1]
    exact ⟨rfl, rfl⟩

theorem lookup_notfound_plain (env : ufs_env) (cnp : componentname) (cn_flags : Nat)
    (dp : inode) (st : lookup_state) (hop : cnp.cn_nameiop = LOOKUP) :
    (lookup_notfound env cnp cn_flags dp st).ret = .returned ENOENT ∧
      (lookup_notfound env cnp cn_flags dp st).vpp = none := by
  unfold lookup_notfound
  simp only []
  rw [if_neg]
  · exact ⟨rfl, rfl⟩
  · rw [hop]
    intro h
    rcases h.1 with h | h | h
    · exact absurd h (by decide)
    · exact absurd h (by decide)
    · exact absurd h.1 (by decide)

theorem first_match_none (env : ufs_env) (data : mem) (cnp : componentname) (l : List Nat) :
    first_match env data cnp l = none ↔ ∀ o ∈ l, ¬ is_match env data cnp o := by
  unfold first_match
  rw [List.find?_eq_none]
  constructor
  · intro h o ho; simpa using h o ho
  · intro h o ho; simpa using h o ho

theorem lookup_hit_none (env : ufs_env) (data : mem) (dp : inode) (cnp : componentname)
    (recs : List Nat) :
    lookup_hit env data dp cnp recs = none ↔ ∀ o ∈ recs, ¬ is_match env data cnp o := by
  unfold lookup_hit
  by_cases h1 : lookup_onepass dp cnp
  · rw [if_pos h1]
    exact first_match_none env data cnp recs
  · rw [if_neg h1]
    cases hfm : first_match env data cnp (recs.filter (fun o => decide (dp.i_diroff ≤ o))) with
    | some q =>
      simp only []
      constructor
      · intro h; exact Option.noConfusion h
      · intro h
        unfold first_match at hfm
        have hq := List.find?_some hfm
        have hmem := List.mem_of_mem_filter (List.mem_of_find?_eq_some hfm)
        exact absurd (of_decide_eq_true hq) (h q hmem)
    | none =>
      simp only []
      rw [first_match_none] at hfm ⊢
      constructor
      · intro h o ho
        by_cases hc : dp.i_diroff ≤ o
        · exact hfm o (List.mem_filter.mpr ⟨ho, by simpa using hc⟩)
        · exact h o (List.mem_filter.mpr ⟨ho, by simpa using hc⟩)
      · intro h o ho
        exact h o (List.mem_of_mem_filter ho)

theorem is_match_named (env : ufs_env) (data : mem) (cnp : componentname) (o : Nat)
    (hlen : 0 < cnp.cn_namelen) : is_match env data cnp o ↔ entry_named env data cnp o := by
  unfold is_match entry_named
  rw [name_match_iff env data cnp o hlen]

theorem named_unique (env : ufs_env) (data : mem) (cnp : componentname) (recs : List Nat)
    (hdup : no_duplicate_names env data recs) (o p : Nat) (ho : o ∈ recs) (hp : p ∈ recs)
    (hno : entry_named env data cnp o) (hnp : entry_named env data cnp p) : o = p := by
  obtain ⟨i1, l1, n1⟩ := hno
  obtain ⟨i2, l2, n2⟩ := hnp
  apply hdup o ho p hp i1 i2 (by rw [l1, l2])
  intro i hi
  rw [l1] at hi
  rw [n1 i hi, n2 i hi]

/-- C13: the two-pass lookup equals a plain scan. For every sound directory with no
duplicate names and a cached offset `i_diroff` that is a multiple of `DIRBLKSIZ`, a plain
lookup (collaborators succeeding) returns 0 if and only if some in-use entry that is not a
whiteout has the name length and the name bytes sought; it then hands back that entry's
inode number and leaves its offset and record length in the inode, wherever the entry
stands with respect to the cached offset; otherwise it returns `ENOENT`. -/
theorem lookup_two_pass (env : ufs_env) (data : mem) (dp : inode) (cnp : componentname)
    (recs : List Nat) (henv : env_ok env)
    (hsize : dp.i_size % DIRBLKSIZ = 0) (hdiroff : dp.i_diroff % DIRBLKSIZ = 0)
    (htiles : tiles env.little_endian data 0 dp.i_size recs)
    (hok : ∀ o ∈ recs, entry_ok env data o)
    (hdup : no_duplicate_names env data recs)
    (hop : cnp.cn_nameiop = LOOKUP) (hlen : 0 < cnp.cn_namelen)
    (hvget : ∀ i, env.vget_err i = 0) (hlock : env.vn_lock_err = 0) :
    ((ufs_lookup env data dp cnp).ret = .returned 0 ↔
      ∃ o ∈ recs, entry_named env data cnp o ∧ ¬ is_whiteout env data o) ∧
    (∀ o ∈ recs, entry_named env data cnp o → ¬ is_whiteout env data o →
      (ufs_lookup env data dp cnp).ret = .returned 0 ∧
        (ufs_lookup env data dp cnp).vpp = some (d_ino env.little_endian data o) ∧
        (ufs_lookup env data dp cnp).dp.i_ino = d_ino env.little_endian data o ∧
        (ufs_lookup env data dp cnp).dp.i_offset = o ∧
        (ufs_lookup env data dp cnp).dp.i_reclen = d_reclen env.little_endian data o) ∧
    ((¬ ∃ o ∈ recs, entry_named env data cnp o ∧ ¬ is_whiteout env data o) →
      (ufs_lookup env data dp cnp).ret = .returned ENOENT ∧
        (ufs_lookup env data dp cnp).vpp = none) := by
  have h512 : DIRBLKSIZ = 512 := rfl
  rw [h512] at hsize hdiroff
  obtain ⟨hnone, hsome⟩ := lookup_by_hit env data dp cnp recs henv hsize hdiroff htiles hok
  have hfound : ∀ o ∈ recs, entry_named env data cnp o → ¬ is_whiteout env data o →
      (ufs_lookup env data dp cnp).ret = .returned 0 ∧
        (ufs_lookup env data dp cnp).vpp = some (d_ino env.little_endian data o) ∧
        (ufs_lookup env data dp cnp).dp.i_ino = d_ino env.little_endian data o ∧
        (ufs_lookup env data dp cnp).dp.i_offset = o ∧
        (ufs_lookup env data dp cnp).dp.i_reclen = d_reclen env.little_endian data o := by
    intro o ho hno hwo
    cases hh : lookup_hit env data dp cnp recs with
    | none =>
      exact absurd ((is_match_named env data cnp o hlen).mpr hno)
        ((lookup_hit_none env data dp cnp recs).mp hh o ho)
    | some p =>
      obtain ⟨hp, hm, _, hf⟩ := hsome p hh
      have hpo : p = o := named_unique env data cnp recs hdup p o hp ho
        ((is_match_named env data cnp p hlen).mp hm) hno
      subst hpo
      obtain ⟨st', hu⟩ := hf hwo
      obtain ⟨_, hpfit, hpwhole⟩ := entry_ok_facts env data p (hok p hp)
      have hb := tiles_mem_bounds _ _ _ _ _ htiles p hp
      have hfit : p + DIRSIZ env (OFSFMT env) data p ≤ dp.i_size := by omega
      obtain ⟨r1, r2, r3⟩ := lookup_found_plain env data cnp cnp.cn_flags
        { dp with i_offset := p, i_ino := d_ino env.little_endian data p,
                  i_reclen := d_reclen env.little_endian data p } st' p hop hfit
        (hvget _) hlock
      obtain ⟨d1, d2, _⟩ := lookup_found_dp env data cnp cnp.cn_flags
        { dp with i_offset := p, i_ino := d_ino env.little_endian data p,
                  i_reclen := d_reclen env.little_endian data p } st' p
      rw [hu]
      exact ⟨r1, r2, r3, d1, d2⟩
  have hmiss : (¬ ∃ o ∈ recs, entry_named env data cnp o ∧ ¬ is_whiteout env data o) →
      (ufs_lookup env data dp cnp).ret = .returned ENOENT ∧
        (ufs_lookup env data dp cnp).vpp = none := by
    intro hno
    cases hh : lookup_hit env data dp cnp recs with
    | none =>
      obtain ⟨off, st', hu⟩ := hnone hh
      rw [hu]
      exact lookup_notfound_plain env cnp _ _ _ hop
    | some p =>
      obtain ⟨hp, hm, hw, _⟩ := hsome p hh
      by_cases hwp : is_whiteout env data p
      · obtain ⟨st', hu⟩ := hw hwp
        rw [hu]
        exact lookup_notfound_plain env cnp _ _ _ hop
      · exact absurd ⟨p, hp, (is_match_named env data cnp p hlen).mp hm, hwp⟩ hno
  refine ⟨⟨?_, ?_⟩, hfound, hmiss⟩
  · intro h0
    by_contra hno
    rw [(hmiss hno).1] at h0
    exact absurd h0 (by decide)
  · rintro ⟨o, ho, hn, hw⟩
    exact (hfound o ho hn hw).1

/-- Witness of C13: on the two-block directory with the offset cache on the second block,
the entry `foo` of the first block is found by the second pass. -/
theorem lookup_two_pass_witness :
    (ufs_lookup env_le block_two dir_inode_two (cn_foo LOOKUP)).ret = .returned 0 ∧
      (ufs_lookup env_le block_two dir_inode_two (cn_foo LOOKUP)).vpp = some 33 ∧
      (ufs_lookup env_le block_two dir_inode_two (cn_foo LOOKUP)).dp.i_offset = 0 ∧
      (ufs_lookup env_le block_two dir_inode_two (cn_foo LOOKUP)).dp.i_reclen = 12 :=
  have h := (lookup_two_pass env_le block_two dir_inode_two (cn_foo LOOKUP) [0, 12, 24, 512]
    ⟨⟨13, by decide, by decide⟩, fun _ => rfl⟩ (by decide) (by decide)
    (by simp only [tiles]; decide) (by decide) (by decide) (by decide) (by decide)
    (fun _ => rfl) (by decide)).2.1 0 (by decide) (by decide) (by decide)
  ⟨h.1, h.2.1, h.2.2.2.1, h.2.2.2.2⟩

/-! ### The offset cache -/

theorem lookup_found_eq (env : ufs_env) (data : mem) (cnp : componentname)
    (cn_flags : Nat) (dp : inode) (st : lookup_state) (ep : Nat) :
    lookup_found env data cnp cn_flags dp st ep =
      if dp.i_offset + DIRSIZ env (OFSFMT env) data ep > dp.i_size ∧
          env.mnt_rdonly = false then
        ⟨.panic_dirbad, dp, cn_flags, none⟩
      else
        found_tail env cnp cn_flags
          (found_inode cnp
            (if dp.i_offset + DIRSIZ env (OFSFMT env) data ep > dp.i_size then
              { dp with i_size := dp.i_offset + DIRSIZ env (OFSFMT env) data ep,
                        i_flag := dp.i_flag ||| (IN_CHANGE ||| IN_UPDATE) }
            else dp)) st := by
  unfold lookup_found found_tail found_inode
  rfl

theorem found_tail_plain (env : ufs_env) (cnp : componentname) (cn_flags : Nat)
    (D : inode) (st : lookup_state) (hop : cnp.cn_nameiop = LOOKUP)
    (hvget : env.vget_err D.i_ino = 0) (hlock : env.vn_lock_err = 0) :
    (found_tail env cnp cn_flags D st).ret = .returned 0 ∧
      (found_tail env cnp cn_flags D st).vpp = some D.i_ino := by
  have hd : ¬ (cnp.cn_nameiop = DELETE ∧ cnp.cn_flags &&& ISLASTCN ≠ 0) := by
    rw [hop]; intro h; exact absurd h.1 (by decide)
  have hr : ¬ (cnp.cn_nameiop = RENAME ∧
      cnp.cn_flags &&& (LOCKPARENT ||| WANTPARENT) ≠ 0 ∧ cnp.cn_flags &&& ISLASTCN ≠ 0) := by
    rw [hop]; intro h; exact absurd h.1 (by decide)
  unfold found_tail
  rw [if_neg hd, if_neg hr]
  simp only [hvget, hlock]
  split_ifs <;> simp_all

theorem found_tail_returns (env : ufs_env) (cnp : componentname) (cn_flags : Nat)
    (D : inode) (st : lookup_state) :
    ∃ e, (found_tail env cnp cn_flags D st).ret = .returned e := by
  unfold found_tail
  simp only [apply_ite lookup_result.ret]
  repeat (first | exact ⟨_, rfl⟩ | apply ite_returned)

theorem lookup_found_cache (env : ufs_env) (data : mem) (cnp : componentname)
    (cn_flags : Nat) (dp : inode) (st : lookup_state) (ep : Nat) :
    cache_kept_or_set env cnp dp (lookup_found env data cnp cn_flags dp st ep) := by
  obtain ⟨d1, _, d3, _, d5, _⟩ := lookup_found_dp env data cnp cn_flags dp st ep
  unfold cache_kept_or_set
  rcases d5 with h | ⟨hl, hop, hd⟩
  · exact Or.inl h
  · by_cases hp : dp.i_offset + DIRSIZ env (OFSFMT env) data ep > dp.i_size ∧
        env.mnt_rdonly = false
    · left
      rw [lookup_found_eq, if_pos hp]
    · right
      refine ⟨hop, hl, by rw [d1]; exact hd, ?_⟩
      intro hvget hlock
      rw [lookup_found_eq, if_neg hp]
      exact (found_tail_plain env cnp cn_flags _ st hop (hvget _) hlock).1

theorem lookup_after_cache (env : ufs_env) (data : mem) (cnp : componentname)
    (cn_flags : Nat) (dp : inode) (again : Nat → inode → lookup_state → lookup_result)
    (hagain : ∀ f d s, cache_kept_or_set env cnp d (again f d s)) (e : search_exit) :
    cache_kept_or_set env cnp dp (lookup_after env data cnp cn_flags dp again e) := by
  cases e with
  | io_error err st => exact Or.inl rfl
  | panic st => exact Or.inl rfl
  | fault st => exact Or.inl rfl
  | out_of_fuel st => exact Or.inl rfl
  | found st ep =>
    exact lookup_found_cache env data cnp cn_flags
      { dp with i_offset := st.i_offset, i_ino := d_ino env.little_endian data ep,
                i_reclen := d_reclen env.little_endian data ep } st ep
  | whiteout st ep =>
    simp only [lookup_after]
    split_ifs
    · exact hagain _ { dp with i_offset := st.i_offset, i_reclen := st.slotsize } _
    · exact Or.inl (lookup_notfound_dp env cnp _ _ _).1
  | exhausted st =>
    simp only [lookup_after]
    split_ifs
    · exact hagain _ { dp with i_offset := st.i_offset } _
    · exact Or.inl (lookup_notfound_dp env cnp _ _ _).1

theorem ufs_lookup_cache (env : ufs_env) (data : mem) (dp : inode) (cnp : componentname) :
    cache_kept_or_set env cnp dp (ufs_lookup env data dp cnp) := by
  unfold ufs_lookup
  simp only []
  split_ifs
  · exact Or.inl rfl
  · apply lookup_after_cache
    intro f d s
    unfold second_pass
    apply lookup_after_cache
    intro f2 d2 s2
    exact Or.inl rfl

/-- C27, as stated, fails: on the two-block directory with the cache on the second block,
a plain lookup of the final component `foo` on a mount where `VFS_VGET` fails finds the
entry in the first block, returns the error of `VFS_VGET` without a vnode, and has moved
the cache from 512 to 0. -/
theorem lookup_moves_cache_on_error :
    (ufs_lookup env_noget block_two dir_inode_two (cn_foo LOOKUP)).ret = .returned 5 ∧
      (ufs_lookup env_noget block_two dir_inode_two (cn_foo LOOKUP)).vpp = none ∧
      dir_inode_two.i_diroff = 512 ∧
      (ufs_lookup env_noget block_two dir_inode_two (cn_foo LOOKUP)).dp.i_diroff = 0 := by
  decide

/-- C27 (amended): the offset cache. `ufs_lookup` changes `i_diroff` only on a plain
lookup of the final component that finds its entry, whether or not it then gets the vnode
of the entry (it returns 0 when `VFS_VGET` and `vn_lock` succeed): the cache becomes the
offset of the matched entry rounded down to a multiple of `DIRBLKSIZ`. For every CREATE,
DELETE or RENAME lookup and every non-final component it is unchanged, and on a sound
directory it is unchanged whenever the scan stops at no entry or at a whiteout. Hence a
cache that is a multiple of `DIRBLKSIZ` stays one. -/
theorem lookup_diroff_cache (env : ufs_env) (data : mem) (dp : inode)
    (cnp : componentname) :
    ((ufs_lookup env data dp cnp).dp.i_diroff ≠ dp.i_diroff →
      cnp.cn_nameiop = LOOKUP ∧ cnp.cn_flags &&& ISLASTCN ≠ 0 ∧
        (ufs_lookup env data dp cnp).dp.i_diroff =
          (ufs_lookup env data dp cnp).dp.i_offset -
            (ufs_lookup env data dp cnp).dp.i_offset % DIRBLKSIZ ∧
        ((∀ i, env.vget_err i = 0) → env.vn_lock_err = 0 →
          (ufs_lookup env data dp cnp).ret = .returned 0)) ∧
    ((cnp.cn_nameiop ≠ LOOKUP ∨ cnp.cn_flags &&& ISLASTCN = 0) →
      (ufs_lookup env data dp cnp).dp.i_diroff = dp.i_diroff) ∧
    (dp.i_diroff % DIRBLKSIZ = 0 → (ufs_lookup env data dp cnp).dp.i_diroff % DIRBLKSIZ = 0) ∧
    (∀ recs, env_ok env → dp.i_size % DIRBLKSIZ = 0 → dp.i_diroff % DIRBLKSIZ = 0 →
      tiles env.little_endian data 0 dp.i_size recs → (∀ o ∈ recs, entry_ok env data o) →
      ((∀ p, lookup_hit env data dp cnp recs = some p → is_whiteout env data p) →
        (ufs_lookup env data dp cnp).dp.i_diroff = dp.i_diroff) ∧
      (∀ p, lookup_hit env data dp cnp recs = some p → ¬ is_whiteout env data p →
        cnp.cn_nameiop = LOOKUP → cnp.cn_flags &&& ISLASTCN ≠ 0 →
        (ufs_lookup env data dp cnp).dp.i_offset = p ∧
          (ufs_lookup env data dp cnp).dp.i_diroff = p - p % DIRBLKSIZ)) := by
  have h512 : DIRBLKSIZ = 512 := rfl
  have hc := ufs_lookup_cache env data dp cnp
  unfold cache_kept_or_set at hc
  refine ⟨?_, ?_, ?_, ?_⟩
  · intro hne
    rcases hc with h | ⟨h1, h2, h3, h4⟩
    · exact absurd h hne
    · refine ⟨h1, h2, ?_, h4⟩
      rw [h3, and_not_511, h512]
  · intro h
    rcases hc with hk | ⟨h1, h2, _, _⟩
    · exact hk
    · rcases h with h | h
      · exact absurd h1 h
      · exact absurd h h2
  · intro hd
    rcases hc with h | ⟨_, _, h3, _⟩
    · rw [h]; exact hd
    · rw [h3, and_not_511, h512]
      omega
  · intro recs henv hsize hdiroff htiles hok
    rw [h512] at hsize hdiroff
    obtain ⟨hnone, hsome⟩ := lookup_by_hit env data dp cnp recs henv hsize hdiroff htiles hok
    constructor
    · intro hw
      cases hh : lookup_hit env data dp cnp recs with
      | none =>
        obtain ⟨off, st', hu⟩ := hnone hh
        rw [hu]
        exact (lookup_notfound_dp env cnp _ _ _).1
      | some p =>
        obtain ⟨_, _, hwp, _⟩ := hsome p hh
        obtain ⟨st', hu⟩ := hwp (hw p hh)
        rw [hu]
        exact (lookup_notfound_dp env cnp _ _ _).1
    · intro p hh hwp hop hlast
      obtain ⟨hp, _, _, hf⟩ := hsome p hh
      obtain ⟨st', hu⟩ := hf hwp
      obtain ⟨_, hpfit, hpwhole⟩ := entry_ok_facts env data p (hok p hp)
      have hb := tiles_mem_bounds _ _ _ _ _ htiles p hp
      have hfit : p + DIRSIZ env (OFSFMT env) data p ≤ dp.i_size := by omega
      have hpan : (lookup_found env data cnp cnp.cn_flags
          { dp with i_offset := p, i_ino := d_ino env.little_endian data p,
                    i_reclen := d_reclen env.little_endian data p } st' p).ret ≠
          .panic_dirbad := by
        rw [lookup_found_fits env data cnp cnp.cn_flags _ st' p hfit]
        intro hx
        obtain ⟨e, he⟩ := found_tail_returns env cnp cnp.cn_flags
          (found_inode cnp
            { dp with i_offset := p, i_ino := d_ino env.little_endian data p,
                      i_reclen := d_reclen env.little_endian data p }) st'
        rw [he] at hx
        exact kexit.noConfusion hx
      obtain ⟨d1, _, _, _, _, d6⟩ := lookup_found_dp env data cnp cnp.cn_flags
        { dp with i_offset := p, i_ino := d_ino env.little_endian data p,
                  i_reclen := d_reclen env.little_endian data p } st' p
      rw [hu]
      refine ⟨d1, ?_⟩
      rw [d6 hlast hop hpan, and_not_511, h512]

/-- Witness of C27 (amended): on the two-block directory with the cache on the second block, a
plain lookup of `foo`, found in the first block, moves the cache to 0; a lookup of `foo`
for DELETE leaves it at 512. -/
theorem lookup_diroff_cache_witness :
    ((ufs_lookup env_le block_two dir_inode_two (cn_foo LOOKUP)).dp.i_offset = 0 ∧
      (ufs_lookup env_le block_two dir_inode_two (cn_foo LOOKUP)).dp.i_diroff =
        0 - 0 % DIRBLKSIZ) ∧
    (ufs_lookup env_le block_two dir_inode_two (cn_foo DELETE)).dp.i_diroff = 512 :=
  ⟨((lookup_diroff_cache env_le block_two dir_inode_two (cn_foo LOOKUP)).2.2.2
      [0, 12, 24, 512] ⟨⟨13, by decide, by decide⟩, fun _ => rfl⟩ (by decide) (by decide)
      (by simp only [tiles]; decide) (by decide)).2 0 (by decide) (by decide) (by decide)
      (by decide),
    (lookup_diroff_cache env_le block_two dir_inode_two (cn_foo DELETE)).2.1
      (Or.inl (by decide))⟩

/-! ### The slot search: which sub-blocks hold the space needed -/

theorem skip_all_append (env : ufs_env) (data : mem) (n : Nat) :
    ∀ (l1 l2 : List Nat) (st : lookup_state),
      skip_all env data n (l1 ++ l2) st = skip_all env data n l2 (skip_all env data n l1 st) := by
  intro l1
  induction l1 with
  | nil => intro l2 st; rfl
  | cons x xs ih => intro l2 st; simp only [List.cons_append, skip_all]; exact ih _ _

theorem advance_slot (env : ufs_env) (data : mem) (n : Nat) (st : lookup_state) (o : Nat) :
    (advance env data n st o).slotstatus =
        (slot_update env data n (scan_reset st o) o).slotstatus ∧
      (advance env data n st o).slotoffset =
        (slot_update env data n (scan_reset st o) o).slotoffset ∧
      (advance env data n st o).slotsize =
        (slot_update env data n (scan_reset st o) o).slotsize ∧
      (advance env data n st o).slotfreespace =
        (slot_update env data n (scan_reset st o) o).slotfreespace :=
  ⟨rfl, rfl, rfl, rfl⟩

theorem scan_reset_free (st : lookup_state) (o : Nat) :
    (scan_reset st o).slotfreespace =
      if st.slotstatus = slot_status.NONE ∧ o % DIRBLKSIZ = 0 then 0 else st.slotfreespace := by
  unfold scan_reset
  split_ifs <;> rfl

/-- A record without the space needed does not turn the slot search to `FOUND`. -/
theorem advance_not_found (env : ufs_env) (data : mem) (n : Nat) (st : lookup_state)
    (o : Nat) (hst : st.slotstatus ≠ slot_status.FOUND)
    (hfree : entry_free env data o < (n : Int)) :
    (advance env data n st o).slotstatus ≠ slot_status.FOUND := by
  rw [(advance_slot env data n st o).1]
  have hr := (scan_reset_frame st o).2.2.2.2.2.1
  by_cases hpos : entry_free env data o > 0
  · cases hs : st.slotstatus with
    | FOUND => exact absurd hs hst
    | COMPACT =>
      rw [slot_update_keep env data n _ o (Or.inr (Or.inr ⟨by rw [hr]; exact hs, hfree⟩)), hr, hs]
      simp
    | NONE =>
      obtain ⟨_, _, _, h | h⟩ := slot_update_gather env data n (scan_reset st o) o
        (by rw [hr]; exact hs) hpos (by omega)
      · rw [h.2.1]; simp
      · rw [h.2]; simp
  · rw [slot_update_keep env data n _ o (Or.inr (Or.inl (by omega))), hr]
    exact hst

theorem skip_all_not_found (env : ufs_env) (data : mem) (n : Nat) :
    ∀ (l : List Nat) (st : lookup_state), st.slotstatus ≠ slot_status.FOUND →
      (∀ o ∈ l, entry_free env data o < (n : Int)) →
      (skip_all env data n l st).slotstatus ≠ slot_status.FOUND := by
  intro l
  induction l with
  | nil => intro st h _; exact h
  | cons x xs ih =>
    intro st h hl
    simp only [skip_all]
    exact ih _ (advance_not_found env data n st x h (hl x (List.mem_cons_self _ _)))
      (fun o ho => hl o (List.mem_cons_of_mem _ ho))

/-- The first record with the space needed becomes the slot. -/
theorem advance_found (env : ufs_env) (data : mem) (n : Nat) (st : lookup_state)
    (o : Nat) (hst : st.slotstatus ≠ slot_status.FOUND) (hn : 0 < n)
    (hfree : (n : Int) ≤ entry_free env data o) :
    (advance env data n st o).slotstatus = slot_status.FOUND ∧
      (advance env data n st o).slotoffset = st.i_offset ∧
      (advance env data n st o).slotsize = d_reclen env.little_endian data o := by
  have hr := scan_reset_frame st o
  obtain ⟨h1, h2, h3⟩ := slot_update_found env data n (scan_reset st o) o
    (by rw [hr.2.2.2.2.2.1]; exact hst) (by omega) hfree
  obtain ⟨a1, a2, a3, _⟩ := advance_slot env data n st o
  rw [a1, a2, a3, h1, h2, h3, hr.1]
  exact ⟨rfl, rfl, rfl⟩

/-- A slot once found is kept to the end of the scan. -/
theorem skip_all_found (env : ufs_env) (data : mem) (n : Nat) :
    ∀ (l : List Nat) (st : lookup_state), st.slotstatus = slot_status.FOUND →
      (skip_all env data n l st).slotstatus = slot_status.FOUND ∧
        (skip_all env data n l st).slotoffset = st.slotoffset ∧
        (skip_all env data n l st).slotsize = st.slotsize := by
  intro l
  induction l with
  | nil => intro st h; exact ⟨h, rfl, rfl⟩
  | cons x xs ih =>
    intro st h
    simp only [skip_all]
    have hr : scan_reset st x = st := by
      unfold scan_reset
      rw [if_neg (by rw [h]; simp)]
    have hu : slot_update env data n (scan_reset st x) x = st := by
      rw [hr]; exact slot_update_keep env data n st x (Or.inl h)
    obtain ⟨a1, a2, a3, _⟩ := advance_slot env data n st x
    rw [hu] at a1 a2 a3
    obtain ⟨i1, i2, i3⟩ := ih (advance env data n st x) (by rw [a1]; exact h)
    exact ⟨i1, by rw [i2, a2], by rw [i3, a3]⟩

theorem subblock_free_append (env : ufs_env) (data : mem) (l : List Nat) (o b : Nat) :
    subblock_free env data (l ++ [o]) b =
      subblock_free env data l b +
        (if b ≤ o ∧ o < b + DIRBLKSIZ then entry_free env data o else 0) := by
  unfold subblock_free
  rw [List.filter_append, slot_free_append]
  congr 1
  by_cases h : b ≤ o ∧ o < b + DIRBLKSIZ
  · rw [if_pos h, List.filter_cons_of_pos (by simpa using h)]
    exact slot_free_single env data o
  · rw [if_neg h, List.filter_cons_of_neg (by simpa using h)]
    rfl

theorem slot_free_nonneg (env : ufs_env) (data : mem) :
    ∀ l : List Nat, (∀ o ∈ l, entry_ok env data o) → 0 ≤ slot_free env data l := by
  intro l
  induction l with
  | nil => intro _; unfold slot_free; simp
  | cons x xs ih =>
    intro h
    have e : slot_free env data (x :: xs) = entry_free env data x + slot_free env data xs := by
      unfold slot_free; simp
    have h1 := entry_free_nonneg env data x (h x (List.mem_cons_self _ _))
    have h2 := ih (fun o ho => h o (List.mem_cons_of_mem _ ho))
    omega

theorem subblock_free_nonneg (env : ufs_env) (data : mem) (l : List Nat) (b : Nat)
    (h : ∀ o ∈ l, entry_ok env data o) : 0 ≤ subblock_free env data l b :=
  slot_free_nonneg env data _ (fun o ho => h o (List.mem_of_mem_filter ho))

theorem subblock_free_ahead (env : ufs_env) (data : mem) (l : List Nat) (o : Nat)
    (ht : tiles env.little_endian data 0 o l) : ∀ b, o ≤ b → subblock_free env data l b = 0 := by
  intro b hb
  have hbd := tiles_mem_bounds env.little_endian data l 0 o ht
  have hpos := tiles_mem_pos env.little_endian data l 0 o ht
  unfold subblock_free
  rw [List.filter_eq_nil_iff.mpr]
  · rfl
  · intro x hx
    have := hbd x hx
    have := hpos x hx
    simp only [decide_eq_true_eq]
    omega

/-- One step of the scan keeps the invariant of the free-space count. -/
theorem free_inv_advance (env : ufs_env) (data : mem) (n : Nat) (done : List Nat)
    (st : lookup_state) (o : Nat)
    (htiles : tiles env.little_endian data 0 o done) (hoff : st.i_offset = o)
    (hok : entry_ok env data o) (hdone : ∀ x ∈ done, entry_ok env data x)
    (hinv : free_inv env data n done st) :
    free_inv env data n (done ++ [o]) (advance env data n st o) := by
  have h512 : DIRBLKSIZ = 512 := rfl
  obtain ⟨hN, hF⟩ := hinv
  obtain ⟨_, hL, _⟩ := entry_ok_facts env data o hok
  have hfree0 := entry_free_nonneg env data o hok
  have hr := scan_reset_frame st o
  obtain ⟨a1, _, _, a4⟩ := advance_slot env data n st o
  have aoff := (advance_frame env data n st o).1
  have happ := subblock_free_append env data done o
  have hLpos : 0 < d_reclen env.little_endian data o := by
    have := (DIRSIZ_bounds env (OFSFMT env) data o).1
    have := (entry_ok_facts env data o hok).2.2
    omega
  -- the sub-block of the record
  have hb0 : (o - o % 512) % 512 = 0 := by omega
  have hin : o - o % 512 ≤ o ∧ o < o - o % 512 + DIRBLKSIZ := by rw [h512]; omega
  have hblk : (st.i_offset + d_reclen env.little_endian data o - 1) / 512 * 512 =
      o - o % 512 := by
    rw [hoff]; omega
  have huniq : ∀ b, b % 512 = 0 → (b ≤ o ∧ o < b + DIRBLKSIZ) → b = o - o % 512 := by
    intro b hb hbo
    rw [h512] at hbo
    omega
  -- the count after the reset is the free space scanned in the sub-block
  have hreset : st.slotstatus = slot_status.NONE →
      (scan_reset st o).slotfreespace = subblock_free env data done (o - o % 512) := by
    intro hs
    rw [scan_reset_free]
    by_cases hz : o % DIRBLKSIZ = 0
    · rw [if_pos ⟨hs, hz⟩]
      rw [h512] at hz
      rw [subblock_free_ahead env data done o htiles _ (by omega)]
    · rw [if_neg (fun h => hz h.2), (hN hs).1, hoff]
      rw [h512] at hz
      have e : (o - 1) / 512 * 512 = o - o % 512 := by omega
      rw [e]
  have hmono : ∀ b, subblock_free env data done b ≤ subblock_free env data (done ++ [o]) b := by
    intro b
    rw [happ b]
    split_ifs <;> omega
  constructor
  · intro hs'
    rw [a1] at hs'
    -- the status was NONE before
    have hs : st.slotstatus = slot_status.NONE := by
      by_contra hne
      have hk : slot_update env data n (scan_reset st o) o = scan_reset st o ∨
          (slot_update env data n (scan_reset st o) o).slotstatus = slot_status.FOUND := by
        by_cases hbig : entry_free env data o > 0 ∧ entry_free env data o ≥ (n : Int)
        · by_cases hfd : st.slotstatus = slot_status.FOUND
          · exact Or.inl (slot_update_keep env data n _ o
              (Or.inl (by rw [hr.2.2.2.2.2.1]; exact hfd)))
          · exact Or.inr (slot_update_found env data n _ o
              (by rw [hr.2.2.2.2.2.1]; exact hfd) hbig.1 hbig.2).1
        · left
          cases hc : st.slotstatus with
          | NONE => exact absurd hc hne
          | FOUND =>
            exact slot_update_keep env data n _ o (Or.inl (by rw [hr.2.2.2.2.2.1]; exact hc))
          | COMPACT =>
            by_cases hp : entry_free env data o > 0
            · exact slot_update_keep env data n _ o
                (Or.inr (Or.inr ⟨by rw [hr.2.2.2.2.2.1]; exact hc, by
                  have : ¬ entry_free env data o ≥ (n : Int) := fun h => hbig ⟨hp, h⟩
                  omega⟩))
            · exact slot_update_keep env data n _ o (Or.inr (Or.inl (by omega)))
      rcases hk with hk | hk
      · rw [hk, hr.2.2.2.2.2.1] at hs'
        exact hne hs'
      · rw [hk] at hs'
        exact slot_status.noConfusion hs'
    have hrs : (scan_reset st o).slotstatus = slot_status.NONE := by
      rw [hr.2.2.2.2.2.1]; exact hs
    have hfs := hreset hs
    obtain ⟨_, hall⟩ := hN hs
    rw [a4, aoff, hblk]
    by_cases hpos : entry_free env data o > 0
    · by_cases hbig : entry_free env data o ≥ (n : Int)
      · have := (slot_update_found env data n _ o (by rw [hrs]; simp) hpos hbig).1
        rw [this] at hs'
        exact slot_status.noConfusion hs'
      · obtain ⟨g1, _, _, g4⟩ := slot_update_gather env data n (scan_reset st o) o hrs hpos hbig
        rcases g4 with ⟨_, g, _⟩ | ⟨gsmall, _⟩
        · rw [g] at hs'
          exact slot_status.noConfusion hs'
        · have e0 : subblock_free env data (done ++ [o]) (o - o % 512) =
              (scan_reset st o).slotfreespace + entry_free env data o := by
            rw [happ, if_pos hin, hfs]
          refine ⟨by rw [g1, e0], ?_⟩
          intro b hb
          by_cases hbo : b ≤ o ∧ o < b + DIRBLKSIZ
          · rw [huniq b hb hbo, e0]
            omega
          · rw [happ, if_neg hbo, add_zero]
            exact hall b hb
    · have hz : entry_free env data o = 0 := by omega
      rw [slot_update_keep env data n _ o (Or.inr (Or.inl (by omega))), hfs]
      refine ⟨by rw [happ, if_pos hin, hz, add_zero], ?_⟩
      intro b hb
      rw [happ, hz]
      have := hall b hb
      split_ifs <;> omega
  · intro hs'
    by_cases hs : st.slotstatus = slot_status.NONE
    · -- the slot was found on this record
      have hrs : (scan_reset st o).slotstatus = slot_status.NONE := by
        rw [hr.2.2.2.2.2.1]; exact hs
      have hfs := hreset hs
      have hnn := subblock_free_nonneg env data done (o - o % 512) hdone
      refine ⟨o - o % 512, hb0, ?_⟩
      rw [happ, if_pos hin]
      by_cases hpos : entry_free env data o > 0
      · by_cases hbig : entry_free env data o ≥ (n : Int)
        · omega
        · obtain ⟨_, _, _, g4⟩ := slot_update_gather env data n (scan_reset st o) o hrs hpos
            hbig
          rcases g4 with ⟨gbig, _, _⟩ | ⟨_, g⟩
          · rw [hfs] at gbig
            omega
          · rw [a1, g] at hs'
            exact absurd rfl hs'
      · rw [a1, slot_update_keep env data n _ o (Or.inr (Or.inl (by omega))), hrs] at hs'
        exact absurd rfl hs'
    · obtain ⟨b, hb, hge⟩ := hF hs
      exact ⟨b, hb, le_trans hge (hmono b)⟩

theorem free_inv_skip_all (env : ufs_env) (data : mem) (n : Nat) :
    ∀ (l done : List Nat) (a b : Nat) (st : lookup_state),
      tiles env.little_endian data 0 a done → tiles env.little_endian data a b l →
      st.i_offset = a → (∀ o ∈ l, entry_ok env data o) →
      (∀ o ∈ done, entry_ok env data o) → free_inv env data n done st →
      free_inv env data n (done ++ l) (skip_all env data n l st) := by
  intro l
  induction l with
  | nil =>
    intro done a b st _ _ _ _ _ hinv
    rw [List.append_nil]
    exact hinv
  | cons x xs ih =>
    intro done a b st hd hl hst hok hdone hinv
    obtain ⟨hx, hpos, hrest⟩ := tiles_head _ _ _ _ _ _ hl
    subst hx
    have hstep := free_inv_advance env data n done st x hd hst
      (hok x (List.mem_cons_self _ _)) hdone hinv
    have hd2 : tiles env.little_endian data 0 (x + d_reclen env.little_endian data x)
        (done ++ [x]) :=
      tiles_append _ _ _ _ _ _ _ hd
        (show tiles env.little_endian data x _ [x] from ⟨rfl, hpos, rfl⟩)
    have := ih (done ++ [x]) _ b (advance env data n st x) hd2 hrest
      (by rw [(advance_frame env data n st x).1, hst])
      (fun o ho => hok o (List.mem_cons_of_mem _ ho))
      (by
        intro o ho
        rcases List.mem_append.mp ho with h | h
        · exact hdone o h
        · have : o = x := by simpa using h
          rw [this]; exact hok x (List.mem_cons_self _ _))
      hstep
    rw [List.append_assoc] at this
    exact this

/-! ### The slot a lookup for CREATE or RENAME reports -/

theorem lookup_notfound_slot (env : ufs_env) (cnp : componentname) (cn_flags : Nat)
    (dp : inode) (st : lookup_state)
    (hop : cnp.cn_nameiop = CREATE ∨ cnp.cn_nameiop = RENAME)
    (hlast : cnp.cn_flags &&& ISLASTCN ≠ 0) (hlink : dp.i_effnlink ≠ 0)
    (hacc : env.access_err = 0) :
    (lookup_notfound env cnp cn_flags dp st).ret = .returned EJUSTRETURN ∧
      (lookup_notfound env cnp cn_flags dp st).dp.i_size = dp.i_size ∧
      (st.slotstatus = slot_status.NONE →
        (lookup_notfound env cnp cn_flags dp st).dp.i_offset = roundup2 dp.i_size DIRBLKSIZ ∧
          (lookup_notfound env cnp cn_flags dp st).dp.i_count = 0) ∧
      (st.slotstatus ≠ slot_status.NONE →
        (lookup_notfound env cnp cn_flags dp st).dp.i_offset = st.slotoffset.toNat ∧
          (lookup_notfound env cnp cn_flags dp st).dp.i_count = st.slotsize) := by
  have hcond : (cnp.cn_nameiop = CREATE ∨ cnp.cn_nameiop = RENAME ∨
      (cnp.cn_nameiop = DELETE ∧ cn_flags &&& DOWHITEOUT ≠ 0 ∧
        cn_flags &&& ISWHITEOUT ≠ 0)) ∧
      cnp.cn_flags &&& ISLASTCN ≠ 0 ∧ dp.i_effnlink ≠ 0 := by
    refine ⟨?_, hlast, hlink⟩
    rcases hop with h | h
    · exact Or.inl h
    · exact Or.inr (Or.inl h)
  have hdel : ¬ cnp.cn_nameiop = DELETE := by
    rcases hop with h | h <;> rw [h] <;> decide
  unfold lookup_notfound
  simp only []
  rw [if_pos hcond, if_neg (by rw [hacc]; exact fun h => h rfl)]
  by_cases hnone : st.slotstatus = slot_status.NONE
  · rw [if_pos hnone]
    exact ⟨rfl, rfl, fun _ => ⟨rfl, rfl⟩, fun h => absurd hnone h⟩
  · rw [if_neg hnone, if_neg hdel]
    exact ⟨rfl, rfl, fun h => absurd h hnone, fun _ => ⟨rfl, rfl⟩⟩

theorem slot_search_init (env : ufs_env) (data : mem) (dp : inode) (cnp : componentname)
    (hop : cnp.cn_nameiop = CREATE ∨ cnp.cn_nameiop = RENAME)
    (hlast : cnp.cn_flags &&& ISLASTCN ≠ 0) :
    lookup_onepass dp cnp ∧ lookup_slotneeded cnp = DIRECTSIZ cnp.cn_namelen ∧
      (norm (lookup_init env dp cnp)).slotstatus = slot_status.NONE ∧
      (norm (lookup_init env dp cnp)).i_offset = 0 ∧
      slot_inv env data (lookup_slotneeded cnp) [] (norm (lookup_init env dp cnp)) ∧
      free_inv env data (lookup_slotneeded cnp) [] (norm (lookup_init env dp cnp)) := by
  have h1 : lookup_onepass dp cnp := by
    unfold lookup_onepass
    left
    rcases hop with h | h <;> rw [h] <;> decide
  have hcr : (cnp.cn_nameiop = CREATE ∨ cnp.cn_nameiop = RENAME) ∧
      cnp.cn_flags &&& ISLASTCN ≠ 0 := ⟨hop, hlast⟩
  have hneed : lookup_slotneeded cnp = DIRECTSIZ cnp.cn_namelen := by
    unfold lookup_slotneeded
    rw [if_pos hcr]
  have hss : (norm (lookup_init env dp cnp)).slotstatus = slot_status.NONE := by
    show (lookup_init env dp cnp).slotstatus = slot_status.NONE
    simp only [lookup_init]
    rw [if_pos hcr]
  have hi : (norm (lookup_init env dp cnp)).i_offset = 0 :=
    ((lookup_init_fields env dp cnp).1 h1).1
  have hnb := DIRECTSIZ_bounds cnp.cn_namelen
  refine ⟨h1, hneed, hss, hi, ?_, ?_, ?_⟩
  · unfold slot_inv
    rw [if_pos hss]
    exact Or.inl ⟨rfl, rfl⟩
  · intro _
    refine ⟨?_, ?_⟩
    · show (0 : Int) = subblock_free env data [] _
      rfl
    · intro b _
      show slot_free env data [] < _
      rw [hneed]
      unfold slot_free
      simp only [List.map_nil, List.sum_nil]
      omega
  · intro h
    exact absurd hss h

/-- C28: a found slot supersedes compaction. On a sound directory, for a CREATE or RENAME
lookup on the final component of a name no entry carries, when `q` is the first record in
scan order whose own free space is at least `DIRECTSIZ` of the name length, `ufs_lookup`
returns `EJUSTRETURN` with the slot at `q` (`i_offset = q`) of size `d_reclen` of `q`,
whatever free space the smaller pieces before `q` add up to. -/
theorem lookup_slot_first_fit (env : ufs_env) (data : mem) (dp : inode)
    (cnp : componentname) (A : List Nat) (q : Nat) (B : List Nat) (henv : env_ok env)
    (hsize : dp.i_size % DIRBLKSIZ = 0)
    (htiles : tiles env.little_endian data 0 dp.i_size (A ++ q :: B))
    (hok : ∀ o ∈ A ++ q :: B, entry_ok env data o)
    (habsent : ∀ o ∈ A ++ q :: B, ¬ is_match env data cnp o)
    (hop : cnp.cn_nameiop = CREATE ∨ cnp.cn_nameiop = RENAME)
    (hlast : cnp.cn_flags &&& ISLASTCN ≠ 0)
    (hlink : dp.i_effnlink ≠ 0) (hacc : env.access_err = 0)
    (hA : ∀ o ∈ A, entry_free env data o < (DIRECTSIZ cnp.cn_namelen : Int))
    (hq : (DIRECTSIZ cnp.cn_namelen : Int) ≤ entry_free env data q) :
    (ufs_lookup env data dp cnp).ret = .returned EJUSTRETURN ∧
      (ufs_lookup env data dp cnp).dp.i_offset = q ∧
      (ufs_lookup env data dp cnp).dp.i_count = d_reclen env.little_endian data q := by
  have h512 : DIRBLKSIZ = 512 := rfl
  rw [h512] at hsize
  obtain ⟨h1, hneed, hss, hi, _, _⟩ := slot_search_init env data dp cnp hop hlast
  obtain ⟨htA, _⟩ := tiles_mid _ _ _ _ _ _ _ htiles
  have hnb := DIRECTSIZ_bounds cnp.cn_namelen
  rw [lookup_onepass_absent env data dp cnp _ henv hsize htiles hok habsent h1]
  have hsplit : skip_all env data (lookup_slotneeded cnp) (A ++ q :: B)
      (norm (lookup_init env dp cnp)) =
      skip_all env data (lookup_slotneeded cnp) B
        (advance env data (lookup_slotneeded cnp)
          (skip_all env data (lookup_slotneeded cnp) A (norm (lookup_init env dp cnp))) q) := by
    rw [skip_all_append]
    rfl
  have hnf := skip_all_not_found env data (lookup_slotneeded cnp) A
    (norm (lookup_init env dp cnp)) (by rw [hss]; simp) (by rw [hneed]; exact hA)
  obtain ⟨f1, f2, f3⟩ := advance_found env data (lookup_slotneeded cnp) _ q hnf
    (by rw [hneed]; omega) (by rw [hneed]; exact hq)
  obtain ⟨g1, g2, g3⟩ := skip_all_found env data (lookup_slotneeded cnp) B _ f1
  obtain ⟨s1, _, _⟩ := skip_all_frame env data (lookup_slotneeded cnp) A 0 q
    (norm (lookup_init env dp cnp)) htA hi
  rw [hsplit]
  obtain ⟨r1, _, _, r4⟩ := lookup_notfound_slot env cnp cnp.cn_flags
    { dp with i_offset := dp.i_size }
    (skip_all env data (lookup_slotneeded cnp) B
      (advance env data (lookup_slotneeded cnp)
        (skip_all env data (lookup_slotneeded cnp) A (norm (lookup_init env dp cnp))) q))
    hop hlast hlink hacc
  obtain ⟨r5, r6⟩ := r4 (by rw [g1]; simp)
  refine ⟨r1, ?_, ?_⟩
  · rw [r5, g2, f2, s1]
    simp
  · rw [r6, g3, f3]

/-- Witness of C28 on `block_gaps`: the free space of `foo` and `a` adds up to the 12 bytes
the name `c` needs, yet the slot reported is the record of `bbbbb`. -/
theorem lookup_slot_first_fit_witness :
    (entry_free env_le block_gaps 0 + entry_free env_le block_gaps 16 ≥ 12) ∧
      (ufs_lookup env_le block_gaps dir_inode (cn_c CREATE)).ret = .returned EJUSTRETURN ∧
      (ufs_lookup env_le block_gaps dir_inode (cn_c CREATE)).dp.i_offset = 36 ∧
      (ufs_lookup env_le block_gaps dir_inode (cn_c CREATE)).dp.i_count = 476 :=
  ⟨by decide,
    lookup_slot_first_fit env_le block_gaps dir_inode (cn_c CREATE) [0, 16] 36 []
      ⟨⟨13, by decide, by decide⟩, fun _ => rfl⟩ (by decide) (by simp only [tiles]; decide)
      (by decide) (by decide) (Or.inl (by decide)) (by decide) (by decide) (by decide)
      (by decide) (by decide)⟩

/-- One pass that stops at a whiteout of the name: the whiteout becomes the slot. -/
theorem lookup_onepass_whiteout (env : ufs_env) (data : mem) (dp : inode)
    (cnp : componentname) (A : List Nat) (p : Nat) (B : List Nat) (henv : env_ok env)
    (hsize : dp.i_size % 512 = 0)
    (htiles : tiles env.little_endian data 0 dp.i_size (A ++ p :: B))
    (hok : ∀ o ∈ A ++ p :: B, entry_ok env data o)
    (hA : ∀ o ∈ A, ¬ is_match env data cnp o)
    (hp : is_match env data cnp p) (hwht : is_whiteout env data p)
    (h1 : lookup_onepass dp cnp) :
    ∃ st', ufs_lookup env data dp cnp =
        lookup_notfound env cnp (cnp.cn_flags ||| ISWHITEOUT)
          { dp with i_offset := p, i_reclen := d_reclen env.little_endian data p } st' ∧
      st'.slotstatus = slot_status.FOUND ∧ st'.slotoffset = (p : Int) ∧
      st'.slotsize = d_reclen env.little_endian data p := by
  obtain ⟨hi, hn⟩ := (lookup_init_fields env dp cnp).1 h1
  obtain ⟨htA, _⟩ := tiles_mid _ _ _ _ _ _ _ htiles
  obtain ⟨hu, hs⟩ := first_pass_scan env data dp cnp (A ++ p :: B) henv hsize
    (by rw [hi]; exact htiles) hok
  obtain ⟨s1, _, s3⟩ := skip_all_frame env data (lookup_slotneeded cnp) A 0 p
    (norm (lookup_init env dp cnp)) htA hi
  obtain ⟨st', e1, e2, e3, e4, e5, e6, _⟩ := scan_whiteout env data dp.i_size cnp
    (lookup_slotneeded cnp) p B
    (skip_all env data (lookup_slotneeded cnp) A (norm (lookup_init env dp cnp))) hp hwht
  have hsc : scan env data dp.i_size cnp (lookup_slotneeded cnp) (A ++ p :: B)
      (norm (lookup_init env dp cnp)) = .whiteout st' p := by
    rw [scan_skip env data dp.i_size cnp _ A (p :: B) _ hA]
    exact e1
  have hnp : st'.numdirpasses ≠ 2 := by
    rw [e3, s3]
    show (lookup_init env dp cnp).numdirpasses - 1 ≠ 2
    rw [hn]
    decide
  refine ⟨st', ?_, e5, by rw [e6, s1], e4⟩
  rw [hu, lookup_after_whiteout env data cnp cnp.cn_flags dp _ _ st' p (hs.trans hsc) hnp,
    e2, s1, e4]

/-- C29: a slot never crosses a sub-block boundary. On a sound directory, for a CREATE or
RENAME lookup on the final component that finds no live entry of the name and reports a
slot (`i_count != 0`), the range `[i_offset, i_offset + i_count)` is tiled by a run of
whole records of the directory, starting at the record at `i_offset`, and lies inside the
`DIRBLKSIZ` sub-block of `i_offset`. -/
theorem lookup_slot_in_subblock (env : ufs_env) (data : mem) (dp : inode)
    (cnp : componentname) (recs : List Nat) (henv : env_ok env)
    (hsize : dp.i_size % DIRBLKSIZ = 0)
    (htiles : tiles env.little_endian data 0 dp.i_size recs)
    (hok : ∀ o ∈ recs, entry_ok env data o)
    (hmiss : ∀ p, first_match env data cnp recs = some p → is_whiteout env data p)
    (hop : cnp.cn_nameiop = CREATE ∨ cnp.cn_nameiop = RENAME)
    (hlast : cnp.cn_flags &&& ISLASTCN ≠ 0)
    (hlink : dp.i_effnlink ≠ 0) (hacc : env.access_err = 0)
    (hslot : (ufs_lookup env data dp cnp).dp.i_count ≠ 0) :
    (ufs_lookup env data dp cnp).ret = .returned EJUSTRETURN ∧
      ∃ pre run post,
        recs = pre ++ (ufs_lookup env data dp cnp).dp.i_offset :: run ++ post ∧
        tiles env.little_endian data (ufs_lookup env data dp cnp).dp.i_offset
          ((ufs_lookup env data dp cnp).dp.i_offset + (ufs_lookup env data dp cnp).dp.i_count)
          ((ufs_lookup env data dp cnp).dp.i_offset :: run) ∧
        (∀ o ∈ (ufs_lookup env data dp cnp).dp.i_offset :: run, whole_entry env data o) ∧
        (ufs_lookup env data dp cnp).dp.i_offset + (ufs_lookup env data dp cnp).dp.i_count ≤
          (ufs_lookup env data dp cnp).dp.i_offset -
            (ufs_lookup env data dp cnp).dp.i_offset % DIRBLKSIZ + DIRBLKSIZ := by
  have h512 : DIRBLKSIZ = 512 := rfl
  rw [h512] at hsize
  obtain ⟨h1, hneed, hss, hi, hinv0, _⟩ := slot_search_init env data dp cnp hop hlast
  cases hfm : first_match env data cnp recs with
  | none =>
    have habsent := (first_match_none env data cnp recs).mp hfm
    have hu := lookup_onepass_absent env data dp cnp recs henv hsize htiles hok habsent h1
    have hinv := slot_inv_skip_all env data (lookup_slotneeded cnp) recs [] 0 dp.i_size
      (norm (lookup_init env dp cnp)) (by simp [tiles]) htiles hi hok hinv0
    rw [List.nil_append] at hinv
    rw [hu] at hslot ⊢
    generalize skip_all env data (lookup_slotneeded cnp) recs
      (norm (lookup_init env dp cnp)) = st' at hinv hslot ⊢
    obtain ⟨r1, _, r3, r4⟩ := lookup_notfound_slot env cnp cnp.cn_flags
      { dp with i_offset := dp.i_size } st' hop hlast hlink hacc
    by_cases hnone : st'.slotstatus = slot_status.NONE
    · exact absurd (r3 hnone).2 hslot
    · obtain ⟨r5, r6⟩ := r4 hnone
      unfold slot_inv at hinv
      rw [if_neg hnone] at hinv
      obtain ⟨pre, S, run, post, hrecs, hS, hts, _, hsub⟩ := hinv
      have hoff : (lookup_notfound env cnp cnp.cn_flags { dp with i_offset := dp.i_size }
          st').dp.i_offset = S := by
        rw [r5, hS]; simp
      rw [hoff, r6]
      refine ⟨r1, pre, run, post, hrecs, hts, ?_, by rw [h512]; exact hsub⟩
      intro o ho
      apply entry_ok_whole
      apply hok
      rw [hrecs]
      simp only [List.mem_append, List.mem_cons] at ho ⊢
      tauto
  | some p =>
    have hw := hmiss p hfm
    unfold first_match at hfm
    have hpm : is_match env data cnp p := by
      have := List.find?_some hfm
      simpa using this
    rw [List.find?_eq_some] at hfm
    obtain ⟨_, A, B, hl, hA⟩ := hfm
    have hA' : ∀ o ∈ A, ¬ is_match env data cnp o := fun o ho => by simpa using hA o ho
    subst hl
    obtain ⟨st', hu, w1, w2, w3⟩ := lookup_onepass_whiteout env data dp cnp A p B henv hsize
      htiles hok hA' hpm hw h1
    obtain ⟨r1, _, _, r4⟩ := lookup_notfound_slot env cnp (cnp.cn_flags ||| ISWHITEOUT)
      { dp with i_offset := p, i_reclen := d_reclen env.little_endian data p } st' hop hlast
      hlink hacc
    obtain ⟨r5, r6⟩ := r4 (by rw [w1]; simp)
    have hokp := hok p (by simp)
    obtain ⟨_, hpfit, _⟩ := entry_ok_facts env data p hokp
    obtain ⟨_, htp⟩ := tiles_mid _ _ _ _ _ _ _ htiles
    obtain ⟨_, hpos, _⟩ := tiles_head _ _ _ _ _ _ htp
    have hoff : (ufs_lookup env data dp cnp).dp.i_offset = p := by
      rw [hu, r5, w2]; simp
    have hcnt : (ufs_lookup env data dp cnp).dp.i_count = d_reclen env.little_endian data p := by
      rw [hu, r6, w3]
    rw [hoff, hcnt]
    refine ⟨by rw [hu]; exact r1, A, [], B, by simp, ⟨rfl, hpos, rfl⟩, ?_, by rw [h512]; omega⟩
    intro o ho
    have : o = p := by simpa using ho
    rw [this]
    exact entry_ok_whole env data p hokp

/-- Witness of C29 on `block_gaps`: the slot for the name `c` is the record at 36. -/
theorem lookup_slot_in_subblock_witness :
    (ufs_lookup env_le block_gaps dir_inode (cn_c CREATE)).ret = .returned EJUSTRETURN ∧
      ∃ pre run post,
        [0, 16, 36] =
          pre ++ (ufs_lookup env_le block_gaps dir_inode (cn_c CREATE)).dp.i_offset :: run ++
            post ∧
        tiles env_le.little_endian block_gaps
          (ufs_lookup env_le block_gaps dir_inode (cn_c CREATE)).dp.i_offset
          ((ufs_lookup env_le block_gaps dir_inode (cn_c CREATE)).dp.i_offset +
            (ufs_lookup env_le block_gaps dir_inode (cn_c CREATE)).dp.i_count)
          ((ufs_lookup env_le block_gaps dir_inode (cn_c CREATE)).dp.i_offset :: run) ∧
        (∀ o ∈ (ufs_lookup env_le block_gaps dir_inode (cn_c CREATE)).dp.i_offset :: run,
          whole_entry env_le block_gaps o) ∧
        (ufs_lookup env_le block_gaps dir_inode (cn_c CREATE)).dp.i_offset +
            (ufs_lookup env_le block_gaps dir_inode (cn_c CREATE)).dp.i_count ≤
          (ufs_lookup env_le block_gaps dir_inode (cn_c CREATE)).dp.i_offset -
            (ufs_lookup env_le block_gaps dir_inode (cn_c CREATE)).dp.i_offset % DIRBLKSIZ +
              DIRBLKSIZ :=
  lookup_slot_in_subblock env_le block_gaps dir_inode (cn_c CREATE) [0, 16, 36]
    ⟨⟨13, by decide, by decide⟩, fun _ => rfl⟩ (by decide) (by simp only [tiles]; decide)
    (by decide) (by decide) (Or.inl (by decide)) (by decide) (by decide) (by decide)
    (by decide)

/-- The state in which the slot search of a CREATE or RENAME lookup of a name no entry
carries ends, with the two invariants of the search over all the records. -/
theorem lookup_slot_state (env : ufs_env) (data : mem) (dp : inode)
    (cnp : componentname) (recs : List Nat) (henv : env_ok env)
    (hsize : dp.i_size % 512 = 0)
    (htiles : tiles env.little_endian data 0 dp.i_size recs)
    (hok : ∀ o ∈ recs, entry_ok env data o)
    (habsent : ∀ o ∈ recs, ¬ is_match env data cnp o)
    (hop : cnp.cn_nameiop = CREATE ∨ cnp.cn_nameiop = RENAME)
    (hlast : cnp.cn_flags &&& ISLASTCN ≠ 0) :
    ∃ st', ufs_lookup env data dp cnp =
        lookup_notfound env cnp cnp.cn_flags { dp with i_offset := dp.i_size } st' ∧
      slot_inv env data (DIRECTSIZ cnp.cn_namelen) recs st' ∧
      free_inv env data (DIRECTSIZ cnp.cn_namelen) recs st' := by
  obtain ⟨h1, hneed, hss, hi, hinv0, hfinv0⟩ := slot_search_init env data dp cnp hop hlast
  have hu := lookup_onepass_absent env data dp cnp recs henv hsize htiles hok habsent h1
  have hinv := slot_inv_skip_all env data (lookup_slotneeded cnp) recs [] 0 dp.i_size
    (norm (lookup_init env dp cnp)) (by simp [tiles]) htiles hi hok hinv0
  have hfinv := free_inv_skip_all env data (lookup_slotneeded cnp) recs [] 0 dp.i_size
    (norm (lookup_init env dp cnp)) (by simp [tiles]) htiles hi hok (by simp) hfinv0
  rw [List.nil_append] at hinv hfinv
  generalize skip_all env data (lookup_slotneeded cnp) recs
    (norm (lookup_init env dp cnp)) = st' at hu hinv hfinv
  rw [hneed] at hinv hfinv
  exact ⟨st', hu, hinv, hfinv⟩

/-- A sub-block with the space needed makes the lookup report a slot. -/
theorem lookup_slot_of_room (env : ufs_env) (data : mem) (dp : inode)
    (cnp : componentname) (recs : List Nat) (henv : env_ok env)
    (hsize : dp.i_size % 512 = 0)
    (htiles : tiles env.little_endian data 0 dp.i_size recs)
    (hok : ∀ o ∈ recs, entry_ok env data o)
    (habsent : ∀ o ∈ recs, ¬ is_match env data cnp o)
    (hop : cnp.cn_nameiop = CREATE ∨ cnp.cn_nameiop = RENAME)
    (hlast : cnp.cn_flags &&& ISLASTCN ≠ 0)
    (hlink : dp.i_effnlink ≠ 0) (hacc : env.access_err = 0)
    (hroom : ∃ b, b % 512 = 0 ∧
      (DIRECTSIZ cnp.cn_namelen : Int) ≤ subblock_free env data recs b) :
    (ufs_lookup env data dp cnp).dp.i_count ≠ 0 := by
  obtain ⟨st', hu, hinv, hN, _⟩ := lookup_slot_state env data dp cnp recs henv hsize htiles
    hok habsent hop hlast
  obtain ⟨_, _, _, r4⟩ := lookup_notfound_slot env cnp cnp.cn_flags
    { dp with i_offset := dp.i_size } st' hop hlast hlink hacc
  have hnone : st'.slotstatus ≠ slot_status.NONE := by
    intro hs
    obtain ⟨b, hb, hge⟩ := hroom
    have := (hN hs).2 b hb
    omega
  obtain ⟨_, r6⟩ := r4 hnone
  unfold slot_inv at hinv
  rw [if_neg hnone] at hinv
  obtain ⟨pre, S, run, post, _, _, hts, _, _⟩ := hinv
  obtain ⟨_, hpos, hrest⟩ := tiles_head _ _ _ _ _ _ hts
  have hle := tiles_le _ _ _ _ _ hrest
  rw [hu, r6]
  omega

/-- C30: an append is reported only when nothing fits. On a sound directory, for a CREATE
or RENAME lookup on the final component of a name no entry carries, `ufs_lookup` returns
`EJUSTRETURN` and reports an append (`i_count == 0` with `i_offset` the directory size
rounded up to `DIRBLKSIZ`) if and only if no `DIRBLKSIZ` sub-block has a total free space
of at least `DIRECTSIZ` of the name length; otherwise it reports a slot (`i_count != 0`).
The size of the directory is left as it was (the lookup writes nothing to the directory
content, which it only reads). -/
theorem lookup_append_iff (env : ufs_env) (data : mem) (dp : inode)
    (cnp : componentname) (recs : List Nat) (henv : env_ok env)
    (hsize : dp.i_size % DIRBLKSIZ = 0)
    (htiles : tiles env.little_endian data 0 dp.i_size recs)
    (hok : ∀ o ∈ recs, entry_ok env data o)
    (habsent : ∀ o ∈ recs, ¬ is_match env data cnp o)
    (hop : cnp.cn_nameiop = CREATE ∨ cnp.cn_nameiop = RENAME)
    (hlast : cnp.cn_flags &&& ISLASTCN ≠ 0)
    (hlink : dp.i_effnlink ≠ 0) (hacc : env.access_err = 0) :
    (ufs_lookup env data dp cnp).ret = .returned EJUSTRETURN ∧
      (ufs_lookup env data dp cnp).dp.i_size = dp.i_size ∧
      (((ufs_lookup env data dp cnp).dp.i_count = 0 ∧
          (ufs_lookup env data dp cnp).dp.i_offset = roundup2 dp.i_size DIRBLKSIZ) ↔
        ∀ b, b % DIRBLKSIZ = 0 →
          subblock_free env data recs b < (DIRECTSIZ cnp.cn_namelen : Int)) ∧
      ((ufs_lookup env data dp cnp).dp.i_count ≠ 0 ↔
        ∃ b, b % DIRBLKSIZ = 0 ∧
          (DIRECTSIZ cnp.cn_namelen : Int) ≤ subblock_free env data recs b) := by
  have h512 : DIRBLKSIZ = 512 := rfl
  rw [h512] at hsize
  obtain ⟨st', hu, hinv, hfinv⟩ := lookup_slot_state env data dp cnp recs henv hsize htiles
    hok habsent hop hlast
  rw [hu]
  obtain ⟨r1, r2, r3, r4⟩ := lookup_notfound_slot env cnp cnp.cn_flags
    { dp with i_offset := dp.i_size } st' hop hlast hlink hacc
  obtain ⟨hN, hF⟩ := hfinv
  refine ⟨r1, r2, ?_, ?_⟩
  · by_cases hnone : st'.slotstatus = slot_status.NONE
    · obtain ⟨r5, r6⟩ := r3 hnone
      constructor
      · intro _ b hb
        exact (hN hnone).2 b hb
      · intro _
        exact ⟨r6, r5⟩
    · obtain ⟨r5, r6⟩ := r4 hnone
      unfold slot_inv at hinv
      rw [if_neg hnone] at hinv
      obtain ⟨pre, S, run, post, hrecs, hS, hts, _, hsub⟩ := hinv
      obtain ⟨_, hpos, hrest⟩ := tiles_head _ _ _ _ _ _ hts
      have hle := tiles_le _ _ _ _ _ hrest
      have hcnt : st'.slotsize ≠ 0 := by omega
      constructor
      · intro h
        rw [r6] at h
        exact absurd h.1 hcnt
      · intro h
        obtain ⟨b, hb, hge⟩ := hF hnone
        have := h b hb
        omega
  · by_cases hnone : st'.slotstatus = slot_status.NONE
    · obtain ⟨r5, r6⟩ := r3 hnone
      constructor
      · intro h; exact absurd r6 h
      · rintro ⟨b, hb, hge⟩
        have := (hN hnone).2 b hb
        omega
    · obtain ⟨r5, r6⟩ := r4 hnone
      unfold slot_inv at hinv
      rw [if_neg hnone] at hinv
      obtain ⟨pre, S, run, post, hrecs, hS, hts, _, hsub⟩ := hinv
      obtain ⟨_, hpos, hrest⟩ := tiles_head _ _ _ _ _ _ hts
      have hle := tiles_le _ _ _ _ _ hrest
      constructor
      · intro _; exact hF hnone
      · intro _
        rw [r6]
        omega

/-- Witness of C30: `block_abc` has 472 free bytes in its sub-block and a slot is reported
for the name `c`; `block_full` has none and an append is reported. -/
theorem lookup_append_iff_witness :
    (∃ b, b % DIRBLKSIZ = 0 ∧
      (DIRECTSIZ (cn_c CREATE).cn_namelen : Int) ≤ subblock_free env_le block_abc [0, 12, 24] b) ∧
    (∀ b, b % DIRBLKSIZ = 0 →
      subblock_free env_le block_full recs_full b < (DIRECTSIZ (cn_c CREATE).cn_namelen : Int)) :=
  ⟨(lookup_append_iff env_le block_abc dir_inode (cn_c CREATE) [0, 12, 24]
      ⟨⟨13, by decide, by decide⟩, fun _ => rfl⟩ (by decide) (by simp only [tiles]; decide)
      (by decide) (by decide) (Or.inl (by decide)) (by decide) (by decide)
      (by decide)).2.2.2.mp (by decide),
    (lookup_append_iff env_le block_full dir_inode (cn_c CREATE) recs_full
      ⟨⟨13, by decide, by decide⟩, fun _ => rfl⟩ (by decide)
      (by decide)
      (by decide) (by decide) (Or.inl (by decide)) (by decide) (by decide)
      (by decide)).2.2.1.mp (by decide)⟩

/-! ### The insert into a fresh block, for any entry -/

theorem direnter_newblk_data (env : ufs_env) (data : mem) (dp : inode) (dirp : mem)
    (hcount : dp.i_count = 0) (halign : dp.i_offset % 512 = 0) (hbal : env.balloc_err = 0) :
    (∃ e, (ufs_direnter env data dp dirp).ret = .returned e) ∧
      (ufs_direnter env data dp dirp).dp.i_size = dp.i_offset + DIRBLKSIZ ∧
      (ufs_direnter env data dp dirp).dirp = wr16 env.little_endian dirp 4 DIRBLKSIZ ∧
      ∀ x, x < dp.i_offset + 512 →
        (ufs_direnter env data dp dirp).data x =
          bcopy (wr16 env.little_endian dirp 4 DIRBLKSIZ) 0 (balloc_clear data dp.i_offset)
            dp.i_offset (DIRSIZ env (OFSFMT env) dirp 0) x := by
  have h512 : DIRBLKSIZ = 512 := rfl
  have hbd : dp.i_offset - (dp.i_offset &&& (env.f_iosize - 1)) +
      (dp.i_offset &&& (env.f_iosize - 1)) = dp.i_offset :=
    Nat.sub_add_cancel Nat.and_le_left
  have hpanic : ¬ (dp.i_offset &&& (DIRBLKSIZ - 1) ≠ 0) := by
    rw [and_511, halign]
    exact fun h => h rfl
  unfold ufs_direnter
  simp only []
  rw [if_pos hcount, if_neg hpanic, if_neg (by rw [hbal]; exact fun h => h rfl), hbd]
  split_ifs with h1 h2 h3
  · refine ⟨⟨_, rfl⟩, rfl, rfl, ?_⟩
    intro x hx
    show newblk_fill _ _ _ _ _ _ x = _
    rw [newblk_fill_frame _ _ _ _ _ _ _ (by rw [← Nat.add_assoc, hbd, h512]; omega)]
  · exact ⟨⟨_, rfl⟩, rfl, rfl, fun x _ => rfl⟩
  · exact ⟨⟨_, rfl⟩, rfl, rfl, fun x _ => rfl⟩
  · exact ⟨⟨_, rfl⟩, rfl, rfl, fun x _ => rfl⟩

/-- C26, as stated, fails: a CREATE lookup of `c` in the full block `block_full`, on a
directory whose size is 500, leaves no slot (`i_count = 0`) and the offset 512, the size
rounded up to a multiple of `DIRBLKSIZ`; the allocation succeeds and `ufs_direnter`
returns 0 with the size 1024, which is 524 more than before, not `DIRBLKSIZ`. -/
theorem direnter_grows_past_block :
    (ufs_lookup env_le block_full dir_inode_short (cn_c CREATE)).ret = .returned EJUSTRETURN ∧
      (ufs_lookup env_le block_full dir_inode_short (cn_c CREATE)).dp.i_count = 0 ∧
      (ufs_lookup env_le block_full dir_inode_short (cn_c CREATE)).dp.i_offset = 512 ∧
      (ufs_lookup env_le block_full dir_inode_short (cn_c CREATE)).dp.i_size = 500 ∧
      env_le.balloc_err = 0 ∧
      (create_entry env_le block_full dir_inode_short (cn_c CREATE) 36 0o100644
        (mem_of [])).ret = .returned 0 ∧
      (create_entry env_le block_full dir_inode_short (cn_c CREATE) 36 0o100644
        (mem_of [])).dp.i_size = 1024 ∧
      (1024 : Nat) ≠ 500 + DIRBLKSIZ := by
  refine ⟨by decide, by decide, by decide, by decide, by decide, by decide, by decide,
    by decide⟩

/-- C26 (amended): insert into a new block. When `ufs_lookup` left no slot
(`i_count == 0`, with `i_offset` on a `DIRBLKSIZ` boundary) and `VOP_BALLOC` succeeds,
`ufs_direnter` returns having written the entry held in `dirp` at the start of the block
at `i_offset`, with `d_reclen` exactly `DIRBLKSIZ`, over a zero-filled block and without
touching a byte below it; the size of the directory becomes `i_offset + DIRBLKSIZ`. That is
`DIRBLKSIZ` more than before when `i_offset` is the directory size; with `i_offset` the
size rounded up to a multiple of `DIRBLKSIZ`, as `ufs_lookup` sets it, the size grows by
exactly `DIRBLKSIZ` if and only if it was a multiple of `DIRBLKSIZ`. -/
theorem direnter_new_block (env : ufs_env) (data : mem) (dp : inode) (dirp : mem)
    (hcount : dp.i_count = 0) (halign : dp.i_offset % DIRBLKSIZ = 0)
    (hbal : env.balloc_err = 0) :
    (∃ e, (ufs_direnter env data dp dirp).ret = .returned e) ∧
      same_bytes (ufs_direnter env data dp dirp).data dp.i_offset
        (wr16 env.little_endian dirp 4 DIRBLKSIZ) 0 (DIRSIZ env (OFSFMT env) dirp 0) ∧
      d_reclen env.little_endian (ufs_direnter env data dp dirp).data dp.i_offset =
        DIRBLKSIZ ∧
      d_ino env.little_endian (ufs_direnter env data dp dirp).data dp.i_offset =
        d_ino env.little_endian dirp 0 ∧
      (∀ x, dp.i_offset + DIRSIZ env (OFSFMT env) dirp 0 ≤ x → x < dp.i_offset + DIRBLKSIZ →
        (ufs_direnter env data dp dirp).data x = 0) ∧
      (∀ x, x < dp.i_offset → (ufs_direnter env data dp dirp).data x = data x) ∧
      (ufs_direnter env data dp dirp).dp.i_size = dp.i_offset + DIRBLKSIZ ∧
      (dp.i_offset = dp.i_size →
        (ufs_direnter env data dp dirp).dp.i_size = dp.i_size + DIRBLKSIZ) ∧
      (dp.i_offset = roundup2 dp.i_size DIRBLKSIZ →
        ((ufs_direnter env data dp dirp).dp.i_size = dp.i_size + DIRBLKSIZ ↔
          dp.i_size % DIRBLKSIZ = 0)) := by
  have h512 : DIRBLKSIZ = 512 := rfl
  rw [h512] at halign
  obtain ⟨hret, hsz, _, hd⟩ := direnter_newblk_data env data dp dirp hcount halign hbal
  have hb := DIRSIZ_bounds env (OFSFMT env) dirp 0
  have hcopy : same_bytes (ufs_direnter env data dp dirp).data dp.i_offset
      (wr16 env.little_endian dirp 4 DIRBLKSIZ) 0 (DIRSIZ env (OFSFMT env) dirp 0) := by
    intro i hi
    rw [hd _ (by omega), bcopy_inside _ _ _ _ _ _ (by omega) (by omega)]
    congr 1
    omega
  refine ⟨hret, hcopy, ?_, ?_, ?_, ?_, hsz, fun h => by rw [hsz, h], fun h => ?_⟩
  rotate_right
  · rw [hsz, h, roundup2_512, h512]
    omega
  · rw [d_reclen_congr env.little_endian _ _ dp.i_offset 0 _ hcopy (by omega)]
    unfold d_reclen
    rw [Nat.zero_add]
    exact rd16_wr16 _ _ _ _ (by rw [h512]; omega)
  · rw [d_ino_congr env.little_endian _ _ dp.i_offset 0 _ hcopy (by omega)]
    unfold d_ino
    exact rd32_congr _ _ _ _ _ (wr16_other _ _ _ _ _ (by omega) (by omega))
      (wr16_other _ _ _ _ _ (by omega) (by omega))
      (wr16_other _ _ _ _ _ (by omega) (by omega))
      (wr16_other _ _ _ _ _ (by omega) (by omega))
  · intro x h1 h2
    rw [h512] at h2
    rw [hd x h2, bcopy_outside _ _ _ _ _ _ (Or.inr h1)]
    unfold balloc_clear
    rw [if_pos ⟨by omega, by rw [h512]; omega⟩]
  · intro x hx
    rw [hd x (by omega), bcopy_outside _ _ _ _ _ _ (Or.inl hx)]
    unfold balloc_clear
    rw [if_neg (by omega)]

/-- Witness of C26: the entry `c -> 36` appended to the one-block directory `block_abc`. -/
theorem direnter_new_block_witness :
    d_reclen env_le.little_endian (ufs_direnter env_le block_abc dp_end dirp_c).data
        dp_end.i_offset = DIRBLKSIZ ∧
      d_ino env_le.little_endian (ufs_direnter env_le block_abc dp_end dirp_c).data
        dp_end.i_offset = d_ino env_le.little_endian dirp_c 0 ∧
      (ufs_direnter env_le block_abc dp_end dirp_c).dp.i_size = dp_end.i_size + DIRBLKSIZ :=
  ⟨(direnter_new_block env_le block_abc dp_end dirp_c (by decide) (by decide)
      (by decide)).2.2.1,
    (direnter_new_block env_le block_abc dp_end dirp_c (by decide) (by decide)
      (by decide)).2.2.2.1,
    (direnter_new_block env_le block_abc dp_end dirp_c (by decide) (by decide)
      (by decide)).2.2.2.2.2.2.2.1 (by decide)⟩

/-! ### The directory after a removal -/

theorem tiles_parts (env : ufs_env) (d : mem) (N : Nat) (A : List Nat) (t : Nat)
    (B : List Nat) (htiles : tiles env.little_endian d 0 N (A ++ t :: B))
    (hok : ∀ o ∈ A ++ t :: B, entry_ok env d o) :
    tiles env.little_endian d 0 t A ∧
      tiles env.little_endian d (t + d_reclen env.little_endian d t) N B ∧
      12 ≤ d_reclen env.little_endian d t ∧
      (∀ o ∈ A, 12 ≤ d_reclen env.little_endian d o ∧ o + d_reclen env.little_endian d o ≤ t) ∧
      (∀ o ∈ B, 12 ≤ d_reclen env.little_endian d o ∧ t + d_reclen env.little_endian d t ≤ o ∧
        o + d_reclen env.little_endian d o ≤ N) := by
  obtain ⟨htA, htB⟩ := tiles_mid _ _ _ _ _ _ _ htiles
  obtain ⟨_, _, htB'⟩ := tiles_head _ _ _ _ _ _ htB
  have h12 : ∀ o ∈ A ++ t :: B, 12 ≤ d_reclen env.little_endian d o := by
    intro o ho
    have := (entry_ok_facts env d o (hok o ho)).2.2
    have := (DIRSIZ_bounds env (OFSFMT env) d o).1
    omega
  refine ⟨htA, htB', h12 t (by simp), ?_, ?_⟩
  · intro o ho
    exact ⟨h12 o (by simp [ho]), (tiles_mem_bounds _ _ _ _ _ htA o ho).2⟩
  · intro o ho
    have := tiles_mem_bounds _ _ _ _ _ htB' o ho
    exact ⟨h12 o (by simp [ho]), this.1, this.2⟩

theorem filter_ne_mid (A : List Nat) (t : Nat) (B : List Nat) (hA : ∀ o ∈ A, o ≠ t)
    (hB : ∀ o ∈ B, o ≠ t) :
    (A ++ t :: B).filter (fun o => decide (o ≠ t)) = A ++ B := by
  rw [List.filter_append, List.filter_cons_of_neg (by simp),
    List.filter_eq_self.mpr (fun o ho => by simpa using hA o ho),
    List.filter_eq_self.mpr (fun o ho => by simpa using hB o ho)]

/-- Removal of the first entry of a sub-block: its inode number is set to 0. -/
theorem remove_first (env : ufs_env) (d : mem) (N : Nat) (A : List Nat) (t : Nat)
    (B : List Nat) (htiles : tiles env.little_endian d 0 N (A ++ t :: B))
    (hok : ∀ o ∈ A ++ t :: B, entry_ok env d o) :
    removed_entry env d N (A ++ t :: B) t (wr32 env.little_endian d t 0) (A ++ t :: B) := by
  obtain ⟨htA, htB, ht12, hA, hB⟩ := tiles_parts env d N A t B htiles hok
  have hframe : ∀ x, x < t ∨ t + 4 ≤ x → wr32 env.little_endian d t 0 x = d x :=
    fun x hx => wr32_other _ _ _ _ _ hx
  have hother : ∀ o ∈ A ++ t :: B, o ≠ t →
      ∀ x, o ≤ x → x < o + d_reclen env.little_endian d o →
        wr32 env.little_endian d t 0 x = d x := by
    intro o ho hne x h1 h2
    apply hframe
    simp only [List.mem_append, List.mem_cons] at ho
    rcases ho with h | h | h
    · have := hA o h; omega
    · exact absurd h hne
    · have := hB o h; omega
  have hrt : d_reclen env.little_endian (wr32 env.little_endian d t 0) t =
      d_reclen env.little_endian d t := by
    unfold d_reclen
    exact rd16_congr _ _ _ _ _ (hframe _ (by omega)) (hframe _ (by omega))
  have hino : d_ino env.little_endian (wr32 env.little_endian d t 0) t = 0 := by
    unfold d_ino
    exact rd32_wr32 _ _ _ _ (by decide)
  have hnl : namlen_of env (wr32 env.little_endian d t 0) t = namlen_of env d t := by
    unfold namlen_of d_type d_namlen byte
    rw [hframe (t + 6) (by omega), hframe (t + 7) (by omega)]
  have hrec : ∀ o ∈ A ++ t :: B,
      d_reclen env.little_endian (wr32 env.little_endian d t 0) o =
        d_reclen env.little_endian d o := by
    intro o ho
    by_cases hne : o = t
    · rw [hne]; exact hrt
    · exact (entry_frame env d _ o (hother o ho hne) (hok o ho)).2.1
  have hnomatch : ∀ cnp : componentname, ¬ is_match env (wr32 env.little_endian d t 0) cnp t :=
    fun cnp h => h.1 hino
  refine ⟨tiles_congr _ _ _ _ _ _ hrec htiles, ?_, ?_, ?_, ?_⟩
  · intro o ho
    by_cases hne : o = t
    · rw [hne]
      unfold entry_ok
      rw [dirbadentry_false_iff]
      have h0 := (dirbadentry_false_iff env d t t).mp (hok t (by simp))
      rw [hrt, DIRSIZ_namlen, hnl, ← DIRSIZ_namlen]
      exact ⟨h0.1, h0.2.1, h0.2.2.1, fun h => absurd hino h⟩
    · exact (entry_frame env d _ o (hother o ho hne) (hok o ho)).1
  · intro cnp hlen
    rw [List.filter_filter]
    apply List.filter_congr
    intro o ho
    by_cases hne : o = t
    · subst hne
      simp [hnomatch cnp]
    · have := (entry_frame env d _ o (hother o ho hne) (hok o ho)).2.2 cnp hlen
      simp [hne, this]
  · intro o ho hne
    have hf := hother o ho hne
    have h12 : 12 ≤ d_reclen env.little_endian d o := by
      have := (entry_ok_facts env d o (hok o ho)).2.2
      have := (DIRSIZ_bounds env (OFSFMT env) d o).1
      omega
    refine ⟨ho, ?_, ?_⟩
    · unfold d_ino
      exact rd32_congr _ _ _ _ _ (hf _ (by omega) (by omega)) (hf _ (by omega) (by omega))
        (hf _ (by omega) (by omega)) (hf _ (by omega) (by omega))
    · unfold d_type byte
      rw [hf _ (by omega) (by omega)]
  · refine ⟨t, by simp, ?_⟩
    unfold entry_free
    rw [hrt, if_neg (by rw [hino]; exact fun h => h rfl)]
    omega

/-- Removal of an entry that is not the first of its sub-block: its record length is
added to the one of the record before it. -/
theorem remove_merge (env : ufs_env) (d : mem) (N : Nat) (A : List Nat) (q t : Nat)
    (B : List Nat) (htiles : tiles env.little_endian d 0 N (A ++ q :: t :: B))
    (hok : ∀ o ∈ A ++ q :: t :: B, entry_ok env d o) (ht : t % 512 ≠ 0) :
    removed_entry env d N (A ++ q :: t :: B) t
      (wr16 env.little_endian d (q + 4)
        (d_reclen env.little_endian d q + d_reclen env.little_endian d t))
      (A ++ q :: B) := by
  obtain ⟨htA, htqB, hq12, hA, hB⟩ := tiles_parts env d N A q (t :: B) htiles hok
  obtain ⟨htq, ht0, htB⟩ := tiles_head _ _ _ _ _ _ htqB
  have hokq := hok q (by simp)
  have hokt := hok t (by simp)
  obtain ⟨hq4, hqfit, hqwh⟩ := entry_ok_facts env d q hokq
  obtain ⟨ht4, htfit, htwh⟩ := entry_ok_facts env d t hokt
  have ht12 : 12 ≤ d_reclen env.little_endian d t := (hB t (by simp)).1
  have hB' : ∀ o ∈ B, 12 ≤ d_reclen env.little_endian d o ∧
      t + d_reclen env.little_endian d t ≤ o := by
    intro o ho
    have := tiles_mem_bounds _ _ _ _ _ htB o ho
    exact ⟨(hB o (by simp [ho])).1, this.1⟩
  generalize hd2 : wr16 env.little_endian d (q + 4)
    (d_reclen env.little_endian d q + d_reclen env.little_endian d t) = d2
  have hframe : ∀ x, x ≠ q + 4 → x ≠ q + 5 → d2 x = d x := by
    intro x h4 h5
    rw [← hd2]
    exact wr16_other _ _ _ _ _ h4 (by omega)
  have hother : ∀ o ∈ A ++ B, ∀ x, o ≤ x → x < o + d_reclen env.little_endian d o →
      d2 x = d x := by
    intro o ho x h1 h2
    rcases List.mem_append.mp ho with h | h
    · have := hA o h
      exact hframe x (by omega) (by omega)
    · have := hB' o h
      exact hframe x (by omega) (by omega)
  have hokAB : ∀ o ∈ A ++ B, entry_ok env d o := by
    intro o ho
    apply hok
    simp only [List.mem_append, List.mem_cons] at ho ⊢
    tauto
  have hrq : d_reclen env.little_endian d2 q =
      d_reclen env.little_endian d q + d_reclen env.little_endian d t := by
    rw [← hd2]
    unfold d_reclen
    exact rd16_wr16 _ _ _ _ (by
      have h1 : rd16 env.little_endian d (q + 4) = d_reclen env.little_endian d q := rfl
      have h2 : rd16 env.little_endian d (t + 4) = d_reclen env.little_endian d t := rfl
      omega)
  have hsame : same_entry env d q d2 q := by
    intro i _ h4 h5
    exact hframe _ (by omega) (by omega)
  have hrec : ∀ o ∈ A ++ B, d_reclen env.little_endian d2 o = d_reclen env.little_endian d o :=
    fun o ho => (entry_frame env d d2 o (hother o ho) (hokAB o ho)).2.1
  have hne : (∀ o ∈ A, o ≠ t) ∧ (∀ o ∈ B, o ≠ t) ∧ q ≠ t := by
    refine ⟨?_, ?_, by omega⟩
    · intro o ho
      have := hA o ho
      omega
    · intro o ho
      have := hB' o ho
      omega
  have hmatch : ∀ cnp : componentname, 0 < cnp.cn_namelen → ∀ o ∈ A ++ q :: B,
      (is_match env d2 cnp o ↔ is_match env d cnp o) := by
    intro cnp hlen o ho
    simp only [List.mem_append, List.mem_cons] at ho
    rcases ho with h | h | h
    · exact (entry_frame env d d2 o (hother o (by simp [h])) (hokAB o (by simp [h]))).2.2 cnp hlen
    · rw [h]; exact same_entry_match env d q d2 q cnp hlen hsame
    · exact (entry_frame env d d2 o (hother o (by simp [h])) (hokAB o (by simp [h]))).2.2 cnp hlen
  refine ⟨?_, ?_, ?_, ?_, ?_⟩
  · refine tiles_append _ _ _ _ _ _ _
      (tiles_congr _ _ _ _ _ _ (fun o ho => hrec o (by simp [ho])) htA) ?_
    refine ⟨rfl, by rw [hrq]; omega, ?_⟩
    rw [hrq, ← Nat.add_assoc, ← htq]
    exact tiles_congr _ _ _ _ _ _ (fun o ho => hrec o (by simp [ho])) htB
  · intro o ho
    simp only [List.mem_append, List.mem_cons] at ho
    rcases ho with h | h | h
    · exact (entry_frame env d d2 o (hother o (by simp [h])) (hokAB o (by simp [h]))).1
    · rw [h]
      exact same_entry_ok env d q d2 q hsame hokq (by rw [hrq]; omega) (by rw [hrq]; omega)
        (by rw [hrq]; omega)
    · exact (entry_frame env d d2 o (hother o (by simp [h])) (hokAB o (by simp [h]))).1
  · intro cnp hlen
    have e : (A ++ q :: t :: B).filter (fun o => decide (o ≠ t)) = A ++ q :: B := by
      have := filter_ne_mid (A ++ [q]) t B
        (fun o ho => by
          rcases List.mem_append.mp ho with h | h
          · exact hne.1 o h
          · have : o = q := by simpa using h
            rw [this]; exact hne.2.2)
        hne.2.1
      simpa using this
    rw [e]
    apply List.filter_congr
    intro o ho
    have := hmatch cnp hlen o ho
    simp [this]
  · intro o ho _
    simp only [List.mem_append, List.mem_cons] at ho
    have hmem : o ∈ A ++ q :: t :: B := by
      simp only [List.mem_append, List.mem_cons]
      tauto
    have h12 : 12 ≤ d_reclen env.little_endian d o := by
      have := (entry_ok_facts env d o (hok o hmem)).2.2
      have := (DIRSIZ_bounds env (OFSFMT env) d o).1
      omega
    have hf : ∀ x, o ≤ x → x < o + 8 → x ≠ o + 4 → x ≠ o + 5 → d2 x = d x := by
      intro x h1 h2 h4 h5
      rcases ho with h | h | h
      · have := hA o h
        exact hframe x (by omega) (by omega)
      · exact hframe x (by omega) (by omega)
      · have := hB' o h
        exact hframe x (by omega) (by omega)
    refine ⟨hmem, ?_, ?_⟩
    · unfold d_ino
      exact rd32_congr _ _ _ _ _ (hf _ (by omega) (by omega) (by omega) (by omega))
        (hf _ (by omega) (by omega) (by omega) (by omega))
        (hf _ (by omega) (by omega) (by omega) (by omega))
        (hf _ (by omega) (by omega) (by omega) (by omega))
    · unfold d_type byte
      rw [hf _ (by omega) (by omega) (by omega) (by omega)]
  · refine ⟨q, by simp, ?_⟩
    have hD := (same_entry_fields env d q d2 q hsame).2.2.2.1
    unfold entry_free
    rw [hrq, hD]
    split_ifs <;> omega

/-! ### Lookup for DELETE, then `ufs_dirremove` -/

theorem found_tail_delete (env : ufs_env) (cnp : componentname) (cn_flags : Nat)
    (D : inode) (st : lookup_state) (hop : cnp.cn_nameiop = DELETE)
    (hlast : cnp.cn_flags &&& ISLASTCN ≠ 0) (hacc : env.access_err = 0) :
    (found_tail env cnp cn_flags D st).dp =
      if D.i_offset &&& (DIRBLKSIZ - 1) = 0 then { D with i_count := 0 }
      else { D with i_count := D.i_offset - st.prevoff } := by
  unfold found_tail
  rw [if_pos ⟨hop, hlast⟩, if_neg (by rw [hacc]; exact fun h => h rfl)]
  simp only []
  by_cases hc : D.i_offset &&& (DIRBLKSIZ - 1) = 0
  · rw [if_pos hc]
    split_ifs <;> rfl
  · rw [if_neg hc]
    split_ifs <;> rfl

theorem skip_all_prevoff (env : ufs_env) (data : mem) (n : Nat) (A : List Nat) (q b : Nat)
    (st : lookup_state) (ht : tiles env.little_endian data st.i_offset b (A ++ [q])) :
    (skip_all env data n (A ++ [q]) st).prevoff = q := by
  obtain ⟨htA, htq⟩ := tiles_mid _ _ _ _ _ _ _ ht
  obtain ⟨s1, _, _⟩ := skip_all_frame env data n A st.i_offset q st htA rfl
  rw [skip_all_append]
  show (advance env data n (skip_all env data n A st) q).prevoff = q
  rw [(advance_frame env data n _ q).2.2.2, s1]

/-- What a DELETE lookup of the final component leaves in the inode when it finds its
entry at `t`: the offset and the record length of the entry, and in `i_count` the distance
to the record before it, or 0 when `t` starts a sub-block. -/
theorem lookup_delete_dp (env : ufs_env) (data : mem) (dp : inode) (cnp : componentname)
    (A : List Nat) (t : Nat) (B : List Nat) (henv : env_ok env)
    (hsize : dp.i_size % 512 = 0)
    (htiles : tiles env.little_endian data 0 dp.i_size (A ++ t :: B))
    (hok : ∀ o ∈ A ++ t :: B, entry_ok env data o)
    (hA : ∀ o ∈ A, ¬ is_match env data cnp o)
    (hp : is_match env data cnp t) (hwht : ¬ is_whiteout env data t)
    (hop : cnp.cn_nameiop = DELETE) (hlast : cnp.cn_flags &&& ISLASTCN ≠ 0)
    (hacc : env.access_err = 0) :
    (ufs_lookup env data dp cnp).dp.i_offset = t ∧
      (ufs_lookup env data dp cnp).dp.i_reclen = d_reclen env.little_endian data t ∧
      (ufs_lookup env data dp cnp).dp.i_size = dp.i_size ∧
      (ufs_lookup env data dp cnp).dp.i_effnlink = dp.i_effnlink ∧
      (t % 512 = 0 → (ufs_lookup env data dp cnp).dp.i_count = 0) ∧
      (t % 512 ≠ 0 → ∃ A2 q, A = A2 ++ [q] ∧ q + d_reclen env.little_endian data q = t ∧
        (ufs_lookup env data dp cnp).dp.i_count = d_reclen env.little_endian data q) := by
  have h1 : lookup_onepass dp cnp := by
    unfold lookup_onepass
    left
    rw [hop]
    decide
  obtain ⟨hi, _⟩ := (lookup_init_fields env dp cnp).1 h1
  obtain ⟨st', hu, hprev⟩ := lookup_onepass_found env data dp cnp A t B henv hsize htiles hok
    hA hp hwht h1
  obtain ⟨htA, htB⟩ := tiles_mid _ _ _ _ _ _ _ htiles
  obtain ⟨_, _, htB'⟩ := tiles_head _ _ _ _ _ _ htB
  obtain ⟨_, hpfit, hpwhole⟩ := entry_ok_facts env data t (hok t (by simp))
  have hpb := tiles_le _ _ _ _ _ htB'
  have hfit : t + DIRSIZ env (OFSFMT env) data t ≤ dp.i_size := by omega
  have hfi : found_inode cnp
      { dp with i_offset := t, i_ino := d_ino env.little_endian data t,
                i_reclen := d_reclen env.little_endian data t } =
      { dp with i_offset := t, i_ino := d_ino env.little_endian data t,
                i_reclen := d_reclen env.little_endian data t } := by
    unfold found_inode
    rw [if_neg]
    rw [hop]
    intro h
    exact absurd h.2 (by decide)
  have hdp := found_tail_delete env cnp cnp.cn_flags
    { dp with i_offset := t, i_ino := d_ino env.little_endian data t,
              i_reclen := d_reclen env.little_endian data t } st' hop hlast hacc
  rw [hu, lookup_found_fits env data cnp cnp.cn_flags _ st' t hfit, hfi, hdp]
  have hand : (t &&& (DIRBLKSIZ - 1) = 0) ↔ t % 512 = 0 := by rw [and_511]
  by_cases hz : t % 512 = 0
  · rw [if_pos (hand.mpr hz)]
    exact ⟨rfl, rfl, rfl, rfl, fun _ => rfl, fun h => absurd hz h⟩
  · rw [if_neg (fun h => hz (hand.mp h))]
    refine ⟨rfl, rfl, rfl, rfl, fun h => absurd h hz, fun _ => ?_⟩
    have hne : A ≠ [] := by
      intro h
      rw [h] at htA
      have : (0 : Nat) = t := htA
      omega
    obtain ⟨A2, q, hA2⟩ : ∃ A2 q, A = A2 ++ [q] :=
      ⟨A.dropLast, A.getLast hne, (List.dropLast_append_getLast hne).symm⟩
    subst hA2
    obtain ⟨_, htq⟩ := tiles_mid _ _ _ _ _ _ _ htA
    have hq : q + d_reclen env.little_endian data q = t := htq.2.2
    have hpq : st'.prevoff = q := by
      rw [hprev]
      exact skip_all_prevoff env data _ A2 q t _ (by
        show tiles env.little_endian data (lookup_init env dp cnp).i_offset t (A2 ++ [q])
        rw [hi]; exact htA)
    refine ⟨A2, q, rfl, hq, ?_⟩
    show t - st'.prevoff = _
    rw [hpq]
    omega

/-- The directory a DELETE lookup followed by `ufs_dirremove` leaves. -/
theorem remove_entry_layout (env : ufs_env) (data : mem) (dp : inode) (cnp : componentname)
    (ip : Option link_inode) (flags : Nat)
    (A : List Nat) (t : Nat) (B : List Nat) (henv : env_ok env)
    (hsize : dp.i_size % 512 = 0)
    (htiles : tiles env.little_endian data 0 dp.i_size (A ++ t :: B))
    (hok : ∀ o ∈ A ++ t :: B, entry_ok env data o)
    (hA : ∀ o ∈ A, ¬ is_match env data cnp o)
    (hp : is_match env data cnp t) (hwht : ¬ is_whiteout env data t)
    (hop : cnp.cn_nameiop = DELETE) (hlast : cnp.cn_flags &&& ISLASTCN ≠ 0)
    (hacc : env.access_err = 0) (hflag : flags &&& DOWHITEOUT = 0) :
    (∃ recs2, removed_entry env data dp.i_size (A ++ t :: B) t
        (remove_entry env data dp cnp ip flags).data recs2) ∧
      (remove_entry env data dp cnp ip flags).dp.i_size = dp.i_size ∧
      (remove_entry env data dp cnp ip flags).dp.i_effnlink = dp.i_effnlink ∧
      ∃ e, (remove_entry env data dp cnp ip flags).ret = .returned e ∧
        (env.write_err = 0 → e = 0) := by
  obtain ⟨l1, l2, l3, le, l4, l5⟩ := lookup_delete_dp env data dp cnp A t B henv hsize htiles hok
    hA hp hwht hop hlast hacc
  have hio : env.blkatoff_err ((ufs_lookup env data dp cnp).dp.i_offset -
      (ufs_lookup env data dp cnp).dp.i_count) = 0 := henv.2 _
  have hdata := dirremove_data env data (ufs_lookup env data dp cnp).dp ip flags hflag hio
  have hrest : (remove_entry env data dp cnp ip flags).dp.i_size = dp.i_size ∧
      (remove_entry env data dp cnp ip flags).dp.i_effnlink = dp.i_effnlink ∧
      ∃ e, (remove_entry env data dp cnp ip flags).ret = .returned e ∧
        (env.write_err = 0 → e = 0) := by
    unfold remove_entry ufs_dirremove
    simp only []
    rw [if_neg (by rw [hflag]; exact fun h => h rfl),
      if_neg (by rw [hio]; exact fun h => h rfl)]
    split_ifs
    · obtain ⟨_, f2, f3⟩ := dirremove_out_fields env (ufs_lookup env data dp cnp).dp
        (wr32 env.little_endian data ((ufs_lookup env data dp cnp).dp.i_offset -
          (ufs_lookup env data dp cnp).dp.i_count) 0) ip flags
      rw [f2]
      exact ⟨l3, le, f3⟩
    · obtain ⟨_, f2, f3⟩ := dirremove_out_fields env (ufs_lookup env data dp cnp).dp
        (wr16 env.little_endian data ((ufs_lookup env data dp cnp).dp.i_offset -
          (ufs_lookup env data dp cnp).dp.i_count + 4)
          (d_reclen env.little_endian data ((ufs_lookup env data dp cnp).dp.i_offset -
            (ufs_lookup env data dp cnp).dp.i_count) +
            (ufs_lookup env data dp cnp).dp.i_reclen)) ip flags
      rw [f2]
      exact ⟨l3, le, f3⟩
  refine ⟨?_, hrest⟩
  unfold remove_entry
  rw [hdata]
  by_cases hz : t % 512 = 0
  · rw [if_pos (l4 hz), l1, l4 hz, Nat.sub_zero]
    exact ⟨_, remove_first env data dp.i_size A t B htiles hok⟩
  · obtain ⟨A2, q, hA2, hq, hcnt⟩ := l5 hz
    have hpos : 0 < d_reclen env.little_endian data q := by
      subst hA2
      have := (tiles_parts env data dp.i_size A2 q (t :: B)
        (by simpa using htiles) (by simpa using hok)).2.2.1
      omega
    have hsub : t - d_reclen env.little_endian data q = q := by omega
    rw [if_neg (by rw [hcnt]; omega), l1, l2, hcnt, hsub]
    subst hA2
    have hl : A2 ++ [q] ++ t :: B = A2 ++ q :: t :: B := by simp
    rw [hl] at htiles hok ⊢
    exact ⟨_, remove_merge env data dp.i_size A2 q t B htiles hok hz⟩

/-! ### Lookups after a removal -/

theorem first_match_filter (env : ufs_env) (data : mem) (cnp : componentname)
    (l : List Nat) :
    first_match env data cnp l =
      (l.filter (fun o => decide (is_match env data cnp o))).head? := by
  unfold first_match
  induction l with
  | nil => rfl
  | cons x xs ih =>
    by_cases h : is_match env data cnp x
    · simp [List.find?, List.filter, h]
    · simp only [List.find?, List.filter, h, decide_False]
      exact ih

theorem lookup_hit_eq (env : ufs_env) (data : mem) (dp : inode) (cnp : componentname)
    (recs : List Nat) :
    lookup_hit env data dp cnp recs =
      hit_of dp cnp (recs.filter (fun o => decide (is_match env data cnp o))) := by
  unfold lookup_hit hit_of
  simp only [first_match_filter]
  have hc : ∀ p : Nat → Bool,
      (recs.filter p).filter (fun o => decide (is_match env data cnp o)) =
        (recs.filter (fun o => decide (is_match env data cnp o))).filter p := by
    intro p
    rw [List.filter_filter, List.filter_filter]
    apply List.filter_congr
    intro o _
    exact Bool.and_comm _ _
  rw [hc, hc]

theorem lookup_hit_removed (env : ufs_env) (d : mem) (N : Nat) (recs : List Nat) (t : Nat)
    (d2 : mem) (recs2 : List Nat) (h : removed_entry env d N recs t d2 recs2)
    (dp3 : inode) (cnp3 : componentname) (hlen : 0 < cnp3.cn_namelen) :
    (¬ is_match env d cnp3 t →
      lookup_hit env d2 dp3 cnp3 recs2 = lookup_hit env d dp3 cnp3 recs) ∧
    ((∀ o ∈ recs, o ≠ t → ¬ is_match env d cnp3 o) →
      lookup_hit env d2 dp3 cnp3 recs2 = none) := by
  rw [lookup_hit_eq, lookup_hit_eq, h.names cnp3 hlen, List.filter_filter]
  constructor
  · intro hnt
    congr 1
    apply List.filter_congr
    intro o _
    by_cases ho : o = t
    · subst ho; simp [hnt]
    · simp [ho]
  · intro hno
    rw [List.filter_eq_nil_iff.mpr]
    · unfold hit_of
      split_ifs <;> rfl
    · intro o ho
      by_cases hot : o = t
      · simp [hot]
      · simp [hot, hno o ho hot]

theorem same_name_named (env : ufs_env) (d : mem) (cnp cnp3 : componentname) (o : Nat)
    (hl : cnp3.cn_namelen = cnp.cn_namelen)
    (hb : ∀ i, i < cnp.cn_namelen → byte cnp3.cn_nameptr i = byte cnp.cn_nameptr i) :
    entry_named env d cnp3 o ↔ entry_named env d cnp o := by
  unfold entry_named
  rw [hl]
  constructor
  · rintro ⟨h1, h2, h3⟩
    exact ⟨h1, h2, fun i hi => by rw [h3 i hi, hb i hi]⟩
  · rintro ⟨h1, h2, h3⟩
    exact ⟨h1, h2, fun i hi => by rw [h3 i hi, hb i hi]⟩

theorem lookup_notfound_fails (env : ufs_env) (cnp : componentname) (cn_flags : Nat)
    (dp : inode) (st : lookup_state) :
    (lookup_notfound env cnp cn_flags dp st).vpp = none ∧
      (lookup_notfound env cnp cn_flags dp st).ret ≠ .returned 0 ∧
      (cnp.cn_nameiop = LOOKUP →
        (lookup_notfound env cnp cn_flags dp st).ret = .returned ENOENT) := by
  obtain ⟨h1, h2⟩ := lookup_notfound_returns env cnp cn_flags dp st
  refine ⟨h1, ?_, fun hop => (lookup_notfound_plain env cnp cn_flags dp st hop).1⟩
  rcases h2 with h | h | ⟨ha, h⟩
  · rw [h]; decide
  · rw [h]; decide
  · rw [h]
    intro hc
    injection hc with hc
    exact ha hc

/-- The lookups of a directory after the removal of the entry at `t`: a name no other
record carries is not found, and a name the record at `t` did not carry gets the outcome it
got before. -/
theorem lookup_after_removal (env : ufs_env) (d : mem) (recs : List Nat) (t : Nat)
    (d2 : mem) (recs2 : List Nat) (dp3 : inode) (cnp3 : componentname)
    (henv : env_ok env) (hsize : dp3.i_size % 512 = 0) (hdiroff : dp3.i_diroff % 512 = 0)
    (htiles : tiles env.little_endian d 0 dp3.i_size recs)
    (hok : ∀ o ∈ recs, entry_ok env d o)
    (h : removed_entry env d dp3.i_size recs t d2 recs2) (hlen : 0 < cnp3.cn_namelen) :
    ((∀ o ∈ recs, o ≠ t → ¬ is_match env d cnp3 o) →
      (ufs_lookup env d2 dp3 cnp3).vpp = none ∧
        (ufs_lookup env d2 dp3 cnp3).ret ≠ .returned 0 ∧
        (cnp3.cn_nameiop = LOOKUP → (ufs_lookup env d2 dp3 cnp3).ret = .returned ENOENT)) ∧
    (¬ is_match env d cnp3 t →
      (ufs_lookup env d2 dp3 cnp3).ret = (ufs_lookup env d dp3 cnp3).ret ∧
        (ufs_lookup env d2 dp3 cnp3).vpp = (ufs_lookup env d dp3 cnp3).vpp) := by
  obtain ⟨hsame, hgone⟩ := lookup_hit_removed env d dp3.i_size recs t d2 recs2 h dp3 cnp3 hlen
  obtain ⟨hnone2, hsome2⟩ := lookup_by_hit env d2 dp3 cnp3 recs2 henv hsize hdiroff h.chain
    h.sound
  obtain ⟨hnone, hsome⟩ := lookup_by_hit env d dp3 cnp3 recs henv hsize hdiroff htiles hok
  constructor
  · intro hno
    obtain ⟨off, st', hu⟩ := hnone2 (hgone hno)
    rw [hu]
    exact lookup_notfound_fails env cnp3 _ _ _
  · intro hnt
    have hh := hsame hnt
    cases hhit : lookup_hit env d dp3 cnp3 recs with
    | none =>
      rw [hhit] at hh
      obtain ⟨off2, st2, hu2⟩ := hnone2 hh
      obtain ⟨off, st, hu⟩ := hnone hhit
      rw [hu2, hu]
      exact lookup_notfound_outcome env cnp3 _ _ _ _ _ rfl
    | some p =>
      rw [hhit] at hh
      obtain ⟨hp2, hm2, hw2, hf2⟩ := hsome2 p hh
      obtain ⟨hp, hm, hw, hf⟩ := hsome p hhit
      have hpt : p ≠ t := fun hc => hnt (hc ▸ hm)
      obtain ⟨_, kino, ktype⟩ := h.kept p hp2 hpt
      have hwiff : is_whiteout env d2 p ↔ is_whiteout env d p := by
        unfold is_whiteout
        rw [ktype]
      by_cases hwp : is_whiteout env d p
      · obtain ⟨st2, hu2⟩ := hw2 (hwiff.mpr hwp)
        obtain ⟨st, hu⟩ := hw hwp
        rw [hu2, hu]
        exact lookup_notfound_outcome env cnp3 _ _ _ _ _ rfl
      · obtain ⟨st2, hu2⟩ := hf2 (fun hc => hwp (hwiff.mp hc))
        obtain ⟨st, hu⟩ := hf hwp
        have hfit2 : p + DIRSIZ env (OFSFMT env) d2 p ≤ dp3.i_size := by
          have := (entry_ok_facts env d2 p (h.sound p hp2)).2.2
          have := tiles_mem_bounds _ _ _ _ _ h.chain p hp2
          omega
        have hfit : p + DIRSIZ env (OFSFMT env) d p ≤ dp3.i_size := by
          have := (entry_ok_facts env d p (hok p hp)).2.2
          have := tiles_mem_bounds _ _ _ _ _ htiles p hp
          omega
        rw [hu2, hu, lookup_found_fits env d2 cnp3 _ _ st2 p hfit2,
          lookup_found_fits env d cnp3 _ _ st p hfit]
        obtain ⟨a1, a2, a3, a4, _⟩ := found_inode_fields cnp3
          { dp3 with i_offset := p, i_ino := d_ino env.little_endian d2 p,
                     i_reclen := d_reclen env.little_endian d2 p }
        obtain ⟨b1, b2, b3, b4, _⟩ := found_inode_fields cnp3
          { dp3 with i_offset := p, i_ino := d_ino env.little_endian d p,
                     i_reclen := d_reclen env.little_endian d p }
        exact found_tail_outcome env cnp3 _ _ _ st2 st (by rw [a1, b1])
          (by rw [a2, b2]; exact kino) (by rw [a3, b3]) (by rw [a4, b4])

/-- C11: remove, then lookup. On a sound directory in which the name of `cnp` is carried
by the in-use entry at `t` and by no other record, a DELETE lookup of that name followed by
`ufs_dirremove` without `DOWHITEOUT` returns, and in the directory it leaves every later
lookup of the same name fails and hands back no vnode (a plain lookup returns `ENOENT`),
while every lookup of another name has the outcome (error and inode number) it had
before. -/
theorem remove_then_lookup (env : ufs_env) (data : mem) (dp : inode) (cnp : componentname)
    (ip : Option link_inode) (flags : Nat)
    (A : List Nat) (t : Nat) (B : List Nat) (henv : env_ok env)
    (hsize : dp.i_size % DIRBLKSIZ = 0)
    (htiles : tiles env.little_endian data 0 dp.i_size (A ++ t :: B))
    (hok : ∀ o ∈ A ++ t :: B, entry_ok env data o)
    (hA : ∀ o ∈ A, ¬ entry_named env data cnp o)
    (hB : ∀ o ∈ B, ¬ entry_named env data cnp o)
    (hp : entry_named env data cnp t) (hwht : ¬ is_whiteout env data t)
    (hlen : 0 < cnp.cn_namelen)
    (hop : cnp.cn_nameiop = DELETE) (hlast : cnp.cn_flags &&& ISLASTCN ≠ 0)
    (hacc : env.access_err = 0) (hflag : flags &&& DOWHITEOUT = 0) :
    (∃ e, (remove_entry env data dp cnp ip flags).ret = .returned e ∧
      (env.write_err = 0 → e = 0)) ∧
    ∀ (dp3 : inode) (cnp3 : componentname), dp3.i_size = dp.i_size →
      dp3.i_diroff % DIRBLKSIZ = 0 → 0 < cnp3.cn_namelen →
      ((cnp3.cn_namelen = cnp.cn_namelen ∧
          ∀ i, i < cnp.cn_namelen → byte cnp3.cn_nameptr i = byte cnp.cn_nameptr i) →
        (ufs_lookup env (remove_entry env data dp cnp ip flags).data dp3 cnp3).vpp = none ∧
          (ufs_lookup env (remove_entry env data dp cnp ip flags).data dp3 cnp3).ret ≠
            .returned 0 ∧
          (cnp3.cn_nameiop = LOOKUP →
            (ufs_lookup env (remove_entry env data dp cnp ip flags).data dp3 cnp3).ret =
              .returned ENOENT)) ∧
      (¬ (cnp3.cn_namelen = cnp.cn_namelen ∧
          ∀ i, i < cnp.cn_namelen → byte cnp3.cn_nameptr i = byte cnp.cn_nameptr i) →
        (ufs_lookup env (remove_entry env data dp cnp ip flags).data dp3 cnp3).ret =
            (ufs_lookup env data dp3 cnp3).ret ∧
          (ufs_lookup env (remove_entry env data dp cnp ip flags).data dp3 cnp3).vpp =
            (ufs_lookup env data dp3 cnp3).vpp) := by
  have h512 : DIRBLKSIZ = 512 := rfl
  rw [h512] at hsize
  have hA' : ∀ o ∈ A, ¬ is_match env data cnp o :=
    fun o ho hm => hA o ho ((is_match_named env data cnp o hlen).mp hm)
  have hp' : is_match env data cnp t := (is_match_named env data cnp t hlen).mpr hp
  obtain ⟨⟨recs2, hrem⟩, hsz, _, hret⟩ := remove_entry_layout env data dp cnp ip flags A t B
    henv hsize htiles hok hA' hp' hwht hop hlast hacc hflag
  refine ⟨hret, ?_⟩
  intro dp3 cnp3 hsz3 hdiroff3 hlen3
  rw [h512] at hdiroff3
  rw [← hsz3] at hrem htiles hsize
  obtain ⟨hgone, hsame⟩ := lookup_after_removal env data (A ++ t :: B) t _ recs2 dp3 cnp3 henv
    hsize hdiroff3 htiles hok hrem hlen3
  constructor
  · rintro ⟨hl, hb⟩
    apply hgone
    intro o ho hot hm
    have hn := (same_name_named env data cnp cnp3 o hl hb).mp
      ((is_match_named env data cnp3 o hlen3).mp hm)
    simp only [List.mem_append, List.mem_cons] at ho
    rcases ho with h | h | h
    · exact hA o h hn
    · exact hot h
    · exact hB o h hn
  · intro hdiff
    apply hsame
    intro hm
    apply hdiff
    obtain ⟨_, l3, n3⟩ := (is_match_named env data cnp3 t hlen3).mp hm
    obtain ⟨_, l1, n1⟩ := hp
    have hl : cnp3.cn_namelen = cnp.cn_namelen := by rw [← l3, l1]
    refine ⟨hl, ?_⟩
    intro i hi
    rw [← n3 i (by rw [hl]; exact hi), n1 i hi]

/-- Witness of C11 on `block_abc`: once `a` is removed, a plain lookup of `a` returns
`ENOENT` and a plain lookup of `foo` hands back what it handed back before. -/
theorem remove_then_lookup_witness :
    (ufs_lookup env_le (remove_entry env_le block_abc dir_inode (cn_a DELETE) none 0).data
        dir_inode (cn_a LOOKUP)).ret = .returned ENOENT ∧
      (ufs_lookup env_le (remove_entry env_le block_abc dir_inode (cn_a DELETE) none 0).data
        dir_inode (cn_foo LOOKUP)).vpp =
      (ufs_lookup env_le block_abc dir_inode (cn_foo LOOKUP)).vpp :=
  have h := (remove_then_lookup env_le block_abc dir_inode (cn_a DELETE) none 0 [0] 12 [24]
    ⟨⟨13, by decide, by decide⟩, fun _ => rfl⟩ (by decide) (by decide) (by decide)
    (by decide) (by decide) (by decide) (by decide) (by decide) (by decide) (by decide)
    (by decide) (by decide)).2
  ⟨((h dir_inode (cn_a LOOKUP) rfl (by decide) (by decide)).1
      ⟨rfl, fun _ _ => rfl⟩).2.2 (by decide),
    ((h dir_inode (cn_foo LOOKUP) rfl (by decide) (by decide)).2 (by decide)).2⟩

/-! ### The space a removal frees -/

theorem slot_free_mem (env : ufs_env) (data : mem) :
    ∀ (l : List Nat) (q : Nat), q ∈ l → (∀ o ∈ l, entry_ok env data o) →
      entry_free env data q ≤ slot_free env data l := by
  intro l
  induction l with
  | nil => intro q hq; simp at hq
  | cons x xs ih =>
    intro q hq hok
    have e : slot_free env data (x :: xs) = entry_free env data x + slot_free env data xs := by
      unfold slot_free; simp
    have hxs : ∀ o ∈ xs, entry_ok env data o := fun o ho => hok o (List.mem_cons_of_mem _ ho)
    rcases List.mem_cons.mp hq with h | h
    · rw [h, e]
      have := slot_free_nonneg env data xs hxs
      omega
    · have := ih q h hxs
      have := entry_free_nonneg env data x (hok x (List.mem_cons_self _ _))
      omega

theorem subblock_free_mem (env : ufs_env) (data : mem) (l : List Nat) (q : Nat)
    (hq : q ∈ l) (hok : ∀ o ∈ l, entry_ok env data o) :
    entry_free env data q ≤ subblock_free env data l (q - q % 512) := by
  unfold subblock_free
  apply slot_free_mem
  · rw [List.mem_filter]
    refine ⟨hq, ?_⟩
    have h512 : DIRBLKSIZ = 512 := rfl
    simp only [decide_eq_true_eq]
    rw [h512]
    omega
  · intro o ho
    exact hok o (List.mem_of_mem_filter ho)

/-- C12: freed space is reused. On a sound directory, after a DELETE lookup and
`ufs_dirremove` without `DOWHITEOUT` removed the entry at `t`, a CREATE lookup on the
final component of a name no remaining entry carries, whose `DIRECTSIZ` is at most the
record length of the removed entry, returns `EJUSTRETURN` with a slot (`i_count != 0`);
`ufs_direnter` then returns 0 having written the new entry at an offset inside the
directory as it was, and the directory size is no larger than before. -/
theorem removed_space_reused (env : ufs_env) (data : mem) (dp : inode)
    (cnp : componentname) (ip : Option link_inode) (flags : Nat)
    (A : List Nat) (t : Nat) (B : List Nat) (cnp2 : componentname) (ino mode : Nat)
    (newdirp : mem) (henv : env_ok env)
    (hsize : dp.i_size % DIRBLKSIZ = 0)
    (htiles : tiles env.little_endian data 0 dp.i_size (A ++ t :: B))
    (hok : ∀ o ∈ A ++ t :: B, entry_ok env data o)
    (hA : ∀ o ∈ A, ¬ is_match env data cnp o)
    (hp : is_match env data cnp t) (hwht : ¬ is_whiteout env data t)
    (hop : cnp.cn_nameiop = DELETE) (hlast : cnp.cn_flags &&& ISLASTCN ≠ 0)
    (hacc : env.access_err = 0) (hflag : flags &&& DOWHITEOUT = 0)
    (habsent : ∀ o ∈ A ++ B, ¬ is_match env data cnp2 o)
    (hop2 : cnp2.cn_nameiop = CREATE) (hlast2 : cnp2.cn_flags &&& ISLASTCN ≠ 0)
    (hlink : dp.i_effnlink ≠ 0) (hwr : env.write_err = 0)
    (hroom : DIRECTSIZ cnp2.cn_namelen ≤ d_reclen env.little_endian data t)
    (hino : ino ≠ 0 ∧ ino < 4294967296)
    (hlen : 0 < cnp2.cn_namelen ∧ cnp2.cn_namelen ≤ 255)
    (hname : ∀ i, i < cnp2.cn_namelen → byte cnp2.cn_nameptr i ≠ 0)
    (hnul : byte cnp2.cn_nameptr cnp2.cn_namelen = 0)
    (hmode : IFTODT mode ≠ DT_WHT) :
    (ufs_lookup env (remove_entry env data dp cnp ip flags).data
        (remove_entry env data dp cnp ip flags).dp cnp2).ret = .returned EJUSTRETURN ∧
      (ufs_lookup env (remove_entry env data dp cnp ip flags).data
        (remove_entry env data dp cnp ip flags).dp cnp2).dp.i_count ≠ 0 ∧
      (create_entry env (remove_entry env data dp cnp ip flags).data
        (remove_entry env data dp cnp ip flags).dp cnp2 ino mode newdirp).ret = .returned 0 ∧
      (create_entry env (remove_entry env data dp cnp ip flags).data
        (remove_entry env data dp cnp ip flags).dp cnp2 ino mode newdirp).dp.i_size ≤
          dp.i_size ∧
      ∃ p, p < dp.i_size ∧
        is_match env (create_entry env (remove_entry env data dp cnp ip flags).data
          (remove_entry env data dp cnp ip flags).dp cnp2 ino mode newdirp).data cnp2 p ∧
        d_ino env.little_endian (create_entry env (remove_entry env data dp cnp ip flags).data
          (remove_entry env data dp cnp ip flags).dp cnp2 ino mode newdirp).data p = ino := by
  have h512 : DIRBLKSIZ = 512 := rfl
  rw [h512] at hsize
  obtain ⟨⟨recs2, hrem⟩, hsz, heff, _⟩ := remove_entry_layout env data dp cnp ip flags A t B
    henv hsize htiles hok hA hp hwht hop hlast hacc hflag
  generalize remove_entry env data dp cnp ip flags = rm at hrem hsz heff ⊢
  obtain ⟨hA2, hB2, _⟩ := (tiles_parts env data dp.i_size A t B htiles hok).2.2
  have hAB := (tiles_parts env data dp.i_size A t B htiles hok).2.2.2
  -- the name is absent from the directory after the removal
  have habs2 : ∀ o ∈ recs2, ¬ is_match env rm.data cnp2 o := by
    have hn := hrem.names cnp2 hlen.1
    have hnil : (List.filter (fun o => decide (o ≠ t)) (A ++ t :: B)).filter
        (fun o => decide (is_match env data cnp2 o)) = [] := by
      rw [filter_ne_mid A t B
        (fun o ho => by have := hAB.1 o ho; omega)
        (fun o ho => by have := hAB.2 o ho; omega)]
      rw [List.filter_eq_nil_iff]
      intro o ho
      simpa using habsent o ho
    rw [hnil, List.filter_eq_nil_iff] at hn
    intro o ho
    simpa using hn o ho
  have hsize2 : rm.dp.i_size % 512 = 0 := by rw [hsz]; exact hsize
  have hchain : tiles env.little_endian rm.data 0 rm.dp.i_size recs2 := by
    rw [hsz]; exact hrem.chain
  have hlink2 : rm.dp.i_effnlink ≠ 0 := by rw [heff]; exact hlink
  -- the lookup reports a slot
  have hcount : (ufs_lookup env rm.data rm.dp cnp2).dp.i_count ≠ 0 := by
    apply lookup_slot_of_room env rm.data rm.dp cnp2 recs2 henv hsize2 hchain hrem.sound habs2
      (Or.inl hop2) hlast2 hlink2 hacc
    obtain ⟨q, hq, hfree⟩ := hrem.room
    have := subblock_free_mem env rm.data recs2 q hq hrem.sound
    exact ⟨q - q % 512, by omega, by omega⟩
  obtain ⟨c1, c2, _, c4⟩ := lookup_create_spec env rm.data rm.dp cnp2 recs2 henv hsize2 hchain
    hrem.sound habs2 hop2 hlast2 hlink2 hacc _ rfl
  rcases c4 with ⟨h0, _⟩ | ⟨pre, slot, post, hrecs, _, hts, hfree, hsub, hend, hendge⟩
  · exact absurd h0 hcount
  · generalize hr2 : ufs_lookup env rm.data rm.dp cnp2 = r2 at *
    have hdirp := makedirentry_size env cnp2 ino mode newdirp hino.2 hlen.2
    have hS : r2.dp.i_offset ≠ r2.dp.i_offset + r2.dp.i_count := by omega
    have hchain2 : tiles env.little_endian rm.data 0 r2.dp.i_size (pre ++ slot ++ post) := by
      rw [c2, ← hrecs]; exact hchain
    obtain ⟨_, hpost⟩ := tiles_three _ _ _ _ _ _ _ _ _ hchain2 hts hS
    have hEN := tiles_le _ _ _ _ _ hpost
    have hok2 : ∀ o ∈ pre ++ slot ++ post, entry_ok env rm.data o := by
      rw [← hrecs]; exact hrem.sound
    obtain ⟨d1, _, d3, A3, p, B3, hhold, hino3⟩ := direnter_slot_layout env rm.data r2.dp cnp2
      ino mode newdirp pre slot post (henv.2 _) hwr hcount (by rw [c2]; exact hsize2) hchain2
      hts hok2 (by rw [← hrecs]; exact habs2) hfree hsub hend hendge hino hlen hname hnul hmode
      _ rfl
    obtain ⟨_, _, _, _, e3⟩ := direnter_slot_spec env rm.data r2.dp
      (ufs_makedirentry env ino mode cnp2 newdirp) slot hcount (henv.2 _) hts
      (fun o ho => entry_ok_whole env rm.data o (hok2 o (by simp [ho])))
      (by omega) (by rw [hdirp]; exact hfree)
    have hsz3 : (ufs_direnter env rm.data r2.dp
        (ufs_makedirentry env ino mode cnp2 newdirp)).dp.i_size ≤ dp.i_size := by
      rw [e3, if_neg (by omega)]
      rcases (slot_truncate_size env r2.dp (slot_write_error env)).2 with h | h
      · rw [h, c2, hsz]
      · rw [h.1]
        have := h.2
        rw [c2, hsz] at this
        omega
    have hce : create_entry env rm.data rm.dp cnp2 ino mode newdirp =
        ufs_direnter env rm.data r2.dp (ufs_makedirentry env ino mode cnp2 newdirp) := by
      unfold create_entry
      rw [hr2]
    rw [hce]
    refine ⟨c1, hcount, d1, hsz3, p, ?_, hhold.here, hino3⟩
    obtain ⟨_, htp⟩ := tiles_mid _ _ _ _ _ _ _ hhold.chain
    obtain ⟨_, hpos, hrest⟩ := tiles_head _ _ _ _ _ _ htp
    have := tiles_le _ _ _ _ _ hrest
    omega

/-- Witness of C12 on `block_abc`: `a` (record length 12) is removed, then `c`, which
needs 12 bytes, is created in the space freed. -/
theorem removed_space_reused_witness :
    (ufs_lookup env_le (remove_entry env_le block_abc dir_inode (cn_a DELETE) none 0).data
        (remove_entry env_le block_abc dir_inode (cn_a DELETE) none 0).dp
        (cn_c CREATE)).dp.i_count ≠ 0 ∧
      (create_entry env_le (remove_entry env_le block_abc dir_inode (cn_a DELETE) none 0).data
        (remove_entry env_le block_abc dir_inode (cn_a DELETE) none 0).dp (cn_c CREATE) 36
        0o100644 (mem_of [])).ret = .returned 0 ∧
      (create_entry env_le (remove_entry env_le block_abc dir_inode (cn_a DELETE) none 0).data
        (remove_entry env_le block_abc dir_inode (cn_a DELETE) none 0).dp (cn_c CREATE) 36
        0o100644 (mem_of [])).dp.i_size ≤ dir_inode.i_size :=
  have h := removed_space_reused env_le block_abc dir_inode (cn_a DELETE) none 0 [0] 12 [24]
    (cn_c CREATE) 36 0o100644 (mem_of []) ⟨⟨13, by decide, by decide⟩, fun _ => rfl⟩
    (by decide) (by decide) (by decide) (by decide) (by decide) (by decide) (by decide)
    (by decide) (by decide) (by decide) (by decide) (by decide) (by decide) (by decide)
    (by decide) (by decide) (by decide) (by decide) (by decide) (by decide) (by decide)
  ⟨h.2.1, h.2.2.1, h.2.2.2.1⟩

/-! ### What a DELETE lookup leaves for `ufs_dirremove` -/

/-- C31: on a sound directory, a DELETE lookup of the final component that finds its entry
at offset `t` (with write access granted, so that the parameters for `ufs_dirremove` are
stored) leaves `i_offset = t` and the record length of the entry in `i_reclen`; `i_count`
is 0 when `t` is a multiple of `DIRBLKSIZ`, and otherwise the record length of the record
`q` right before `t`, so that `t - i_count = q` is the offset of the previous record, which
lies in the sub-block of `t`. -/
theorem lookup_delete_prev (env : ufs_env) (data : mem) (dp : inode) (cnp : componentname)
    (A : List Nat) (t : Nat) (B : List Nat) (henv : env_ok env)
    (hsize : dp.i_size % DIRBLKSIZ = 0)
    (htiles : tiles env.little_endian data 0 dp.i_size (A ++ t :: B))
    (hok : ∀ o ∈ A ++ t :: B, entry_ok env data o)
    (hA : ∀ o ∈ A, ¬ is_match env data cnp o)
    (hp : is_match env data cnp t) (hwht : ¬ is_whiteout env data t)
    (hop : cnp.cn_nameiop = DELETE) (hlast : cnp.cn_flags &&& ISLASTCN ≠ 0)
    (hacc : env.access_err = 0) :
    (ufs_lookup env data dp cnp).dp.i_offset = t ∧
      (ufs_lookup env data dp cnp).dp.i_reclen = d_reclen env.little_endian data t ∧
      (t % DIRBLKSIZ = 0 → (ufs_lookup env data dp cnp).dp.i_count = 0) ∧
      (t % DIRBLKSIZ ≠ 0 → ∃ A2 q, A = A2 ++ [q] ∧
        (ufs_lookup env data dp cnp).dp.i_count = d_reclen env.little_endian data q ∧
        0 < (ufs_lookup env data dp cnp).dp.i_count ∧
        t - (ufs_lookup env data dp cnp).dp.i_count = q ∧
        q - q % DIRBLKSIZ = t - t % DIRBLKSIZ) := by
  have h512 : DIRBLKSIZ = 512 := rfl
  rw [h512] at hsize ⊢
  obtain ⟨h1, h2, _, _, h5, h6⟩ := lookup_delete_dp env data dp cnp A t B henv hsize htiles hok
    hA hp hwht hop hlast hacc
  refine ⟨h1, h2, h5, ?_⟩
  intro hz
  obtain ⟨A2, q, hA2, hq, hc⟩ := h6 hz
  refine ⟨A2, q, hA2, hc, ?_, ?_, ?_⟩
  · have hqm : q ∈ A ++ t :: B := by rw [hA2]; simp
    have := (entry_ok_facts env data q (hok q hqm)).2.2
    have := (DIRSIZ_bounds env (OFSFMT env) data q).1
    omega
  · rw [hc]; omega
  · have hqm : q ∈ A ++ t :: B := by rw [hA2]; simp
    have := (entry_ok_facts env data q (hok q hqm)).2.1
    omega

/-- Witness of C31 on `block_abc`: the DELETE lookup of `a`, the second record, leaves
`i_offset = 12` and `i_count = 12`, the record length of `foo` at offset 0. -/
theorem lookup_delete_prev_witness :
    (ufs_lookup env_le block_abc dir_inode (cn_a DELETE)).dp.i_offset = 12 ∧
      (ufs_lookup env_le block_abc dir_inode (cn_a DELETE)).dp.i_reclen =
        d_reclen env_le.little_endian block_abc 12 ∧
      (12 % DIRBLKSIZ = 0 → (ufs_lookup env_le block_abc dir_inode (cn_a DELETE)).dp.i_count = 0) ∧
      (12 % DIRBLKSIZ ≠ 0 → ∃ A2 q, [0] = A2 ++ [q] ∧
        (ufs_lookup env_le block_abc dir_inode (cn_a DELETE)).dp.i_count =
          d_reclen env_le.little_endian block_abc q ∧
        0 < (ufs_lookup env_le block_abc dir_inode (cn_a DELETE)).dp.i_count ∧
        12 - (ufs_lookup env_le block_abc dir_inode (cn_a DELETE)).dp.i_count = q ∧
        q - q % DIRBLKSIZ = 12 - 12 % DIRBLKSIZ) :=
  lookup_delete_prev env_le block_abc dir_inode (cn_a DELETE) [0] 12 [24]
    ⟨⟨13, by decide, by decide⟩, fun _ => rfl⟩ (by decide) (by decide) (by decide)
    (by decide) (by decide) (by decide) (by decide) (by decide) (by decide)

/-! ### Termination of the directory scans -/

theorem searchloop_ends (env : ufs_env) (data : mem) (i_size : Nat) (cnp : componentname)
    (n : Nat) :
    ∀ (fuel : Nat) (st : lookup_state) (np : Nat), st.numdirpasses = np →
      st.endsearch - st.i_offset ≤ fuel →
      loop_ends np (searchloop env data i_size cnp n fuel st) := by
  intro fuel
  induction fuel with
  | zero =>
    intro st np hnp hfuel
    unfold searchloop
    rw [if_neg (by omega)]
    exact hnp
  | succ k ih =>
    intro st np hnp hfuel
    obtain ⟨f1, f2, f3, _⟩ := fetch_reset_basic env st
    unfold searchloop
    by_cases hlt : st.i_offset < st.endsearch
    · rw [if_neg (by simpa using hlt)]
      by_cases hio : st.i_offset &&& (env.f_iosize - 1) = 0 ∧ env.blkatoff_err st.i_offset ≠ 0
      · rw [if_pos hio]
        trivial
      · rw [if_neg hio]
        simp only []
        cases hb : (reset_slot (fetch_block env st)).bp with
        | none => trivial
        | some b =>
          simp only []
          by_cases hbad : d_reclen env.little_endian data
              (b + (reset_slot (fetch_block env st)).entryoffsetinblock) = 0 ∨
              (env.dirchk ≠ 0 ∧ ufs_dirbadentry env data
                (b + (reset_slot (fetch_block env st)).entryoffsetinblock)
                (reset_slot (fetch_block env st)).entryoffsetinblock = true)
          · rw [if_pos hbad]
            by_cases hro : env.mnt_rdonly = false
            · rw [if_pos hro]
              trivial
            · rw [if_neg hro]
              have hi : 1 ≤ DIRBLKSIZ -
                  ((reset_slot (fetch_block env st)).entryoffsetinblock &&& (DIRBLKSIZ - 1)) := by
                rw [and_511]
                show 1 ≤ 512 - _
                omega
              apply ih _ np
              · show (reset_slot (fetch_block env st)).numdirpasses = np
                rw [f3]; exact hnp
              · show (reset_slot (fetch_block env st)).endsearch -
                  ((reset_slot (fetch_block env st)).i_offset + (DIRBLKSIZ -
                    ((reset_slot (fetch_block env st)).entryoffsetinblock &&& (DIRBLKSIZ - 1))))
                  ≤ k
                rw [f1, f2]
                omega
          · rw [if_neg hbad]
            have hrl : d_reclen env.little_endian data
                (b + (reset_slot (fetch_block env st)).entryoffsetinblock) ≠ 0 :=
              fun h => hbad (Or.inl h)
            have hp := examine_passes env data i_size cnp n (reset_slot (fetch_block env st))
              (b + (reset_slot (fetch_block env st)).entryoffsetinblock)
            cases hex : examine env data i_size cnp n (reset_slot (fetch_block env st))
                (b + (reset_slot (fetch_block env st)).entryoffsetinblock) with
            | exit e =>
              rw [hex] at hp
              simp only [] at hp ⊢
              rw [f3, hnp] at hp
              cases e with
              | io_error err s => trivial
              | panic s => trivial
              | fault s => trivial
              | found s ep => trivial
              | whiteout s ep => exact hp
              | exhausted s => exact hp
              | out_of_fuel s => exact hp
            | next st' =>
              rw [hex] at hp
              simp only [] at hp ⊢
              obtain ⟨e1, e2, _, _⟩ := examine_next env data i_size cnp n _ st' _ hex
              exact ih st' np (by rw [hp, f3]; exact hnp) (by rw [e1, e2, f1, f2]; omega)
    · rw [if_pos (by simpa using hlt)]
      exact hnp

theorem lookup_found_stops (env : ufs_env) (data : mem) (cnp : componentname)
    (cn_flags : Nat) (dp : inode) (st : lookup_state) (ep : Nat) :
    (lookup_found env data cnp cn_flags dp st ep).ret ≠ .out_of_fuel := by
  rw [lookup_found_eq]
  by_cases hc : dp.i_offset + DIRSIZ env (OFSFMT env) data ep > dp.i_size ∧
      env.mnt_rdonly = false
  · rw [if_pos hc]
    exact fun h => kexit.noConfusion h
  · rw [if_neg hc]
    obtain ⟨e, he⟩ := found_tail_returns env cnp cn_flags
      (found_inode cnp
        (if dp.i_offset + DIRSIZ env (OFSFMT env) data ep > dp.i_size then
          { dp with i_size := dp.i_offset + DIRSIZ env (OFSFMT env) data ep,
                    i_flag := dp.i_flag ||| (IN_CHANGE ||| IN_UPDATE) }
        else dp)) st
    rw [he]
    exact fun h => kexit.noConfusion h

theorem lookup_notfound_stops (env : ufs_env) (cnp : componentname) (cn_flags : Nat)
    (dp : inode) (st : lookup_state) :
    (lookup_notfound env cnp cn_flags dp st).ret ≠ .out_of_fuel := by
  obtain ⟨_, h | h | h⟩ := lookup_notfound_returns env cnp cn_flags dp st
  · rw [h]; exact fun h => kexit.noConfusion h
  · rw [h]; exact fun h => kexit.noConfusion h
  · rw [h.2]; exact fun h => kexit.noConfusion h

theorem lookup_after_stops (env : ufs_env) (data : mem) (cnp : componentname)
    (cn_flags : Nat) (dp : inode) (again : Nat → inode → lookup_state → lookup_result)
    (np : Nat) (e : search_exit) (he : loop_ends np e) (hnp : np ≤ 2)
    (hagain : np = 2 → ∀ f d s, s.numdirpasses = 2 → (again f d s).ret ≠ .out_of_fuel) :
    (lookup_after env data cnp cn_flags dp again e).ret ≠ .out_of_fuel := by
  cases e with
  | io_error err st => exact fun h => kexit.noConfusion h
  | panic st => exact fun h => kexit.noConfusion h
  | fault st => exact fun h => kexit.noConfusion h
  | out_of_fuel st => exact absurd he (by simp [loop_ends])
  | found st ep => exact lookup_found_stops env data cnp cn_flags _ st ep
  | whiteout st ep =>
    simp only [loop_ends] at he
    simp only [lookup_after]
    rw [if_neg (by omega)]
    exact lookup_notfound_stops env cnp _ _ st
  | exhausted st =>
    simp only [loop_ends] at he
    simp only [lookup_after]
    split_ifs with h2
    · exact hagain (by omega) _ _ _ h2
    · exact lookup_notfound_stops env cnp _ _ st

theorem ufs_lookup_stops (env : ufs_env) (data : mem) (dp : inode) (cnp : componentname) :
    (ufs_lookup env data dp cnp).ret ≠ .out_of_fuel := by
  unfold ufs_lookup
  simp only []
  split_ifs with hio
  · exact fun h => kexit.noConfusion h
  · have hnp : (lookup_init env dp cnp).numdirpasses ≤ 2 := by
      simp only [lookup_init]
      split_ifs <;> omega
    refine lookup_after_stops env data cnp cnp.cn_flags dp (second_pass env data cnp)
      (lookup_init env dp cnp).numdirpasses _
      (searchloop_ends env data dp.i_size cnp (lookup_slotneeded cnp) _ _ _ rfl (le_refl _))
      hnp ?_
    intro _ f d s hs
    unfold second_pass
    exact lookup_after_stops env data cnp f d _ (s.numdirpasses - 1) _
      (searchloop_ends env data d.i_size cnp (lookup_slotneeded cnp) _ _ _ rfl (le_refl _))
      (by omega) (fun h => by omega)

/-- One iteration of the search loop entered below `endsearch`: either the loop is left
in this iteration, whatever the budget, or the loop goes on from a state whose offset is
larger, by the non-zero record length of the entry examined or by a skip of 1 to
`DIRBLKSIZ` bytes that brings `entryoffsetinblock` to a multiple of `DIRBLKSIZ`. -/
theorem searchloop_progress (env : ufs_env) (data : mem) (i_size : Nat) (cnp : componentname)
    (n : Nat) (st : lookup_state) (hlt : st.i_offset < st.endsearch) :
    (∃ e, (∀ s, e ≠ .out_of_fuel s) ∧ (∀ s, e ≠ .exhausted s) ∧
      ∀ fuel, searchloop env data i_size cnp n (fuel + 1) st = e) ∨
    (∃ st', (∀ fuel, searchloop env data i_size cnp n (fuel + 1) st =
        searchloop env data i_size cnp n fuel st') ∧
      st'.endsearch = st.endsearch ∧ st'.numdirpasses = st.numdirpasses ∧
      st.i_offset < st'.i_offset ∧
      ((∃ ep, d_reclen env.little_endian data ep ≠ 0 ∧
          st'.i_offset = st.i_offset + d_reclen env.little_endian data ep) ∨
        (∃ i, 1 ≤ i ∧ i ≤ DIRBLKSIZ ∧ st'.i_offset = st.i_offset + i ∧
          st'.entryoffsetinblock % DIRBLKSIZ = 0))) := by
  obtain ⟨f1, f2, f3, _⟩ := fetch_reset_basic env st
  by_cases hio : st.i_offset &&& (env.f_iosize - 1) = 0 ∧ env.blkatoff_err st.i_offset ≠ 0
  · left
    refine ⟨.io_error (env.blkatoff_err st.i_offset) st, fun s h => search_exit.noConfusion h,
      fun s h => search_exit.noConfusion h, ?_⟩
    intro fuel
    rw [searchloop, if_neg (by simpa using hlt), if_pos hio]
  · cases hb : (reset_slot (fetch_block env st)).bp with
    | none =>
      left
      refine ⟨.fault (reset_slot (fetch_block env st)), fun s h => search_exit.noConfusion h,
        fun s h => search_exit.noConfusion h, ?_⟩
      intro fuel
      rw [searchloop, if_neg (by simpa using hlt), if_neg hio]
      simp only [hb]
    | some b =>
      by_cases hbad : d_reclen env.little_endian data
          (b + (reset_slot (fetch_block env st)).entryoffsetinblock) = 0 ∨
          (env.dirchk ≠ 0 ∧ ufs_dirbadentry env data
            (b + (reset_slot (fetch_block env st)).entryoffsetinblock)
            (reset_slot (fetch_block env st)).entryoffsetinblock = true)
      · by_cases hro : env.mnt_rdonly = false
        · left
          refine ⟨.panic (reset_slot (fetch_block env st)),
            fun s h => search_exit.noConfusion h, fun s h => search_exit.noConfusion h, ?_⟩
          intro fuel
          rw [searchloop, if_neg (by simpa using hlt), if_neg hio]
          simp only [hb]
          rw [if_pos hbad, if_pos hro]
        · right
          have hi : 1 ≤ DIRBLKSIZ -
              ((reset_slot (fetch_block env st)).entryoffsetinblock &&& (DIRBLKSIZ - 1)) ∧
              DIRBLKSIZ -
              ((reset_slot (fetch_block env st)).entryoffsetinblock &&& (DIRBLKSIZ - 1)) ≤
                DIRBLKSIZ ∧
              ((reset_slot (fetch_block env st)).entryoffsetinblock + (DIRBLKSIZ -
              ((reset_slot (fetch_block env st)).entryoffsetinblock &&& (DIRBLKSIZ - 1)))) %
                DIRBLKSIZ = 0 := by
            rw [and_511]
            show 1 ≤ 512 - _ ∧ 512 - _ ≤ 512 ∧ (_ + (512 - _)) % 512 = 0
            omega
          refine ⟨{ reset_slot (fetch_block env st) with
              i_offset := (reset_slot (fetch_block env st)).i_offset + (DIRBLKSIZ -
                ((reset_slot (fetch_block env st)).entryoffsetinblock &&& (DIRBLKSIZ - 1))),
              entryoffsetinblock :=
                (reset_slot (fetch_block env st)).entryoffsetinblock + (DIRBLKSIZ -
                ((reset_slot (fetch_block env st)).entryoffsetinblock &&& (DIRBLKSIZ - 1))) },
            ?_, f2, f3, ?_, Or.inr ⟨_, hi.1, hi.2.1, ?_, hi.2.2⟩⟩
          · intro fuel
            rw [searchloop, if_neg (by simpa using hlt), if_neg hio]
            simp only [hb]
            rw [if_pos hbad, if_neg hro]
          · show st.i_offset < (reset_slot (fetch_block env st)).i_offset + _
            rw [f1]
            have := hi.1
            omega
          · show (reset_slot (fetch_block env st)).i_offset + _ = st.i_offset + _
            rw [f1]
      · have hrl : d_reclen env.little_endian data
            (b + (reset_slot (fetch_block env st)).entryoffsetinblock) ≠ 0 :=
          fun h => hbad (Or.inl h)
        have hp := examine_passes env data i_size cnp n (reset_slot (fetch_block env st))
          (b + (reset_slot (fetch_block env st)).entryoffsetinblock)
        cases hex : examine env data i_size cnp n (reset_slot (fetch_block env st))
            (b + (reset_slot (fetch_block env st)).entryoffsetinblock) with
        | exit e =>
          left
          rw [hex] at hp
          simp only [] at hp
          have hne : (∀ s, e ≠ .out_of_fuel s) ∧ (∀ s, e ≠ .exhausted s) := by
            unfold examine at hex
            simp only [] at hex
            split_ifs at hex <;> injection hex with hex <;> subst hex <;>
              exact ⟨fun s h => search_exit.noConfusion h, fun s h => search_exit.noConfusion h⟩
          refine ⟨e, hne.1, hne.2, ?_⟩
          intro fuel
          rw [searchloop, if_neg (by simpa using hlt), if_neg hio]
          simp only [hb]
          rw [if_neg hbad, hex]
        | next st' =>
          right
          rw [hex] at hp
          simp only [] at hp
          obtain ⟨e1, e2, _, _⟩ := examine_next env data i_size cnp n _ st' _ hex
          refine ⟨st', ?_, by rw [e2, f2], by rw [hp, f3], by rw [e1, f1]; omega,
            Or.inl ⟨_, hrl, by rw [e1, f1]⟩⟩
          intro fuel
          rw [searchloop, if_neg (by simpa using hlt), if_neg hio]
          simp only [hb]
          rw [if_neg hbad, hex]

theorem dirempty_loop_total (env : ufs_env) (data : mem) (i_number i_size parentino : Nat)
    (rd_err rd_resid : Nat → Int) :
    ∀ (fuel off : Nat), i_size - off ≤ fuel →
      dirempty_loop env data i_number i_size parentino rd_err rd_resid fuel off = some 1 ∨
        dirempty_loop env data i_number i_size parentino rd_err rd_resid fuel off = some 0 := by
  intro fuel
  induction fuel with
  | zero =>
    intro off h
    unfold dirempty_loop
    rw [if_neg (by omega)]
    exact Or.inl rfl
  | succ k ih =>
    intro off h
    unfold dirempty_loop
    by_cases hlt : off < i_size
    · rw [if_neg (by simpa using hlt)]
      by_cases hrd : rd_err off ≠ 0 ∨ rd_resid off ≠ 0
      · rw [if_pos hrd]; exact Or.inr rfl
      · rw [if_neg hrd]
        by_cases hz : d_reclen env.little_endian data off = 0
        · rw [if_pos hz]; exact Or.inr rfl
        · rw [if_neg hz]
          have hnext := ih (off + d_reclen env.little_endian data off) (by omega)
          split_ifs
          · exact hnext
          · exact hnext
          · exact Or.inr rfl
    · rw [if_pos (by simpa using hlt)]
      exact Or.inl rfl

/-- C39: the directory scans terminate, for every directory content and every mount.
Each iteration of the search loop of `ufs_lookup` either leaves the loop or goes on from
a strictly larger offset (larger by a non-zero record length, or by a skip of 1 to
`DIRBLKSIZ` bytes to a sub-block boundary of the buffer); run with a budget of
`endsearch - i_offset` iterations the loop never exhausts it; `ufs_lookup`, which makes at
most two passes, never ends for want of budget or of a third pass; and `ufs_dirempty`
always ends with 0 or 1, with 0 at a record of length zero. -/
theorem lookup_scan_terminates (env : ufs_env) (data : mem) :
    (∀ (i_size : Nat) (cnp : componentname) (n : Nat) (st : lookup_state),
      st.i_offset < st.endsearch →
      (∃ e, (∀ s, e ≠ .out_of_fuel s) ∧ (∀ s, e ≠ .exhausted s) ∧
        ∀ fuel, searchloop env data i_size cnp n (fuel + 1) st = e) ∨
      (∃ st', (∀ fuel, searchloop env data i_size cnp n (fuel + 1) st =
          searchloop env data i_size cnp n fuel st') ∧
        st'.endsearch = st.endsearch ∧ st'.numdirpasses = st.numdirpasses ∧
        st.i_offset < st'.i_offset ∧
        ((∃ ep, d_reclen env.little_endian data ep ≠ 0 ∧
            st'.i_offset = st.i_offset + d_reclen env.little_endian data ep) ∨
          (∃ i, 1 ≤ i ∧ i ≤ DIRBLKSIZ ∧ st'.i_offset = st.i_offset + i ∧
            st'.entryoffsetinblock % DIRBLKSIZ = 0)))) ∧
    (∀ (i_size : Nat) (cnp : componentname) (n : Nat) (st s : lookup_state),
      searchloop env data i_size cnp n (st.endsearch - st.i_offset) st ≠ .out_of_fuel s) ∧
    (∀ (dp : inode) (cnp : componentname), (ufs_lookup env data dp cnp).ret ≠ .out_of_fuel) ∧
    (∀ (i_number i_size parentino : Nat) (rd_err rd_resid : Nat → Int),
      ufs_dirempty env data i_number i_size parentino rd_err rd_resid = some 1 ∨
        ufs_dirempty env data i_number i_size parentino rd_err rd_resid = some 0) ∧
    (∀ (i_number i_size parentino : Nat) (rd_err rd_resid : Nat → Int) (fuel off : Nat),
      off < i_size → rd_err off = 0 → rd_resid off = 0 →
      d_reclen env.little_endian data off = 0 →
      dirempty_loop env data i_number i_size parentino rd_err rd_resid (fuel + 1) off =
        some 0) := by
  refine ⟨fun i_size cnp n st hlt => searchloop_progress env data i_size cnp n st hlt, ?_,
    fun dp cnp => ufs_lookup_stops env data dp cnp, ?_, ?_⟩
  · intro i_size cnp n st s h
    have := searchloop_ends env data i_size cnp n (st.endsearch - st.i_offset) st
      st.numdirpasses rfl (le_refl _)
    rw [h] at this
    exact this
  · intro i_number i_size parentino rd_err rd_resid
    exact dirempty_loop_total env data i_number i_size parentino rd_err rd_resid i_size 0
      (by omega)
  · intro i_number i_size parentino rd_err rd_resid fuel off hlt h1 h2 hz
    rw [dirempty_loop, if_neg (by simpa using hlt), if_neg (by simp [h1, h2]), if_pos hz]

/-- Witness of C39 on a read-only mount and a directory content of zeros: the lookup of
`c` skips from sub-block to sub-block and returns `ENOENT`, and `ufs_dirempty` answers 0
at the first record, whose length is zero. -/
theorem lookup_scan_terminates_witness :
    (ufs_lookup env_ro block_zero dir_inode_two (cn_c LOOKUP)).ret = .returned ENOENT ∧
      (ufs_lookup env_ro block_zero dir_inode_two (cn_c LOOKUP)).ret ≠ .out_of_fuel ∧
      ufs_dirempty env_ro block_zero 2 1024 2 (fun _ => 0) (fun _ => 0) = some 0 :=
  ⟨by decide, (lookup_scan_terminates env_ro block_zero).2.2.1 dir_inode_two (cn_c LOOKUP),
    by decide⟩

/-! ### A whiteout of the name sought -/

theorem first_match_split (env : ufs_env) (data : mem) (cnp : componentname) (l : List Nat)
    (p : Nat) (h : first_match env data cnp l = some p) :
    ∃ A B, l = A ++ p :: B ∧ (∀ o ∈ A, ¬ is_match env data cnp o) ∧
      is_match env data cnp p := by
  unfold first_match at h
  obtain ⟨hp, A, B, hl, hA⟩ := List.find?_eq_some.mp h
  refine ⟨A, B, hl, ?_, of_decide_eq_true hp⟩
  intro o ho
  have := hA o ho
  simpa using this

theorem or_iswhiteout (x : Nat) :
    (x ||| ISWHITEOUT) &&& ISWHITEOUT ≠ 0 ∧
      ((x ||| ISWHITEOUT) &&& DOWHITEOUT ≠ 0 ↔ x &&& DOWHITEOUT ≠ 0) ∧
      ((x ||| ISWHITEOUT) ||| SAVENAME) &&& ISWHITEOUT ≠ 0 := by
  have e1 : (x ||| ISWHITEOUT) &&& ISWHITEOUT = ISWHITEOUT := by
    apply Nat.eq_of_testBit_eq
    intro i
    simp only [Nat.testBit_and, Nat.testBit_or]
    cases x.testBit i <;> cases ISWHITEOUT.testBit i <;> rfl
  have e2 : (x ||| ISWHITEOUT) &&& DOWHITEOUT = x &&& DOWHITEOUT := by
    apply Nat.eq_of_testBit_eq
    intro i
    have h0 : (ISWHITEOUT &&& DOWHITEOUT).testBit i = false := by
      have : ISWHITEOUT &&& DOWHITEOUT = 0 := by decide
      rw [this, Nat.zero_testBit]
    simp only [Nat.testBit_and, Nat.testBit_or] at h0 ⊢
    cases hx : x.testBit i <;> cases hi : ISWHITEOUT.testBit i <;>
      cases hd : DOWHITEOUT.testBit i <;> simp_all
  have e3 : ((x ||| ISWHITEOUT) ||| SAVENAME) &&& ISWHITEOUT = ISWHITEOUT := by
    apply Nat.eq_of_testBit_eq
    intro i
    simp only [Nat.testBit_and, Nat.testBit_or]
    cases x.testBit i <;> cases ISWHITEOUT.testBit i <;> cases SAVENAME.testBit i <;> rfl
  refine ⟨?_, ?_, ?_⟩
  · rw [e1]; decide
  · rw [e2]
  · rw [e3]; decide

theorem lookup_notfound_keeps (env : ufs_env) (cnp : componentname) (cn_flags : Nat)
    (dp : inode) (st : lookup_state) :
    (lookup_notfound env cnp cn_flags dp st).dp.i_ino = dp.i_ino ∧
      (lookup_notfound env cnp cn_flags dp st).dp.i_reclen = dp.i_reclen ∧
      ((lookup_notfound env cnp cn_flags dp st).cn_flags = cn_flags ∨
        (lookup_notfound env cnp cn_flags dp st).cn_flags = cn_flags ||| SAVENAME) ∧
      ((lookup_notfound env cnp cn_flags dp st).ret ≠ .returned EJUSTRETURN →
        (lookup_notfound env cnp cn_flags dp st).dp = dp) := by
  unfold lookup_notfound
  simp only []
  by_cases h1 : (cnp.cn_nameiop = CREATE ∨ cnp.cn_nameiop = RENAME ∨
      (cnp.cn_nameiop = DELETE ∧ cn_flags &&& DOWHITEOUT ≠ 0 ∧ cn_flags &&& ISWHITEOUT ≠ 0)) ∧
      cnp.cn_flags &&& ISLASTCN ≠ 0 ∧ dp.i_effnlink ≠ 0
  · rw [if_pos h1]
    by_cases h2 : env.access_err ≠ 0
    · rw [if_pos h2]
      exact ⟨rfl, rfl, Or.inl rfl, fun _ => rfl⟩
    · rw [if_neg h2]
      refine ⟨?_, ?_, Or.inr rfl, fun h => absurd rfl h⟩
      · split_ifs <;> rfl
      · split_ifs <;> rfl
  · rw [if_neg h1]
    exact ⟨rfl, rfl, Or.inl rfl, fun _ => rfl⟩

/-- The `notfound` code on a state whose slot is a single found record, as the whiteout
exit leaves it. -/
theorem lookup_notfound_at_slot (env : ufs_env) (cnp : componentname) (cn_flags : Nat)
    (dp : inode) (st : lookup_state) (p R : Nat)
    (hs : st.slotstatus = slot_status.FOUND) (ho : st.slotoffset = (p : Int))
    (hz : st.slotsize = R)
    (hcond : (cnp.cn_nameiop = CREATE ∨ cnp.cn_nameiop = RENAME ∨
      (cnp.cn_nameiop = DELETE ∧ cn_flags &&& DOWHITEOUT ≠ 0 ∧
        cn_flags &&& ISWHITEOUT ≠ 0)) ∧
      cnp.cn_flags &&& ISLASTCN ≠ 0 ∧ dp.i_effnlink ≠ 0)
    (hacc : env.access_err = 0) :
    (lookup_notfound env cnp cn_flags dp st).ret = .returned EJUSTRETURN ∧
      (lookup_notfound env cnp cn_flags dp st).dp.i_offset = p ∧
      (cnp.cn_nameiop ≠ DELETE →
        (lookup_notfound env cnp cn_flags dp st).dp.i_count = R ∧
        (lookup_notfound env cnp cn_flags dp st).dp.i_endoff =
          roundup2 (if st.enduseful < p + R then p + R else st.enduseful) DIRBLKSIZ) := by
  have hnone : ¬ st.slotstatus = slot_status.NONE := by rw [hs]; decide
  unfold lookup_notfound
  simp only []
  rw [if_pos hcond, if_neg (by rw [hacc]; exact fun h => h rfl), if_neg hnone]
  by_cases hdel : cnp.cn_nameiop = DELETE
  · rw [if_pos hdel]
    refine ⟨rfl, ?_, fun h => absurd hdel h⟩
    have : st.slotoffset.toNat = p := by rw [ho]; rfl
    split_ifs <;> exact this
  · rw [if_neg hdel]
    refine ⟨rfl, ?_, fun _ => ⟨hz, ?_⟩⟩
    · show st.slotoffset.toNat = p
      rw [ho]; rfl
    · show roundup2 (if (st.enduseful : Int) < st.slotoffset + st.slotsize then
          (st.slotoffset + (st.slotsize : Int)).toNat else st.enduseful) DIRBLKSIZ = _
      rw [ho, hz]
      congr 1
      by_cases hlt : st.enduseful < p + R
      · rw [if_pos hlt, if_pos (by omega)]
        omega
      · rw [if_neg hlt, if_neg (by omega)]

/-- One pass that stops at a whiteout of the name, with the state the `notfound` code is
entered in: the whiteout is the slot and `enduseful` is the size of the directory. -/
theorem lookup_onepass_whiteout_state (env : ufs_env) (data : mem) (dp : inode)
    (cnp : componentname) (A : List Nat) (p : Nat) (B : List Nat) (henv : env_ok env)
    (hsize : dp.i_size % 512 = 0)
    (htiles : tiles env.little_endian data 0 dp.i_size (A ++ p :: B))
    (hok : ∀ o ∈ A ++ p :: B, entry_ok env data o)
    (hA : ∀ o ∈ A, ¬ is_match env data cnp o)
    (hp : is_match env data cnp p) (hwht : is_whiteout env data p)
    (h1 : lookup_onepass dp cnp) :
    ∃ st', ufs_lookup env data dp cnp =
        lookup_notfound env cnp (cnp.cn_flags ||| ISWHITEOUT)
          { dp with i_offset := p, i_reclen := d_reclen env.little_endian data p } st' ∧
      st'.slotstatus = slot_status.FOUND ∧ st'.slotoffset = (p : Int) ∧
      st'.slotsize = d_reclen env.little_endian data p ∧ st'.enduseful = dp.i_size := by
  obtain ⟨hi, hn⟩ := (lookup_init_fields env dp cnp).1 h1
  obtain ⟨htA, _⟩ := tiles_mid _ _ _ _ _ _ _ htiles
  obtain ⟨hu, hs⟩ := first_pass_scan env data dp cnp (A ++ p :: B) henv hsize
    (by rw [hi]; exact htiles) hok
  obtain ⟨s1, _, s3⟩ := skip_all_frame env data (lookup_slotneeded cnp) A 0 p
    (norm (lookup_init env dp cnp)) htA hi
  obtain ⟨st', e1, e2, e3, e4, e5, e6, e7⟩ := scan_whiteout env data dp.i_size cnp
    (lookup_slotneeded cnp) p B
    (skip_all env data (lookup_slotneeded cnp) A (norm (lookup_init env dp cnp))) hp hwht
  have hsc : scan env data dp.i_size cnp (lookup_slotneeded cnp) (A ++ p :: B)
      (norm (lookup_init env dp cnp)) = .whiteout st' p := by
    rw [scan_skip env data dp.i_size cnp _ A (p :: B) _ hA]
    exact e1
  have hnp : st'.numdirpasses ≠ 2 := by
    rw [e3, s3]
    show (lookup_init env dp cnp).numdirpasses - 1 ≠ 2
    rw [hn]
    decide
  refine ⟨st', ?_, e5, by rw [e6, s1], e4, e7⟩
  rw [hu, lookup_after_whiteout env data cnp cnp.cn_flags dp _ _ st' p (hs.trans hsc) hnp,
    e2, s1, e4]

/-- C32: a whiteout of the name sought. On a sound directory, when the record at which the
scan stops (the first matching record in the order of the passes) is a whiteout of the new
format, `ufs_lookup` runs the `notfound` code at once, with `ISWHITEOUT` set, `i_offset` at
the whiteout and its record length in `i_reclen`, and makes no further pass: no vnode is
returned and `i_ino` is not set; the outcome is that of the `notfound` code: where a
create slot is due (CREATE or RENAME, or DELETE with `DOWHITEOUT`, on the final component
of a directory still linked) the access error if write access is refused and otherwise
`EJUSTRETURN` with the whiteout as the slot (`i_offset` its offset and, unless deleting,
`i_count` its record length); `ENOENT` in every other case. -/
theorem lookup_whiteout_match (env : ufs_env) (data : mem) (dp : inode)
    (cnp : componentname) (recs : List Nat) (henv : env_ok env)
    (hsize : dp.i_size % DIRBLKSIZ = 0) (hdiroff : dp.i_diroff % DIRBLKSIZ = 0)
    (htiles : tiles env.little_endian data 0 dp.i_size recs)
    (hok : ∀ o ∈ recs, entry_ok env data o)
    (p : Nat) (hhit : lookup_hit env data dp cnp recs = some p)
    (hwht : is_whiteout env data p) :
    (is_match env data cnp p ∧
      ∃ st', ufs_lookup env data dp cnp =
        lookup_notfound env cnp (cnp.cn_flags ||| ISWHITEOUT)
          { dp with i_offset := p, i_reclen := d_reclen env.little_endian data p } st') ∧
    (ufs_lookup env data dp cnp).vpp = none ∧
    (ufs_lookup env data dp cnp).ret ≠ .returned 0 ∧
    (ufs_lookup env data dp cnp).cn_flags &&& ISWHITEOUT ≠ 0 ∧
    (ufs_lookup env data dp cnp).dp.i_ino = dp.i_ino ∧
    (ufs_lookup env data dp cnp).dp.i_reclen = d_reclen env.little_endian data p ∧
    (ufs_lookup env data dp cnp).dp.i_offset = p ∧
    (((cnp.cn_nameiop = CREATE ∨ cnp.cn_nameiop = RENAME ∨
          (cnp.cn_nameiop = DELETE ∧ cnp.cn_flags &&& DOWHITEOUT ≠ 0)) ∧
        cnp.cn_flags &&& ISLASTCN ≠ 0 ∧ dp.i_effnlink ≠ 0) →
      (env.access_err ≠ 0 → (ufs_lookup env data dp cnp).ret = .returned env.access_err) ∧
      (env.access_err = 0 →
        (ufs_lookup env data dp cnp).ret = .returned EJUSTRETURN ∧
        (cnp.cn_nameiop ≠ DELETE →
          (ufs_lookup env data dp cnp).dp.i_count = d_reclen env.little_endian data p))) ∧
    (¬ ((cnp.cn_nameiop = CREATE ∨ cnp.cn_nameiop = RENAME ∨
          (cnp.cn_nameiop = DELETE ∧ cnp.cn_flags &&& DOWHITEOUT ≠ 0)) ∧
        cnp.cn_flags &&& ISLASTCN ≠ 0 ∧ dp.i_effnlink ≠ 0) →
      (ufs_lookup env data dp cnp).ret = .returned ENOENT) := by
  have h512 : DIRBLKSIZ = 512 := rfl
  rw [h512] at hsize hdiroff
  obtain ⟨_, hm, hw, _⟩ := (lookup_by_hit env data dp cnp recs henv hsize hdiroff htiles hok).2
    p hhit
  obtain ⟨st', hu⟩ := hw hwht
  obtain ⟨k1, k2, k3, k4⟩ := lookup_notfound_keeps env cnp (cnp.cn_flags ||| ISWHITEOUT)
    { dp with i_offset := p, i_reclen := d_reclen env.little_endian data p } st'
  obtain ⟨f1, f2, _⟩ := lookup_notfound_fails env cnp (cnp.cn_flags ||| ISWHITEOUT)
    { dp with i_offset := p, i_reclen := d_reclen env.little_endian data p } st'
  obtain ⟨w1, w2, w3⟩ := or_iswhiteout cnp.cn_flags
  -- the test of the `notfound` code, on the flags of the caller
  have hcond : ((cnp.cn_nameiop = CREATE ∨ cnp.cn_nameiop = RENAME ∨
        (cnp.cn_nameiop = DELETE ∧ (cnp.cn_flags ||| ISWHITEOUT) &&& DOWHITEOUT ≠ 0 ∧
          (cnp.cn_flags ||| ISWHITEOUT) &&& ISWHITEOUT ≠ 0)) ∧
        cnp.cn_flags &&& ISLASTCN ≠ 0 ∧ dp.i_effnlink ≠ 0) ↔
      ((cnp.cn_nameiop = CREATE ∨ cnp.cn_nameiop = RENAME ∨
          (cnp.cn_nameiop = DELETE ∧ cnp.cn_flags &&& DOWHITEOUT ≠ 0)) ∧
        cnp.cn_flags &&& ISLASTCN ≠ 0 ∧ dp.i_effnlink ≠ 0) := by
    constructor
    · rintro ⟨h | h | ⟨h, hd, _⟩, hl, hn⟩
      · exact ⟨Or.inl h, hl, hn⟩
      · exact ⟨Or.inr (Or.inl h), hl, hn⟩
      · exact ⟨Or.inr (Or.inr ⟨h, w2.mp hd⟩), hl, hn⟩
    · rintro ⟨h | h | ⟨h, hd⟩, hl, hn⟩
      · exact ⟨Or.inl h, hl, hn⟩
      · exact ⟨Or.inr (Or.inl h), hl, hn⟩
      · exact ⟨Or.inr (Or.inr ⟨h, w2.mpr hd, w1⟩), hl, hn⟩
  have hflags : (ufs_lookup env data dp cnp).cn_flags &&& ISWHITEOUT ≠ 0 := by
    rw [hu]
    rcases k3 with h | h
    · rw [h]; exact w1
    · rw [h]; exact w3
  -- the cases in which no slot is due, or write access is refused
  have hkeep : (ufs_lookup env data dp cnp).ret ≠ .returned EJUSTRETURN →
      (ufs_lookup env data dp cnp).dp.i_offset = p := by
    intro h
    rw [hu] at h ⊢
    rw [k4 h]
  by_cases hc : (cnp.cn_nameiop = CREATE ∨ cnp.cn_nameiop = RENAME ∨
      (cnp.cn_nameiop = DELETE ∧ cnp.cn_flags &&& DOWHITEOUT ≠ 0)) ∧
      cnp.cn_flags &&& ISLASTCN ≠ 0 ∧ dp.i_effnlink ≠ 0
  · -- a slot is due: the lookup makes one pass
    have h1 : lookup_onepass dp cnp := by
      unfold lookup_onepass
      left
      rcases hc.1 with h | h | h
      · rw [h]; decide
      · rw [h]; decide
      · rw [h.1]; decide
    have hfm : first_match env data cnp recs = some p := by
      unfold lookup_hit at hhit
      rw [if_pos h1] at hhit
      exact hhit
    obtain ⟨A, B, hl, hA, _⟩ := first_match_split env data cnp recs p hfm
    subst hl
    obtain ⟨st2, hu2, s1, s2, s3, _⟩ := lookup_onepass_whiteout_state env data dp cnp A p B henv
      hsize htiles hok hA hm hwht h1
    by_cases hacc : env.access_err = 0
    · obtain ⟨r1, r2, r3⟩ := lookup_notfound_at_slot env cnp (cnp.cn_flags ||| ISWHITEOUT)
        { dp with i_offset := p, i_reclen := d_reclen env.little_endian data p } st2 p
        (d_reclen env.little_endian data p) s1 s2 s3 (hcond.mpr hc) hacc
      refine ⟨⟨hm, st', hu⟩, by rw [hu]; exact f1, by rw [hu]; exact f2, hflags,
        by rw [hu]; exact k1, by rw [hu]; exact k2, by rw [hu2]; exact r2,
        fun _ => ⟨fun h => absurd hacc h, fun _ => ⟨by rw [hu2]; exact r1, fun hd => ?_⟩⟩,
        fun h => absurd hc h⟩
      rw [hu2]
      exact (r3 hd).1
    · have hret : (ufs_lookup env data dp cnp).ret = .returned env.access_err := by
        rw [hu]
        unfold lookup_notfound
        simp only []
        rw [if_pos (hcond.mpr hc), if_pos hacc]
      have hoff : (ufs_lookup env data dp cnp).dp.i_offset = p := by
        rw [hu]
        unfold lookup_notfound
        simp only []
        rw [if_pos (hcond.mpr hc), if_pos hacc]
      exact ⟨⟨hm, st', hu⟩, by rw [hu]; exact f1, by rw [hu]; exact f2, hflags,
        by rw [hu]; exact k1, by rw [hu]; exact k2, hoff,
        fun _ => ⟨fun _ => hret, fun h => absurd h hacc⟩, fun h => absurd hc h⟩
  · have hret : (ufs_lookup env data dp cnp).ret = .returned ENOENT := by
      rw [hu]
      unfold lookup_notfound
      simp only []
      rw [if_neg (fun h => hc (hcond.mp h))]
    refine ⟨⟨hm, st', hu⟩, by rw [hu]; exact f1, by rw [hu]; exact f2, hflags,
      by rw [hu]; exact k1, by rw [hu]; exact k2, hkeep ?_, fun h => absurd h hc,
      fun _ => hret⟩
    rw [hret]
    decide

/-- Witness of C32 on `block_wht`: the CREATE lookup of `foobar` stops at the whiteout at
offset 24 and reports it as the slot. -/
theorem lookup_whiteout_match_witness :
    (ufs_lookup env_le block_wht dir_inode (cn_foobar CREATE)).vpp = none ∧
      (ufs_lookup env_le block_wht dir_inode (cn_foobar CREATE)).cn_flags &&& ISWHITEOUT ≠ 0 ∧
      (ufs_lookup env_le block_wht dir_inode (cn_foobar CREATE)).ret = .returned EJUSTRETURN ∧
      (ufs_lookup env_le block_wht dir_inode (cn_foobar CREATE)).dp.i_offset = 24 ∧
      (ufs_lookup env_le block_wht dir_inode (cn_foobar CREATE)).dp.i_count = 488 :=
  have h := lookup_whiteout_match env_le block_wht dir_inode (cn_foobar CREATE) [0, 12, 24]
    ⟨⟨13, by decide, by decide⟩, fun _ => rfl⟩ (by decide) (by decide) (by decide)
    (by decide) 24 (by decide) (by decide)
  ⟨h.2.1, h.2.2.2.1, ((h.2.2.2.2.2.2.2.1 (by decide)).2 rfl).1, h.2.2.2.2.2.2.1,
    ((h.2.2.2.2.2.2.2.1 (by decide)).2 rfl).2 (by decide)⟩

/-! ### The truncation point of a lookup for CREATE or RENAME -/

theorem advance_enduseful (env : ufs_env) (data : mem) (n : Nat) (st : lookup_state)
    (o : Nat) :
    (advance env data n st o).enduseful =
      if d_ino env.little_endian data o ≠ 0 then
        st.i_offset + d_reclen env.little_endian data o
      else st.enduseful := by
  have h1 := slot_update_frame env data n (scan_reset st o) o
  have h2 := scan_reset_frame st o
  unfold advance norm
  simp only
  rw [h1.1, h2.1, h1.2.2.2.2.2.1, h2.2.2.2.2.1]

theorem useful_inv_advance (env : ufs_env) (data : mem) (n : Nat) (done : List Nat)
    (st : lookup_state) (o : Nat)
    (htiles : tiles env.little_endian data 0 o done) (hoff : st.i_offset = o)
    (hinv : useful_inv env data done st) :
    useful_inv env data (done ++ [o]) (advance env data n st o) := by
  intro x hx hino
  rw [advance_enduseful, hoff]
  rcases List.mem_append.mp hx with h | h
  · have hb := (tiles_mem_bounds _ _ _ _ _ htiles x h).2
    by_cases ho : d_ino env.little_endian data o ≠ 0
    · rw [if_pos ho]; omega
    · rw [if_neg ho]; exact hinv x h hino
  · have hxo : x = o := by simpa using h
    subst hxo
    rw [if_pos hino]

theorem useful_inv_skip_all (env : ufs_env) (data : mem) (n : Nat) :
    ∀ (l done : List Nat) (a b : Nat) (st : lookup_state),
      tiles env.little_endian data 0 a done → tiles env.little_endian data a b l →
      st.i_offset = a → useful_inv env data done st →
      useful_inv env data (done ++ l) (skip_all env data n l st) := by
  intro l
  induction l with
  | nil =>
    intro done a b st _ _ _ hinv
    rw [List.append_nil]
    exact hinv
  | cons x xs ih =>
    intro done a b st hd hl hst hinv
    obtain ⟨hx, hpos, hrest⟩ := tiles_head _ _ _ _ _ _ hl
    subst hx
    have hstep := useful_inv_advance env data n done st x hd hst hinv
    have hd2 : tiles env.little_endian data 0 (x + d_reclen env.little_endian data x)
        (done ++ [x]) :=
      tiles_append _ _ _ _ _ _ _ hd
        (show tiles env.little_endian data x _ [x] from ⟨rfl, hpos, rfl⟩)
    have := ih (done ++ [x]) _ b (advance env data n st x) hd2 hrest
      (by rw [(advance_frame env data n st x).1, hst]) hstep
    rw [List.append_assoc] at this
    exact this

/-- What a CREATE or RENAME lookup of the final component leaves in the inode when no
record carries the name: the slot, with the space needed, and the truncation point, at or
beyond the end of every record in use and of the slot. -/
theorem lookup_slot_spec (env : ufs_env) (data : mem) (dp : inode) (cnp : componentname)
    (recs : List Nat) (henv : env_ok env) (hsize : dp.i_size % 512 = 0)
    (htiles : tiles env.little_endian data 0 dp.i_size recs)
    (hok : ∀ o ∈ recs, entry_ok env data o)
    (habsent : ∀ o ∈ recs, ¬ is_match env data cnp o)
    (hop : cnp.cn_nameiop = CREATE ∨ cnp.cn_nameiop = RENAME)
    (hlast : cnp.cn_flags &&& ISLASTCN ≠ 0)
    (hlink : dp.i_effnlink ≠ 0) (hacc : env.access_err = 0)
    (r : lookup_result) (hr : r = ufs_lookup env data dp cnp) :
    r.ret = .returned EJUSTRETURN ∧ r.dp.i_size = dp.i_size ∧
      r.dp.i_diroff = dp.i_diroff ∧ r.dp.i_endoff % 512 = 0 ∧
      (∀ o ∈ recs, d_ino env.little_endian data o ≠ 0 →
        o + d_reclen env.little_endian data o ≤ r.dp.i_endoff) ∧
      r.dp.i_offset + r.dp.i_count ≤ r.dp.i_endoff ∧
      ((r.dp.i_count = 0 ∧ r.dp.i_offset = dp.i_size ∧ r.dp.i_endoff = dp.i_size) ∨
        ∃ pre slot post, recs = pre ++ slot ++ post ∧ r.dp.i_count ≠ 0 ∧
          tiles env.little_endian data r.dp.i_offset (r.dp.i_offset + r.dp.i_count) slot ∧
          (DIRECTSIZ cnp.cn_namelen : Int) ≤ slot_free env data slot ∧
          r.dp.i_offset + r.dp.i_count ≤ r.dp.i_offset - r.dp.i_offset % 512 + 512) := by
  obtain ⟨h1, hneed, hss, hi, hinv0, _⟩ := slot_search_init env data dp cnp hop hlast
  have hu := lookup_onepass_absent env data dp cnp recs henv hsize htiles hok habsent h1
  have hinv := slot_inv_skip_all env data (lookup_slotneeded cnp) recs [] 0 dp.i_size
    (norm (lookup_init env dp cnp)) (by simp [tiles]) htiles hi hok hinv0
  have huse := useful_inv_skip_all env data (lookup_slotneeded cnp) recs [] 0 dp.i_size
    (norm (lookup_init env dp cnp)) (by simp [tiles]) htiles hi
    (by intro o ho; simp at ho)
  rw [List.nil_append] at hinv huse
  rw [hu] at hr
  generalize skip_all env data (lookup_slotneeded cnp) recs
    (norm (lookup_init env dp cnp)) = st' at hr hinv huse
  rw [hneed] at hinv
  have hcond : (cnp.cn_nameiop = CREATE ∨ cnp.cn_nameiop = RENAME ∨
      (cnp.cn_nameiop = DELETE ∧ cnp.cn_flags &&& DOWHITEOUT ≠ 0 ∧
        cnp.cn_flags &&& ISWHITEOUT ≠ 0)) ∧
      cnp.cn_flags &&& ISLASTCN ≠ 0 ∧ dp.i_effnlink ≠ 0 := by
    refine ⟨?_, hlast, hlink⟩
    rcases hop with h | h
    · exact Or.inl h
    · exact Or.inr (Or.inl h)
  have hdel : ¬ cnp.cn_nameiop = DELETE := by
    rcases hop with h | h <;> rw [h] <;> decide
  have hr512 : roundup2 dp.i_size DIRBLKSIZ = dp.i_size := roundup2_of_dvd _ hsize
  unfold lookup_notfound at hr
  simp only [] at hr
  rw [if_pos hcond, if_neg (by rw [hacc]; exact fun h => h rfl)] at hr
  by_cases hnone : st'.slotstatus = slot_status.NONE
  · rw [if_pos hnone] at hr
    have hoff : r.dp.i_offset = dp.i_size := by subst hr; exact hr512
    have hcnt : r.dp.i_count = 0 := by subst hr; rfl
    have hend : r.dp.i_endoff = dp.i_size := by
      subst hr
      show roundup2 (roundup2 dp.i_size DIRBLKSIZ) DIRBLKSIZ = dp.i_size
      rw [hr512, hr512]
    refine ⟨by subst hr; rfl, by subst hr; rfl, by subst hr; rfl, by rw [hend]; exact hsize,
      ?_, by rw [hoff, hcnt, hend]; omega, Or.inl ⟨hcnt, hoff, hend⟩⟩
    intro o ho _
    rw [hend]
    exact (tiles_mem_bounds _ _ _ _ _ htiles o ho).2
  · rw [if_neg hnone, if_neg hdel] at hr
    unfold slot_inv at hinv
    rw [if_neg hnone] at hinv
    obtain ⟨pre, S, run, post, hrecs, hS, hts, hfree, hsub⟩ := hinv
    obtain ⟨_, hpos, hrest⟩ := tiles_head _ _ _ _ _ _ hts
    have hle := tiles_le _ _ _ _ _ hrest
    have hoff : r.dp.i_offset = S := by
      subst hr
      show st'.slotoffset.toNat = S
      rw [hS]
      simp
    have hcnt : r.dp.i_count = st'.slotsize := by subst hr; rfl
    have hend : r.dp.i_endoff = roundup2 (if (st'.enduseful : Int) <
        st'.slotoffset + st'.slotsize then (st'.slotoffset + st'.slotsize).toNat
        else st'.enduseful) DIRBLKSIZ := by subst hr; rfl
    have hge := roundup2_ge (if (st'.enduseful : Int) <
        st'.slotoffset + st'.slotsize then (st'.slotoffset + st'.slotsize).toNat
        else st'.enduseful)
    have hend2 : S + st'.slotsize ≤ r.dp.i_endoff ∧ st'.enduseful ≤ r.dp.i_endoff := by
      rw [hend]
      constructor
      · refine le_trans ?_ hge.1
        split_ifs with hlt
        · rw [hS]; omega
        · rw [hS] at hlt; omega
      · refine le_trans ?_ hge.1
        split_ifs with hlt
        · rw [hS] at hlt ⊢; omega
        · exact le_refl _
    refine ⟨by subst hr; rfl, by subst hr; rfl, by subst hr; rfl, by rw [hend]; exact hge.2,
      ?_, by rw [hoff, hcnt]; exact hend2.1, Or.inr ?_⟩
    · intro o ho hino
      exact le_trans (huse o ho hino) hend2.2
    · refine ⟨pre, S :: run, post, hrecs, ?_, ?_, hfree, ?_⟩
      · rw [hcnt]; omega
      · rw [hoff, hcnt]; exact hts
      · rw [hoff, hcnt]; exact hsub

/-- What a CREATE or RENAME lookup of the final component leaves in the inode when the
first record carrying the name is a whiteout: the whiteout is the slot, and the truncation
point is the size of the directory. -/
theorem lookup_whiteout_slot (env : ufs_env) (data : mem) (dp : inode) (cnp : componentname)
    (A : List Nat) (p : Nat) (B : List Nat) (henv : env_ok env) (hsize : dp.i_size % 512 = 0)
    (htiles : tiles env.little_endian data 0 dp.i_size (A ++ p :: B))
    (hok : ∀ o ∈ A ++ p :: B, entry_ok env data o)
    (hA : ∀ o ∈ A, ¬ is_match env data cnp o)
    (hp : is_match env data cnp p) (hwht : is_whiteout env data p)
    (hop : cnp.cn_nameiop = CREATE ∨ cnp.cn_nameiop = RENAME)
    (hlast : cnp.cn_flags &&& ISLASTCN ≠ 0)
    (hlink : dp.i_effnlink ≠ 0) (hacc : env.access_err = 0) :
    (ufs_lookup env data dp cnp).ret = .returned EJUSTRETURN ∧
      (ufs_lookup env data dp cnp).dp.i_size = dp.i_size ∧
      (ufs_lookup env data dp cnp).dp.i_offset = p ∧
      (ufs_lookup env data dp cnp).dp.i_count = d_reclen env.little_endian data p ∧
      (ufs_lookup env data dp cnp).dp.i_endoff = dp.i_size := by
  have h1 : lookup_onepass dp cnp := (slot_search_init env data dp cnp hop hlast).1
  obtain ⟨st', hu, s1, s2, s3, s4⟩ := lookup_onepass_whiteout_state env data dp cnp A p B henv
    hsize htiles hok hA hp hwht h1
  have hdel : cnp.cn_nameiop ≠ DELETE := by
    rcases hop with h | h <;> rw [h] <;> decide
  have hcond : (cnp.cn_nameiop = CREATE ∨ cnp.cn_nameiop = RENAME ∨
      (cnp.cn_nameiop = DELETE ∧ (cnp.cn_flags ||| ISWHITEOUT) &&& DOWHITEOUT ≠ 0 ∧
        (cnp.cn_flags ||| ISWHITEOUT) &&& ISWHITEOUT ≠ 0)) ∧
      cnp.cn_flags &&& ISLASTCN ≠ 0 ∧ dp.i_effnlink ≠ 0 := by
    refine ⟨?_, hlast, hlink⟩
    rcases hop with h | h
    · exact Or.inl h
    · exact Or.inr (Or.inl h)
  obtain ⟨r1, r2, r3⟩ := lookup_notfound_at_slot env cnp (cnp.cn_flags ||| ISWHITEOUT)
    { dp with i_offset := p, i_reclen := d_reclen env.little_endian data p } st' p
    (d_reclen env.little_endian data p) s1 s2 s3 hcond hacc
  obtain ⟨r4, r5⟩ := r3 hdel
  have hb := (tiles_mem_bounds _ _ _ _ _ htiles p (by simp)).2
  rw [hu]
  refine ⟨r1, (lookup_notfound_dp env cnp _ _ st').2.1, r2, r4, ?_⟩
  rw [r5, s4, if_neg (by omega)]
  exact roundup2_of_dvd _ hsize

/-! ### The size of the directory after `ufs_direnter` -/

theorem slot_truncate_cases (env : ufs_env) (dp : inode) (error : Int) :
    (slot_truncate env dp error).i_size = dp.i_size ∨
      (error = 0 ∧ env.truncate_err = 0 ∧ dp.i_endoff ≠ 0 ∧ dp.i_endoff < dp.i_size ∧
        (slot_truncate env dp error).i_size = dp.i_endoff) := by
  unfold slot_truncate
  simp only []
  by_cases h : error = 0 ∧ dp.i_endoff ≠ 0 ∧ dp.i_endoff < dp.i_size ∧ env.truncate_err = 0
  · rw [if_pos h]
    exact Or.inr ⟨h.1, h.2.2.2, h.2.1, h.2.2.1, rfl⟩
  · rw [if_neg h]
    exact Or.inl rfl

theorem direnter_place_dp (env : ufs_env) (dp : inode) (dirp : mem) (s : compact_state) :
    (direnter_place env dp dirp s).dp = dp ∨
      (direnter_place env dp dirp s).dp = slot_truncate env dp (slot_write_error env) := by
  unfold direnter_place direnter_finish
  simp only []
  split_ifs
  · exact Or.inl rfl
  · exact Or.inr rfl
  · exact Or.inl rfl
  · exact Or.inr rfl

/-- The size `ufs_direnter` leaves: it is not below the size before the call, unless the
entry went into a slot, the write reported no error and `UFS_TRUNCATE` cut the directory at
a non-zero `i_endoff`. -/
theorem direnter_size (env : ufs_env) (data : mem) (dp : inode) (dirp : mem)
    (h0 : dp.i_count = 0 → dp.i_size ≤ dp.i_offset + DIRBLKSIZ) :
    dp.i_size ≤ (ufs_direnter env data dp dirp).dp.i_size ∨
      (dp.i_count ≠ 0 ∧ slot_write_error env = 0 ∧ env.truncate_err = 0 ∧ dp.i_endoff ≠ 0 ∧
        (ufs_direnter env data dp dirp).dp.i_size = dp.i_endoff) := by
  unfold ufs_direnter
  simp only []
  by_cases hc : dp.i_count = 0
  · left
    have := h0 hc
    rw [if_pos hc]
    split_ifs
    · exact le_refl _
    · exact le_refl _
    · exact this
    · exact this
    · exact this
    · exact this
  · rw [if_neg hc]
    have hdp1 : dp.i_size ≤ (if dp.i_offset + dp.i_count > dp.i_size then
        { dp with i_size := dp.i_offset + dp.i_count } else dp).i_size ∧
        (if dp.i_offset + dp.i_count > dp.i_size then
        { dp with i_size := dp.i_offset + dp.i_count } else dp).i_endoff = dp.i_endoff := by
      split_ifs with h
      · exact ⟨by show dp.i_size ≤ dp.i_offset + dp.i_count; omega, rfl⟩
      · exact ⟨le_refl _, rfl⟩
    generalize (if dp.i_offset + dp.i_count > dp.i_size then
        { dp with i_size := dp.i_offset + dp.i_count } else dp) = dp1 at hdp1
    by_cases hio : env.blkatoff_err dp.i_offset ≠ 0
    · rw [if_pos hio]
      exact Or.inl hdp1.1
    · rw [if_neg hio]
      cases hcl : compact_loop env dp.i_offset dp.i_count dp.i_count
          { data := data, ep := dp.i_offset,
            dsize := DIRSIZ env (OFSFMT env) data dp.i_offset,
            spacefree := (d_reclen env.little_endian data dp.i_offset : Int) -
              DIRSIZ env (OFSFMT env) data dp.i_offset,
            loc := d_reclen env.little_endian data dp.i_offset } with
      | none => exact Or.inl hdp1.1
      | some s =>
        simp only []
        rcases direnter_place_dp env dp1 dirp s with h | h
        · rw [h]; exact Or.inl hdp1.1
        · rw [h]
          rcases slot_truncate_cases env dp1 (slot_write_error env) with k | ⟨k1, k2, k3, _, k5⟩
          · rw [k]; exact Or.inl hdp1.1
          · right
            rw [hdp1.2] at k3 k5
            exact ⟨hc, k1, k2, k3, k5⟩

/-- C38: truncation never cuts live data. On a sound directory, a CREATE or RENAME lookup
of the final component that ends not found (no record carries the name, or the first that
does is a whiteout) returns `EJUSTRETURN` and leaves a truncation point `i_endoff` that is a
multiple of `DIRBLKSIZ`, is not below the end of any record in use, and is not below
the end `i_offset + i_count` of the reported slot. Hence, whatever entry `ufs_direnter` is
then given, the size it leaves is not below the end of any record that was in use nor
below the end of the slot, where the new entry goes; and it is below the size before the
call only when the entry went into a slot, the write reported no error and the directory
was cut at `i_endoff`, which is not 0. -/
theorem lookup_endoff_safe (env : ufs_env) (data : mem) (dp : inode) (cnp : componentname)
    (recs : List Nat) (henv : env_ok env) (hsize : dp.i_size % DIRBLKSIZ = 0)
    (htiles : tiles env.little_endian data 0 dp.i_size recs)
    (hok : ∀ o ∈ recs, entry_ok env data o)
    (hmiss : ∀ p, first_match env data cnp recs = some p → is_whiteout env data p)
    (hop : cnp.cn_nameiop = CREATE ∨ cnp.cn_nameiop = RENAME)
    (hlast : cnp.cn_flags &&& ISLASTCN ≠ 0)
    (hlink : dp.i_effnlink ≠ 0) (hacc : env.access_err = 0) :
    (ufs_lookup env data dp cnp).ret = .returned EJUSTRETURN ∧
      (ufs_lookup env data dp cnp).dp.i_endoff % DIRBLKSIZ = 0 ∧
      (∀ o ∈ recs, d_ino env.little_endian data o ≠ 0 →
        o + d_reclen env.little_endian data o ≤ (ufs_lookup env data dp cnp).dp.i_endoff) ∧
      (ufs_lookup env data dp cnp).dp.i_offset + (ufs_lookup env data dp cnp).dp.i_count ≤
        (ufs_lookup env data dp cnp).dp.i_endoff ∧
      ∀ dirp : mem,
        (∀ o ∈ recs, d_ino env.little_endian data o ≠ 0 →
          o + d_reclen env.little_endian data o ≤
            (ufs_direnter env data (ufs_lookup env data dp cnp).dp dirp).dp.i_size) ∧
        (ufs_lookup env data dp cnp).dp.i_offset + (ufs_lookup env data dp cnp).dp.i_count ≤
          (ufs_direnter env data (ufs_lookup env data dp cnp).dp dirp).dp.i_size ∧
        ((ufs_direnter env data (ufs_lookup env data dp cnp).dp dirp).dp.i_size <
            (ufs_lookup env data dp cnp).dp.i_size →
          (ufs_lookup env data dp cnp).dp.i_count ≠ 0 ∧ slot_write_error env = 0 ∧
            0 < (ufs_lookup env data dp cnp).dp.i_endoff ∧
            (ufs_direnter env data (ufs_lookup env data dp cnp).dp dirp).dp.i_size =
              (ufs_lookup env data dp cnp).dp.i_endoff) := by
  have h512 : DIRBLKSIZ = 512 := rfl
  rw [h512] at hsize ⊢
  -- what the lookup leaves, in both cases
  have key : (ufs_lookup env data dp cnp).ret = .returned EJUSTRETURN ∧
      (ufs_lookup env data dp cnp).dp.i_size = dp.i_size ∧
      (ufs_lookup env data dp cnp).dp.i_endoff % 512 = 0 ∧
      (∀ o ∈ recs, d_ino env.little_endian data o ≠ 0 →
        o + d_reclen env.little_endian data o ≤ (ufs_lookup env data dp cnp).dp.i_endoff) ∧
      (ufs_lookup env data dp cnp).dp.i_offset + (ufs_lookup env data dp cnp).dp.i_count ≤
        (ufs_lookup env data dp cnp).dp.i_endoff ∧
      (ufs_lookup env data dp cnp).dp.i_offset + (ufs_lookup env data dp cnp).dp.i_count ≤
        dp.i_size ∧
      ((ufs_lookup env data dp cnp).dp.i_count = 0 →
        (ufs_lookup env data dp cnp).dp.i_offset = dp.i_size) := by
    cases hfm : first_match env data cnp recs with
    | none =>
      have habsent := (first_match_none env data cnp recs).mp hfm
      obtain ⟨a1, a2, _, a4, a5, a6, a7⟩ := lookup_slot_spec env data dp cnp recs henv hsize
        htiles hok habsent hop hlast hlink hacc _ rfl
      refine ⟨a1, a2, a4, a5, a6, ?_, ?_⟩
      · rcases a7 with ⟨c1, c2, _⟩ | ⟨pre, slot, post, hrecs, _, hts, _, _⟩
        · rw [c1, c2]; omega
        · rw [hrecs] at htiles
          by_cases hne : (ufs_lookup env data dp cnp).dp.i_offset =
              (ufs_lookup env data dp cnp).dp.i_offset + (ufs_lookup env data dp cnp).dp.i_count
          · have := tiles_le _ _ _ _ _ hts
            have hall := tiles_le _ _ _ _ _ htiles
            cases slot with
            | nil =>
              have : (ufs_lookup env data dp cnp).dp.i_offset =
                (ufs_lookup env data dp cnp).dp.i_offset +
                  (ufs_lookup env data dp cnp).dp.i_count := hts
              omega
            | cons s ss =>
              have hpos := (tiles_head _ _ _ _ _ _ hts).2.1
              have hb := (tiles_head _ _ _ _ _ _ hts).2.2
              have := tiles_le _ _ _ _ _ hb
              have := (tiles_head _ _ _ _ _ _ hts).1
              omega
          · obtain ⟨_, htpost⟩ := tiles_three _ _ _ _ _ _ _ _ _ htiles hts hne
            exact tiles_le _ _ _ _ _ htpost
      · intro hc
        rcases a7 with ⟨_, c2, _⟩ | ⟨_, _, _, _, hcn, _⟩
        · exact c2
        · exact absurd hc hcn
    | some p =>
      obtain ⟨A, B, hl, hA, hp⟩ := first_match_split env data cnp recs p hfm
      subst hl
      obtain ⟨b1, b2, b3, b4, b5⟩ := lookup_whiteout_slot env data dp cnp A p B henv hsize
        htiles hok hA hp (hmiss p hfm) hop hlast hlink hacc
      have hb := tiles_mem_bounds _ _ _ _ _ htiles
      have hpos := tiles_mem_pos _ _ _ _ _ htiles p (by simp)
      refine ⟨b1, b2, by rw [b5]; exact hsize, ?_, by rw [b3, b4, b5]; exact (hb p (by simp)).2,
        by rw [b3, b4]; exact (hb p (by simp)).2, ?_⟩
      · intro o ho _
        rw [b5]
        exact (hb o ho).2
      · intro hc
        rw [b4] at hc
        omega
  obtain ⟨k1, k2, k3, k4, k5, k6, k7⟩ := key
  refine ⟨k1, k3, k4, k5, ?_⟩
  intro dirp
  have hsz := direnter_size env data (ufs_lookup env data dp cnp).dp dirp
    (by intro hc; rw [k7 hc, k2, h512]; omega)
  have hends : ∀ o ∈ recs, o + d_reclen env.little_endian data o ≤ dp.i_size :=
    fun o ho => (tiles_mem_bounds _ _ _ _ _ htiles o ho).2
  rcases hsz with h | ⟨h1, h2, _, h4, h5⟩
  · rw [k2] at h
    refine ⟨fun o ho _ => le_trans (hends o ho) h, le_trans k6 h, ?_⟩
    intro hlt
    rw [k2] at hlt
    omega
  · refine ⟨fun o ho hino => by rw [h5]; exact k4 o ho hino, by rw [h5]; exact k5, ?_⟩
    intro _
    exact ⟨h1, h2, Nat.pos_of_ne_zero h4, h5⟩

/-- Witness of C38 on `block_gaps`: the CREATE lookup of `c` reports the slot at 36 of 476
bytes and the truncation point 512. -/
theorem lookup_endoff_safe_witness :
    (ufs_lookup env_le block_gaps dir_inode (cn_c CREATE)).ret = .returned EJUSTRETURN ∧
      (ufs_lookup env_le block_gaps dir_inode (cn_c CREATE)).dp.i_endoff = 512 ∧
      (∀ o ∈ [0, 16, 36], d_ino env_le.little_endian block_gaps o ≠ 0 →
        o + d_reclen env_le.little_endian block_gaps o ≤
          (ufs_lookup env_le block_gaps dir_inode (cn_c CREATE)).dp.i_endoff) :=
  have h := lookup_endoff_safe env_le block_gaps dir_inode (cn_c CREATE) [0, 16, 36]
    ⟨⟨13, by decide, by decide⟩, fun _ => rfl⟩ (by decide) (by decide) (by decide)
    (by decide) (Or.inl (by decide)) (by decide) (by decide) (by decide)
  ⟨h.1, by decide, h.2.2.1⟩

/-! ### `ufs_direnter` on the slot a lookup left -/

theorem compact_loop_done (env : ufs_env) (dirbuf i_count fuel : Nat) (s : compact_state)
    (h : ¬ s.loc < i_count) : compact_loop env dirbuf i_count fuel s = some s := by
  cases fuel with
  | zero => rw [compact_loop, if_neg h]
  | succ k => rw [compact_loop, if_pos h]

theorem direnter_newblk_returns (env : ufs_env) (data : mem) (dp : inode) (dirp : mem)
    (hc : dp.i_count = 0) (ha : dp.i_offset % 512 = 0) :
    ∃ e, (ufs_direnter env data dp dirp).ret = .returned e := by
  unfold ufs_direnter
  simp only []
  rw [if_pos hc, if_neg (by rw [and_511, ha]; exact fun h => h rfl)]
  split_ifs <;> exact ⟨_, rfl⟩

/-- The slot case of `ufs_direnter` when the slot is one record, a whiteout (`d_ino =
WINO`) whose name starts with the name of the new entry: the new entry is written over it
and takes its record length. -/
theorem direnter_over_whiteout (env : ufs_env) (data : mem) (dp : inode) (dirp : mem)
    (hcnt : dp.i_count = d_reclen env.little_endian data dp.i_offset)
    (hpos : 0 < d_reclen env.little_endian data dp.i_offset)
    (hio : env.blkatoff_err dp.i_offset = 0)
    (hino : d_ino env.little_endian data dp.i_offset = WINO)
    (hname : bcmp_eq data (dp.i_offset + 8) dirp 8 (d_namlen dirp 0) = true)
    (hfit : DIRSIZ env (OFSFMT env) dirp 0 ≤ d_reclen env.little_endian data dp.i_offset) :
    (ufs_direnter env data dp dirp).ret = .returned (slot_write_error env) ∧
      (ufs_direnter env data dp dirp).data =
        bcopy (wr16 env.little_endian dirp 4 (d_reclen env.little_endian data dp.i_offset)) 0
          data dp.i_offset (DIRSIZ env (OFSFMT env) dirp 0) ∧
      (ufs_direnter env data dp dirp).dp =
        slot_truncate env
          (if dp.i_offset + dp.i_count > dp.i_size then
            { dp with i_size := dp.i_offset + dp.i_count }
          else dp) (slot_write_error env) := by
  have hR := rd16_lt env.little_endian data (dp.i_offset + 4)
  have hRR : d_reclen env.little_endian data dp.i_offset < 65536 := hR
  have hc0 : dp.i_count ≠ 0 := by rw [hcnt]; omega
  have hrun : compact_loop env dp.i_offset dp.i_count dp.i_count
      { data := data, ep := dp.i_offset,
        dsize := DIRSIZ env (OFSFMT env) data dp.i_offset,
        spacefree := (d_reclen env.little_endian data dp.i_offset : Int) -
          DIRSIZ env (OFSFMT env) data dp.i_offset,
        loc := d_reclen env.little_endian data dp.i_offset } = some _ :=
    compact_loop_done env dp.i_offset dp.i_count dp.i_count _
      (by show ¬ d_reclen env.little_endian data dp.i_offset < dp.i_count; omega)
  have hu32 : to_u32 ((d_reclen env.little_endian data dp.i_offset : Int) -
      DIRSIZ env (OFSFMT env) data dp.i_offset + DIRSIZ env (OFSFMT env) data dp.i_offset) =
      d_reclen env.little_endian data dp.i_offset := by
    have : (d_reclen env.little_endian data dp.i_offset : Int) -
        DIRSIZ env (OFSFMT env) data dp.i_offset + DIRSIZ env (OFSFMT env) data dp.i_offset =
        (d_reclen env.little_endian data dp.i_offset : Int) := by omega
    rw [this]
    exact to_u32_of_nat _ (by omega)
  have hrw : ufs_direnter env data dp dirp =
      direnter_place env
        (if dp.i_offset + dp.i_count > dp.i_size then
          { dp with i_size := dp.i_offset + dp.i_count } else dp) dirp
        { data := data, ep := dp.i_offset,
          dsize := DIRSIZ env (OFSFMT env) data dp.i_offset,
          spacefree := (d_reclen env.little_endian data dp.i_offset : Int) -
            DIRSIZ env (OFSFMT env) data dp.i_offset,
          loc := d_reclen env.little_endian data dp.i_offset } := by
    unfold ufs_direnter
    simp only [if_neg hc0, hio, ne_eq, not_true_eq_false, if_false]
    rw [hrun]
  rw [hrw]
  unfold direnter_place
  simp only []
  rw [if_pos (Or.inr ⟨hino, hname⟩), hu32, if_neg (by omega)]
  exact ⟨rfl, rfl, rfl⟩

/-- The name test of the search loop on the record at `p` makes the name bytes of the
record equal to those of the entry `ufs_makedirentry` builds for the same component name,
over the name length the entry carries. -/
theorem match_bcmp_new_entry (env : ufs_env) (data : mem) (cnp : componentname)
    (ino mode : Nat) (newdirp : mem) (p : Nat)
    (hp : is_match env data cnp p) (hnew : env.mnt_maxsymlinklen > 0)
    (hino : ino < 4294967296) (hlen : cnp.cn_namelen ≤ 255) :
    bcmp_eq data (p + 8) (ufs_makedirentry env ino mode cnp newdirp) 8
      (d_namlen (ufs_makedirentry env ino mode cnp newdirp) 0) = true := by
  obtain ⟨_, f2, f3, _⟩ := makedirentry_fields env ino mode cnp newdirp hino hlen
  have hfmt : OFSFMT env = false := by
    unfold OFSFMT
    simp only [decide_eq_false_iff_not]
    omega
  have hnl : d_namlen (ufs_makedirentry env ino mode cnp newdirp) 0 = cnp.cn_namelen := by
    rw [← f2]
    unfold namlen_of
    rw [hfmt]
    simp
  have hm := hp.2
  unfold name_match at hm
  simp only [Bool.and_eq_true, decide_eq_true_eq] at hm
  obtain ⟨hl, _, hb⟩ := hm
  rw [hl] at hb
  rw [hnl, bcmp_eq_iff]
  intro i hi
  have h1 := (bcmp_eq_iff _ _ _ _ _).mp hb i hi
  have h2 := f3 i (by omega)
  unfold d_name at h2
  rw [Nat.zero_add] at h1 h2
  rw [h2, h1]

/-- The slot case of `ufs_direnter` when the slot is one record in use whose inode number
is not `WINO` and whose free space is below the size of the new entry: the call ends in
the panic `compact2` and the directory content is untouched. -/
theorem direnter_full_record (env : ufs_env) (data : mem) (dp : inode) (dirp : mem)
    (hcnt : dp.i_count = d_reclen env.little_endian data dp.i_offset)
    (hpos : 0 < d_reclen env.little_endian data dp.i_offset)
    (hio : env.blkatoff_err dp.i_offset = 0)
    (hino : d_ino env.little_endian data dp.i_offset ≠ 0)
    (hwino : d_ino env.little_endian data dp.i_offset ≠ WINO)
    (hfull : (d_reclen env.little_endian data dp.i_offset : Int) -
      DIRSIZ env (OFSFMT env) data dp.i_offset < DIRSIZ env (OFSFMT env) dirp 0) :
    (ufs_direnter env data dp dirp).ret = .panic_compact2 ∧
      (ufs_direnter env data dp dirp).data = data ∧
      (ufs_direnter env data dp dirp).dp =
        (if dp.i_offset + dp.i_count > dp.i_size then
          { dp with i_size := dp.i_offset + dp.i_count }
        else dp) := by
  have hc0 : dp.i_count ≠ 0 := by rw [hcnt]; omega
  have hrun : compact_loop env dp.i_offset dp.i_count dp.i_count
      { data := data, ep := dp.i_offset,
        dsize := DIRSIZ env (OFSFMT env) data dp.i_offset,
        spacefree := (d_reclen env.little_endian data dp.i_offset : Int) -
          DIRSIZ env (OFSFMT env) data dp.i_offset,
        loc := d_reclen env.little_endian data dp.i_offset } = some _ :=
    compact_loop_done env dp.i_offset dp.i_count dp.i_count _
      (by show ¬ d_reclen env.little_endian data dp.i_offset < dp.i_count; omega)
  have hrw : ufs_direnter env data dp dirp =
      direnter_place env
        (if dp.i_offset + dp.i_count > dp.i_size then
          { dp with i_size := dp.i_offset + dp.i_count } else dp) dirp
        { data := data, ep := dp.i_offset,
          dsize := DIRSIZ env (OFSFMT env) data dp.i_offset,
          spacefree := (d_reclen env.little_endian data dp.i_offset : Int) -
            DIRSIZ env (OFSFMT env) data dp.i_offset,
          loc := d_reclen env.little_endian data dp.i_offset } := by
    unfold ufs_direnter
    simp only [if_neg hc0, hio, ne_eq, not_true_eq_false, if_false]
    rw [hrun]
  rw [hrw]
  unfold direnter_place
  simp only []
  rw [if_neg (by
    rintro (h | ⟨h, _⟩)
    · exact hino h
    · exact hwino h), if_pos hfull]
  exact ⟨rfl, rfl, rfl⟩

/-- C33, as stated, fails: in the directory `block_typed` every record passes
`ufs_dirbadentry` and the records cover the block; the entry `foobar -> 37` at offset 24 has
the type `DT_WHT` but not the inode number `WINO`, and is as long as its packed size. The
CREATE lookup of `foobar` takes it for a whiteout by its type: it returns `EJUSTRETURN`
with the slot `i_offset = 24`, `i_count = 16`. `ufs_direnter`, which knows a whiteout by
`d_ino == WINO`, finds an entry in use with no free space and ends in the panic
`compact2`. -/
theorem create_panics_on_typed_entry :
    walk env_le.little_endian block_typed 512 512 0 = [0, 12, 24, 40] ∧
      (∀ o ∈ [0, 12, 24, 40], ufs_dirbadentry env_le block_typed o o = false) ∧
      (ufs_lookup env_le block_typed dir_inode (cn_foobar CREATE)).ret =
        .returned EJUSTRETURN ∧
      (ufs_lookup env_le block_typed dir_inode (cn_foobar CREATE)).dp.i_offset = 24 ∧
      (ufs_lookup env_le block_typed dir_inode (cn_foobar CREATE)).dp.i_count = 16 ∧
      (create_entry env_le block_typed dir_inode (cn_foobar CREATE) 36 0o100644
        (mem_of [])).ret = .panic_compact2 := by
  refine ⟨by decide, by decide, by decide, by decide, by decide, by decide⟩

/-- C33 (amended): the search and the mutate phases never disagree. On a sound directory,
when a CREATE or RENAME lookup of the final component ends not found (no record carries the
name, or the first that does is a whiteout, of type `DT_WHT` and with `d_ino = WINO`) and
`ufs_direnter` is called on the inode as the lookup left it with the entry
`ufs_makedirentry` builds for the name (at most `MAXNAMLEN` bytes long), the call returns:
none of the panics `newblk`,
`compact1`, `compact2` is reached. With `i_count = 0` the offset is a multiple of
`DIRBLKSIZ`; otherwise the slot is a run of records of the directory whose free space is at
least the size of the new entry, or it is the whiteout of the name, which the new entry
replaces and which is at least as long. -/
theorem create_never_panics (env : ufs_env) (data : mem) (dp : inode) (cnp : componentname)
    (recs : List Nat) (ino mode : Nat) (newdirp : mem)
    (henv : env_ok env) (hsize : dp.i_size % DIRBLKSIZ = 0)
    (htiles : tiles env.little_endian data 0 dp.i_size recs)
    (hok : ∀ o ∈ recs, entry_ok env data o)
    (hmiss : ∀ p, first_match env data cnp recs = some p →
      is_whiteout env data p ∧ d_ino env.little_endian data p = WINO)
    (hop : cnp.cn_nameiop = CREATE ∨ cnp.cn_nameiop = RENAME)
    (hlast : cnp.cn_flags &&& ISLASTCN ≠ 0)
    (hlink : dp.i_effnlink ≠ 0) (hacc : env.access_err = 0)
    (hino : ino < 4294967296) (hlen : cnp.cn_namelen ≤ MAXNAMLEN) :
    (ufs_lookup env data dp cnp).ret = .returned EJUSTRETURN ∧
      (∃ e, (create_entry env data dp cnp ino mode newdirp).ret = .returned e) ∧
      (create_entry env data dp cnp ino mode newdirp).ret ≠ .panic_newblk ∧
      (create_entry env data dp cnp ino mode newdirp).ret ≠ .panic_compact1 ∧
      (create_entry env data dp cnp ino mode newdirp).ret ≠ .panic_compact2 ∧
      ((ufs_lookup env data dp cnp).dp.i_count = 0 →
        (ufs_lookup env data dp cnp).dp.i_offset % DIRBLKSIZ = 0) ∧
      ((ufs_lookup env data dp cnp).dp.i_count ≠ 0 →
        ∃ slot, (∀ o ∈ slot, o ∈ recs) ∧
          tiles env.little_endian data (ufs_lookup env data dp cnp).dp.i_offset
            ((ufs_lookup env data dp cnp).dp.i_offset + (ufs_lookup env data dp cnp).dp.i_count)
            slot ∧
          ((DIRSIZ env (OFSFMT env) (ufs_makedirentry env ino mode cnp newdirp) 0 : Int) ≤
              slot_free env data slot ∨
            (slot = [(ufs_lookup env data dp cnp).dp.i_offset] ∧
              is_match env data cnp (ufs_lookup env data dp cnp).dp.i_offset ∧
              is_whiteout env data (ufs_lookup env data dp cnp).dp.i_offset ∧
              DIRSIZ env (OFSFMT env) (ufs_makedirentry env ino mode cnp newdirp) 0 ≤
                d_reclen env.little_endian data (ufs_lookup env data dp cnp).dp.i_offset))) := by
  have h512 : DIRBLKSIZ = 512 := rfl
  have h255 : MAXNAMLEN = 255 := rfl
  rw [h512] at hsize ⊢
  rw [h255] at hlen
  have hsz := makedirentry_size env cnp ino mode newdirp hino hlen
  have hfin : ∀ (P : Prop), (ufs_lookup env data dp cnp).ret = .returned EJUSTRETURN →
      (∃ e, (create_entry env data dp cnp ino mode newdirp).ret = .returned e) → P →
      (ufs_lookup env data dp cnp).ret = .returned EJUSTRETURN ∧
      (∃ e, (create_entry env data dp cnp ino mode newdirp).ret = .returned e) ∧
      (create_entry env data dp cnp ino mode newdirp).ret ≠ .panic_newblk ∧
      (create_entry env data dp cnp ino mode newdirp).ret ≠ .panic_compact1 ∧
      (create_entry env data dp cnp ino mode newdirp).ret ≠ .panic_compact2 ∧ P := by
    intro P h1 h2 h3
    obtain ⟨e, he⟩ := h2
    refine ⟨h1, ⟨e, he⟩, ?_, ?_, ?_, h3⟩ <;> rw [he] <;> exact fun h => kexit.noConfusion h
  apply hfin
  all_goals cases hfm : first_match env data cnp recs with
  | none =>
    have habsent := (first_match_none env data cnp recs).mp hfm
    obtain ⟨a1, a2, _, a4, a5, a6, a7⟩ := lookup_slot_spec env data dp cnp recs henv hsize
      htiles hok habsent hop hlast hlink hacc _ rfl
    first
    | exact a1
    | (rcases a7 with ⟨c1, c2, _⟩ | ⟨pre, slot, post, hrecs, hcn, hts, hfree, hsub⟩
       · exact direnter_newblk_returns env data _ _ c1 (by rw [c2]; exact hsize)
       · obtain ⟨_, _, _, hret, _⟩ := direnter_slot_spec env data (ufs_lookup env data dp cnp).dp
           (ufs_makedirentry env ino mode cnp newdirp) slot hcn (henv.2 _) hts
           (fun o ho => entry_ok_whole env data o (hok o (by rw [hrecs]; simp [ho])))
           (by omega) (by rw [hsz]; exact hfree)
         exact ⟨_, hret⟩)
    | (rcases a7 with ⟨c1, c2, _⟩ | ⟨pre, slot, post, hrecs, hcn, hts, hfree, hsub⟩
       · exact ⟨fun _ => by rw [c2]; exact hsize, fun h => absurd c1 h⟩
       · refine ⟨fun h => absurd h hcn, fun _ => ⟨slot, ?_, hts, Or.inl ?_⟩⟩
         · intro o ho; rw [hrecs]; simp [ho]
         · rw [hsz]; exact hfree)
  | some p =>
    obtain ⟨A, B, hl, hA, hp⟩ := first_match_split env data cnp recs p hfm
    subst hl
    obtain ⟨hw, hwino⟩ := hmiss p hfm
    obtain ⟨b1, b2, b3, b4, b5⟩ := lookup_whiteout_slot env data dp cnp A p B henv hsize
      htiles hok hA hp hw hop hlast hlink hacc
    have hpos := tiles_mem_pos _ _ _ _ _ htiles p (by simp)
    obtain ⟨_, _, hwhole⟩ := entry_ok_facts env data p (hok p (by simp))
    have hD : DIRSIZ env (OFSFMT env) (ufs_makedirentry env ino mode cnp newdirp) 0 =
        DIRSIZ env (OFSFMT env) data p := by
      rw [hsz, DIRSIZ_namlen]
      have hm := hp.2
      unfold name_match at hm
      simp only [Bool.and_eq_true, decide_eq_true_eq] at hm
      rw [hm.1]
    first
    | exact b1
    | (obtain ⟨hret, _, _⟩ := direnter_over_whiteout env data (ufs_lookup env data dp cnp).dp
         (ufs_makedirentry env ino mode cnp newdirp) (by rw [b4, b3]) (by rw [b3]; exact hpos)
         (henv.2 _) (by rw [b3]; exact hwino)
         (by rw [b3]; exact match_bcmp_new_entry env data cnp ino mode newdirp p hp hw.1 hino hlen)
         (by rw [b3, hD]; exact hwhole)
       exact ⟨_, hret⟩)
    | (refine ⟨fun h => ?_, fun _ => ⟨[p], ?_, ?_, Or.inr ⟨by rw [b3], ?_, ?_, ?_⟩⟩⟩
       · rw [b4] at h; omega
       · intro o ho; simp at ho; subst ho; simp
       · rw [b3, b4]; exact ⟨rfl, hpos, rfl⟩
       · rw [b3]; exact hp
       · rw [b3]; exact hw
       · rw [b3, hD]; exact hwhole)

/-- Witness of C33 on `block_gaps`: the CREATE lookup of `c`, then `ufs_direnter` with the
entry built for `c`. -/
theorem create_never_panics_witness :
    (ufs_lookup env_le block_gaps dir_inode (cn_c CREATE)).ret = .returned EJUSTRETURN ∧
      (create_entry env_le block_gaps dir_inode (cn_c CREATE) 36 0o100644 (mem_of [])).ret =
        .returned 0 ∧
      (create_entry env_le block_gaps dir_inode (cn_c CREATE) 36 0o100644 (mem_of [])).ret ≠
        .panic_compact1 :=
  have h := create_never_panics env_le block_gaps dir_inode (cn_c CREATE) [0, 16, 36] 36
    0o100644 (mem_of []) ⟨⟨13, by decide, by decide⟩, fun _ => rfl⟩ (by decide) (by decide)
    (by decide) (by decide) (Or.inl (by decide)) (by decide) (by decide) (by decide)
    (by decide) (by decide)
  ⟨h.1, by decide, h.2.2.2.1⟩

/-! ### Entries stay sound under the mutations -/

theorem new_entry_ok (env : ufs_env) (d : mem) (cnp : componentname) (ino mode : Nat)
    (newdirp : mem) (p R : Nat)
    (h : same_bytes d p
      (wr16 env.little_endian (ufs_makedirentry env ino mode cnp newdirp) 4 R) 0
      (DIRSIZ env (OFSFMT env) (ufs_makedirentry env ino mode cnp newdirp) 0))
    (hR4 : R % 4 = 0) (hRfit : R ≤ 512 - p % 512)
    (hRwh : DIRSIZ env (OFSFMT env) (ufs_makedirentry env ino mode cnp newdirp) 0 ≤ R)
    (hino : ino < 4294967296) (hlen : cnp.cn_namelen ≤ 255)
    (hname : ∀ i, i < cnp.cn_namelen → byte cnp.cn_nameptr i ≠ 0)
    (hnul : byte cnp.cn_nameptr cnp.cn_namelen = 0) :
    entry_ok env d p ∧ d_reclen env.little_endian d p = R := by
  obtain ⟨_, m2, m3, _⟩ := makedirentry_fields env ino mode cnp newdirp hino hlen
  obtain ⟨n1, _, _, n4, n5, n6⟩ := new_entry_fields env d _ p R h (by omega)
  rw [m2] at n4 n6
  have hnm : ∀ i, i ≤ cnp.cn_namelen → d_name d p i = byte cnp.cn_nameptr i := by
    intro i hi
    rw [n6 i hi, m3 i hi]
  refine ⟨?_, n1⟩
  unfold entry_ok
  rw [dirbadentry_false_iff, n1, n5, n4]
  refine ⟨hR4, hRfit, hRwh, fun _ => ⟨?_, ?_⟩⟩
  · intro i hi
    rw [hnm i (by omega)]
    exact hname i hi
  · rw [hnm _ (le_refl _)]
    exact hnul

/-- The directory after `ufs_direnter` has written the new entry into a fresh block: the
records it had, and the new one. -/
theorem direnter_newblk_sound (env : ufs_env) (d0 : mem) (dp : inode) (cnp : componentname)
    (ino mode : Nat) (newdirp : mem) (recs : List Nat)
    (hcount : dp.i_count = 0) (hoff : dp.i_offset = dp.i_size) (hsize : dp.i_size % 512 = 0)
    (htiles : tiles env.little_endian d0 0 dp.i_size recs)
    (hok : ∀ o ∈ recs, entry_ok env d0 o)
    (hino : ino < 4294967296) (hlen : cnp.cn_namelen ≤ 255)
    (hname : ∀ i, i < cnp.cn_namelen → byte cnp.cn_nameptr i ≠ 0)
    (hnul : byte cnp.cn_nameptr cnp.cn_namelen = 0)
    (r : direnter_result)
    (hr : r = ufs_direnter env d0 dp (ufs_makedirentry env ino mode cnp newdirp)) :
    (∃ e, r.ret = .returned e) ∧
      ∃ recs2, tiles env.little_endian r.data 0 r.dp.i_size recs2 ∧
        ∀ o ∈ recs2, entry_ok env r.data o := by
  have h512 : DIRBLKSIZ = 512 := rfl
  have hb := DIRSIZ_bounds env (OFSFMT env) (ufs_makedirentry env ino mode cnp newdirp) 0
  by_cases hbal : env.balloc_err = 0
  · obtain ⟨hret, hsz, _, hdata⟩ := direnter_newblk_data env d0 dp
      (ufs_makedirentry env ino mode cnp newdirp) hcount (by rw [hoff]; exact hsize) hbal
    rw [← hr] at hret hsz hdata
    rw [hoff] at hsz hdata
    have hframe : ∀ x, x < dp.i_size → r.data x = d0 x := by
      intro x hx
      rw [hdata x (by omega), bcopy_outside _ _ _ _ _ _ (Or.inl hx)]
      unfold balloc_clear
      rw [if_neg (by omega)]
    have hnew : same_bytes r.data dp.i_size
        (wr16 env.little_endian (ufs_makedirentry env ino mode cnp newdirp) 4 DIRBLKSIZ) 0
        (DIRSIZ env (OFSFMT env) (ufs_makedirentry env ino mode cnp newdirp) 0) := by
      intro i hi
      rw [hdata _ (by omega), bcopy_inside _ _ _ _ _ _ (by omega) (by omega)]
      congr 1
      omega
    obtain ⟨e1, e4⟩ := new_entry_ok env r.data cnp ino mode newdirp dp.i_size DIRBLKSIZ hnew
      (by rw [h512]) (by rw [h512]; omega) (by rw [h512]; omega) hino hlen hname hnul
    obtain ⟨f1, f2, _⟩ := tiles_frame env d0 r.data recs 0 dp.i_size htiles hok
      (fun x _ hx => hframe x hx)
    refine ⟨hret, recs ++ [dp.i_size], ?_, ?_⟩
    · rw [hsz]
      refine tiles_append _ _ _ _ _ _ _ f1 ?_
      simp only [tiles]
      rw [e4, h512]
      exact ⟨trivial, by omega, rfl⟩
    · intro o ho
      rcases List.mem_append.mp ho with h1 | h1
      · exact f2 o h1
      · have : o = dp.i_size := by simpa using h1
        rw [this]; exact e1
  · have hpanic : ¬ (dp.i_offset &&& (DIRBLKSIZ - 1) ≠ 0) := by
      rw [and_511, hoff, hsize]
      exact fun h => h rfl
    unfold ufs_direnter at hr
    simp only [] at hr
    rw [if_pos hcount, if_neg hpanic, if_pos hbal] at hr
    subst hr
    exact ⟨⟨_, rfl⟩, recs, htiles, hok⟩

/-- The directory after `ufs_direnter` has written the new entry into a slot: the records
before the slot, the entries of the slot packed, the new entry, and the records after the
slot up to the size the call leaves. -/
theorem direnter_slot_sound (env : ufs_env) (d0 : mem) (dp : inode) (cnp : componentname)
    (ino mode : Nat) (newdirp : mem) (pre slot post : List Nat)
    (hio : env.blkatoff_err dp.i_offset = 0)
    (hcount : dp.i_count ≠ 0) (hsize : dp.i_size % 512 = 0)
    (htiles : tiles env.little_endian d0 0 dp.i_size (pre ++ slot ++ post))
    (hslot : tiles env.little_endian d0 dp.i_offset (dp.i_offset + dp.i_count) slot)
    (hok : ∀ o ∈ pre ++ slot ++ post, entry_ok env d0 o)
    (hfree : (DIRECTSIZ cnp.cn_namelen : Int) ≤ slot_free env d0 slot)
    (hsub : dp.i_offset + dp.i_count ≤ dp.i_offset - dp.i_offset % 512 + 512)
    (hend : dp.i_endoff % 512 = 0) (hendge : dp.i_offset + dp.i_count ≤ dp.i_endoff)
    (hino : ino < 4294967296) (hlen : cnp.cn_namelen ≤ 255)
    (hname : ∀ i, i < cnp.cn_namelen → byte cnp.cn_nameptr i ≠ 0)
    (hnul : byte cnp.cn_nameptr cnp.cn_namelen = 0)
    (r : direnter_result)
    (hr : r = ufs_direnter env d0 dp (ufs_makedirentry env ino mode cnp newdirp)) :
    (∃ e, r.ret = .returned e) ∧
      ∃ recs2, tiles env.little_endian r.data 0 r.dp.i_size recs2 ∧
        ∀ o ∈ recs2, entry_ok env r.data o := by
  have hsz := makedirentry_size env cnp ino mode newdirp hino hlen
  have hb := DIRECTSIZ_bounds cnp.cn_namelen
  obtain ⟨htpre, htpost⟩ := tiles_three _ _ _ _ _ _ _ _ _ htiles hslot (by omega)
  have hEle := tiles_le _ _ _ _ _ htpost
  have hokpre : ∀ o ∈ pre, entry_ok env d0 o := fun o ho => hok o (by simp [ho])
  have hokslot : ∀ o ∈ slot, entry_ok env d0 o := fun o ho => hok o (by simp [ho])
  have hokpost : ∀ o ∈ post, entry_ok env d0 o := fun o ho => hok o (by simp [ho])
  obtain ⟨pairs, p, hout, hret, hdp⟩ := direnter_slot_spec env d0 dp
    (ufs_makedirentry env ino mode cnp newdirp) slot hcount hio hslot
    (fun o ho => entry_ok_whole env d0 o (hokslot o ho)) (by omega)
    (by rw [hsz]; exact hfree)
  rw [← hr] at hout hret hdp
  rw [if_neg (by omega)] at hdp
  obtain ⟨_, hsize'⟩ := slot_truncate_size env dp (slot_write_error env)
  rw [← hdp] at hsize'
  have hfits := hout.fits
  rw [hsz] at hfits
  have hpk := packed_mem env d0 r.data pairs _ _ hout.layout
  have hSp := packed_le env d0 r.data pairs _ _ hout.layout
  have hkept := kept_mem env d0 slot pairs hout.kept
  have hp4 : p % 4 = dp.i_offset % 4 :=
    tiles_mod4 env.little_endian r.data _ _ _ (packed_tiles env d0 r.data pairs _ _ hout.layout)
      (by
        intro q hq
        obtain ⟨po, hpo, rfl⟩ := List.mem_map.mp hq
        rw [(hpk po hpo).2.2.2.2]
        exact (DIRSIZ_bounds env (OFSFMT env) d0 po.2).2.2)
  have hE4 : (dp.i_offset + dp.i_count) % 4 = dp.i_offset % 4 :=
    tiles_mod4 env.little_endian d0 _ _ _ hslot
      (fun o ho => (entry_ok_facts env d0 o (hokslot o ho)).1)
  obtain ⟨e1, e4⟩ := new_entry_ok env r.data cnp ino mode newdirp p
    (dp.i_offset + dp.i_count - p) hout.entry (by omega) (by omega) (by rw [hsz]; omega)
    hino hlen hname hnul
  have hcut : ∃ c, r.dp.i_size = c ∧ c % 512 = 0 ∧ dp.i_offset + dp.i_count ≤ c ∧
      c ≤ dp.i_size := by
    rcases hsize' with h | ⟨h, hlt⟩
    · exact ⟨_, h, hsize, hEle, le_refl _⟩
    · exact ⟨_, h, hend, hendge, by omega⟩
  obtain ⟨c, hc, hc512, hEc, hcle⟩ := hcut
  obtain ⟨post1, post2, hpost, htpost1, _⟩ := tiles_cut env.little_endian d0 c hc512 post _ _
    htpost (fun o ho => (entry_ok_facts env d0 o (hokpost o ho)).2.1) hEc hcle
  have hokpost1 : ∀ o ∈ post1, entry_ok env d0 o :=
    fun o ho => hokpost o (by rw [hpost]; simp [ho])
  obtain ⟨f1, f2, _⟩ := tiles_frame env d0 r.data pre 0 dp.i_offset htpre hokpre
    (fun x _ hx => hout.frame x (Or.inl hx))
  obtain ⟨g1, g2, _⟩ := tiles_frame env d0 r.data post1 (dp.i_offset + dp.i_count) c
    htpost1 hokpost1 (fun x hx _ => hout.frame x (Or.inr hx))
  have hnew : tiles env.little_endian r.data p c (p :: post1) := by
    simp only [tiles]
    rw [e4]
    refine ⟨trivial, by omega, ?_⟩
    rw [Nat.add_sub_cancel' (by omega)]
    exact g1
  refine ⟨⟨_, hret⟩, (pre ++ pairs.map Prod.fst) ++ p :: post1, ?_, ?_⟩
  · rw [hc]
    exact tiles_append _ _ _ _ _ _ _
      (tiles_append _ _ _ _ _ _ _ f1 (packed_tiles env d0 r.data pairs _ _ hout.layout)) hnew
  · intro o ho
    simp only [List.mem_append, List.mem_cons] at ho
    rcases ho with (h | h) | h | h
    · exact f2 o h
    · obtain ⟨po, hpo, rfl⟩ := List.mem_map.mp h
      obtain ⟨k0, k1, _, k3, k4⟩ := hpk po hpo
      have hbs := DIRSIZ_bounds env (OFSFMT env) d0 po.2
      exact same_entry_ok env d0 po.2 r.data po.1 k3 (hokslot _ (hkept po hpo))
        (by rw [k4]; exact hbs.2.2) (by rw [k4]; omega) (by rw [k4])
    · rw [h]; exact e1
    · exact g2 o h

/-- The directory after `ufs_direnter` has written the new entry over the whiteout of its
name: the same records, the one at the whiteout now the new entry. -/
theorem direnter_whiteout_sound (env : ufs_env) (d0 : mem) (dp : inode) (cnp : componentname)
    (ino mode : Nat) (newdirp : mem) (A : List Nat) (p : Nat) (B : List Nat)
    (hio : env.blkatoff_err dp.i_offset = 0)
    (hoff : dp.i_offset = p) (hcnt : dp.i_count = d_reclen env.little_endian d0 p)
    (hendoff : dp.i_endoff = dp.i_size)
    (htiles : tiles env.little_endian d0 0 dp.i_size (A ++ p :: B))
    (hok : ∀ o ∈ A ++ p :: B, entry_ok env d0 o)
    (hp : is_match env d0 cnp p) (hw : is_whiteout env d0 p)
    (hwino : d_ino env.little_endian d0 p = WINO)
    (hino : ino < 4294967296) (hlen : cnp.cn_namelen ≤ 255)
    (hname : ∀ i, i < cnp.cn_namelen → byte cnp.cn_nameptr i ≠ 0)
    (hnul : byte cnp.cn_nameptr cnp.cn_namelen = 0)
    (r : direnter_result)
    (hr : r = ufs_direnter env d0 dp (ufs_makedirentry env ino mode cnp newdirp)) :
    (∃ e, r.ret = .returned e) ∧
      ∃ recs2, tiles env.little_endian r.data 0 r.dp.i_size recs2 ∧
        ∀ o ∈ recs2, entry_ok env r.data o := by
  have hsz := makedirentry_size env cnp ino mode newdirp hino hlen
  obtain ⟨htA, htB, hp12, hbA, hbB⟩ := tiles_parts env d0 dp.i_size A p B htiles hok
  obtain ⟨hp4, hpfit, hwhole⟩ := entry_ok_facts env d0 p (hok p (by simp))
  have hD : DIRSIZ env (OFSFMT env) (ufs_makedirentry env ino mode cnp newdirp) 0 =
      DIRSIZ env (OFSFMT env) d0 p := by
    rw [hsz, DIRSIZ_namlen]
    have hm := hp.2
    unfold name_match at hm
    simp only [Bool.and_eq_true, decide_eq_true_eq] at hm
    rw [hm.1]
  have hpend : p + d_reclen env.little_endian d0 p ≤ dp.i_size := tiles_le _ _ _ _ _ htB
  obtain ⟨hret, hdata, hdp⟩ := direnter_over_whiteout env d0 dp
    (ufs_makedirentry env ino mode cnp newdirp) (by rw [hcnt, hoff]) (by rw [hoff]; omega)
    hio (by rw [hoff]; exact hwino)
    (by rw [hoff]; exact match_bcmp_new_entry env d0 cnp ino mode newdirp p hp hw.1 hino hlen)
    (by rw [hoff, hD]; exact hwhole)
  rw [← hr] at hret hdata hdp
  rw [hoff] at hdata hdp
  -- the size is kept
  have hsame : r.dp.i_size = dp.i_size := by
    rw [hdp, if_neg (by rw [hcnt]; omega)]
    rcases slot_truncate_cases env dp (slot_write_error env) with h | ⟨_, _, _, h, _⟩
    · exact h
    · rw [hendoff] at h; omega
  have hframe : ∀ x, x < p ∨ p + d_reclen env.little_endian d0 p ≤ x → r.data x = d0 x := by
    intro x hx
    rw [hdata, bcopy_outside _ _ _ _ _ _ (by rw [hD]; omega)]
  have hnew : same_bytes r.data p
      (wr16 env.little_endian (ufs_makedirentry env ino mode cnp newdirp) 4
        (d_reclen env.little_endian d0 p)) 0
      (DIRSIZ env (OFSFMT env) (ufs_makedirentry env ino mode cnp newdirp) 0) := by
    intro i hi
    rw [hdata, bcopy_inside _ _ _ _ _ _ (by omega) (by omega)]
    congr 1
    omega
  obtain ⟨e1, e4⟩ := new_entry_ok env r.data cnp ino mode newdirp p
    (d_reclen env.little_endian d0 p) hnew hp4 hpfit (by rw [hD]; exact hwhole)
    hino hlen hname hnul
  have hother : ∀ o ∈ A ++ B, entry_ok env r.data o ∧
      d_reclen env.little_endian r.data o = d_reclen env.little_endian d0 o := by
    intro o ho
    have hfr : ∀ x, o ≤ x → x < o + d_reclen env.little_endian d0 o → r.data x = d0 x := by
      intro x h1 h2
      apply hframe
      rcases List.mem_append.mp ho with h | h
      · have := (hbA o h).2; omega
      · have := (hbB o h).2.1; omega
    have hoko : entry_ok env d0 o := by
      rcases List.mem_append.mp ho with h | h
      · exact hok o (by simp [h])
      · exact hok o (by simp [h])
    obtain ⟨k1, k2, _⟩ := entry_frame env d0 r.data o hfr hoko
    exact ⟨k1, k2⟩
  refine ⟨⟨_, hret⟩, A ++ p :: B, ?_, ?_⟩
  · rw [hsame]
    refine tiles_congr env.little_endian d0 r.data _ _ _ ?_ htiles
    intro o ho
    rcases List.mem_append.mp ho with h | h
    · exact (hother o (by simp [h])).2
    · rcases List.mem_cons.mp h with h | h
      · rw [h]; exact e4
      · exact (hother o (by simp [h])).2
  · intro o ho
    rcases List.mem_append.mp ho with h | h
    · exact (hother o (by simp [h])).1
    · rcases List.mem_cons.mp h with h | h
      · rw [h]; exact e1
      · exact (hother o (by simp [h])).1

theorem walk_sound_of_tiles (env : ufs_env) (d : mem) (N : Nat) (recs : List Nat)
    (htiles : tiles env.little_endian d 0 N recs) (hok : ∀ o ∈ recs, entry_ok env d o) :
    walk_sound env d N := by
  have hw := tiles_walk env.little_endian d N recs N 0 htiles (by omega)
  unfold walk_sound
  rw [hw]
  refine ⟨htiles, fun o ho => ?_⟩
  obtain ⟨h4, hfit, hwh⟩ := entry_ok_facts env d o (hok o ho)
  have h512 : DIRBLKSIZ = 512 := rfl
  have := Nat.mod_lt o (show 512 > 0 by decide)
  exact ⟨hok o ho, h4, by rw [h512]; omega, hwh⟩

theorem walk_sound_tiles (env : ufs_env) (d : mem) (N : Nat) (h : walk_sound env d N) :
    tiles env.little_endian d 0 N (walk env.little_endian d N N 0) ∧
      ∀ o ∈ walk env.little_endian d N N 0, entry_ok env d o :=
  ⟨h.1, fun o ho => (h.2 o ho).1⟩

/-- The bytes of the entry that `ufs_dirremove` turns into a whiteout. -/
theorem whiteout_removal_fields (env : ufs_env) (data : mem) (dp : inode)
    (ip : Option link_inode) (flags : Nat) (hflag : flags &&& DOWHITEOUT ≠ 0)
    (hio : env.blkatoff_err dp.i_offset = 0) :
    d_ino env.little_endian (ufs_dirremove env data dp ip flags).data dp.i_offset = WINO ∧
      d_type (ufs_dirremove env data dp ip flags).data dp.i_offset = DT_WHT ∧
      d_reclen env.little_endian (ufs_dirremove env data dp ip flags).data dp.i_offset =
        d_reclen env.little_endian data dp.i_offset ∧
      d_namlen (ufs_dirremove env data dp ip flags).data dp.i_offset =
        d_namlen data dp.i_offset ∧
      (∀ i, d_name (ufs_dirremove env data dp ip flags).data dp.i_offset i =
        d_name data dp.i_offset i) ∧
      ∀ x, x < dp.i_offset ∨ dp.i_offset + 4 ≤ x → x ≠ dp.i_offset + 6 →
        (ufs_dirremove env data dp ip flags).data x = data x := by
  have hd : (ufs_dirremove env data dp ip flags).data =
      wr8 (wr32 env.little_endian data dp.i_offset WINO) (dp.i_offset + 6) DT_WHT := by
    unfold ufs_dirremove
    simp only []
    rw [if_pos hflag, if_neg (by rw [hio]; exact fun h => h rfl)]
    exact (dirremove_out_fields _ _ _ _ _).1
  have hframe : ∀ x, x < dp.i_offset ∨ dp.i_offset + 4 ≤ x → x ≠ dp.i_offset + 6 →
      (ufs_dirremove env data dp ip flags).data x = data x := by
    intro x h1 h2
    rw [hd, wr8_other _ _ _ _ h2, wr32_other _ _ _ _ _ h1]
  refine ⟨?_, ?_, ?_, ?_, ?_, hframe⟩
  · rw [hd]
    unfold d_ino
    rw [rd32_congr env.little_endian _ (wr32 env.little_endian data dp.i_offset WINO)
      dp.i_offset dp.i_offset (wr8_other _ _ _ _ (by omega)) (wr8_other _ _ _ _ (by omega))
      (wr8_other _ _ _ _ (by omega)) (wr8_other _ _ _ _ (by omega))]
    exact rd32_wr32 _ _ _ _ (by decide)
  · rw [hd]
    unfold d_type byte
    rw [wr8_same]
    decide
  · unfold d_reclen
    exact rd16_congr _ _ _ _ _ (hframe _ (by omega) (by omega)) (hframe _ (by omega) (by omega))
  · unfold d_namlen byte
    rw [hframe _ (by omega) (by omega)]
  · intro i
    unfold d_name byte
    rw [hframe _ (by omega) (by omega)]

/-- The directory after `ufs_dirremove` has turned the entry found by a DELETE lookup into
a whiteout, on the new directory format: the same records, all sound. -/
theorem remove_whiteout_sound (env : ufs_env) (data : mem) (dp : inode) (cnp : componentname)
    (ip : Option link_inode) (flags : Nat)
    (A : List Nat) (t : Nat) (B : List Nat) (henv : env_ok env)
    (hsize : dp.i_size % 512 = 0)
    (htiles : tiles env.little_endian data 0 dp.i_size (A ++ t :: B))
    (hok : ∀ o ∈ A ++ t :: B, entry_ok env data o)
    (hA : ∀ o ∈ A, ¬ is_match env data cnp o)
    (hp : is_match env data cnp t) (hwht : ¬ is_whiteout env data t)
    (hop : cnp.cn_nameiop = DELETE) (hlast : cnp.cn_flags &&& ISLASTCN ≠ 0)
    (hacc : env.access_err = 0) (hflag : flags &&& DOWHITEOUT ≠ 0)
    (hfmt : env.mnt_maxsymlinklen > 0) :
    (remove_entry env data dp cnp ip flags).dp.i_size = dp.i_size ∧
      tiles env.little_endian (remove_entry env data dp cnp ip flags).data 0 dp.i_size
        (A ++ t :: B) ∧
      ∀ o ∈ A ++ t :: B, entry_ok env (remove_entry env data dp cnp ip flags).data o := by
  obtain ⟨l1, _, l3, _, _, _⟩ := lookup_delete_dp env data dp cnp A t B henv hsize htiles hok
    hA hp hwht hop hlast hacc
  obtain ⟨w1, _, w3, w4, w5, w6⟩ := whiteout_removal_fields env data
    (ufs_lookup env data dp cnp).dp
    ip flags hflag (henv.2 _)
  rw [l1] at w1 w3 w4 w5 w6
  have hsz : (remove_entry env data dp cnp ip flags).dp.i_size = dp.i_size := by
    unfold remove_entry ufs_dirremove
    simp only []
    rw [if_pos hflag, if_neg (by rw [henv.2]; exact fun h => h rfl),
      (dirremove_out_fields _ _ _ _ _).2.1]
    exact l3
  obtain ⟨_, _, hp12, hbA, hbB⟩ := tiles_parts env data dp.i_size A t B htiles hok
  have hof : OFSFMT env = false := by
    unfold OFSFMT
    simp only [decide_eq_false_iff_not]
    omega
  have hnl : namlen_of env (ufs_dirremove env data (ufs_lookup env data dp cnp).dp ip flags).data
      t = namlen_of env data t := by
    unfold namlen_of
    rw [hof, w4]
    simp
  have hother : ∀ o ∈ A ++ B,
      entry_ok env (ufs_dirremove env data (ufs_lookup env data dp cnp).dp ip flags).data o ∧
      d_reclen env.little_endian
        (ufs_dirremove env data (ufs_lookup env data dp cnp).dp ip flags).data o =
        d_reclen env.little_endian data o := by
    intro o ho
    have hoko : entry_ok env data o := by
      rcases List.mem_append.mp ho with h | h
      · exact hok o (by simp [h])
      · exact hok o (by simp [h])
    have hfr : ∀ x, o ≤ x → x < o + d_reclen env.little_endian data o →
        (ufs_dirremove env data (ufs_lookup env data dp cnp).dp ip flags).data x = data x := by
      intro x h1 h2
      rcases List.mem_append.mp ho with h | h
      · have := (hbA o h).2
        exact w6 x (by omega) (by omega)
      · have := (hbB o h).2.1
        exact w6 x (by omega) (by omega)
    obtain ⟨k1, k2, _⟩ := entry_frame env data _ o hfr hoko
    exact ⟨k1, k2⟩
  have ht : entry_ok env (ufs_dirremove env data (ufs_lookup env data dp cnp).dp ip flags).data
      t := by
    have h0 := hok t (by simp)
    unfold entry_ok at h0 ⊢
    rw [dirbadentry_false_iff] at h0 ⊢
    rw [DIRSIZ_namlen] at h0 ⊢
    rw [w3, hnl]
    refine ⟨h0.1, h0.2.1, h0.2.2.1, fun _ => ?_⟩
    obtain ⟨n1, n2⟩ := h0.2.2.2 hp.1
    refine ⟨fun i hi => ?_, ?_⟩
    · rw [w5]; exact n1 i hi
    · rw [w5]; exact n2
  refine ⟨hsz, ?_, ?_⟩
  · unfold remove_entry
    refine tiles_congr env.little_endian data _ _ _ _ ?_ htiles
    intro o ho
    rcases List.mem_append.mp ho with h | h
    · exact (hother o (by simp [h])).2
    · rcases List.mem_cons.mp h with h | h
      · rw [h]; exact w3
      · exact (hother o (by simp [h])).2
  · unfold remove_entry
    intro o ho
    rcases List.mem_append.mp ho with h | h
    · exact (hother o (by simp [h])).1
    · rcases List.mem_cons.mp h with h | h
      · rw [h]; exact ht
      · exact (hother o (by simp [h])).1

/-- C37: mutations keep entries well formed. Take a directory of whole `DIRBLKSIZ` blocks
in which every record reachable by walking it from its start passes `ufs_dirbadentry`
(`walk_sound`), on a mount whose collaborators read every block. After `ufs_direnter`,
called with the slot a CREATE or RENAME lookup of the final component left behind (the
name absent, or the first record with the name of whiteout type) and an entry built by
`ufs_makedirentry` for a NUL-terminated name no longer than `MAXNAMLEN`, every record
reachable by walking the directory up to its new size still passes the check; the call
returns, or ends in the panic `compact2`, which it can only when the record found has the
whiteout type without the inode number `WINO`. After `ufs_dirremove`, called with the
parameters a DELETE lookup that found the (non-whiteout) entry left behind, with or
without `DOWHITEOUT` (the latter on the new directory format), the call returns and the
same holds. Passing the check means: the record lengths are multiples of 4, no record
crosses its `DIRBLKSIZ` sub-block, and every record is at least as long as its packed
size. -/
theorem mutations_keep_entries_sound (env : ufs_env) (data : mem) (dp : inode)
    (henv : env_ok env) (hsize : dp.i_size % DIRBLKSIZ = 0)
    (hsound : walk_sound env data dp.i_size) :
    (∀ (cnp : componentname) (ino mode : Nat) (newdirp : mem),
      (cnp.cn_nameiop = CREATE ∨ cnp.cn_nameiop = RENAME) →
      cnp.cn_flags &&& ISLASTCN ≠ 0 → dp.i_effnlink ≠ 0 → env.access_err = 0 →
      (∀ p, first_match env data cnp (walk env.little_endian data dp.i_size dp.i_size 0) =
          some p → is_whiteout env data p) →
      ino < 4294967296 → cnp.cn_namelen ≤ MAXNAMLEN →
      (∀ i, i < cnp.cn_namelen → byte cnp.cn_nameptr i ≠ 0) →
      byte cnp.cn_nameptr cnp.cn_namelen = 0 →
      ((∃ e, (create_entry env data dp cnp ino mode newdirp).ret = .returned e) ∨
          (create_entry env data dp cnp ino mode newdirp).ret = .panic_compact2) ∧
        ((∀ p, first_match env data cnp (walk env.little_endian data dp.i_size dp.i_size 0) =
            some p → d_ino env.little_endian data p = WINO) →
          ∃ e, (create_entry env data dp cnp ino mode newdirp).ret = .returned e) ∧
        walk_sound env (create_entry env data dp cnp ino mode newdirp).data
          (create_entry env data dp cnp ino mode newdirp).dp.i_size) ∧
    (∀ (cnp : componentname) (ip : Option link_inode) (flags : Nat)
        (A : List Nat) (t : Nat) (B : List Nat),
      walk env.little_endian data dp.i_size dp.i_size 0 = A ++ t :: B →
      (∀ o ∈ A, ¬ is_match env data cnp o) → is_match env data cnp t →
      ¬ is_whiteout env data t →
      cnp.cn_nameiop = DELETE → cnp.cn_flags &&& ISLASTCN ≠ 0 → env.access_err = 0 →
      (flags &&& DOWHITEOUT ≠ 0 → env.mnt_maxsymlinklen > 0) →
      (∃ e, (remove_entry env data dp cnp ip flags).ret = .returned e) ∧
        walk_sound env (remove_entry env data dp cnp ip flags).data
          (remove_entry env data dp cnp ip flags).dp.i_size) := by
  have h512 : DIRBLKSIZ = 512 := rfl
  have h255 : MAXNAMLEN = 255 := rfl
  rw [h512] at hsize
  obtain ⟨htiles, hok⟩ := walk_sound_tiles env data dp.i_size hsound
  generalize walk env.little_endian data dp.i_size dp.i_size 0 = recs at htiles hok
  constructor
  · intro cnp ino mode newdirp hop hlast hlink hacc hmiss hino hlen hname hnul
    rw [h255] at hlen
    have hsz := makedirentry_size env cnp ino mode newdirp hino hlen
    have hfin : ∀ r : direnter_result,
        (((∃ e, r.ret = .returned e) ∨
            (r.ret = .panic_compact2 ∧ ∃ p, first_match env data cnp recs = some p ∧
              d_ino env.little_endian data p ≠ WINO)) ∧
          ∃ recs2, tiles env.little_endian r.data 0 r.dp.i_size recs2 ∧
            ∀ o ∈ recs2, entry_ok env r.data o) →
        ((∃ e, r.ret = .returned e) ∨ r.ret = .panic_compact2) ∧
          ((∀ p, first_match env data cnp recs = some p →
              d_ino env.little_endian data p = WINO) → ∃ e, r.ret = .returned e) ∧
          walk_sound env r.data r.dp.i_size := by
      rintro r ⟨h1, recs2, h2, h3⟩
      refine ⟨?_, ?_, walk_sound_of_tiles env r.data r.dp.i_size recs2 h2 h3⟩
      · rcases h1 with h | ⟨h, _⟩
        · exact Or.inl h
        · exact Or.inr h
      · intro hall
        rcases h1 with h | ⟨_, p, hp, hne⟩
        · exact h
        · exact absurd (hall p hp) hne
    apply hfin
    cases hfm : first_match env data cnp recs with
    | none =>
      have habsent := (first_match_none env data cnp recs).mp hfm
      obtain ⟨_, a2, _, a4, _, a6, a7⟩ := lookup_slot_spec env data dp cnp recs henv hsize
        htiles hok habsent hop hlast hlink hacc _ rfl
      rcases a7 with ⟨c1, c2, _⟩ | ⟨pre, slot, post, hrecs, hcn, hts, hfree, hsub⟩
      · obtain ⟨k1, k2⟩ := direnter_newblk_sound env data _ cnp ino mode newdirp recs c1
          (by rw [c2, a2]) (by rw [a2]; exact hsize) (by rw [a2]; exact htiles) hok hino hlen
          hname hnul _ rfl
        exact ⟨Or.inl k1, k2⟩
      · subst hrecs
        obtain ⟨k1, k2⟩ := direnter_slot_sound env data _ cnp ino mode newdirp pre slot post
          (henv.2 _) hcn (by rw [a2]; exact hsize) (by rw [a2]; exact htiles) hts hok hfree
          hsub a4 a6 hino hlen hname hnul _ rfl
        exact ⟨Or.inl k1, k2⟩
    | some p =>
      obtain ⟨A, B, hl, hA, hp⟩ := first_match_split env data cnp recs p hfm
      subst hl
      have hw := hmiss p hfm
      obtain ⟨_, b2, b3, b4, b5⟩ := lookup_whiteout_slot env data dp cnp A p B henv hsize
        htiles hok hA hp hw hop hlast hlink hacc
      obtain ⟨_, htB, hp12, _, _⟩ := tiles_parts env data dp.i_size A p B htiles hok
      obtain ⟨_, hpfit, _⟩ := entry_ok_facts env data p (hok p (by simp))
      have hpend := tiles_le _ _ _ _ _ htB
      by_cases hW : d_ino env.little_endian data p = WINO
      · obtain ⟨k1, k2⟩ := direnter_whiteout_sound env data _ cnp ino mode newdirp A p B
          (henv.2 _) b3 b4 (by rw [b5, b2]) (by rw [b2]; exact htiles) hok hp hw hW hino hlen
          hname hnul _ rfl
        exact ⟨Or.inl k1, k2⟩
      · by_cases hfree : (DIRECTSIZ cnp.cn_namelen : Int) ≤ slot_free env data [p]
        · have hmod := Nat.mod_lt p (show 512 > 0 by decide)
          obtain ⟨k1, k2⟩ := direnter_slot_sound env data _ cnp ino mode newdirp A [p] B
            (henv.2 _) (by rw [b4]; omega) (by rw [b2]; exact hsize)
            (by rw [b2, List.append_assoc]; exact htiles)
            (by
              rw [b3, b4]
              simp only [tiles, and_true, true_and]
              omega)
            (by rw [List.append_assoc]; exact hok) hfree (by rw [b3, b4]; omega)
            (by rw [b5]; exact hsize) (by rw [b3, b4, b5]; exact hpend)
            hino hlen hname hnul _ rfl
          exact ⟨Or.inl k1, k2⟩
        · rw [slot_free_single] at hfree
          unfold entry_free at hfree
          rw [if_pos hp.1] at hfree
          obtain ⟨k1, k2, k3⟩ := direnter_full_record env data (ufs_lookup env data dp cnp).dp
            (ufs_makedirentry env ino mode cnp newdirp) (by rw [b4, b3]) (by rw [b3]; omega)
            (henv.2 _) (by rw [b3]; exact hp.1) (by rw [b3]; exact hW)
            (by rw [b3, hsz]; omega)
          refine ⟨Or.inr ⟨k1, p, rfl, hW⟩, A ++ p :: B, ?_, ?_⟩
          · show tiles env.little_endian (create_entry env data dp cnp ino mode newdirp).data 0
              (create_entry env data dp cnp ino mode newdirp).dp.i_size (A ++ p :: B)
            unfold create_entry
            rw [k2, k3, if_neg (by rw [b3, b4, b2]; omega), b2]
            exact htiles
          · unfold create_entry
            rw [k2]
            exact hok
  · intro cnp ip flags A t B hrecs hA hp hwht hop hlast hacc hfl
    subst hrecs
    by_cases hflag : flags &&& DOWHITEOUT = 0
    · obtain ⟨⟨recs2, hrem⟩, hsz, _, e, he, _⟩ := remove_entry_layout env data dp cnp ip flags
        A t B henv hsize htiles hok hA hp hwht hop hlast hacc hflag
      refine ⟨⟨e, he⟩, ?_⟩
      rw [hsz]
      exact walk_sound_of_tiles env _ _ recs2 hrem.chain hrem.sound
    · obtain ⟨hsz, h2, h3⟩ := remove_whiteout_sound env data dp cnp ip flags A t B henv hsize
        htiles hok hA hp hwht hop hlast hacc hflag (hfl hflag)
      refine ⟨?_, ?_⟩
      · unfold remove_entry ufs_dirremove
        simp only []
        rw [if_pos hflag, if_neg (by rw [henv.2]; exact fun h => h rfl)]
        obtain ⟨_, _, e, he, _⟩ := dirremove_out_fields env (ufs_lookup env data dp cnp).dp
          (wr8 (wr32 env.little_endian data (ufs_lookup env data dp cnp).dp.i_offset WINO)
            ((ufs_lookup env data dp cnp).dp.i_offset + 6) DT_WHT) ip flags
        exact ⟨e, he⟩
      · rw [hsz]
        exact walk_sound_of_tiles env _ _ _ h2 h3

/-- Witness of C37 on `block_abc`: the entry `c -> 36` is entered, and the entry `a` is
removed, plainly and with a whiteout; the directory stays sound. -/
theorem mutations_keep_entries_sound_witness :
    walk_sound env_le block_abc dir_inode.i_size ∧
      walk_sound env_le
        (create_entry env_le block_abc dir_inode (cn_c CREATE) 36 0o100644 (mem_of [])).data
        (create_entry env_le block_abc dir_inode (cn_c CREATE) 36 0o100644 (mem_of [])).dp.i_size ∧
      walk_sound env_le (remove_entry env_le block_abc dir_inode (cn_a DELETE) none 0).data
        (remove_entry env_le block_abc dir_inode (cn_a DELETE) none 0).dp.i_size ∧
      walk_sound env_le
        (remove_entry env_le block_abc dir_inode (cn_a DELETE) none DOWHITEOUT).data
        (remove_entry env_le block_abc dir_inode (cn_a DELETE) none DOWHITEOUT).dp.i_size :=
  ⟨by decide,
    ((mutations_keep_entries_sound env_le block_abc dir_inode
      ⟨⟨13, by decide, by decide⟩, fun _ => rfl⟩ (by decide) (by decide)).1
      (cn_c CREATE) 36 0o100644 (mem_of []) (Or.inl rfl) (by decide) (by decide) rfl
      (by decide) (by decide) (by decide)
      (fun i hi => by
        have h0 : i = 0 := Nat.lt_one_iff.mp hi
        rw [h0]; decide)
      (by decide)).2.2,
    ((mutations_keep_entries_sound env_le block_abc dir_inode
      ⟨⟨13, by decide, by decide⟩, fun _ => rfl⟩ (by decide) (by decide)).2
      (cn_a DELETE) none 0 [0] 12 [24] (by decide) (by decide) (by decide) (by decide) rfl
      (by decide) rfl (fun h => absurd rfl h)).2,
    ((mutations_keep_entries_sound env_le block_abc dir_inode
      ⟨⟨13, by decide, by decide⟩, fun _ => rfl⟩ (by decide) (by decide)).2
      (cn_a DELETE) none DOWHITEOUT [0] 12 [24] (by decide) (by decide) (by decide)
      (by decide) rfl (by decide) rfl (fun _ => by decide)).2⟩

end UfsLookup
